import Mathlib

/-!
# Maello chess engine: a shallow embedding and its verified properties

Bitboards, keys and moves are natural numbers; every operation of the source
that can leave the 64-bit (or 32-bit) range is reduced modulo the word size
at the place where the source would wrap.  Squares run a8 = 0 .. h1 = 63.
-/

namespace chess

/-! ## utils.hpp : constants -/

def kNumSquares : Nat := 64
def kNoSquare : Nat := 64
def kNoPiece : Nat := 13
def kPieceTypeCount : Nat := 6
def kWhite : Nat := 0
def kBlack : Nat := 1
def kBothColors : Nat := 2

def kPawn : Nat := 0
def kKnight : Nat := 1
def kBishop : Nat := 2
def kRook : Nat := 3
def kQueen : Nat := 4
def kKing : Nat := 5

def kWhiteKingSide : Nat := 1
def kWhiteQueenSide : Nat := 2
def kBlackKingSide : Nat := 4
def kBlackQueenSide : Nat := 8
def kNoCastling : Nat := 0

/-- The all-ones 64-bit word. -/
def kWordMask : Nat := 2 ^ 64 - 1

/-! ## utils.hpp : bit primitives -/

/-- `SetBit(n, i)`: `n |= (1ULL << i)`. -/
def SetBit (n i : Nat) : Nat := n ||| (1 <<< i)

/-- `ClearBit(n, i)`: `n &= ~(1ULL << i)`, the complement taken in 64 bits. -/
def ClearBit (n i : Nat) : Nat := n &&& (kWordMask ^^^ (1 <<< i))

/-- `ClearLSB(n)`: `n &= (n - 1)`. -/
def ClearLSB (n : Nat) : Nat := n &&& (n - 1)

/-- `GetBit(n, i)`: `n & (1ULL << i)` converted to `bool`. -/
def GetBit (n i : Nat) : Bool := (n &&& (1 <<< i)) != 0

/-- The loop of `CountBits`: `while (n) { n &= (n - 1); count++; }`.  The fuel
bounds the number of iterations; a 64-bit word needs at most 64. -/
def CountBitsLoop : Nat → Nat → Nat → Nat
  | 0, _, count => count
  | fuel + 1, n, count =>
    if n = 0 then count else CountBitsLoop fuel (n &&& (n - 1)) (count + 1)

/-- `CountBits(n)` for a 64-bit word. -/
def CountBits (n : Nat) : Nat := CountBitsLoop 64 n 0

/-- `GetLSBIndex(n)`: `CountBits((n & -n) - 1)` in 64-bit unsigned arithmetic;
for `n = 0` the subtraction wraps to the all-ones word and the result is 64. -/
def GetLSBIndex (n : Nat) : Nat :=
  CountBits (((n &&& ((2 ^ 64 - n) % 2 ^ 64)) + (2 ^ 64 - 1)) % 2 ^ 64)

/-- `GetPiece(pt, c)`: `pt + c * kPieceTypeCount`. -/
def GetPiece (pt c : Nat) : Nat := pt + c * kPieceTypeCount

/-- `GetPieceType(p)`: `p % kPieceTypeCount`. -/
def GetPieceType (p : Nat) : Nat := p % kPieceTypeCount

/-- `GetPieceColor(p)`: `p / kPieceTypeCount`. -/
def GetPieceColor (p : Nat) : Nat := p / kPieceTypeCount

/-- `operator~(Color)`: `c ^ kBlack`. -/
def OppositeColor (c : Nat) : Nat := c ^^^ kBlack

/-- `IsValidSquare(s)` for a square held in an `int`. -/
def IsValidSquare (s : Int) : Bool := decide (0 ≤ s) && decide (s ≤ 63)

/-- `GetFile(s)`: `s & 7`. -/
def GetFile (s : Nat) : Nat := s &&& 7

/-- `GetRank(s)`: `7 - (s >> 3)`; exact for the squares 0..63 the source
applies it to. -/
def GetRank (s : Nat) : Nat := 7 - (s >>> 3)

/-- `GetSquare(file, rank)`: `((7 - rank) << 3) | file` for a rank in 0..7. -/
def GetSquare (file rank : Nat) : Nat := ((7 - rank) <<< 3) ||| file

/-! ## move_gen.hpp : the packed move -/

namespace move

/-- `CreateMove`: the eight fields or-ed together at their bit offsets. -/
def CreateMove (source target piece promoted_piece : Nat)
    (capture double_push en_passant castle : Bool) : Nat :=
  source ||| (target <<< 6) ||| (piece <<< 12) ||| (promoted_piece <<< 16) |||
    (capture.toNat <<< 20) ||| (double_push.toNat <<< 21) |||
    (en_passant.toNat <<< 22) ||| (castle.toNat <<< 23)

def GetSourceSquare (m : Nat) : Nat := m &&& 0x3F
def GetTargetSquare (m : Nat) : Nat := (m >>> 6) &&& 0x3F
def GetPiece (m : Nat) : Nat := (m >>> 12) &&& 0xF
def GetPromotedPiece (m : Nat) : Nat := (m >>> 16) &&& 0xF
def IsCapture (m : Nat) : Bool := ((m >>> 20) &&& 0x1) != 0
def IsDoublePush (m : Nat) : Bool := ((m >>> 21) &&& 0x1) != 0
def IsEnPassant (m : Nat) : Bool := ((m >>> 22) &&& 0x1) != 0
def IsCastle (m : Nat) : Bool := ((m >>> 23) &&& 0x1) != 0

end move


/-! ## precomputed_data.cpp : attack generation -/

namespace precomputed_data

def bishop_relevant_bits_table : List Nat := [
  6, 5, 5, 5, 5, 5, 5, 6,
  5, 5, 5, 5, 5, 5, 5, 5,
  5, 5, 7, 7, 7, 7, 5, 5,
  5, 5, 7, 9, 9, 7, 5, 5,
  5, 5, 7, 9, 9, 7, 5, 5,
  5, 5, 7, 7, 7, 7, 5, 5,
  5, 5, 5, 5, 5, 5, 5, 5,
  6, 5, 5, 5, 5, 5, 5, 6]

def rook_relevant_bits_table : List Nat := [
  12, 11, 11, 11, 11, 11, 11, 12,
  11, 10, 10, 10, 10, 10, 10, 11,
  11, 10, 10, 10, 10, 10, 10, 11,
  11, 10, 10, 10, 10, 10, 10, 11,
  11, 10, 10, 10, 10, 10, 10, 11,
  11, 10, 10, 10, 10, 10, 10, 11,
  11, 10, 10, 10, 10, 10, 10, 11,
  12, 11, 11, 11, 11, 11, 11, 12]

def rook_magic_numbers_table : List Nat := [
  0x8a80104000800020, 0x140002000100040, 0x2801880a0017001,
  0x100081001000420, 0x200020010080420, 0x3001c0002010008,
  0x8480008002000100, 0x2080088004402900, 0x800098204000,
  0x2024401000200040, 0x100802000801000, 0x120800800801000,
  0x208808088000400, 0x2802200800400, 0x2200800100020080,
  0x801000060821100, 0x80044006422000, 0x100808020004000,
  0x12108a0010204200, 0x140848010000802, 0x481828014002800,
  0x8094004002004100, 0x4010040010010802, 0x20008806104,
  0x100400080208000, 0x2040002120081000, 0x21200680100081,
  0x20100080080080, 0x2000a00200410, 0x20080800400,
  0x80088400100102, 0x80004600042881, 0x4040008040800020,
  0x440003000200801, 0x4200011004500, 0x188020010100100,
  0x14800401802800, 0x2080040080800200, 0x124080204001001,
  0x200046502000484, 0x480400080088020, 0x1000422010034000,
  0x30200100110040, 0x100021010009, 0x2002080100110004,
  0x202008004008002, 0x20020004010100, 0x2048440040820001,
  0x101002200408200, 0x40802000401080, 0x4008142004410100,
  0x2060820c0120200, 0x1001004080100, 0x20c020080040080,
  0x2935610830022400, 0x44440041009200, 0x280001040802101,
  0x2100190040002085, 0x80c0084100102001, 0x4024081001000421,
  0x20030a0244872, 0x12001008414402, 0x2006104900a0804,
  0x1004081002402]

def bishop_magic_numbers_table : List Nat := [
  0x40040844404084, 0x2004208a004208, 0x10190041080202,
  0x108060845042010, 0x581104180800210, 0x2112080446200010,
  0x1080820820060210, 0x3c0808410220200, 0x4050404440404,
  0x21001420088, 0x24d0080801082102, 0x1020a0a020400,
  0x40308200402, 0x4011002100800, 0x401484104104005,
  0x801010402020200, 0x400210c3880100, 0x404022024108200,
  0x810018200204102, 0x4002801a02003, 0x85040820080400,
  0x810102c808880400, 0xe900410884800, 0x8002020480840102,
  0x220200865090201, 0x2010100a02021202, 0x152048408022401,
  0x20080002081110, 0x4001001021004000, 0x800040400a011002,
  0xe4004081011002, 0x1c004001012080, 0x8004200962a00220,
  0x8422100208500202, 0x2000402200300c08, 0x8646020080080080,
  0x80020a0200100808, 0x2010004880111000, 0x623000a080011400,
  0x42008c0340209202, 0x209188240001000, 0x400408a884001800,
  0x110400a6080400, 0x1840060a44020800, 0x90080104000041,
  0x201011000808101, 0x1a2208080504f080, 0x8012020600211212,
  0x500861011240000, 0x180806108200800, 0x4000020e01040044,
  0x300000261044000a, 0x802241102020002, 0x20906061210001,
  0x5a84841004010310, 0x4010801011c04, 0xa010109502200,
  0x4a02012000, 0x500201010098b028, 0x8040002811040900,
  0x28000010020204, 0x6000020202d0240, 0x8918844842082200,
  0x4010011029020020]


def bishop_relevant_bits (sq : Nat) : Nat := bishop_relevant_bits_table.getD sq 0
def rook_relevant_bits (sq : Nat) : Nat := rook_relevant_bits_table.getD sq 0
def rook_magic_numbers (sq : Nat) : Nat := rook_magic_numbers_table.getD sq 0
def bishop_magic_numbers (sq : Nat) : Nat := bishop_magic_numbers_table.getD sq 0

/-- The ray loops of the attack generators:
`while (cond(currSq)) { currSq += d; SetBit(attacks, currSq); if (stop(currSq)) break; }`.
A ray has at most seven squares, so the callers pass fuel 8. -/
def RayLoop (cond : Nat → Bool) (step : Nat → Nat) (stop : Nat → Bool) :
    Nat → Nat → Nat → Nat
  | 0, _, attacks => attacks
  | fuel + 1, currSq, attacks =>
    if cond currSq then
      if stop (step currSq) then SetBit attacks (step currSq)
      else RayLoop cond step stop fuel (step currSq) (SetBit attacks (step currSq))
    else attacks

/-- `GeneratePawnAttackMask(sq, c)`. -/
def GeneratePawnAttackMask (sq c : Nat) : Nat :=
  if c = kWhite then
    let attacks := if GetFile sq ≠ 7 ∧ GetRank sq ≠ 7 then SetBit 0 (sq - 7) else 0
    if GetFile sq ≠ 0 ∧ GetRank sq ≠ 7 then SetBit attacks (sq - 9) else attacks
  else
    let attacks := if GetFile sq ≠ 7 ∧ GetRank sq ≠ 0 then SetBit 0 (sq + 9) else 0
    if GetFile sq ≠ 0 ∧ GetRank sq ≠ 0 then SetBit attacks (sq + 7) else attacks

/-- `GenerateKnightAttackMask(sq)`. -/
def GenerateKnightAttackMask (sq : Nat) : Nat :=
  let attacks := if GetFile sq ≤ 6 ∧ GetRank sq ≤ 5 then SetBit 0 (sq - 15) else 0
  let attacks := if GetFile sq ≤ 5 ∧ GetRank sq ≤ 6 then SetBit attacks (sq - 6) else attacks
  let attacks := if GetFile sq ≤ 5 ∧ GetRank sq ≥ 1 then SetBit attacks (sq + 10) else attacks
  let attacks := if GetFile sq ≤ 6 ∧ GetRank sq ≥ 2 then SetBit attacks (sq + 17) else attacks
  let attacks := if GetFile sq ≥ 1 ∧ GetRank sq ≥ 2 then SetBit attacks (sq + 15) else attacks
  let attacks := if GetFile sq ≥ 2 ∧ GetRank sq ≥ 1 then SetBit attacks (sq + 6) else attacks
  let attacks := if GetFile sq ≥ 2 ∧ GetRank sq ≤ 6 then SetBit attacks (sq - 10) else attacks
  if GetFile sq ≥ 1 ∧ GetRank sq ≤ 5 then SetBit attacks (sq - 17) else attacks

/-- `GenerateKingAttackMask(sq)`. -/
def GenerateKingAttackMask (sq : Nat) : Nat :=
  let attacks :=
    if GetFile sq ≠ 7 then
      let a := if GetRank sq ≠ 7 then SetBit 0 (sq - 7) else 0
      let a := SetBit a (sq + 1)
      if GetRank sq ≠ 0 then SetBit a (sq + 9) else a
    else 0
  let attacks := if GetRank sq ≠ 7 then SetBit attacks (sq - 8) else attacks
  let attacks := if GetRank sq ≠ 0 then SetBit attacks (sq + 8) else attacks
  if GetFile sq ≠ 0 then
    let a := if GetRank sq ≠ 7 then SetBit attacks (sq - 9) else attacks
    let a := SetBit a (sq - 1)
    if GetRank sq ≠ 0 then SetBit a (sq + 7) else a
  else attacks

/-- `GenerateBishopAttackMask(sq)`: the four diagonals without the board edge. -/
def GenerateBishopAttackMask (sq : Nat) : Nat :=
  let attacks := RayLoop (fun c => decide (GetFile c < 6) && decide (GetRank c < 6))
    (fun c => c - 7) (fun _ => false) 8 sq 0
  let attacks := RayLoop (fun c => decide (GetFile c < 6) && decide (GetRank c > 1))
    (fun c => c + 9) (fun _ => false) 8 sq attacks
  let attacks := RayLoop (fun c => decide (GetFile c > 1) && decide (GetRank c > 1))
    (fun c => c + 7) (fun _ => false) 8 sq attacks
  RayLoop (fun c => decide (GetFile c > 1) && decide (GetRank c < 6))
    (fun c => c - 9) (fun _ => false) 8 sq attacks

/-- `GenerateRookAttackMask(sq)`: the rank and file without the board edge. -/
def GenerateRookAttackMask (sq : Nat) : Nat :=
  let attacks := RayLoop (fun c => decide (GetRank c < 6)) (fun c => c - 8) (fun _ => false) 8 sq 0
  let attacks := RayLoop (fun c => decide (GetFile c < 6)) (fun c => c + 1) (fun _ => false) 8 sq attacks
  let attacks := RayLoop (fun c => decide (GetRank c > 1)) (fun c => c + 8) (fun _ => false) 8 sq attacks
  RayLoop (fun c => decide (GetFile c > 1)) (fun c => c - 1) (fun _ => false) 8 sq attacks

/-- `GenerateBishopAttacks(sq, occupancy)`: each diagonal up to and including
the first occupied square. -/
def GenerateBishopAttacks (sq occupancy : Nat) : Nat :=
  let attacks := RayLoop (fun c => decide (GetFile c < 7) && decide (GetRank c < 7))
    (fun c => c - 7) (GetBit occupancy) 8 sq 0
  let attacks := RayLoop (fun c => decide (GetFile c < 7) && decide (GetRank c > 0))
    (fun c => c + 9) (GetBit occupancy) 8 sq attacks
  let attacks := RayLoop (fun c => decide (GetFile c > 0) && decide (GetRank c > 0))
    (fun c => c + 7) (GetBit occupancy) 8 sq attacks
  RayLoop (fun c => decide (GetFile c > 0) && decide (GetRank c < 7))
    (fun c => c - 9) (GetBit occupancy) 8 sq attacks

/-- `GenerateRookAttacks(sq, occupancy)`: north, east, south, west, each up to
and including the first occupied square. -/
def GenerateRookAttacks (sq occupancy : Nat) : Nat :=
  let attacks := RayLoop (fun c => decide (GetRank c < 7)) (fun c => c - 8) (GetBit occupancy) 8 sq 0
  let attacks := RayLoop (fun c => decide (GetFile c < 7)) (fun c => c + 1) (GetBit occupancy) 8 sq attacks
  let attacks := RayLoop (fun c => decide (GetRank c > 0)) (fun c => c + 8) (GetBit occupancy) 8 sq attacks
  RayLoop (fun c => decide (GetFile c > 0)) (fun c => c - 1) (GetBit occupancy) 8 sq attacks

/-- The `for` loop of `GenerateOccupancyKey`, `n` iterations left. -/
def GenerateOccupancyKeyLoop (index : Nat) : Nat → Nat → Nat → Nat → Nat
  | 0, _, _, occupancy_key => occupancy_key
  | n + 1, mask_index, attack_mask, occupancy_key =>
    GenerateOccupancyKeyLoop index n (mask_index + 1) (ClearLSB attack_mask)
      (if GetBit index mask_index then SetBit occupancy_key (GetLSBIndex attack_mask)
       else occupancy_key)

/-- `GenerateOccupancyKey(index, attack_mask)`. -/
def GenerateOccupancyKey (index attack_mask : Nat) : Nat :=
  GenerateOccupancyKeyLoop index (CountBits attack_mask) 0 attack_mask 0

/-- The four global tables `InitSlidingAttacks` fills; an array is a function
of its index. -/
structure SlidingTables where
  bishop_masks : Nat → Nat
  bishop_attacks : Nat → Nat → Nat
  rook_masks : Nat → Nat
  rook_attacks : Nat → Nat → Nat

/-- The zero-initialised globals. -/
def zeroTables : SlidingTables :=
  ⟨fun _ => 0, fun _ _ => 0, fun _ => 0, fun _ _ => 0⟩

/-- The inner loop of `InitSlidingAttacks` on one row of an attack table:
for `key_index` up to `num_occupancy_keys`, store the attack set of the
occupancy at its magic index (`n` iterations left). -/
def FillRow (gen : Nat → Nat) (mask magic relevant_bits : Nat) :
    Nat → Nat → (Nat → Nat) → (Nat → Nat)
  | 0, _, row => row
  | n + 1, key_index, row =>
    FillRow gen mask magic relevant_bits n (key_index + 1)
      (fun i =>
        if i = ((GenerateOccupancyKey key_index mask * magic) % 2 ^ 64) >>> (64 - relevant_bits)
        then gen (GenerateOccupancyKey key_index mask) else row i)

/-- One iteration of the square loop of `InitSlidingAttacks`. -/
def InitSquare (t : SlidingTables) (sq : Nat) : SlidingTables :=
  let bmask := GenerateBishopAttackMask sq
  let rmask := GenerateRookAttackMask sq
  { bishop_masks := fun s => if s = sq then bmask else t.bishop_masks s
    bishop_attacks := fun s =>
      if s = sq then
        FillRow (GenerateBishopAttacks sq) bmask (bishop_magic_numbers sq) (CountBits bmask)
          (1 <<< CountBits bmask) 0 (t.bishop_attacks sq)
      else t.bishop_attacks s
    rook_masks := fun s => if s = sq then rmask else t.rook_masks s
    rook_attacks := fun s =>
      if s = sq then
        FillRow (GenerateRookAttacks sq) rmask (rook_magic_numbers sq) (CountBits rmask)
          (1 <<< CountBits rmask) 0 (t.rook_attacks sq)
      else t.rook_attacks s }

/-- `InitSlidingAttacks()` with the magic numbers listed in the source. -/
def InitSlidingAttacks : SlidingTables := (List.range 64).foldl InitSquare zeroTables

/-- The index `GetBishopAttacks` computes into `bishop_attacks[square]`. -/
def BishopIndex (square occupancy : Nat) : Nat :=
  (((occupancy &&& InitSlidingAttacks.bishop_masks square) * bishop_magic_numbers square)
    % 2 ^ 64) >>> (64 - bishop_relevant_bits square)

/-- The index `GetRookAttacks` computes into `rook_attacks[square]`. -/
def RookIndex (square occupancy : Nat) : Nat :=
  (((occupancy &&& InitSlidingAttacks.rook_masks square) * rook_magic_numbers square)
    % 2 ^ 64) >>> (64 - rook_relevant_bits square)

/-- `GetBishopAttacks(square, occupancy)`. -/
def GetBishopAttacks (square occupancy : Nat) : Nat :=
  InitSlidingAttacks.bishop_attacks square (BishopIndex square occupancy)

/-- `GetRookAttacks(square, occupancy)`. -/
def GetRookAttacks (square occupancy : Nat) : Nat :=
  InitSlidingAttacks.rook_attacks square (RookIndex square occupancy)

/-- `GetQueenAttacks(square, occupancy)`. -/
def GetQueenAttacks (square occupancy : Nat) : Nat :=
  GetBishopAttacks square occupancy ||| GetRookAttacks square occupancy

/-- `pawn_attacks[sq][c]` after `InitLeapingAttacks`. -/
def pawn_attacks (sq c : Nat) : Nat := GeneratePawnAttackMask sq c

/-- `knight_attacks[sq]` after `InitLeapingAttacks`. -/
def knight_attacks (sq : Nat) : Nat := GenerateKnightAttackMask sq

/-- `king_attacks[sq]` after `InitLeapingAttacks`. -/
def king_attacks (sq : Nat) : Nat := GenerateKingAttackMask sq

end precomputed_data

/-! ## Bit loops -/

/-- The set squares of a 64-bit bitboard, lowest first. -/
def bitsOf (n : Nat) : List Nat := (List.range 64).filter (fun i => n.testBit i)

/-- The squares the loop `while (b) { sq = GetLSBIndex(b); ClearLSB(b); ... }`
visits, in order. -/
def BitScan : Nat → Nat → List Nat
  | 0, _ => []
  | fuel + 1, b => if b = 0 then [] else GetLSBIndex b :: BitScan fuel (ClearLSB b)

/-! ## Checking the magic numbers -/

namespace precomputed_data

/-- The squares the `for` loop of `GenerateOccupancyKey` reads off the mask in
its first `n` iterations. -/
def scanBits : Nat → Nat → List Nat
  | 0, _ => []
  | n + 1, mask => GetLSBIndex mask :: scanBits n (ClearLSB mask)

/-- Bit `j` of `x` is placed on the `j`-th square of the list. -/
def deposit (x : Nat) : List Nat → Nat
  | [] => 0
  | b :: bs => (if x.testBit 0 then 1 <<< b else 0) ||| deposit (x / 2) bs

/-- The bitboard with the listed squares set. -/
def orBits : List Nat → Nat
  | [] => 0
  | b :: bs => (1 <<< b) ||| orBits bs

/-- The multiply-and-shift index of a masked occupancy. -/
def magicIndex (magic bits o : Nat) : Nat := ((o * magic) % 2 ^ 64) >>> (64 - bits)

/-- Evaluate `x` before passing it on. -/
def strictly {α : Type} (x : Nat) (k : Nat → α) : α :=
  Nat.rec (k 0) (fun n _ => k (Nat.succ n)) x

/-- The bitmap of the magic indices of all occupancies `o ||| s`, where `s`
is made of listed squares, added to the bitmap `P`. -/
def indexBitmap (magic shift : Nat) (L : List Nat) : Nat → Nat → Nat :=
  List.rec (motive := fun _ => Nat → Nat → Nat)
    (fun o P => Nat.lor P (Nat.shiftLeft 1
      (Nat.shiftRight (Nat.mod (Nat.mul o magic) 18446744073709551616) shift)))
    (fun b _ ih o P =>
      strictly (ih o P) (fun P1 => strictly (Nat.lor o (Nat.shiftLeft 1 b)) (fun o1 => ih o1 P1)))
    L

/-- The mask is a 64-bit word with `bits` squares and the magic number sends
its subsets onto all `2 ^ bits` indices. -/
def magicCheck (mask magic bits : Nat) : Bool :=
  decide (mask < 2 ^ 64) && decide (bits = CountBits mask) && decide (bits ≤ 64) &&
  decide (indexBitmap magic (64 - bits) (bitsOf mask) 0 0 = 2 ^ (2 ^ bits) - 1)

def rookMagicCheck (sq : Nat) : Bool :=
  magicCheck (GenerateRookAttackMask sq) (rook_magic_numbers sq) (rook_relevant_bits sq)

def bishopMagicCheck (sq : Nat) : Bool :=
  magicCheck (GenerateBishopAttackMask sq) (bishop_magic_numbers sq) (bishop_relevant_bits sq)

/-- Every square of the ray from `sq` that is not the last one before the
edge lies in the mask. -/
def rayInMask (cond : Nat → Bool) (step : Nat → Nat) (mask sq : Nat) : Bool :=
  (List.range 8).all (fun i =>
    !((List.range (i + 2)).all (fun j => cond (step^[j] sq))) || mask.testBit (step^[i + 1] sq))

def rookRaysInMask (sq : Nat) : Bool :=
  rayInMask (fun c => decide (GetRank c < 7)) (fun c => c - 8) (GenerateRookAttackMask sq) sq &&
  rayInMask (fun c => decide (GetFile c < 7)) (fun c => c + 1) (GenerateRookAttackMask sq) sq &&
  rayInMask (fun c => decide (GetRank c > 0)) (fun c => c + 8) (GenerateRookAttackMask sq) sq &&
  rayInMask (fun c => decide (GetFile c > 0)) (fun c => c - 1) (GenerateRookAttackMask sq) sq

def bishopRaysInMask (sq : Nat) : Bool :=
  rayInMask (fun c => decide (GetFile c < 7) && decide (GetRank c < 7)) (fun c => c - 7)
    (GenerateBishopAttackMask sq) sq &&
  rayInMask (fun c => decide (GetFile c < 7) && decide (GetRank c > 0)) (fun c => c + 9)
    (GenerateBishopAttackMask sq) sq &&
  rayInMask (fun c => decide (GetFile c > 0) && decide (GetRank c > 0)) (fun c => c + 7)
    (GenerateBishopAttackMask sq) sq &&
  rayInMask (fun c => decide (GetFile c > 0) && decide (GetRank c < 7)) (fun c => c - 9)
    (GenerateBishopAttackMask sq) sq

end precomputed_data

namespace precomputed_data

/-- What `InitSlidingAttacks` leaves in the tables for one square. -/
structure SquareFilled (t : SlidingTables) (sq : Nat) : Prop where
  bishop_mask : t.bishop_masks sq = GenerateBishopAttackMask sq
  rook_mask : t.rook_masks sq = GenerateRookAttackMask sq
  bishop_row : ∃ row, t.bishop_attacks sq =
    FillRow (GenerateBishopAttacks sq) (GenerateBishopAttackMask sq) (bishop_magic_numbers sq)
      (CountBits (GenerateBishopAttackMask sq)) (1 <<< CountBits (GenerateBishopAttackMask sq))
      0 row
  rook_row : ∃ row, t.rook_attacks sq =
    FillRow (GenerateRookAttacks sq) (GenerateRookAttackMask sq) (rook_magic_numbers sq)
      (CountBits (GenerateRookAttackMask sq)) (1 <<< CountBits (GenerateRookAttackMask sq))
      0 row

end precomputed_data

/-! ## position.hpp : the position -/

/-- The Zobrist tables `zobrist::piece_keys[12][64]`, `en_passant_keys[64]`,
`castling_keys[16]` and `side_key`.  `zobrist::Init` fills them with
pseudo-random words; the embedding takes them as a parameter.  An array is a
function of its index, so a read past the end of a table yields whatever the
parameter holds there. -/
structure ZobristKeys where
  piece_keys : Nat → Nat → Nat
  en_passant_keys : Nat → Nat
  castling_keys : Nat → Nat
  side_key : Nat

/-- `struct PositionState`.  The two arrays are functions of their index;
`piece_bitboards` has the cells 0..11 and `piece_occupancy` the cells 0..2. -/
structure PositionState where
  piece_bitboards : Nat → Nat
  piece_occupancy : Nat → Nat
  side_to_move : Nat
  en_passant_square : Nat
  castling_rights : Nat
  key : Nat
  halfmove_clock : Int
  ply : Int

/-- `class RepetitionTable`: a ring of keys with head, tail and full flag. -/
structure RepetitionTable where
  table : Nat → Nat
  head : Nat
  tail : Nat
  full : Bool

/-- `RepetitionTable::Clear()`. -/
def RepetitionTable.Clear (r : RepetitionTable) : RepetitionTable :=
  { r with head := 0, tail := 0, full := false }

/-- The members of `class Position` that `Set` and `MakeMove` touch. -/
structure Position where
  state_ : PositionState
  repetition_table_ : RepetitionTable

/-- Store `v` in cell `i` of an array. -/
def setAt (f : Nat → Nat) (i v : Nat) : Nat → Nat := fun j => if j = i then v else f j

/-- `kCastlingUpdates`. -/
def kCastlingUpdatesTable : List Nat := [
  7, 15, 15, 15, 3, 15, 15, 11,
  15, 15, 15, 15, 15, 15, 15, 15,
  15, 15, 15, 15, 15, 15, 15, 15,
  15, 15, 15, 15, 15, 15, 15, 15,
  15, 15, 15, 15, 15, 15, 15, 15,
  15, 15, 15, 15, 15, 15, 15, 15,
  15, 15, 15, 15, 15, 15, 15, 15,
  13, 15, 15, 15, 12, 15, 15, 14]

def kCastlingUpdates (sq : Nat) : Nat := kCastlingUpdatesTable.getD sq 0

/-- The loop of `PieceOn`: the first piece from `p` on whose bitboard holds
the square, `kNoPiece` if none of the remaining `n` does. -/
def PieceOnLoop (bb : Nat → Nat) (square : Nat) : Nat → Nat → Nat
  | 0, _ => kNoPiece
  | n + 1, p => if GetBit (bb p) square then p else PieceOnLoop bb square n (p + 1)

/-- `Position::PieceOn(square)`. -/
def PieceOn (s : PositionState) (square : Nat) : Nat :=
  PieceOnLoop s.piece_bitboards square 12 0

/-- `GenerateWhiteOccupancies`, `GenerateBlackOccupancies` and
`GenerateOccupancies`. -/
def GenerateOccupancies (s : PositionState) : PositionState :=
  let white := 0 ||| s.piece_bitboards 0 ||| s.piece_bitboards 1 ||| s.piece_bitboards 2 |||
    s.piece_bitboards 3 ||| s.piece_bitboards 4 ||| s.piece_bitboards 5
  let black := 0 ||| s.piece_bitboards 6 ||| s.piece_bitboards 7 ||| s.piece_bitboards 8 |||
    s.piece_bitboards 9 ||| s.piece_bitboards 10 ||| s.piece_bitboards 11
  { s with piece_occupancy :=
      (setAt (setAt (setAt s.piece_occupancy kWhite white) kBlack black) kBothColors
        (white ||| black)) }

/-- The loop over the set squares of one piece bitboard in `GenerateKey`. -/
def KeyOfSquares (zk : ZobristKeys) (p : Nat) (squares : List Nat) (key : Nat) : Nat :=
  squares.foldl (fun k sq => k ^^^ zk.piece_keys p sq) key

/-- The loop over the pieces in `GenerateKey`, `n` pieces left from `p`. -/
def KeyOfPieces (zk : ZobristKeys) (bb : Nat → Nat) : Nat → Nat → Nat → Nat
  | 0, _, key => key
  | n + 1, p, key => KeyOfPieces zk bb n (p + 1) (KeyOfSquares zk p (BitScan 64 (bb p)) key)

/-- `Position::GenerateKey()`. -/
def GenerateKey (zk : ZobristKeys) (s : PositionState) : Nat :=
  let key := KeyOfPieces zk s.piece_bitboards 12 0 0
  let key := if s.en_passant_square ≠ kNoSquare then
    key ^^^ zk.en_passant_keys s.en_passant_square else key
  let key := if s.side_to_move = kBlack then key ^^^ zk.side_key else key
  key ^^^ zk.castling_keys s.castling_rights

/-- `IsSquareAttacked(pos, square, side)`. -/
def IsSquareAttacked (s : PositionState) (square side : Nat) : Bool :=
  let attacking_side := side
  let defending_side := OppositeColor attacking_side
  if precomputed_data.pawn_attacks square defending_side &&&
      s.piece_bitboards (GetPiece kPawn attacking_side) ≠ 0 then true
  else if precomputed_data.knight_attacks square &&&
      s.piece_bitboards (GetPiece kKnight attacking_side) ≠ 0 then true
  else if precomputed_data.GetBishopAttacks square (s.piece_occupancy kBothColors) &&&
      s.piece_bitboards (GetPiece kBishop attacking_side) ≠ 0 then true
  else if precomputed_data.GetRookAttacks square (s.piece_occupancy kBothColors) &&&
      s.piece_bitboards (GetPiece kRook attacking_side) ≠ 0 then true
  else if precomputed_data.GetQueenAttacks square (s.piece_occupancy kBothColors) &&&
      s.piece_bitboards (GetPiece kQueen attacking_side) ≠ 0 then true
  else if precomputed_data.king_attacks square &&&
      s.piece_bitboards (GetPiece kKing attacking_side) ≠ 0 then true
  else false

/-- `IsInCheck(pos)`. -/
def IsInCheck (s : PositionState) : Bool :=
  IsSquareAttacked s (GetLSBIndex (s.piece_bitboards (GetPiece kKing s.side_to_move)))
    (OppositeColor s.side_to_move)

/-! ## position.cpp : MakeMove -/

/-- The body of `Position::MakeMove` between the snapshot and the legality
check: the move applied to the state. -/
def ApplyMove (zk : ZobristKeys) (st : PositionState) (mv : Nat) : PositionState :=
  let source := move.GetSourceSquare mv
  let target := move.GetTargetSquare mv
  let piece := move.GetPiece mv
  let promoted_piece := move.GetPromotedPiece mv
  let capture := move.IsCapture mv
  let double_push := move.IsDoublePush mv
  let en_passant := move.IsEnPassant mv
  let castle := move.IsCastle mv
  -- Update the halfmove clock and the ply.
  let halfmove_clock : Int :=
    if capture || GetPieceType piece == kPawn then 0 else st.halfmove_clock + 1
  let ply := st.ply + 1
  -- If the move is a capture, get the captured piece.
  let captured_piece := PieceOn st target
  -- Move the piece.
  let bb := setAt st.piece_bitboards piece (ClearBit (st.piece_bitboards piece) source)
  let bb := setAt bb piece (SetBit (bb piece) target)
  let key := st.key ^^^ zk.piece_keys piece source
  let key := key ^^^ zk.piece_keys piece target
  -- Handle captures.
  let bb := if capture then setAt bb captured_piece (ClearBit (bb captured_piece) target) else bb
  let key := if capture then key ^^^ zk.piece_keys captured_piece target else key
  -- Handle promotions.
  let bb := if promoted_piece ≠ kNoPiece then
      let bb1 := setAt bb piece (ClearBit (bb piece) target)
      setAt bb1 promoted_piece (SetBit (bb1 promoted_piece) target)
    else bb
  let key := if promoted_piece ≠ kNoPiece then
      key ^^^ zk.piece_keys piece target ^^^ zk.piece_keys promoted_piece target
    else key
  -- Handle en passant.
  let en_passant_target := if GetPieceColor piece = kWhite then target + 8 else target - 8
  let ep_pawn := GetPiece kPawn (OppositeColor (GetPieceColor piece))
  let bb := if en_passant then setAt bb ep_pawn (ClearBit (bb ep_pawn) en_passant_target) else bb
  let key := if en_passant then key ^^^ zk.piece_keys ep_pawn en_passant_target else key
  -- Hash the old en passant square out.
  let key := if st.en_passant_square ≠ kNoSquare then
    key ^^^ zk.en_passant_keys st.en_passant_square else key
  -- Handle double pawn pushes.
  let en_passant_square :=
    if double_push then (if GetPieceColor piece = kWhite then target + 8 else target - 8)
    else kNoSquare
  let key := if double_push then key ^^^ zk.en_passant_keys en_passant_square else key
  -- Handle castling.
  let rook_source := if target = 62 then 63 else if target = 58 then 56
    else if target = 6 then 7 else if target = 2 then 0 else kNoSquare
  let rook_target := if target = 62 then 61 else if target = 58 then 59
    else if target = 6 then 5 else if target = 2 then 3 else kNoSquare
  let rook := GetPiece kRook (GetPieceColor piece)
  let bb := if castle then
      let bb1 := setAt bb rook (ClearBit (bb rook) rook_source)
      setAt bb1 rook (SetBit (bb1 rook) rook_target)
    else bb
  let key := if castle then
      key ^^^ zk.piece_keys rook rook_source ^^^ zk.piece_keys rook rook_target
    else key
  -- Hash and update the castling rights.
  let key := key ^^^ zk.castling_keys st.castling_rights
  let castling_rights := st.castling_rights &&& kCastlingUpdates source &&& kCastlingUpdates target
  let key := key ^^^ zk.castling_keys castling_rights
  -- Update occupancies, the side to move and its hash.
  let st1 := GenerateOccupancies
    { piece_bitboards := bb
      piece_occupancy := st.piece_occupancy
      side_to_move := st.side_to_move
      en_passant_square := en_passant_square
      castling_rights := castling_rights
      key := key
      halfmove_clock := halfmove_clock
      ply := ply }
  { st1 with side_to_move := OppositeColor st1.side_to_move, key := st1.key ^^^ zk.side_key }

/-- `Position::MakeMove(move, quiescencse)`: the returned flag and the state
the position is left in. -/
def MakeMove (zk : ZobristKeys) (st : PositionState) (mv : Nat) (quiescencse : Bool) :
    Bool × PositionState :=
  if quiescencse && !move.IsCapture mv then (false, st)
  else
    let st1 := ApplyMove zk st mv
    let king := GetPiece kKing (GetPieceColor (move.GetPiece mv))
    let king_square := GetLSBIndex (st1.piece_bitboards king)
    if IsSquareAttacked st1 king_square (OppositeColor (GetPieceColor (move.GetPiece mv)))
    then (false, st)
    else (true, st1)

/-! ## move_gen.cpp : the move generator -/

/-- The four promotion moves pushed for a pawn reaching the last rank. -/
def PromotionMoves (source target piece side : Nat) (capture : Bool) : List Nat :=
  [move.CreateMove source target piece (GetPiece kQueen side) capture false false false,
   move.CreateMove source target piece (GetPiece kRook side) capture false false false,
   move.CreateMove source target piece (GetPiece kBishop side) capture false false false,
   move.CreateMove source target piece (GetPiece kKnight side) capture false false false]

/-- The push part of the loop body of `GeneratePawnMoves` for one pawn. -/
def PawnPushMoves (s : PositionState) (source_square : Nat) : List Nat :=
  let side_to_move := s.side_to_move
  let current_piece := GetPiece kPawn side_to_move
  let push_direction : Int := if side_to_move = kWhite then -8 else 8
  let promotion_rank := if side_to_move = kWhite then 7 else 0
  let starting_rank := if side_to_move = kWhite then 1 else 6
  let target : Int := (source_square : Int) + push_direction
  if IsValidSquare target && !GetBit (s.piece_occupancy kBothColors) target.toNat then
    if GetRank target.toNat = promotion_rank then
      PromotionMoves source_square target.toNat current_piece side_to_move false
    else
      move.CreateMove source_square target.toNat current_piece kNoPiece false false false false ::
        (if GetRank source_square = starting_rank then
          let target2 : Int := (source_square : Int) + 2 * push_direction
          if IsValidSquare target2 && !GetBit (s.piece_occupancy kBothColors) target2.toNat then
            [move.CreateMove source_square target2.toNat current_piece kNoPiece
              false true false false]
          else []
        else [])
  else []

/-- The capture part of the loop body of `GeneratePawnMoves` for one pawn and
one attacked square. -/
def PawnCaptureMoves (s : PositionState) (source_square target_square : Nat) : List Nat :=
  let side_to_move := s.side_to_move
  let opponent_side := OppositeColor side_to_move
  let current_piece := GetPiece kPawn side_to_move
  let promotion_rank := if side_to_move = kWhite then 7 else 0
  if GetBit (s.piece_occupancy opponent_side) target_square then
    if GetRank target_square = promotion_rank then
      PromotionMoves source_square target_square current_piece side_to_move true
    else
      [move.CreateMove source_square target_square current_piece kNoPiece true false false false]
  else if target_square = s.en_passant_square then
    [move.CreateMove source_square target_square current_piece kNoPiece true false true false]
  else []

/-- `GeneratePawnMoves(pos, moveList)`: the moves it appends. -/
def GeneratePawnMoves (s : PositionState) : List Nat :=
  (BitScan 64 (s.piece_bitboards (GetPiece kPawn s.side_to_move))).flatMap (fun source_square =>
    PawnPushMoves s source_square ++
    (BitScan 64 (precomputed_data.pawn_attacks source_square s.side_to_move)).flatMap
      (fun target_square => PawnCaptureMoves s source_square target_square))

/-- The inner loop shared by the knight, bishop, rook, queen and king
generators: one move per attacked square, a capture when the square holds an
opposing piece. -/
def TargetMoves (s : PositionState) (current_piece source_square current_attacks : Nat) :
    List Nat :=
  (BitScan 64 current_attacks).map (fun target_square =>
    if GetBit (s.piece_occupancy (OppositeColor s.side_to_move)) target_square then
      move.CreateMove source_square target_square current_piece kNoPiece true false false false
    else
      move.CreateMove source_square target_square current_piece kNoPiece false false false false)

/-- The complement `~x` of a 64-bit word. -/
def Complement (x : Nat) : Nat := kWordMask ^^^ x

/-- `GenerateKnightMoves(pos, moveList)`: the moves it appends. -/
def GenerateKnightMoves (s : PositionState) : List Nat :=
  (BitScan 64 (s.piece_bitboards (GetPiece kKnight s.side_to_move))).flatMap (fun source_square =>
    TargetMoves s (GetPiece kKnight s.side_to_move) source_square
      (precomputed_data.knight_attacks source_square &&&
        Complement (s.piece_occupancy s.side_to_move)))

/-- `GenerateBishopMoves(pos, moveList)`: the moves it appends. -/
def GenerateBishopMoves (s : PositionState) : List Nat :=
  (BitScan 64 (s.piece_bitboards (GetPiece kBishop s.side_to_move))).flatMap (fun source_square =>
    TargetMoves s (GetPiece kBishop s.side_to_move) source_square
      (precomputed_data.GetBishopAttacks source_square (s.piece_occupancy kBothColors) &&&
        Complement (s.piece_occupancy s.side_to_move)))

/-- `GenerateRookMoves(pos, moveList)`: the moves it appends. -/
def GenerateRookMoves (s : PositionState) : List Nat :=
  (BitScan 64 (s.piece_bitboards (GetPiece kRook s.side_to_move))).flatMap (fun source_square =>
    TargetMoves s (GetPiece kRook s.side_to_move) source_square
      (precomputed_data.GetRookAttacks source_square (s.piece_occupancy kBothColors) &&&
        Complement (s.piece_occupancy s.side_to_move)))

/-- `GenerateQueenMoves(pos, moveList)`: the moves it appends. -/
def GenerateQueenMoves (s : PositionState) : List Nat :=
  (BitScan 64 (s.piece_bitboards (GetPiece kQueen s.side_to_move))).flatMap (fun source_square =>
    TargetMoves s (GetPiece kQueen s.side_to_move) source_square
      (precomputed_data.GetQueenAttacks source_square (s.piece_occupancy kBothColors) &&&
        Complement (s.piece_occupancy s.side_to_move)))

/-- One castling move of `GenerateKingMoves`: the right is set, the listed
squares are empty and the two listed squares are not attacked. -/
def CastleMove (s : PositionState) (right : Nat) (empty safe : List Nat) (source target : Nat) :
    List Nat :=
  if s.castling_rights &&& right ≠ 0 then
    if empty.all (fun sq => !GetBit (s.piece_occupancy kBothColors) sq) &&
       safe.all (fun sq => !IsSquareAttacked s sq (OppositeColor s.side_to_move)) then
      [move.CreateMove source target (GetPiece kKing s.side_to_move) kNoPiece
        false false false true]
    else []
  else []

/-- `GenerateKingMoves(pos, moveList)`: the moves it appends. -/
def GenerateKingMoves (s : PositionState) : List Nat :=
  let current_piece := GetPiece kKing s.side_to_move
  let source_square := GetLSBIndex (s.piece_bitboards current_piece)
  TargetMoves s current_piece source_square
    (precomputed_data.king_attacks source_square &&&
      Complement (s.piece_occupancy s.side_to_move)) ++
  (if s.side_to_move = kWhite then
    CastleMove s kWhiteKingSide [61, 62] [60, 61] 60 62 ++
    CastleMove s kWhiteQueenSide [59, 58, 57] [60, 59] 60 58
  else
    CastleMove s kBlackKingSide [5, 6] [4, 5] 4 6 ++
    CastleMove s kBlackQueenSide [3, 2, 1] [4, 3] 4 2)

/-- `GenerateMoves(pos, moveList)`: the moves appended to an empty list. -/
def GenerateMoves (s : PositionState) : List Nat :=
  GeneratePawnMoves s ++ GenerateKnightMoves s ++ GenerateBishopMoves s ++
  GenerateRookMoves s ++ GenerateQueenMoves s ++ GenerateKingMoves s

/-! ## position.cpp : FEN -/

/-- `CharToPiece(c)`; `none` where the source throws `std::invalid_argument`. -/
def CharToPiece (c : Char) : Option Nat :=
  if c = 'P' then some 0 else if c = 'N' then some 1 else if c = 'B' then some 2
  else if c = 'R' then some 3 else if c = 'Q' then some 4 else if c = 'K' then some 5
  else if c = 'p' then some 6 else if c = 'n' then some 7 else if c = 'b' then some 8
  else if c = 'r' then some 9 else if c = 'q' then some 10 else if c = 'k' then some 11
  else none

/-- `PieceToChar(p)`. -/
def PieceToChar (p : Nat) : Char :=
  if p = 0 then 'P' else if p = 1 then 'N' else if p = 2 then 'B'
  else if p = 3 then 'R' else if p = 4 then 'Q' else if p = 5 then 'K'
  else if p = 6 then 'p' else if p = 7 then 'n' else if p = 8 then 'b'
  else if p = 9 then 'r' else if p = 10 then 'q' else if p = 11 then 'k'
  else ' '

/-- `FileToChar(f)`. -/
def FileToChar (f : Nat) : Char := Char.ofNat (f + 97)

/-- `RankToChar(r)`. -/
def RankToChar (r : Nat) : Char := Char.ofNat (r + 49)

/-- The decimal digits of `n`, most significant first, in front of `acc`. -/
def DigitsLoop : Nat → Nat → List Char → List Char
  | 0, _, acc => acc
  | fuel + 1, n, acc =>
    if n / 10 = 0 then Char.ofNat (48 + n % 10) :: acc
    else DigitsLoop fuel (n / 10) (Char.ofNat (48 + n % 10) :: acc)

/-- `std::to_string` on a non-negative number. -/
def NatToString (n : Nat) : List Char := DigitsLoop (n + 1) n []

/-- `std::to_string(int)`. -/
def to_string (v : Int) : List Char :=
  if v < 0 then '-' :: NatToString (-v).toNat else NatToString v.toNat

/-- `isspace` in the C locale. -/
def IsSpace (c : Char) : Bool :=
  c = ' ' || c = '\t' || c = '\n' || c = '\x0b' || c = '\x0c' || c = '\r'

/-- `std::stoi(str)`: leading white space, an optional sign, decimal digits,
anything after them ignored; `none` where it throws (no digits:
`std::invalid_argument`, value outside `int`: `std::out_of_range`). -/
def stoi (str : List Char) : Option Int :=
  let s := str.dropWhile IsSpace
  let negative := s.head? = some '-'
  let s := if s.head? = some '-' ∨ s.head? = some '+' then s.tail else s
  let digits := s.takeWhile Char.isDigit
  if digits = [] then none
  else
    let magnitude : Int := (digits.foldl (fun a c => 10 * a + (c.toNat - 48)) 0 : Nat)
    let value := if negative then -magnitude else magnitude
    if -2147483648 ≤ value ∧ value ≤ 2147483647 then some value else none

/-- The result of `Position::Set`: it returns, it throws
`std::invalid_argument`, or it reads the string past its terminator (which the
language leaves undefined). -/
inductive SetResult where
  | ok
  | invalid_argument
  | out_of_bounds
  deriving DecidableEq, Repr

/-- The cursor `i` of `Set` moved `k` characters on, as the rest of the
string from `i`; `none` once `i` is past the terminator. -/
def Advance (k : Nat) (rest : List Char) : Option (List Char) :=
  if k ≤ rest.length then some (rest.drop k) else none

/-- The piece placement loop of `Set` from the cursor: the bitboards written
and the rest of the string from the space that ends the loop, `none` when
`CharToPiece` throws (the string terminator included). -/
def ParsePlacement : List Char → (Nat → Nat) → Nat → (Nat → Nat) × Option (List Char)
  | [], bb, _ => (bb, none)
  | c :: rest, bb, sq =>
    if c = ' ' then (bb, some (c :: rest))
    else if c = '/' then ParsePlacement rest bb sq
    else if '1' ≤ c ∧ c ≤ '8' then ParsePlacement rest bb (sq + (c.toNat - 48))
    else
      match CharToPiece c with
      | none => (bb, none)
      | some p => ParsePlacement rest (setAt bb p (SetBit (bb p) sq)) (sq + 1)

/-- The castling loop of `Set` from the cursor: the rights collected and the
rest of the string from the space that ends the loop, `none` when the loop
throws (the string terminator included). -/
def ParseCastling : List Char → Nat → Nat × Option (List Char)
  | [], rights => (rights, none)
  | c :: rest, rights =>
    if c = ' ' then (rights, some (c :: rest))
    else if c = 'K' then ParseCastling rest (rights ||| kWhiteKingSide)
    else if c = 'Q' then ParseCastling rest (rights ||| kWhiteQueenSide)
    else if c = 'k' then ParseCastling rest (rights ||| kBlackKingSide)
    else if c = 'q' then ParseCastling rest (rights ||| kBlackQueenSide)
    else if c = '-' then ParseCastling rest rights
    else (rights, none)

/-- The en-passant square `GetSquare(File(c1 - 'a'), Rank(c2 - '1'))` of
`Set`, computed in `int`; a negative result is stored as 0. -/
def ParseEnPassantSquare (c1 c2 : Char) : Nat :=
  (Int.lor ((7 - ((c2.toNat : Int) - 49)) * 8) ((c1.toNat : Int) - 97)).toNat

/-- The end of `Set`, from the cursor at the halfmove field: the two number
loops, the two `stoi` calls and the key. -/
def SetClocks (zk : ZobristKeys) (pos : Position) (st : PositionState) (half : List Char) :
    SetResult × Position :=
  -- the halfmove loop runs to the next space, the fullmove loop to the next
  -- space or the terminator
  if ' ' ∈ half then
    match stoi (half.takeWhile (fun c => c ≠ ' ')) with
    | none => (SetResult.invalid_argument, { pos with state_ := st })
    | some h =>
      match stoi (((half.dropWhile (fun c => c ≠ ' ')).tail).takeWhile (fun c => c ≠ ' ')) with
      | none =>
        (SetResult.invalid_argument, { pos with state_ := { st with halfmove_clock := h } })
      | some n =>
        (SetResult.ok, { pos with state_ :=
          { st with
            halfmove_clock := h
            ply := 2 * (n - 1) + (if st.side_to_move = kBlack then 1 else 0)
            key := GenerateKey zk { st with
              halfmove_clock := h
              ply := 2 * (n - 1) + (if st.side_to_move = kBlack then 1 else 0) } } })
  else (SetResult.out_of_bounds, { pos with state_ := st })

/-- The en-passant field of `Set`, from the cursor at the field, and what
follows it. -/
def SetEnPassant (zk : ZobristKeys) (pos : Position) (st : PositionState) :
    List Char → SetResult × Position
  | [] => (SetResult.out_of_bounds, { pos with state_ := st })
  | c :: rest =>
    if c = '-' then
      match Advance 1 rest with
      | none => (SetResult.out_of_bounds,
          { pos with state_ := { st with en_passant_square := kNoSquare } })
      | some half => SetClocks zk pos { st with en_passant_square := kNoSquare } half
    else
      match Advance 2 rest with
      | none => (SetResult.out_of_bounds,
          { pos with state_ :=
            { st with en_passant_square := ParseEnPassantSquare c (rest.headD '\x00') } })
      | some half =>
        SetClocks zk pos
          { st with en_passant_square := ParseEnPassantSquare c (rest.headD '\x00') } half

/-- The colour and castling fields of `Set`, from the cursor on the space
that ended the placement loop, and what follows them. -/
def SetColour (zk : ZobristKeys) (pos : Position) (st : PositionState) (rest : List Char) :
    SetResult × Position :=
  match Advance 2 rest.tail with
  | none => (SetResult.out_of_bounds, { pos with state_ :=
      { st with side_to_move := if rest.tail.headD '\x00' = 'w' then kWhite else kBlack } })
  | some castling =>
    match ParseCastling castling kNoCastling with
    | (rights, none) => (SetResult.invalid_argument, { pos with state_ :=
        { st with
          side_to_move := if rest.tail.headD '\x00' = 'w' then kWhite else kBlack
          castling_rights := rights } })
    | (rights, some rest2) =>
      SetEnPassant zk pos
        { st with
          side_to_move := if rest.tail.headD '\x00' = 'w' then kWhite else kBlack
          castling_rights := rights } rest2.tail

/-- `Position::Set(fen)`: how the call ends and the position it leaves. -/
def Set (zk : ZobristKeys) (pos : Position) (fen : List Char) : SetResult × Position :=
  match ParsePlacement fen (fun _ => 0) 0 with
  | (bb, none) => (SetResult.invalid_argument,
      { state_ := { pos.state_ with piece_bitboards := bb, piece_occupancy := fun _ => 0 }
        repetition_table_ := pos.repetition_table_.Clear })
  | (bb, some rest) =>
    SetColour zk { pos with repetition_table_ := pos.repetition_table_.Clear }
      (GenerateOccupancies
        { pos.state_ with piece_bitboards := bb, piece_occupancy := fun _ => 0 }) rest

/-- The file loop of `ToFen` for one rank, from the files still to visit and
the count of empty squares pending. -/
def FenRank (s : PositionState) (r : Nat) : List Nat → Nat → List Char
  | [], empty_squares => if empty_squares > 0 then NatToString empty_squares else []
  | f :: fs, empty_squares =>
    if PieceOn s (GetSquare f r) = kNoPiece then FenRank s r fs (empty_squares + 1)
    else
      (if empty_squares > 0 then NatToString empty_squares else []) ++
        PieceToChar (PieceOn s (GetSquare f r)) :: FenRank s r fs 0

/-- The rank loop of `ToFen`, rank 8 first. -/
def FenRanks (s : PositionState) : List Nat → List Char
  | [] => []
  | r :: rs =>
    FenRank s r [0, 1, 2, 3, 4, 5, 6, 7] 0 ++ (if r > 0 then ['/'] else []) ++ FenRanks s rs

/-- The castling field of `ToFen`. -/
def FenCastling (rights : Nat) : List Char :=
  if rights = kNoCastling then ['-']
  else
    (if rights &&& kWhiteKingSide ≠ 0 then ['K'] else []) ++
    (if rights &&& kWhiteQueenSide ≠ 0 then ['Q'] else []) ++
    (if rights &&& kBlackKingSide ≠ 0 then ['k'] else []) ++
    (if rights &&& kBlackQueenSide ≠ 0 then ['q'] else [])

/-- The en-passant field of `ToFen`. -/
def FenEnPassant (ep : Nat) : List Char :=
  if ep = kNoSquare then ['-'] else [FileToChar (GetFile ep), RankToChar (GetRank ep)]

/-- `Position::ToFen()`. -/
def ToFen (s : PositionState) : List Char :=
  FenRanks s [7, 6, 5, 4, 3, 2, 1, 0] ++ [' '] ++
  (if s.side_to_move = kWhite then ['w'] else ['b']) ++ [' '] ++
  FenCastling s.castling_rights ++ [' '] ++
  FenEnPassant s.en_passant_square ++ [' '] ++
  to_string s.halfmove_clock ++ [' '] ++
  to_string (s.ply / 2 + 1)

/-- `kStartingPositionFen`. -/
def kStartingPositionFen : List Char :=
  "rnbqkbnr/pppppppp/8/8/8/8/PPPPPPPP/RNBQKBNR w KQkq - 0 1".toList

/-- `Position::Reset()`: the value-initialised state set to the starting
position. -/
def Reset (zk : ZobristKeys) (pos : Position) : Position :=
  (Set zk { pos with state_ := ⟨fun _ => 0, fun _ => 0, 0, 0, 0, 0, 0, 0⟩ } kStartingPositionFen).2

/-- The states reached from the start position by `MakeMove` calls that
return true on moves produced by `GenerateMoves`. -/
inductive Reachable (zk : ZobristKeys) : PositionState → Prop where
  | start (pos : Position) : Reachable zk (Reset zk pos).state_
  | step (s : PositionState) (m : Nat) (q : Bool) :
      Reachable zk s → m ∈ GenerateMoves s → (MakeMove zk s m q).1 = true →
      Reachable zk (MakeMove zk s m q).2

/-! ## Sample data -/

/-- A table of keys to evaluate the definitions on. -/
def sampleKeys : ZobristKeys :=
  ⟨fun p s => 0x9E3779B97F4A7C15 * (p * 64 + s + 1) % 2 ^ 64,
   fun s => 0xC2B2AE3D27D4EB4F * (s + 1) % 2 ^ 64,
   fun c => 0x165667B19E3779F9 * (c + 1) % 2 ^ 64,
   0x27D4EB2F165667C5⟩

/-- A position object before `Reset`. -/
def blankPosition : Position :=
  ⟨⟨fun _ => 0, fun _ => 0, 0, 0, 0, 0, 0, 0⟩, ⟨fun _ => 0, 0, 0, false⟩⟩

/-- The start position under the sample keys. -/
def sampleStart : PositionState := (Reset sampleKeys blankPosition).state_

/-- The value `stoi` accumulates over a run of digits. -/
def digitsValue (a : Nat) (ds : List Char) : Nat :=
  ds.foldl (fun a c => 10 * a + (c.toNat - 48)) a

/-- The bitboards hold, on the squares below `n`, exactly the pieces `PieceOn`
finds in the state `p`, and nothing else. -/
def Placed (p : PositionState) (bb : Nat → Nat) (n : Nat) : Prop :=
  ∀ q j, (bb q).testBit j = true ↔ (j < n ∧ PieceOn p j = q ∧ q ≠ kNoPiece)

/-! ## Board facts used by the invariants -/

/-- `ClearBit(piece_bitboards[piece], square)` on the array. -/
def ClearSquare (bb : Nat → Nat) (piece square : Nat) : Nat → Nat :=
  setAt bb piece (ClearBit (bb piece) square)

/-- `SetBit(piece_bitboards[piece], square)` on the array. -/
def SetSquare (bb : Nat → Nat) (piece square : Nat) : Nat → Nat :=
  setAt bb piece (SetBit (bb piece) square)

/-- The cells of the bitboard array that `MakeMove` can touch (the twelve
pieces and the cell `kNoPiece`) hold 64-bit words. -/
def Bounded (bb : Nat → Nat) : Prop := ∀ x, x < 14 → bb x < 2 ^ 64

/-- No square is on two of the twelve piece bitboards. -/
def NoOverlap (bb : Nat → Nat) : Prop :=
  ∀ p q i, p < 12 → q < 12 → (bb p).testBit i = true → (bb q).testBit i = true → p = q

/-- The union of the six white piece bitboards. -/
def WhiteUnion (bb : Nat → Nat) : Nat := bb 0 ||| bb 1 ||| bb 2 ||| bb 3 ||| bb 4 ||| bb 5

/-- The union of the six black piece bitboards. -/
def BlackUnion (bb : Nat → Nat) : Nat := bb 6 ||| bb 7 ||| bb 8 ||| bb 9 ||| bb 10 ||| bb 11

/-- The three occupancy words agree with the piece bitboards. -/
def OccupanciesAgree (s : PositionState) : Prop :=
  s.piece_occupancy kWhite = WhiteUnion s.piece_bitboards ∧
  s.piece_occupancy kBlack = BlackUnion s.piece_bitboards ∧
  s.piece_occupancy kBothColors = WhiteUnion s.piece_bitboards ||| BlackUnion s.piece_bitboards

namespace precomputed_data

/-- The ray from `sq` runs `n` steps: the loop condition holds on the first
`n` squares of the walk and the squares strictly between `sq` and the `n`-th
one are empty. -/
def RayReaches (cond : Nat → Bool) (step : Nat → Nat) (occupancy sq n : Nat) : Prop :=
  (∀ i, i < n → cond (step^[i] sq) = true) ∧
  (∀ i, 1 ≤ i → i < n → GetBit occupancy (step^[i] sq) = false)

/-- The walk of `n` steps along one ray can be walked back along the opposite
ray: the squares are the same and the loop condition of the opposite ray holds
on the way. -/
def rayBackCheck (cond : Nat → Bool) (step : Nat → Nat) (cond' : Nat → Bool) (step' : Nat → Nat)
    (sq n : Nat) : Bool :=
  if (List.range n).all (fun i => cond (step^[i] sq)) then
    decide (step^[n] sq < 64) &&
    (List.range (n + 1)).all (fun i => step'^[i] (step^[n] sq) == step^[n - i] sq) &&
    (List.range n).all (fun i => cond' (step'^[i] (step^[n] sq)))
  else true

end precomputed_data

namespace precomputed_data

/-- The square `x` is the `n`-th square of the walk from `sq`, for some `n` the
walk reaches. -/
def RayHit (cond : Nat → Bool) (step : Nat → Nat) (occupancy sq x : Nat) : Prop :=
  ∃ n, 1 ≤ n ∧ n ≤ 8 ∧ x = step^[n] sq ∧ RayReaches cond step occupancy sq n

end precomputed_data

/-! ## The moves the generator produces -/

/-- The attack set the knight, bishop, rook, queen and king generators read. -/
def PieceAttacks (pt sq occupancy : Nat) : Nat :=
  if pt = kKnight then precomputed_data.knight_attacks sq
  else if pt = kBishop then precomputed_data.GetBishopAttacks sq occupancy
  else if pt = kRook then precomputed_data.GetRookAttacks sq occupancy
  else if pt = kQueen then precomputed_data.GetQueenAttacks sq occupancy
  else precomputed_data.king_attacks sq

/-- The square `target` is on the board, `steps` pawn pushes of `side` from
`source`. -/
def PawnStep (side source steps target : Nat) : Prop :=
  target < 64 ∧ (if side = kWhite then target + 8 * steps = source else target = source + 8 * steps)

/-- The rank a pawn of `side` promotes on. -/
def PromotionRank (side : Nat) : Nat := if side = kWhite then 7 else 0

/-- The rank a pawn of `side` starts on. -/
def StartingRank (side : Nat) : Nat := if side = kWhite then 1 else 6

/-- The castling moves `GenerateKingMoves` tries for a side: the right, the
squares that must be empty, the squares that must not be attacked, the source
and the target. -/
def CastleOptions (side : Nat) : List (Nat × List Nat × List Nat × Nat × Nat) :=
  if side = kWhite then
    [(kWhiteKingSide, [61, 62], [60, 61], 60, 62), (kWhiteQueenSide, [59, 58, 57], [60, 59], 60, 58)]
  else
    [(kBlackKingSide, [5, 6], [4, 5], 4, 6), (kBlackQueenSide, [3, 2, 1], [4, 3], 4, 2)]

/-- The moves of `GenerateMoves`, branch by branch. -/
inductive Generated (s : PositionState) : Nat → Prop where
  | push (source target : Nat) :
      source < 64 →
      (s.piece_bitboards (GetPiece kPawn s.side_to_move)).testBit source = true →
      PawnStep s.side_to_move source 1 target →
      GetBit (s.piece_occupancy kBothColors) target = false →
      GetRank target ≠ PromotionRank s.side_to_move →
      Generated s (move.CreateMove source target (GetPiece kPawn s.side_to_move) kNoPiece
        false false false false)
  | pushPromotion (source target pt : Nat) :
      source < 64 →
      (s.piece_bitboards (GetPiece kPawn s.side_to_move)).testBit source = true →
      PawnStep s.side_to_move source 1 target →
      GetBit (s.piece_occupancy kBothColors) target = false →
      GetRank target = PromotionRank s.side_to_move →
      pt ∈ [kQueen, kRook, kBishop, kKnight] →
      Generated s (move.CreateMove source target (GetPiece kPawn s.side_to_move)
        (GetPiece pt s.side_to_move) false false false false)
  | doublePush (source middle target : Nat) :
      source < 64 →
      (s.piece_bitboards (GetPiece kPawn s.side_to_move)).testBit source = true →
      PawnStep s.side_to_move source 1 middle →
      GetBit (s.piece_occupancy kBothColors) middle = false →
      GetRank middle ≠ PromotionRank s.side_to_move →
      GetRank source = StartingRank s.side_to_move →
      PawnStep s.side_to_move source 2 target →
      GetBit (s.piece_occupancy kBothColors) target = false →
      Generated s (move.CreateMove source target (GetPiece kPawn s.side_to_move) kNoPiece
        false true false false)
  | pawnCapture (source target : Nat) :
      source < 64 → target < 64 →
      (s.piece_bitboards (GetPiece kPawn s.side_to_move)).testBit source = true →
      (precomputed_data.pawn_attacks source s.side_to_move).testBit target = true →
      GetBit (s.piece_occupancy (OppositeColor s.side_to_move)) target = true →
      GetRank target ≠ PromotionRank s.side_to_move →
      Generated s (move.CreateMove source target (GetPiece kPawn s.side_to_move) kNoPiece
        true false false false)
  | capturePromotion (source target pt : Nat) :
      source < 64 → target < 64 →
      (s.piece_bitboards (GetPiece kPawn s.side_to_move)).testBit source = true →
      (precomputed_data.pawn_attacks source s.side_to_move).testBit target = true →
      GetBit (s.piece_occupancy (OppositeColor s.side_to_move)) target = true →
      GetRank target = PromotionRank s.side_to_move →
      pt ∈ [kQueen, kRook, kBishop, kKnight] →
      Generated s (move.CreateMove source target (GetPiece kPawn s.side_to_move)
        (GetPiece pt s.side_to_move) true false false false)
  | enPassant (source target : Nat) :
      source < 64 → target < 64 →
      (s.piece_bitboards (GetPiece kPawn s.side_to_move)).testBit source = true →
      (precomputed_data.pawn_attacks source s.side_to_move).testBit target = true →
      GetBit (s.piece_occupancy (OppositeColor s.side_to_move)) target = false →
      target = s.en_passant_square →
      Generated s (move.CreateMove source target (GetPiece kPawn s.side_to_move) kNoPiece
        true false true false)
  | piece (pt source target : Nat) :
      1 ≤ pt → pt ≤ 5 → source < 64 → target < 64 →
      (s.piece_bitboards (GetPiece pt s.side_to_move)).testBit source = true →
      (PieceAttacks pt source (s.piece_occupancy kBothColors)).testBit target = true →
      (s.piece_occupancy s.side_to_move).testBit target = false →
      Generated s (move.CreateMove source target (GetPiece pt s.side_to_move) kNoPiece
        (GetBit (s.piece_occupancy (OppositeColor s.side_to_move)) target) false false false)
  | castle (right : Nat) (empty safe : List Nat) (source target : Nat) :
      (right, empty, safe, source, target) ∈ CastleOptions s.side_to_move →
      s.castling_rights &&& right ≠ 0 →
      (∀ sq, sq ∈ empty → GetBit (s.piece_occupancy kBothColors) sq = false) →
      (∀ sq, sq ∈ safe → IsSquareAttacked s sq (OppositeColor s.side_to_move) = false) →
      Generated s (move.CreateMove source target (GetPiece kKing s.side_to_move) kNoPiece
        false false false true)

/-- The piece bitboards `MakeMove` leaves: the piece moved, the captured piece
removed from the target, the pawn replaced by the promoted piece, the pawn
taken en passant removed and the rook of a castling move moved. -/
def MovedBoards (bb : Nat → Nat) (captured source target piece promoted : Nat)
    (capture en_passant castle : Bool) : Nat → Nat :=
  let b := SetSquare (ClearSquare bb piece source) piece target
  let b := if capture then ClearSquare b captured target else b
  let b := if promoted ≠ kNoPiece then SetSquare (ClearSquare b piece target) promoted target
    else b
  let b := if en_passant then
      ClearSquare b (GetPiece kPawn (OppositeColor (GetPieceColor piece)))
        (if GetPieceColor piece = kWhite then target + 8 else target - 8)
    else b
  let rook_source := if target = 62 then 63 else if target = 58 then 56
    else if target = 6 then 7 else if target = 2 then 0 else kNoSquare
  let rook_target := if target = 62 then 61 else if target = 58 then 59
    else if target = 6 then 5 else if target = 2 then 3 else kNoSquare
  let rook := GetPiece kRook (GetPieceColor piece)
  if castle then SetSquare (ClearSquare b rook rook_source) rook rook_target else b

/-- The invariant of the positions of a game: the side to move is a colour, the
bitboards are 64-bit words, no square holds two pieces, the occupancies agree
with the bitboards, the en-passant square is empty, each colour has one king,
the king of the side that is not to move is not attacked, and a castling right
has its king on the home square. -/
structure Consistent (s : PositionState) : Prop where
  side : s.side_to_move < 2
  bounded : Bounded s.piece_bitboards
  disjoint : NoOverlap s.piece_bitboards
  occupancy : OccupanciesAgree s
  en_passant : s.en_passant_square < 64 →
    (s.piece_occupancy kBothColors).testBit s.en_passant_square = false
  kings : ∀ c, c < 2 → ∃ k, k < 64 ∧ s.piece_bitboards (GetPiece kKing c) = 2 ^ k
  safe : IsSquareAttacked s
    (GetLSBIndex (s.piece_bitboards (GetPiece kKing (OppositeColor s.side_to_move))))
    s.side_to_move = false
  castle_white : s.castling_rights.testBit 0 = true ∨ s.castling_rights.testBit 1 = true →
    (s.piece_bitboards (GetPiece kKing kWhite)).testBit 60 = true
  castle_black : s.castling_rights.testBit 2 = true ∨ s.castling_rights.testBit 3 = true →
    (s.piece_bitboards (GetPiece kKing kBlack)).testBit 4 = true

/-- What the invariant proofs use of a generated move that is not a castling
move: a piece of the side to move stands on the source, no piece of that side
on the target; a promotion is a pawn move to a knight, bishop, rook or queen of
that side; a move without the capture flag goes to an empty square; a capture
other than en passant goes to a square an opposing piece holds and the mover
attacks; an en-passant capture goes to an empty square; a double push passes
over an empty square. -/
structure PlainMove (s : PositionState) (source target pt promoted : Nat)
    (capture double_push en_passant : Bool) : Prop where
  source_lt : source < 64
  target_lt : target < 64
  pt_lt : pt < 6
  holds : (s.piece_bitboards (GetPiece pt s.side_to_move)).testBit source = true
  own_free : ∀ x, x < 6 → (s.piece_bitboards (GetPiece x s.side_to_move)).testBit target = false
  promoted_ok : promoted = kNoPiece ∨
    (pt = kPawn ∧ en_passant = false ∧ double_push = false ∧
      ∃ rt, 1 ≤ rt ∧ rt ≤ 4 ∧ promoted = GetPiece rt s.side_to_move)
  quiet : capture = false → ∀ x, x < 12 → (s.piece_bitboards x).testBit target = false
  taken : capture = true → en_passant = false →
    (∃ x, x < 6 ∧
      (s.piece_bitboards (GetPiece x (OppositeColor s.side_to_move))).testBit target = true) ∧
    IsSquareAttacked s target s.side_to_move = true
  passing : en_passant = true →
    capture = true ∧ pt = kPawn ∧ (∀ x, x < 12 → (s.piece_bitboards x).testBit target = false) ∧
    (s.side_to_move ≠ kWhite → 8 ≤ target)
  double : double_push = true →
    capture = false ∧
    (if s.side_to_move = kWhite then target + 8 else target - 8) ≠ target ∧
    ∀ x, x < 12 → (s.piece_bitboards x).testBit
      (if s.side_to_move = kWhite then target + 8 else target - 8) = false

/-- What the invariant proofs use of a generated castling move: the king of
the side to move stands on the source, the king's and the rook's target squares
are empty, and the source clears the castling rights of that side. -/
structure CastlingMove (s : PositionState) (source target rook_source rook_target : Nat) :
    Prop where
  holds : (s.piece_bitboards (GetPiece kKing s.side_to_move)).testBit source = true
  source_lt : source < 64
  target_lt : target < 64
  rook_target_lt : rook_target < 64
  apart : target ≠ rook_target
  free_target : ∀ x, x < 12 → (s.piece_bitboards x).testBit target = false
  free_rook_target : ∀ x, x < 12 → (s.piece_bitboards x).testBit rook_target = false
  rook_source_eq : (if target = 62 then 63 else if target = 58 then 56
    else if target = 6 then 7 else if target = 2 then 0 else kNoSquare) = rook_source
  rook_target_eq : (if target = 62 then 61 else if target = 58 then 59
    else if target = 6 then 5 else if target = 2 then 3 else kNoSquare) = rook_target
  cleared_white : s.side_to_move = kWhite →
    (kCastlingUpdates source).testBit 0 = false ∧ (kCastlingUpdates source).testBit 1 = false
  cleared_black : s.side_to_move = kBlack →
    (kCastlingUpdates source).testBit 2 = false ∧ (kCastlingUpdates source).testBit 3 = false

/-- The test of `IsSquareAttacked` with the slider attacks walked along the
rays instead of read from the magic tables. -/
def RayAttacked (s : PositionState) (square side : Nat) : Bool :=
  let occupancy := s.piece_occupancy kBothColors
  decide (precomputed_data.pawn_attacks square (OppositeColor side) &&&
      s.piece_bitboards (GetPiece kPawn side) ≠ 0) ||
  decide (precomputed_data.knight_attacks square &&&
      s.piece_bitboards (GetPiece kKnight side) ≠ 0) ||
  decide (precomputed_data.GenerateBishopAttacks square occupancy &&&
      s.piece_bitboards (GetPiece kBishop side) ≠ 0) ||
  decide (precomputed_data.GenerateRookAttacks square occupancy &&&
      s.piece_bitboards (GetPiece kRook side) ≠ 0) ||
  decide ((precomputed_data.GenerateBishopAttacks square occupancy |||
      precomputed_data.GenerateRookAttacks square occupancy) &&&
      s.piece_bitboards (GetPiece kQueen side) ≠ 0) ||
  decide (precomputed_data.king_attacks square &&&
      s.piece_bitboards (GetPiece kKing side) ≠ 0)

/-- The key `MakeMove` leaves: the updates of `state_.key`, in the order of
the source. -/
def MovedKey (zk : ZobristKeys) (key captured source target piece promoted : Nat)
    (capture double_push en_passant castle : Bool) (old_en_passant old_rights : Nat) : Nat :=
  let key := key ^^^ zk.piece_keys piece source
  let key := key ^^^ zk.piece_keys piece target
  let key := if capture then key ^^^ zk.piece_keys captured target else key
  let key := if promoted ≠ kNoPiece then
      key ^^^ zk.piece_keys piece target ^^^ zk.piece_keys promoted target
    else key
  let en_passant_target := if GetPieceColor piece = kWhite then target + 8 else target - 8
  let ep_pawn := GetPiece kPawn (OppositeColor (GetPieceColor piece))
  let key := if en_passant then key ^^^ zk.piece_keys ep_pawn en_passant_target else key
  let key := if old_en_passant ≠ kNoSquare then key ^^^ zk.en_passant_keys old_en_passant
    else key
  let en_passant_square :=
    if double_push then (if GetPieceColor piece = kWhite then target + 8 else target - 8)
    else kNoSquare
  let key := if double_push then key ^^^ zk.en_passant_keys en_passant_square else key
  let rook_source := if target = 62 then 63 else if target = 58 then 56
    else if target = 6 then 7 else if target = 2 then 0 else kNoSquare
  let rook_target := if target = 62 then 61 else if target = 58 then 59
    else if target = 6 then 5 else if target = 2 then 3 else kNoSquare
  let rook := GetPiece kRook (GetPieceColor piece)
  let key := if castle then
      key ^^^ zk.piece_keys rook rook_source ^^^ zk.piece_keys rook rook_target
    else key
  let key := key ^^^ zk.castling_keys old_rights
  let key := key ^^^ zk.castling_keys
    (old_rights &&& kCastlingUpdates source &&& kCastlingUpdates target)
  key ^^^ zk.side_key

/-- Two states with the same boards, side to move, en-passant square and
castling rights. -/
def BoardsAgree (s t : PositionState) : Prop :=
  s.piece_bitboards = t.piece_bitboards ∧ s.piece_occupancy = t.piece_occupancy ∧
  s.side_to_move = t.side_to_move ∧ s.en_passant_square = t.en_passant_square ∧
  s.castling_rights = t.castling_rights

/-- The state after `MakeMove(m, false)` for each move of a line in turn. -/
def Play (zk : ZobristKeys) (s : PositionState) (line : List Nat) : PositionState :=
  line.foldl (fun st m => (MakeMove zk st m false).2) s

/-- The double push e2e4. -/
def e2e4 : Nat := move.CreateMove 52 36 0 kNoPiece false true false false

/-- The push a7a6. -/
def a7a6 : Nat := move.CreateMove 8 16 6 kNoPiece false false false false

/-- The push e4e5. -/
def e4e5 : Nat := move.CreateMove 36 28 0 kNoPiece false false false false

/-- The double push d7d5. -/
def d7d5 : Nat := move.CreateMove 11 27 6 kNoPiece false true false false

/-- The en-passant capture e5xd6. -/
def e5d6 : Nat := move.CreateMove 28 19 0 kNoPiece true false true false

/-- The line 1. e4 a6 2. e5 d5 3. exd6 e.p. -/
def enPassantLine : List Nat := [e2e4, a7a6, e4e5, d7d5, e5d6]

/-- The start position after 1. e4, under the sample keys. -/
def sampleAfter1 : PositionState := ApplyMove sampleKeys sampleStart e2e4

/-- The start position after 1. e4 a6, under the sample keys. -/
def sampleAfter2 : PositionState := ApplyMove sampleKeys sampleAfter1 a7a6

/-- The start position after 1. e4 a6 2. e5, under the sample keys. -/
def sampleAfter3 : PositionState := ApplyMove sampleKeys sampleAfter2 e4e5

/-- The start position after 1. e4 a6 2. e5 d5, under the sample keys. -/
def sampleAfter4 : PositionState := ApplyMove sampleKeys sampleAfter3 d7d5

/-- The start position after 1. e4 a6 2. e5 d5 3. exd6, under the sample keys. -/
def sampleAfter5 : PositionState := ApplyMove sampleKeys sampleAfter4 e5d6

/-! ## The piece loops of the generator -/

/-- The moves one piece loop of `GenerateMoves` appends for the piece type
`pt`: the knight, bishop, rook or queen loop, or the loop over the king's
attack set that opens `GenerateKingMoves`. -/
def PieceMoves (s : PositionState) (pt : Nat) : List Nat :=
  if pt = kKnight then GenerateKnightMoves s
  else if pt = kBishop then GenerateBishopMoves s
  else if pt = kRook then GenerateRookMoves s
  else if pt = kQueen then GenerateQueenMoves s
  else
    TargetMoves s (GetPiece kKing s.side_to_move)
      (GetLSBIndex (s.piece_bitboards (GetPiece kKing s.side_to_move)))
      (precomputed_data.king_attacks
          (GetLSBIndex (s.piece_bitboards (GetPiece kKing s.side_to_move))) &&&
        Complement (s.piece_occupancy s.side_to_move))

/-- The castling moves `GenerateKingMoves` appends after the king's steps. -/
def CastlingMoves (s : PositionState) : List Nat :=
  if s.side_to_move = kWhite then
    CastleMove s kWhiteKingSide [61, 62] [60, 61] 60 62 ++
    CastleMove s kWhiteQueenSide [59, 58, 57] [60, 59] 60 58
  else
    CastleMove s kBlackKingSide [5, 6] [4, 5] 4 6 ++
    CastleMove s kBlackQueenSide [3, 2, 1] [4, 3] 4 2

/-! ## utils.hpp : search constants -/

def kEndgamePieceCount : Int := 6
def kMaxSearchDepth : Int := 128
def kNumKillerMoves : Nat := 2
def kRepetitionTableSize : Nat := 228
def kCheckupFrequency : Nat := 2048
def kNullMoveReductionAmount : Int := 2
def kMinimumFullDepthSearches : Int := 2
def kLmrFullDepthMoves : Int := 1
def kLmrReductionLimit : Int := 3
def kLmrReductionAmount : Int := 1
def kAspirationWindow : Int := 50
def kUnknownScore : Int := 100000
def kInfinity : Int := 50000
def kCheckmateScore : Int := -49000
def kCheckmateWindow : Int := -48000
def kDrawScore : Int := 0

/-- Store `v` in cell `i` of an array of any index and cell type. -/
def Assign {α β : Type} [DecidableEq α] (f : α → β) (i : α) (v : β) : α → β :=
  fun j => if j = i then v else f j

/-! ## move_gen.cpp : PerftHelper -/

/-- `PerftHelper(pos, depth)` for a depth that is not negative; `nodes` is a
64-bit counter. -/
def PerftHelper (zk : ZobristKeys) : Nat → PositionState → Nat
  | 0, _ => 1
  | depth + 1, s =>
    (GenerateMoves s).foldl (fun nodes mv =>
      if (MakeMove zk s mv false).1 = false then nodes
      else (nodes + PerftHelper zk depth (MakeMove zk s mv false).2) % 2 ^ 64) 0

/-! ## repetition_table.hpp -/

/-- `RepetitionTable::Add(key)`. -/
def RepetitionTable.Add (r : RepetitionTable) (key : Nat) : RepetitionTable :=
  let table := setAt r.table r.head key
  let head := (r.head + 1) % kRepetitionTableSize
  let tail := if r.full then (r.tail + 1) % kRepetitionTableSize else r.tail
  { table := table, head := head, tail := tail, full := decide (head = tail) }

/-- `RepetitionTable::IsEmpty()`. -/
def RepetitionTable.IsEmpty (r : RepetitionTable) : Bool := !r.full && decide (r.head = r.tail)

/-- `RepetitionTable::RemoveLast()`. -/
def RepetitionTable.RemoveLast (r : RepetitionTable) : RepetitionTable :=
  if r.IsEmpty then r
  else { r with head := (r.head + kRepetitionTableSize - 1) % kRepetitionTableSize, full := false }

/-- `RepetitionTable::Get(index)`. -/
def RepetitionTable.Get (r : RepetitionTable) (index : Nat) : Nat :=
  r.table ((r.tail + index) % kRepetitionTableSize)

/-- `RepetitionTable::size()`. -/
def RepetitionTable.size (r : RepetitionTable) : Nat :=
  if r.full then kRepetitionTableSize
  else (r.head + kRepetitionTableSize - r.tail) % kRepetitionTableSize

/-- `RepetitionTable::HasRepetition(key)`: the loop returns at the first
match. -/
def RepetitionTable.HasRepetition (r : RepetitionTable) (key : Nat) : Bool :=
  (List.range (min r.size 100)).any (fun i => r.Get (r.size - i - 1) == key)

/-- `RepetitionTable::CountRepetitions(key)`. -/
def RepetitionTable.CountRepetitions (r : RepetitionTable) (key : Nat) : Nat :=
  ((List.range (min r.size 100)).filter (fun i => r.Get (r.size - i - 1) == key)).length

/-! ## transposition_table.hpp -/

def kExactHashFlag : Nat := 0
def kAlphaHashFlag : Nat := 1
def kBetaHashFlag : Nat := 2
def kNoHashFlag : Nat := 3

/-- `struct TTEntry`. -/
structure TTEntry where
  key : Nat
  depth : Int
  flags : Nat
  score : Int
  bestMove : Nat

/-- A `TTEntry` with its default member initialisers. -/
def TTEntry.empty : TTEntry := ⟨0, -1, kNoHashFlag, kUnknownScore, 0⟩

/-- `class TranspositionTable`; `table_` is a function of the slot index. -/
structure TranspositionTable where
  size_ : Nat
  max_entries_ : Nat
  num_entries_ : Nat
  table_ : Nat → TTEntry

/-- `TranspositionTable::Store(key, depth, flags, score, bestMove)`. -/
def TranspositionTable.Store (t : TranspositionTable) (key : Nat) (depth : Int) (flags : Nat)
    (score : Int) (bestMove : Nat) : TranspositionTable :=
  let index := key % t.max_entries_
  { t with
    num_entries_ :=
      if (t.table_ index).depth = -1 then (t.num_entries_ + 1) % 2 ^ 64 else t.num_entries_
    table_ := Assign t.table_ index ⟨key, depth, flags, score, bestMove⟩ }

/-- `TranspositionTable::Get(key)`. -/
def TranspositionTable.Get (t : TranspositionTable) (key : Nat) : TTEntry :=
  t.table_ (key % t.max_entries_)

/-! ## search.hpp -/

/-- `struct PvLine`; `moves` is a function of the index. -/
structure PvLine where
  moves : Int → Nat
  count : Int

/-- A `PvLine` with its default member initialisers. -/
def PvLine.empty : PvLine := ⟨fun _ => 0, 0⟩

/-- The data members of `class SearchEngine`, the arrays as functions of
their indices.  The member `external_stop_` refers to a flag another thread
sets; `checkups` counts the calls of `ShouldStop` so far and selects what the
call reads from the `Environment`. -/
structure SearchEngine where
  nodes : Nat
  ply : Int
  score : Int
  killer_moves_ : Int → Nat → Nat
  history_moves_ : Nat → Nat → Int
  tt_move_ : Nat
  pv_line_ : PvLine
  search_depth_ : Int
  current_depth_ : Int
  max_nodes_ : Nat
  start_time_ : Nat
  end_time_ : Nat
  white_time_ : Int
  black_time_ : Int
  white_inc_ : Int
  black_inc_ : Int
  moves_to_go_ : Int
  engine_decides_search_params_ : Bool
  stop_search_ : Bool
  checkups : Nat

/-- What the search takes from outside search.cpp: the value of the external
stop flag and of `GetTime()` at each call of `ShouldStop`, the permutation
`std::sort` leaves the scored moves in (the order of equal scores is not
specified), and `Evaluate` of evaluator.cpp, which takes the position by
`const` reference and reads its `state_`. -/
structure Environment where
  external_stop_ : Nat → Bool
  GetTime : Nat → Nat
  sort : List (Int × Nat) → List (Int × Nat)
  Evaluate : PositionState → Int

/-- The objects a search call works on: the engine, and the position with
its transposition table. -/
structure SearchState where
  engine : SearchEngine
  position : Position
  transposition_table_ : TranspositionTable

/-- The table `kMvvLvaScores[12][12]`, row by row. -/
def kMvvLvaScoresTable : List Int := [
  105, 205, 305, 405, 505, 605, 105, 205, 305, 405, 505, 605,
  104, 204, 304, 404, 504, 604, 104, 204, 304, 404, 504, 604,
  103, 203, 303, 403, 503, 603, 103, 203, 303, 403, 503, 603,
  102, 202, 302, 402, 502, 602, 102, 202, 302, 402, 502, 602,
  101, 201, 301, 401, 501, 601, 101, 201, 301, 401, 501, 601,
  100, 200, 300, 400, 500, 600, 100, 200, 300, 400, 500, 600,
  105, 205, 305, 405, 505, 605, 105, 205, 305, 405, 505, 605,
  104, 204, 304, 404, 504, 604, 104, 204, 304, 404, 504, 604,
  103, 203, 303, 403, 503, 603, 103, 203, 303, 403, 503, 603,
  102, 202, 302, 402, 502, 602, 102, 202, 302, 402, 502, 602,
  101, 201, 301, 401, 501, 601, 101, 201, 301, 401, 501, 601,
  100, 200, 300, 400, 500, 600, 100, 200, 300, 400, 500, 600]

/-- The cell `kMvvLvaScores[attacker][victim]`, read at its place in the
array's storage. -/
def kMvvLvaScores (attacker victim : Nat) : Int :=
  kMvvLvaScoresTable.getD (attacker * 12 + victim) 0

/-! ## position.cpp : GetNumNonPawnKingPieces -/

/-- `Position::GetNumNonPawnKingPieces(side)`. -/
def GetNumNonPawnKingPieces (s : PositionState) (side : Nat) : Int :=
  CountBits (s.piece_occupancy side &&&
    Complement (s.piece_bitboards (GetPiece kPawn side)) &&&
    Complement (s.piece_bitboards (GetPiece kKing side)))

/-! ## search.cpp -/

/-- `SearchEngine::ShouldStop()`. -/
def ShouldStop (env : Environment) (e : SearchEngine) : Bool :=
  if env.external_stop_ e.checkups then true
  else if e.max_nodes_ ≠ 0 ∧ e.nodes ≥ e.max_nodes_ then true
  else if e.search_depth_ ≠ -1 ∧ e.current_depth_ > e.search_depth_ then true
  else if e.end_time_ ≠ 0 ∧ env.GetTime e.checkups ≥ e.end_time_ then true
  else if e.current_depth_ > kMaxSearchDepth then true
  else false

/-- `SearchEngine::CheckStop()`. -/
def CheckStop (env : Environment) (e : SearchEngine) : SearchEngine :=
  { e with stop_search_ := ShouldStop env e, checkups := e.checkups + 1 }

/-- `SearchEngine::ScoreMove(move, position)`. -/
def ScoreMove (e : SearchEngine) (s : PositionState) (mv : Nat) : Int :=
  if mv = e.pv_line_.moves e.ply then 100000
  else if mv = e.tt_move_ then 90000
  else if move.IsCapture mv then
    let target_piece := PieceOn s (move.GetTargetSquare mv)
    let piece := PieceOn s (move.GetSourceSquare mv)
    kMvvLvaScores piece target_piece + 10000
  else if mv = e.killer_moves_ e.current_depth_ 0 then 9000 - 0
  else if mv = e.killer_moves_ e.current_depth_ 1 then 9000 - 1
  else if move.GetPromotedPiece mv ≠ kNoPiece then 8000 + move.GetPromotedPiece mv
  else e.history_moves_ (PieceOn s (move.GetSourceSquare mv)) (move.GetTargetSquare mv)

/-- `SearchEngine::SortMoves(moves, position)`. -/
def SortMoves (env : Environment) (e : SearchEngine) (s : PositionState) (moves : List Nat) :
    List Nat :=
  (env.sort (moves.map (fun mv => (ScoreMove e s mv, mv)))).map Prod.snd

/-- `SearchEngine::CanDoLMR(move, position)`. -/
def CanDoLMR (s : PositionState) (mv : Nat) : Bool :=
  if move.IsCapture mv then false
  else if move.GetPromotedPiece mv ≠ kNoPiece then false
  else if IsInCheck s then false
  else true

/-- The first statements of `Negamax` and `Quiescence`:
`if (nodes % kCheckupFrequency == 0) CheckStop(); nodes++;`. -/
def CountNode (env : Environment) (e : SearchEngine) : SearchEngine :=
  let e1 := if e.nodes % kCheckupFrequency = 0 then CheckStop env e else e
  { e1 with nodes := (e1.nodes + 1) % 2 ^ 64 }

/-- The statements before a move attempt:
`ply++; position.repetition_table_.Add(state.key);`. -/
def SearchState.Enter (S : SearchState) (state : PositionState) : SearchState :=
  { S with
    engine := { S.engine with ply := S.engine.ply + 1 }
    position := { S.position with repetition_table_ := S.position.repetition_table_.Add state.key } }

/-- The statements after a rejected move:
`ply--; position.repetition_table_.RemoveLast();`. -/
def SearchState.Skip (S : SearchState) : SearchState :=
  { S with
    engine := { S.engine with ply := S.engine.ply - 1 }
    position := { S.position with
      repetition_table_ := S.position.repetition_table_.RemoveLast } }

/-- The statements after a searched move:
`ply--; position.repetition_table_.RemoveLast(); position.SetState(state);`. -/
def SearchState.Leave (S : SearchState) (state : PositionState) : SearchState :=
  { S with
    engine := { S.engine with ply := S.engine.ply - 1 }
    position := { state_ := state, repetition_table_ := S.position.repetition_table_.RemoveLast } }

/-- `position.MakeMove(move, quiescencse)` on the position of a search state:
the returned flag and the state after the call. -/
def SearchState.MakeMove (zk : ZobristKeys) (S : SearchState) (mv : Nat) (quiescencse : Bool) :
    Bool × SearchState :=
  ((chess.MakeMove zk S.position.state_ mv quiescencse).1,
    { S with position := { S.position with
      state_ := (chess.MakeMove zk S.position.state_ mv quiescencse).2 } })

/-- `position.transposition_table_.Store(position.state_.key, depth, flags,
score, move)` on the position of a search state. -/
def SearchState.Store (S : SearchState) (depth : Int) (flags : Nat) (score : Int) (mv : Nat) :
    SearchState :=
  { S with transposition_table_ :=
      S.transposition_table_.Store S.position.state_.key depth flags score mv }

/-- The move loop of `Quiescence` from the move list left to visit; `child`
is the recursive call. -/
def QuiescenceLoop (zk : ZobristKeys)
    (child : Int → Int → SearchState → Option (Int × SearchState)) (beta : Int) :
    List Nat → Int → SearchState → Option (Int × SearchState)
  | [], alpha, S => some (alpha, S)
  | mv :: rest, alpha, S =>
    let state := S.position.state_
    let S1 := S.Enter state
    if (S1.MakeMove zk mv true).1 = false then
      QuiescenceLoop zk child beta rest alpha (S1.MakeMove zk mv true).2.Skip
    else
      match child (-beta) (-alpha) (S1.MakeMove zk mv true).2 with
      | none => none
      | some (value, S2) =>
        let score := -value
        let S3 := S2.Leave state
        if S3.engine.stop_search_ then some (alpha, S3)
        else if score ≥ beta then some (beta, S3)
        else QuiescenceLoop zk child beta rest (if score > alpha then score else alpha) S3

/-- `SearchEngine::Quiescence(alpha, beta, position)`: the score returned and
the objects after the call; `none` when the recursion is deeper than the
first argument allows. -/
def Quiescence (zk : ZobristKeys) (env : Environment) :
    Nat → Int → Int → SearchState → Option (Int × SearchState)
  | 0 => fun _ _ _ => none
  | fuel + 1 => fun alpha beta S =>
    let S1 := { S with engine := CountNode env S.engine }
    if S1.engine.ply > 0 ∧
        S1.position.repetition_table_.HasRepetition S1.position.state_.key = true then
      some (kDrawScore, S1)
    else if S1.position.state_.halfmove_clock ≥ 100 then some (kDrawScore, S1)
    else
      let evaluation := env.Evaluate S1.position.state_
      if evaluation ≥ beta then some (beta, S1)
      else
        let alpha := if evaluation > alpha then evaluation else alpha
        let moves := SortMoves env S1.engine S1.position.state_
          (GenerateMoves S1.position.state_)
        QuiescenceLoop zk (Quiescence zk env fuel) beta moves alpha S1

/-- The loop `for (i = 0; i < new_pv_line.count; i++) pv_line->moves[i + 1] =
new_pv_line.moves[i];` after `pv_line->moves[0] = move;`, and the new
count. -/
def PvLine.Extend (pv_line new_pv_line : PvLine) (mv : Nat) : PvLine :=
  { moves := fun i =>
      if i = 0 then mv
      else if 1 ≤ i ∧ i ≤ new_pv_line.count then new_pv_line.moves (i - 1)
      else pv_line.moves i
    count := new_pv_line.count + 1 }

/-- The killer-move update of `Negamax` for a move that fails high. -/
def UpdateKillers (e : SearchEngine) (mv : Nat) : SearchEngine :=
  if move.IsCapture mv = false ∧ move.GetPromotedPiece mv = kNoPiece then
    let row := e.killer_moves_ e.current_depth_
    let row := setAt row 1 (row 0)
    let row := setAt row 0 mv
    { e with killer_moves_ := Assign e.killer_moves_ e.current_depth_ row }
  else e

/-- The history update of `Negamax` for a move that raises alpha. -/
def UpdateHistory (e : SearchEngine) (s : PositionState) (mv : Nat) (depth : Int) :
    SearchEngine :=
  if move.IsCapture mv = false ∧ move.GetPromotedPiece mv = kNoPiece then
    let piece := PieceOn s (move.GetSourceSquare mv)
    let target := move.GetTargetSquare mv
    let row := Assign (e.history_moves_ piece) target
      (e.history_moves_ piece target + depth * depth)
    { e with history_moves_ := Assign e.history_moves_ piece row }
  else e

/-- The result of a `Negamax` call: the score returned, the line written
through `pv_line`, and the objects after the call. -/
abbrev NegamaxResult : Type := Int × PvLine × SearchState

/-- The search of one accepted move in the move loop of `Negamax`: the score
(already negated) with the line written through `&new_pv_line`. -/
def NegamaxChild
    (child : Int → Int → Int → PvLine → Bool → SearchState → Option NegamaxResult)
    (alpha beta depth : Int) (moves_searched : Int) (mv : Nat) (new_pv_line : PvLine)
    (S : SearchState) : Option NegamaxResult :=
  if moves_searched < kMinimumFullDepthSearches then
    match child (-beta) (-alpha) (depth - 1) new_pv_line false S with
    | none => none
    | some (value, line, S1) => some (-value, line, S1)
  else
    let reduced : Option NegamaxResult :=
      if moves_searched ≥ kLmrFullDepthMoves ∧ depth ≥ kLmrReductionLimit ∧
          CanDoLMR S.position.state_ mv = true then
        match child (-alpha - 1) (-alpha) (depth - 1 - kLmrReductionAmount)
            new_pv_line false S with
        | none => none
        | some (value, line, S1) => some (-value, line, S1)
      else some (alpha + 1, new_pv_line, S)
    match reduced with
    | none => none
    | some (score, line, S1) =>
      if score > alpha then
        match child (-alpha - 1) (-alpha) (depth - 1) line false S1 with
        | none => none
        | some (value, line2, S2) =>
          if -value > alpha ∧ -value < beta then
            match child (-beta) (-alpha) (depth - 1) line2 false S2 with
            | none => none
            | some (value3, line3, S3) => some (-value3, line3, S3)
          else some (-value, line2, S2)
      else some (score, line, S1)

/-- The move loop of `Negamax` from the move list left to visit, with the
statements after the loop; `child` is the recursive call. -/
def NegamaxLoop (zk : ZobristKeys)
    (child : Int → Int → Int → PvLine → Bool → SearchState → Option NegamaxResult)
    (beta depth : Int) (in_check : Bool) :
    List Nat → Int → PvLine → PvLine → Nat → Int → Int → SearchState → Option NegamaxResult
  | [], alpha, pv_line, _, tt_flag, legal_moves, _, S =>
    if legal_moves = 0 then
      if in_check then some (kCheckmateScore + S.engine.ply, pv_line, S)
      else some (kDrawScore, pv_line, S)
    else some (alpha, pv_line, S.Store depth tt_flag alpha (pv_line.moves 0))
  | mv :: rest, alpha, pv_line, new_pv_line, tt_flag, legal_moves, moves_searched, S =>
    let state := S.position.state_
    let S1 := S.Enter state
    if (S1.MakeMove zk mv false).1 = false then
      NegamaxLoop zk child beta depth in_check rest alpha pv_line new_pv_line tt_flag
        legal_moves moves_searched (S1.MakeMove zk mv false).2.Skip
    else
      match NegamaxChild child alpha beta depth moves_searched mv new_pv_line
          (S1.MakeMove zk mv false).2 with
      | none => none
      | some (score, line, S2) =>
        let S3 := S2.Leave state
        if S3.engine.stop_search_ then some (alpha, pv_line, S3)
        else if score ≥ beta then
          some (beta, pv_line,
            SearchState.Store { S3 with engine := UpdateKillers S3.engine mv }
              depth kBetaHashFlag beta mv)
        else if score > alpha then
          NegamaxLoop zk child beta depth in_check rest score (pv_line.Extend line mv) line
            kExactHashFlag (legal_moves + 1) (moves_searched + 1)
            { S3 with engine := UpdateHistory S3.engine S3.position.state_ mv depth }
        else
          NegamaxLoop zk child beta depth in_check rest alpha pv_line line tt_flag
            (legal_moves + 1) (moves_searched + 1) S3

/-- The null move of `Negamax`: the side to move changes and the en-passant
square is cleared, with the key kept in step. -/
def NullMove (zk : ZobristKeys) (s : PositionState) : PositionState :=
  let s1 :=
    if s.en_passant_square ≠ kNoSquare then
      { s with key := s.key ^^^ zk.en_passant_keys s.en_passant_square
               en_passant_square := kNoSquare }
    else s
  { s1 with side_to_move := OppositeColor s1.side_to_move, key := s1.key ^^^ zk.side_key }

/-- `SearchEngine::Negamax(alpha, beta, depth, position, pv_line, is_null)`:
the score returned, the line written through `pv_line` and the objects after
the call; `none` when the recursion is deeper than the first argument
allows. -/
def Negamax (zk : ZobristKeys) (env : Environment) :
    Nat → Int → Int → Int → PvLine → Bool → SearchState → Option NegamaxResult
  | 0 => fun _ _ _ _ _ _ => none
  | fuel + 1 => fun alpha beta depth pv_line is_null S =>
    let S1 := { S with engine := CountNode env S.engine }
    let tt_entry := S1.transposition_table_.Get S1.position.state_.key
    let probed : Option NegamaxResult ⊕ SearchState :=
      if tt_entry.key = S1.position.state_.key ∧ tt_entry.depth ≥ depth then
        if tt_entry.flags = kAlphaHashFlag ∧ tt_entry.score ≤ alpha then
          Sum.inl (some (alpha, pv_line, S1))
        else if tt_entry.flags = kBetaHashFlag ∧ tt_entry.score ≥ beta then
          Sum.inl (some (beta, pv_line, S1))
        else Sum.inr { S1 with engine := { S1.engine with tt_move_ := tt_entry.bestMove } }
      else Sum.inr { S1 with engine := { S1.engine with tt_move_ := 0 } }
    match probed with
    | Sum.inl result => result
    | Sum.inr S2 =>
      if S2.engine.ply > 0 ∧
          S2.position.repetition_table_.HasRepetition S2.position.state_.key = true then
        some (kDrawScore, pv_line, S2)
      else if S2.position.state_.halfmove_clock ≥ 100 then some (kDrawScore, pv_line, S2)
      else
        let in_check := IsInCheck S2.position.state_
        let depth := if in_check then depth + 1 else depth
        if S2.engine.ply > kMaxSearchDepth - 1 ∨ depth ≤ 0 then
          match Quiescence zk env fuel alpha beta S2 with
          | none => none
          | some (score, S3) =>
            some (score, { pv_line with count := 0 }, S3.Store depth kExactHashFlag score 0)
        else
          let null_move_allowed :=
            decide (depth > 1 + kNullMoveReductionAmount) && !in_check && !is_null
          let null_move_allowed :=
            if null_move_allowed then
              decide (GetNumNonPawnKingPieces S2.position.state_ kBothColors >
                kEndgamePieceCount)
            else null_move_allowed
          let nulled : Option NegamaxResult ⊕ (PvLine × SearchState) :=
            if null_move_allowed then
              let state := S2.position.state_
              let S3 := S2.Enter state
              let S4 := { S3 with position := { S3.position with
                state_ := NullMove zk S3.position.state_ } }
              match Negamax zk env fuel (-beta) (-beta + 1)
                  (depth - 1 - kNullMoveReductionAmount) pv_line true S4 with
              | none => Sum.inl none
              | some (value, line, S5) =>
                let S6 := S5.Leave state
                if S6.engine.stop_search_ then Sum.inl (some (alpha, line, S6))
                else if -value ≥ beta then
                  Sum.inl (some (beta, line, S6.Store depth kBetaHashFlag beta 0))
                else Sum.inr (line, S6)
            else Sum.inr (pv_line, S2)
          match nulled with
          | Sum.inl result => result
          | Sum.inr (pv_line, S7) =>
            let moves := SortMoves env S7.engine S7.position.state_
              (GenerateMoves S7.position.state_)
            NegamaxLoop zk (Negamax zk env fuel) beta depth in_check moves alpha pv_line
              PvLine.empty kAlphaHashFlag 0 0 S7
/-- The score field `PrintSearchInfo` writes first: `info score mate N` for
a score inside a mate window, `info score cp N` otherwise.  The division of
two `int`s rounds toward zero. -/
def PrintSearchInfoScore (score : Int) : List Char :=
  if score > kCheckmateScore ∧ score < kCheckmateWindow then
    "info score mate ".toList ++ to_string (Int.tdiv (score - kCheckmateScore + 1) (-2))
  else if score > -kCheckmateWindow ∧ score < -kCheckmateScore then
    "info score mate ".toList ++
      to_string (Int.tdiv (Int.natAbs (score + kCheckmateScore - 1)) 2)
  else "info score cp ".toList ++ to_string score

/-- The state and the ply of `S` are those of `T`. -/
def Restored (T S : SearchState) : Prop :=
  S.position.state_ = T.position.state_ ∧ S.engine.ply = T.engine.ply

/-! ## Sample data for the search -/

/-- An environment to evaluate the search in: no external stop, a clock that
stands still, the moves left in the order they were generated, every position
valued 0. -/
def sampleEnvironment : Environment :=
  ⟨fun _ => false, fun _ => 0, fun l => l, fun _ => 0⟩

/-- An engine before `Search`, with no limit set. -/
def sampleEngine : SearchEngine :=
  { nodes := 0, ply := 0, score := kUnknownScore, killer_moves_ := fun _ _ => 0,
    history_moves_ := fun _ _ => 0, tt_move_ := 0, pv_line_ := PvLine.empty,
    search_depth_ := -1, current_depth_ := -1, max_nodes_ := 0, start_time_ := 0,
    end_time_ := 0, white_time_ := 0, black_time_ := 0, white_inc_ := 0, black_inc_ := 0,
    moves_to_go_ := 0, engine_decides_search_params_ := false, stop_search_ := false,
    checkups := 0 }

/-- The start position with a halfmove clock of 100, and a transposition
table whose slot for the position holds an upper bound of 0 found at depth
1. -/
def fiftySample : SearchState :=
  { engine := sampleEngine
    position := ⟨{ sampleStart with halfmove_clock := 100 }, ⟨fun _ => 0, 0, 0, false⟩⟩
    transposition_table_ := ⟨1, 1, 1, fun _ => ⟨sampleStart.key, 1, kAlphaHashFlag, 0, 0⟩⟩ }

/-! ## A bound on the captures left in a position -/

/-- A table of four slots with the second one written. -/
def sampleTable : TranspositionTable :=
  { size_ := 1, max_entries_ := 4, num_entries_ := 1
    table_ := Assign (fun _ => TTEntry.empty) 1 ⟨5, 2, kExactHashFlag, 10, 0⟩ }

/-- A call on the repetition table: `Add(key)` or `RemoveLast()`. -/
inductive RepetitionCall where
  | add (key : Nat)
  | removeLast

/-- The table after a sequence of calls. -/
def RepetitionTable.Run (r : RepetitionTable) : List RepetitionCall → RepetitionTable
  | [] => r
  | RepetitionCall.add key :: calls => (r.Add key).Run calls
  | RepetitionCall.removeLast :: calls => r.RemoveLast.Run calls

/-- The keys that were added and not removed by a sequence of calls, the most
recent first: `Add` puts a key in front, `RemoveLast` takes the front one
away. -/
def KeysHeld : List Nat → List RepetitionCall → List Nat
  | held, [] => held
  | held, RepetitionCall.add key :: calls => KeysHeld (key :: held) calls
  | held, RepetitionCall.removeLast :: calls => KeysHeld held.tail calls

/-- The ring holds the `size()` most recent keys of `held`, the most recent
one just below the head. -/
def RingHolds (r : RepetitionTable) (held : List Nat) : Prop :=
  r.head < 228 ∧ r.tail < 228 ∧ (r.full = true → r.head = r.tail) ∧
  r.size ≤ held.length ∧
  ∀ i, i < r.size → r.table ((r.head + 227 - i) % 228) = held.getD i 0

/-- `kTTEntrySize = sizeof(TTEntry)`: 24 bytes for a 64-bit key and four
32-bit members. -/
def kTTEntrySize : Int := 24

/-- `TranspositionTable::ChangeSize(size)`: every slot is a default `TTEntry`.
The product is exact while it fits an `int`; the results are converted to
`unsigned long`. -/
def TranspositionTable.ChangeSize (_t : TranspositionTable) (size : Int) : TranspositionTable :=
  { size_ := (size % 2 ^ 64).toNat
    max_entries_ := (Int.tdiv (size * 1024 * 1024) kTTEntrySize % 2 ^ 64).toNat
    num_entries_ := 0
    table_ := fun _ => TTEntry.empty }

/-- `TranspositionTable::Clear()`: `ChangeSize(size_)`, the `unsigned long`
converted to `int`. -/
def TranspositionTable.Clear (t : TranspositionTable) : TranspositionTable :=
  t.ChangeSize (if t.size_ % 2 ^ 32 < 2 ^ 31 then ((t.size_ % 2 ^ 32 : Nat) : Int)
    else ((t.size_ % 2 ^ 32 : Nat) : Int) - 2 ^ 32)

/-- `TranspositionTable::Probe(key, depth)`. -/
def TranspositionTable.Probe (t : TranspositionTable) (key : Nat) (depth : Int) : Nat :=
  let entry := t.table_ (key % t.max_entries_)
  if entry.key = key then
    if entry.depth ≥ depth then entry.flags else kNoHashFlag
  else kNoHashFlag

/-- A sequence of `Store` calls, each given by the entry it writes. -/
def TranspositionTable.StoreAll (t : TranspositionTable) (entries : List TTEntry) :
    TranspositionTable :=
  entries.foldl (fun t e => t.Store e.key e.depth e.flags e.score e.bestMove) t

/-- Three stores, two of them into the same slot of the cleared sample
table. -/
def sampleStores : List TTEntry :=
  [⟨9, 3, kBetaHashFlag, 25, 0⟩, ⟨43699, 1, kAlphaHashFlag, -7, 0⟩, ⟨10, 0, kExactHashFlag, 0, 0⟩]

/-- The square `steps` ranks ahead of `source` for a pawn of `side`: towards
the lower indices for white, towards the higher ones for black. -/
def SquareAhead (side source steps : Nat) : Nat :=
  if side = kWhite then source - 8 * steps else source + 8 * steps

/-- The square directly ahead of a pawn of `side` on `source` is on the
board. -/
def HasSquareAhead (side source : Nat) : Bool :=
  if side = kWhite then decide (8 ≤ source) else decide (source + 8 < 64)

/-! ## evaluator.cpp -/

/-- `kFileMasks[f]` of utils.hpp. -/
def kFileMasks (f : Nat) : Nat :=
  [0x0101010101010101, 0x0202020202020202, 0x0404040404040404, 0x0808080808080808,
   0x1010101010101010, 0x2020202020202020, 0x4040404040404040, 0x8080808080808080].getD f 0

/-- `kRankMasks[r]` of utils.hpp. -/
def kRankMasks (r : Nat) : Nat :=
  [0xFF00000000000000, 0x00FF000000000000, 0x0000FF0000000000, 0x000000FF00000000,
   0x00000000FF000000, 0x0000000000FF0000, 0x000000000000FF00, 0x00000000000000FF].getD r 0

namespace precomputed_data

/-- The mask `InitEvaluationMasks` stores in `isolated_pawn_masks[GetSquare(f,
r)]` for every rank `r`: the files next to `f`. -/
def IsolatedPawnMask (f : Nat) : Nat :=
  let mask := 0
  let mask := if f ≠ 0 then mask ||| kFileMasks (f - 1) else mask
  let mask := if f ≠ 7 then mask ||| kFileMasks (f + 1) else mask
  mask

/-- `isolated_pawn_masks[sq]`, the square taken as `GetSquare(f, r)`. -/
def isolated_pawn_masks (sq : Nat) : Nat := IsolatedPawnMask (GetFile sq)

/-- The mask `InitEvaluationMasks` stores in `passed_pawn_masks[GetSquare(f,
r)][c]`: the file and its neighbours without the ranks `kRank1..r` for white
and without the ranks `r..kRank8` for black. -/
def PassedPawnMask (f r c : Nat) : Nat :=
  let mask := 0
  let mask := if f ≠ 0 then mask ||| kFileMasks (f - 1) else mask
  let mask := mask ||| kFileMasks f
  let mask := if f ≠ 7 then mask ||| kFileMasks (f + 1) else mask
  if c = kWhite then
    (List.range (r + 1)).foldl (fun mask passed_rank =>
      mask &&& Complement (kRankMasks passed_rank)) mask
  else
    ((List.range (8 - r)).map (fun i => 7 - i)).foldl (fun mask passed_rank =>
      mask &&& Complement (kRankMasks passed_rank)) mask

/-- `passed_pawn_masks[sq][c]`, the square taken as `GetSquare(f, r)`. -/
def passed_pawn_masks (sq c : Nat) : Nat := PassedPawnMask (GetFile sq) (GetRank sq) c

end precomputed_data

/-- The constants of evaluator.hpp that `InitEvalTables` and `Evaluate` read:
the piece-square tables by piece type and square, the piece values by piece
type, the phase weight by piece, the passed-pawn bonus by rank, and the
structural terms.  The header is not among the sources, so the values are
parameters of the evaluation. -/
structure EvalConstants where
  kMgEvalTables : Nat → Nat → Int
  kEgEvalTables : Nat → Nat → Int
  kMgPieceValues : Nat → Int
  kEgPieceValues : Nat → Int
  kGamePhaseInc : Nat → Int
  kDoubledPawnPenalty : Int
  kIsolatedPawnPenalty : Int
  kPassedPawnBonus : Nat → Int
  kBishopMobilityBonus : Int
  kRookSemiOpenFileBonus : Int
  kRookOpenFileBonus : Int
  kQueenMobilityBonus : Int
  kKingSemiOpenFilePenalty : Int
  kKingOpenFilePenalty : Int
  kKingShieldBonus : Int
  kBishopPairBonus : Int

/-- Modelled from the spec: `MirrorSquare`, declared outside the sources at
hand; black squares are mirrored vertically when indexing the table, so the
rank bits of the square are flipped. -/
def MirrorSquare (s : Nat) : Nat := s ^^^ 56

/-- `mgEvalTables[p][s]` as `InitEvalTables` fills it. -/
def mgEvalTables (c : EvalConstants) (p s : Nat) : Int :=
  let source_square := if GetPieceColor p = kBlack then MirrorSquare s else s
  let pt := GetPieceType p
  c.kMgEvalTables pt source_square + c.kMgPieceValues pt

/-- `egEvalTables[p][s]` as `InitEvalTables` fills it. -/
def egEvalTables (c : EvalConstants) (p s : Nat) : Int :=
  let source_square := if GetPieceColor p = kBlack then MirrorSquare s else s
  let pt := GetPieceType p
  c.kEgEvalTables pt source_square + c.kEgPieceValues pt

/-- The locals `mg[2]`, `eg[2]` and `game_phase` of `Evaluate`. -/
structure EvalScores where
  mg : Nat → Int
  eg : Nat → Int
  game_phase : Int

/-- The pair `mg[color] += v; eg[color] += v;`. -/
def EvalScores.AddBoth (a : EvalScores) (color : Nat) (v : Int) : EvalScores :=
  { a with mg := Assign a.mg color (a.mg color + v), eg := Assign a.eg color (a.eg color + v) }

/-- The squares the loop `while (current_pieces)` of `Evaluate` visits, each
with the value `current_pieces` has after `ClearLSB`; the fuel bounds the
number of passes, 64 for a 64-bit word. -/
def ScanPieces : Nat → Nat → List (Nat × Nat)
  | 0, _ => []
  | fuel + 1, current_pieces =>
    if current_pieces = 0 then []
    else (GetLSBIndex current_pieces, ClearLSB current_pieces) ::
      ScanPieces fuel (ClearLSB current_pieces)

/-- The test `double_pawns > 1` of `Evaluate`, on the value `current_pieces`
has at that point. -/
def DoubledPawnTest (current_pieces square : Nat) : Bool :=
  decide (CountBits (current_pieces &&& kFileMasks (GetFile square)) > 1)

/-- The test `!(current_pieces & isolated_pawn_masks[square])` of `Evaluate`,
on the value `current_pieces` has at that point. -/
def IsolatedPawnTest (current_pieces square : Nat) : Bool :=
  decide (current_pieces &&& precomputed_data.isolated_pawn_masks square = 0)

/-- The `case kPawn` of the switch in `Evaluate`. -/
def EvaluatePawn (c : EvalConstants) (s : PositionState) (color square current_pieces : Nat)
    (a : EvalScores) : EvalScores :=
  let a := if DoubledPawnTest current_pieces square then a.AddBoth color c.kDoubledPawnPenalty
    else a
  let a := if IsolatedPawnTest current_pieces square then a.AddBoth color c.kIsolatedPawnPenalty
    else a
  let enemy_pawn := GetPiece kPawn (OppositeColor color)
  if precomputed_data.passed_pawn_masks square color &&& s.piece_bitboards enemy_pawn = 0 then
    let passed_ranks := GetRank square
    let passed_ranks := if color = kBlack then 7 - passed_ranks else passed_ranks
    a.AddBoth color (c.kPassedPawnBonus passed_ranks)
  else a

/-- The file tests shared by `case kRook` and `case kKing`: the term for no
friendly pawn on the file, then the term for no pawn at all on it. -/
def EvaluateFile (s : PositionState) (color square : Nat) (semi_open open_file : Int)
    (a : EvalScores) : EvalScores :=
  let friendly_pawns := s.piece_bitboards (GetPiece kPawn color)
  let a := if friendly_pawns &&& kFileMasks (GetFile square) = 0 then a.AddBoth color semi_open
    else a
  if (s.piece_bitboards (GetPiece kPawn kWhite) ||| s.piece_bitboards (GetPiece kPawn kBlack)) &&&
      kFileMasks (GetFile square) = 0 then a.AddBoth color open_file
  else a

/-- The body of the loop `while (current_pieces)` of `Evaluate` for the piece
`p` on `square`, with `current_pieces` already without that square. -/
def EvaluatePiece (c : EvalConstants) (s : PositionState) (p square current_pieces : Nat)
    (a : EvalScores) : EvalScores :=
  let color := GetPieceColor p
  let pt := GetPieceType p
  let a : EvalScores :=
    { mg := Assign a.mg color (a.mg color + mgEvalTables c p square)
      eg := Assign a.eg color (a.eg color + egEvalTables c p square)
      game_phase := a.game_phase + c.kGamePhaseInc p }
  if pt = kPawn then EvaluatePawn c s color square current_pieces a
  else if pt = kKnight then a
  else if pt = kBishop then
    let bishop_moves : Int := CountBits
      (precomputed_data.GetBishopAttacks square (s.piece_occupancy kBothColors) &&&
        Complement (s.piece_occupancy color))
    a.AddBoth color (bishop_moves * c.kBishopMobilityBonus)
  else if pt = kRook then
    EvaluateFile s color square c.kRookSemiOpenFileBonus c.kRookOpenFileBonus a
  else if pt = kQueen then
    let queen_moves : Int := CountBits
      (precomputed_data.GetQueenAttacks square (s.piece_occupancy kBothColors) &&&
        Complement (s.piece_occupancy color))
    a.AddBoth color (queen_moves * c.kQueenMobilityBonus)
  else
    let a := EvaluateFile s color square c.kKingSemiOpenFilePenalty c.kKingOpenFilePenalty a
    let king_shields : Int := CountBits
      (precomputed_data.king_attacks square &&& s.piece_occupancy color)
    a.AddBoth color (king_shields * c.kKingShieldBonus)

/-- The loop over the pieces of `Evaluate`: the accumulators after it. -/
def EvaluatePieces (c : EvalConstants) (s : PositionState) : EvalScores :=
  (List.range 12).foldl (fun a p =>
    (ScanPieces 64 (s.piece_bitboards p)).foldl
      (fun a x => EvaluatePiece c s p x.1 x.2 a) a) ⟨fun _ => 0, fun _ => 0, 0⟩

/-- `Evaluate(pos)`, with the sums in unbounded integers; the division of two
`int`s rounds toward zero. -/
def Evaluate (c : EvalConstants) (s : PositionState) : Int :=
  let a := EvaluatePieces c s
  let a := if CountBits (s.piece_bitboards (GetPiece kBishop kWhite)) ≥ 2 then
    a.AddBoth kWhite c.kBishopPairBonus else a
  let a := if CountBits (s.piece_bitboards (GetPiece kBishop kBlack)) ≥ 2 then
    a.AddBoth kBlack c.kBishopPairBonus else a
  let mg_score := a.mg kWhite - a.mg kBlack
  let eg_score := a.eg kWhite - a.eg kBlack
  let mg_phase := min a.game_phase 24
  let eg_phase := 24 - mg_phase
  let score := Int.tdiv (mg_score * mg_phase + eg_score * eg_phase) 24
  if s.side_to_move = kBlack then -score else score

/-- The bitboard flipped vertically: the square `i` goes to `i ^ 56`. -/
def MirrorBitboard (b : Nat) : Nat :=
  (List.range 64).foldl (fun m i => if b.testBit i then m ||| (1 <<< (i ^^^ 56)) else m) 0

/-- The mirror of a position: the board flipped vertically, the colours of
all pieces swapped and the side to move swapped (with the castling rights and
the en-passant square carried along; `Evaluate` does not read the key). -/
def MirrorPosition (s : PositionState) : PositionState :=
  GenerateOccupancies
    { s with
      piece_bitboards := fun p =>
        if p < 6 then MirrorBitboard (s.piece_bitboards (p + 6))
        else if p < 12 then MirrorBitboard (s.piece_bitboards (p - 6))
        else s.piece_bitboards p
      side_to_move := OppositeColor s.side_to_move
      en_passant_square :=
        if s.en_passant_square < 64 then s.en_passant_square ^^^ 56 else s.en_passant_square
      castling_rights := ((s.castling_rights &&& 3) <<< 2) ||| (s.castling_rights >>> 2) }

/-- Constants to evaluate on: empty piece-square tables, the usual piece
values and phase weights, and structural terms that do not depend on the
colour. -/
def sampleConstants : EvalConstants :=
  { kMgEvalTables := fun _ _ => 0
    kEgEvalTables := fun _ _ => 0
    kMgPieceValues := fun pt => [82, 337, 365, 477, 1025, 0].getD pt 0
    kEgPieceValues := fun pt => [94, 281, 297, 512, 936, 0].getD pt 0
    kGamePhaseInc := fun p => [0, 1, 1, 2, 4, 0, 0, 1, 1, 2, 4, 0].getD p 0
    kDoubledPawnPenalty := -10
    kIsolatedPawnPenalty := -10
    kPassedPawnBonus := fun r => [0, 10, 30, 50, 75, 100, 150, 200].getD r 0
    kBishopMobilityBonus := 5
    kRookSemiOpenFileBonus := 10
    kRookOpenFileBonus := 15
    kQueenMobilityBonus := 1
    kKingSemiOpenFilePenalty := -10
    kKingOpenFilePenalty := -15
    kKingShieldBonus := 5
    kBishopPairBonus := 30 }

/-- A position given by its piece bitboards and the side to move, with no
castling right and no en-passant square, and with its key under the sample
keys. -/
def boardSample (bb : Nat → Nat) (side : Nat) : PositionState :=
  let s := GenerateOccupancies
    { piece_bitboards := bb, piece_occupancy := fun _ => 0, side_to_move := side,
      en_passant_square := kNoSquare, castling_rights := 0, key := 0, halfmove_clock := 0,
      ply := 0 }
  { s with key := GenerateKey sampleKeys s }

/-- White king e1, black king e8, white pawns b7, a6 and c5; white to move
(`4k3/1P6/P7/2P5/8/8/8/4K3 w - - 0 1`). -/
def chainSample : PositionState :=
  boardSample (fun p => if p = 0 then 2 ^ 9 + 2 ^ 16 + 2 ^ 26 else if p = 5 then 2 ^ 60
    else if p = 11 then 2 ^ 4 else 0) kWhite

/-- White king e1, black king e8, white pawns a3 and a2; white to move
(`4k3/8/8/8/8/P7/P7/4K3 w - - 0 1`). -/
def doubledSample : PositionState :=
  boardSample (fun p => if p = 0 then 2 ^ 40 + 2 ^ 48 else if p = 5 then 2 ^ 60
    else if p = 11 then 2 ^ 4 else 0) kWhite

/-- White king e1, black king e8, white pawns a3 and b2; white to move
(`4k3/8/8/8/8/P7/1P6/4K3 w - - 0 1`). -/
def duoSample : PositionState :=
  boardSample (fun p => if p = 0 then 2 ^ 40 + 2 ^ 49 else if p = 5 then 2 ^ 60
    else if p = 11 then 2 ^ 4 else 0) kWhite

/-- The value of `null_move_allowed` at the test that guards the null-move
search of `Negamax`; `depth` is the depth after the check extension. -/
def NullMoveAllowed (s : PositionState) (depth : Int) (in_check is_null : Bool) : Bool :=
  let null_move_allowed :=
    decide (depth > 1 + kNullMoveReductionAmount) && !in_check && !is_null
  if null_move_allowed then
    decide (GetNumNonPawnKingPieces s kBothColors > kEndgamePieceCount)
  else null_move_allowed

/-- The statements of `Negamax` after the probe of the transposition table,
with the recursive calls as parameters: `child` stands for the calls of
`Negamax` (the null-move search and the searches of the move loop) and
`quiesce` for the call of `Quiescence`. -/
def NegamaxSearch (zk : ZobristKeys) (env : Environment)
    (child : Int → Int → Int → PvLine → Bool → SearchState → Option NegamaxResult)
    (quiesce : Int → Int → SearchState → Option (Int × SearchState))
    (alpha beta depth : Int) (pv_line : PvLine) (is_null : Bool) (S2 : SearchState) :
    Option NegamaxResult :=
  if S2.engine.ply > 0 ∧
      S2.position.repetition_table_.HasRepetition S2.position.state_.key = true then
    some (kDrawScore, pv_line, S2)
  else if S2.position.state_.halfmove_clock ≥ 100 then some (kDrawScore, pv_line, S2)
  else
    let in_check := IsInCheck S2.position.state_
    let depth := if in_check then depth + 1 else depth
    if S2.engine.ply > kMaxSearchDepth - 1 ∨ depth ≤ 0 then
      match quiesce alpha beta S2 with
      | none => none
      | some (score, S3) =>
        some (score, { pv_line with count := 0 }, S3.Store depth kExactHashFlag score 0)
    else
      let nulled : Option NegamaxResult ⊕ (PvLine × SearchState) :=
        if NullMoveAllowed S2.position.state_ depth in_check is_null then
          let state := S2.position.state_
          let S3 := S2.Enter state
          let S4 := { S3 with position := { S3.position with
            state_ := NullMove zk S3.position.state_ } }
          match child (-beta) (-beta + 1)
              (depth - 1 - kNullMoveReductionAmount) pv_line true S4 with
          | none => Sum.inl none
          | some (value, line, S5) =>
            let S6 := S5.Leave state
            if S6.engine.stop_search_ then Sum.inl (some (alpha, line, S6))
            else if -value ≥ beta then
              Sum.inl (some (beta, line, S6.Store depth kBetaHashFlag beta 0))
            else Sum.inr (line, S6)
        else Sum.inr (pv_line, S2)
      match nulled with
      | Sum.inl result => result
      | Sum.inr (pv_line, S7) =>
        let moves := SortMoves env S7.engine S7.position.state_
          (GenerateMoves S7.position.state_)
        NegamaxLoop zk child beta depth in_check moves alpha pv_line
          PvLine.empty kAlphaHashFlag 0 0 S7

/-- The body of `Negamax` with its recursive calls as parameters: the node
count, the probe of the transposition table, and `NegamaxSearch`. -/
def NegamaxStep (zk : ZobristKeys) (env : Environment)
    (child : Int → Int → Int → PvLine → Bool → SearchState → Option NegamaxResult)
    (quiesce : Int → Int → SearchState → Option (Int × SearchState))
    (alpha beta depth : Int) (pv_line : PvLine) (is_null : Bool) (S : SearchState) :
    Option NegamaxResult :=
  let S1 := { S with engine := CountNode env S.engine }
  let tt_entry := S1.transposition_table_.Get S1.position.state_.key
  let probed : Option NegamaxResult ⊕ SearchState :=
    if tt_entry.key = S1.position.state_.key ∧ tt_entry.depth ≥ depth then
      if tt_entry.flags = kAlphaHashFlag ∧ tt_entry.score ≤ alpha then
        Sum.inl (some (alpha, pv_line, S1))
      else if tt_entry.flags = kBetaHashFlag ∧ tt_entry.score ≥ beta then
        Sum.inl (some (beta, pv_line, S1))
      else Sum.inr { S1 with engine := { S1.engine with tt_move_ := tt_entry.bestMove } }
    else Sum.inr { S1 with engine := { S1.engine with tt_move_ := 0 } }
  match probed with
  | Sum.inl result => result
  | Sum.inr S2 => NegamaxSearch zk env child quiesce alpha beta depth pv_line is_null S2

/-- The probe of the transposition table returns from `Negamax`: the slot of
the position's key holds the key with a depth of at least `depth` and a bound
that cuts off. -/
def TableCutoff (S : SearchState) (alpha beta depth : Int) : Prop :=
  (S.transposition_table_.Get S.position.state_.key).key = S.position.state_.key ∧
  (S.transposition_table_.Get S.position.state_.key).depth ≥ depth ∧
  (((S.transposition_table_.Get S.position.state_.key).flags = kAlphaHashFlag ∧
      (S.transposition_table_.Get S.position.state_.key).score ≤ alpha) ∨
    ((S.transposition_table_.Get S.position.state_.key).flags = kBetaHashFlag ∧
      (S.transposition_table_.Get S.position.state_.key).score ≥ beta))

/-- One of the two draw tests of `Negamax` returns: a repetition below the
root, or a halfmove clock of 100. -/
def DrawReturn (S : SearchState) : Prop :=
  (S.engine.ply > 0 ∧
    S.position.repetition_table_.HasRepetition S.position.state_.key = true) ∨
  S.position.state_.halfmove_clock ≥ 100

/-- The objects `Negamax` goes on with after a probe that does not return: the
node is counted and `tt_move_` is set from the slot. -/
def Probed (env : Environment) (S : SearchState) (depth : Int) : SearchState :=
  { S with engine := { CountNode env S.engine with tt_move_ :=
      if (S.transposition_table_.Get S.position.state_.key).key = S.position.state_.key ∧
          (S.transposition_table_.Get S.position.state_.key).depth ≥ depth then
        (S.transposition_table_.Get S.position.state_.key).bestMove
      else 0 } }

/-- A position as `boardSample` builds it, with the two cells
`GetNumNonPawnKingPieces(kBothColors)` reads past the twelve piece bitboards,
`piece_bitboards[12]` and `piece_bitboards[17]`, holding what follows the
array in `PositionState`: `piece_occupancy[kWhite]` and `key`. -/
def layoutSample (bb : Nat → Nat) (side : Nat) : PositionState :=
  let s := boardSample bb side
  { s with
    piece_bitboards := fun p =>
      if p = 12 then s.piece_occupancy kWhite else if p = 17 then s.key
      else s.piece_bitboards p }

/-- A fresh engine on a position, with an empty repetition table and an empty
transposition table of one slot. -/
def searchSample (s : PositionState) : SearchState :=
  { engine := sampleEngine
    position := ⟨s, ⟨fun _ => 0, 0, 0, false⟩⟩
    transposition_table_ := ⟨1, 1, 0, fun _ => TTEntry.empty⟩ }

/-- The sample environment with the evaluation of evaluator.cpp under the
sample constants. -/
def evalEnvironment : Environment :=
  { sampleEnvironment with Evaluate := Evaluate sampleConstants }

/-- Black king h8, white king f7, white pawn g6; black to move and stalemated
(`7k/5K2/6P1/8/8/8/8/8 b - - 0 1`). -/
def staleState : PositionState :=
  boardSample (fun p => if p = 0 then 2 ^ 22 else if p = 5 then 2 ^ 13
    else if p = 11 then 2 ^ 7 else 0) kBlack

/-- Black king h8, white king f7, white pawns g7 and g6; black to move and
checkmated (`7k/5KP1/6P1/8/8/8/8/8 b - - 0 1`). -/
def mateState : PositionState :=
  boardSample (fun p => if p = 0 then 2 ^ 14 + 2 ^ 22 else if p = 5 then 2 ^ 13
    else if p = 11 then 2 ^ 7 else 0) kBlack

/-- The checkmate sample at ply 128 of a search, the repetition table holding
the 128 keys added on the way (here the keys 1 to 128). -/
def mateDeepSample : SearchState :=
  { engine := { sampleEngine with ply := 128 }
    position := ⟨mateState, ⟨fun i => i + 1, 128, 0, false⟩⟩
    transposition_table_ := ⟨1, 1, 0, fun _ => TTEntry.empty⟩ }

/-- Black king h8 and eight black pawns, each blocked by a white pawn; white
bishop f7 and pawn g6 cover g8 and h7; white queen, rooks, bishop and knights
on the second rank, white king e1; black to move and stalemated
(`7k/p1p1pBp1/P1P1P1P1/1p1p1p1p/1P1P1P1P/8/QRRBNN2/4K3 b - - 0 1`). -/
def blockedState : PositionState :=
  layoutSample (fun p =>
    if p = 0 then 2 ^ 16 + 2 ^ 18 + 2 ^ 20 + 2 ^ 22 + 2 ^ 33 + 2 ^ 35 + 2 ^ 37 + 2 ^ 39
    else if p = 1 then 2 ^ 52 + 2 ^ 53
    else if p = 2 then 2 ^ 13 + 2 ^ 51
    else if p = 3 then 2 ^ 49 + 2 ^ 50
    else if p = 4 then 2 ^ 48
    else if p = 5 then 2 ^ 60
    else if p = 6 then 2 ^ 8 + 2 ^ 10 + 2 ^ 12 + 2 ^ 14 + 2 ^ 25 + 2 ^ 27 + 2 ^ 29 + 2 ^ 31
    else if p = 11 then 2 ^ 7 else 0) kBlack

/-- The blocked stalemate in a fresh engine whose transposition table has one
slot, holding an upper bound of -100 found at depth 1 for the position with
the other side to move. -/
def blockedSample : SearchState :=
  { searchSample blockedState with
    transposition_table_ := ⟨1, 1, 1, fun _ =>
      ⟨blockedState.key ^^^ sampleKeys.side_key, 1, kAlphaHashFlag, -100, 0⟩⟩ }

/-- Every generated move leaves the own king attacked, tested along the
rays. -/
def AllMovesRejected (zk : ZobristKeys) (s : PositionState) : Bool :=
  (GenerateMoves s).all (fun m =>
    decide (GetLSBIndex ((ApplyMove zk s m).piece_bitboards
      (GetPiece kKing (GetPieceColor (move.GetPiece m)))) < 64) &&
    RayAttacked (ApplyMove zk s m)
      (GetLSBIndex ((ApplyMove zk s m).piece_bitboards
        (GetPiece kKing (GetPieceColor (move.GetPiece m)))))
      (OppositeColor (GetPieceColor (move.GetPiece m))))

/-- The indices `Position::MakeMove` uses into `state_.piece_bitboards` and
into `zobrist::piece_keys` for a move, in the order of the source: the piece
moved, the captured piece under `if (capture)`, the piece and the promoted
piece under `if (promoted_piece != kNoPiece)`, the pawn taken under
`if (en_passant)`, the rook under `if (castle)`, and the king whose square is
tested at the end. -/
def MakeMoveIndices (st : PositionState) (mv : Nat) : List Nat :=
  let target := move.GetTargetSquare mv
  let piece := move.GetPiece mv
  let promoted_piece := move.GetPromotedPiece mv
  let captured_piece := PieceOn st target
  [piece] ++
  (if move.IsCapture mv then [captured_piece] else []) ++
  (if promoted_piece ≠ kNoPiece then [piece, promoted_piece] else []) ++
  (if move.IsEnPassant mv then [GetPiece kPawn (OppositeColor (GetPieceColor piece))] else []) ++
  (if move.IsCastle mv then [GetPiece kRook (GetPieceColor piece)] else []) ++
  [GetPiece kKing (GetPieceColor piece)]

/-- The square the rook of a castling move is taken from in `MakeMove`:
`rook_source` as set by the chain of tests on the king's target. -/
def CastleRookSource (target : Nat) : Nat :=
  if target = 62 then 63 else if target = 58 then 56
  else if target = 6 then 7 else if target = 2 then 0 else kNoSquare

/-- Every set castling right has the king of its colour on e1 (white) or e8
(black) and a rook of that colour on the matching corner (h1, a1, h8, a8). -/
def CastlingBacked (s : PositionState) : Prop :=
  (s.castling_rights.testBit 0 = true →
    (s.piece_bitboards (GetPiece kKing kWhite)).testBit 60 = true ∧
    (s.piece_bitboards (GetPiece kRook kWhite)).testBit 63 = true) ∧
  (s.castling_rights.testBit 1 = true →
    (s.piece_bitboards (GetPiece kKing kWhite)).testBit 60 = true ∧
    (s.piece_bitboards (GetPiece kRook kWhite)).testBit 56 = true) ∧
  (s.castling_rights.testBit 2 = true →
    (s.piece_bitboards (GetPiece kKing kBlack)).testBit 4 = true ∧
    (s.piece_bitboards (GetPiece kRook kBlack)).testBit 7 = true) ∧
  (s.castling_rights.testBit 3 = true →
    (s.piece_bitboards (GetPiece kKing kBlack)).testBit 4 = true ∧
    (s.piece_bitboards (GetPiece kRook kBlack)).testBit 0 = true)

/-- `GetRandomNumber32()` of utils.hpp: one xorshift step on the 32-bit global
`randomState`; the value returned is the new state. -/
def GetRandomNumber32 (randomState : Nat) : Nat :=
  let s := randomState ^^^ ((randomState <<< 13) % 2 ^ 32)
  let s := s ^^^ (s >>> 17)
  s ^^^ ((s <<< 5) % 2 ^ 32)

/-- `GetRandomNumber64()`: the value returned and `randomState` after the four
draws. -/
def GetRandomNumber64 (randomState : Nat) : Nat × Nat :=
  let s1 := GetRandomNumber32 randomState
  let s2 := GetRandomNumber32 s1
  let s3 := GetRandomNumber32 s2
  let s4 := GetRandomNumber32 s3
  ((s1 &&& 0xFFFF) ||| ((s2 &&& 0xFFFF) <<< 16) ||| ((s3 &&& 0xFFFF) <<< 32) |||
    ((s4 &&& 0xFFFF) <<< 48), s4)

/-- `GenerateMagicNumberCandidate()`: three draws and-ed together, and
`randomState` after them. -/
def precomputed_data.GenerateMagicNumberCandidate (randomState : Nat) : Nat × Nat :=
  let r1 := GetRandomNumber64 randomState
  let r2 := GetRandomNumber64 r1.2
  let r3 := GetRandomNumber64 r2.2
  (r1.1 &&& r2.1 &&& r3.1, r3.2)

/-- The inner loop of `FindMagicNumber`,
`for (index = 0; index < num_occupancy_keys && valid; index++)`, with `n`
iterations left: the value of `valid` after it. -/
def precomputed_data.MagicNumberValid (occupancies attacks : Nat → Nat)
    (magic_number relevant_bits : Nat) : Nat → Nat → (Nat → Nat) → Bool
  | 0, _, _ => true
  | n + 1, index, used_attacks =>
    let magic_index := ((occupancies index * magic_number) % 2 ^ 64) >>> (64 - relevant_bits)
    if used_attacks magic_index = 0 then
      MagicNumberValid occupancies attacks magic_number relevant_bits n (index + 1)
        (setAt used_attacks magic_index (attacks index))
    else if used_attacks magic_index ≠ attacks index then false
    else MagicNumberValid occupancies attacks magic_number relevant_bits n (index + 1) used_attacks

/-- The candidate loop of `FindMagicNumber` with `n` iterations left: the
number returned (`none` where the source throws) and `randomState` after. -/
def precomputed_data.FindMagicNumberLoop (mask : Nat) (occupancies attacks : Nat → Nat)
    (relevant_bits num_occupancy_keys : Nat) : Nat → Nat → Option Nat × Nat
  | 0, randomState => (none, randomState)
  | n + 1, randomState =>
    let candidate := GenerateMagicNumberCandidate randomState
    let magic_number := candidate.1
    if CountBits (((mask * magic_number) % 2 ^ 64) &&& 0xFF00000000000000) < 6 then
      FindMagicNumberLoop mask occupancies attacks relevant_bits num_occupancy_keys n candidate.2
    else if MagicNumberValid occupancies attacks magic_number relevant_bits
        num_occupancy_keys 0 (fun _ => 0) then
      (some magic_number, candidate.2)
    else
      FindMagicNumberLoop mask occupancies attacks relevant_bits num_occupancy_keys n candidate.2

/-- The mask `FindMagicNumber` takes for a square. -/
def precomputed_data.RelevantMask (sq : Nat) (is_bishop : Bool) : Nat :=
  if is_bishop then GenerateBishopAttackMask sq else GenerateRookAttackMask sq

/-- The attack set `FindMagicNumber` computes for an occupancy. -/
def precomputed_data.BlockedAttacks (sq : Nat) (is_bishop : Bool) (occupancy : Nat) : Nat :=
  if is_bishop then GenerateBishopAttacks sq occupancy else GenerateRookAttacks sq occupancy

/-- `FindMagicNumber(sq, relevant_bits, is_bishop)` from a value of the global
`randomState`: the number returned (`none` where the source throws) and
`randomState` after the call. -/
def precomputed_data.FindMagicNumber (sq relevant_bits : Nat) (is_bishop : Bool)
    (randomState : Nat) : Option Nat × Nat :=
  let mask := RelevantMask sq is_bishop
  let num_occupancy_keys := 1 <<< relevant_bits
  let occupancies := fun index => GenerateOccupancyKey index mask
  let attacks := fun index => BlockedAttacks sq is_bishop (occupancies index)
  FindMagicNumberLoop mask occupancies attacks relevant_bits num_occupancy_keys 100000000
    randomState

/-- One of the bishop, rook and queen loops of `GenerateMoves` with the attack
set given as a function of the source square and the occupancy. -/
def SliderMoves (s : PositionState) (pt : Nat) (attacks : Nat → Nat → Nat) : List Nat :=
  (BitScan 64 (s.piece_bitboards (GetPiece pt s.side_to_move))).flatMap (fun source_square =>
    TargetMoves s (GetPiece pt s.side_to_move) source_square
      (attacks source_square (s.piece_occupancy kBothColors) &&&
        Complement (s.piece_occupancy s.side_to_move)))

/-- The moves of `GenerateMoves` with the slider attacks walked along the rays
instead of read from the magic tables. -/
def GenerateMovesRays (s : PositionState) : List Nat :=
  GeneratePawnMoves s ++ GenerateKnightMoves s ++
  SliderMoves s kBishop precomputed_data.GenerateBishopAttacks ++
  SliderMoves s kRook precomputed_data.GenerateRookAttacks ++
  SliderMoves s kQueen (fun sq occ => precomputed_data.GenerateBishopAttacks sq occ |||
    precomputed_data.GenerateRookAttacks sq occ) ++
  GenerateKingMoves s

/-- The length of the array `moves` of `class MoveList`. -/
def move.kMoveListSize : Nat := 256

/-- A FEN string with 26 white queens around the board; black king a8, white
king h1, neither attacked. -/
def crowdedFen : List Char := "kBQQQQQQ/BR5Q/Q6Q/Q6Q/Q6Q/Q6Q/Q6Q/QQQQQQQK w - - 0 1".toList

/-- The position `Set` builds from `crowdedFen`. -/
def crowdedState : PositionState := (Set sampleKeys blankPosition crowdedFen).2.state_

def kTimeBuffer : Int := 1000
def kDefaultMovesToGo : Int := 60

/-- The table `kSquareStrings`. -/
def kSquareStringsTable : List String := [
  "a8", "b8", "c8", "d8", "e8", "f8", "g8", "h8",
  "a7", "b7", "c7", "d7", "e7", "f7", "g7", "h7",
  "a6", "b6", "c6", "d6", "e6", "f6", "g6", "h6",
  "a5", "b5", "c5", "d5", "e5", "f5", "g5", "h5",
  "a4", "b4", "c4", "d4", "e4", "f4", "g4", "h4",
  "a3", "b3", "c3", "d3", "e3", "f3", "g3", "h3",
  "a2", "b2", "c2", "d2", "e2", "f2", "g2", "h2",
  "a1", "b1", "c1", "d1", "e1", "f1", "g1", "h1",
  "None"]

/-- The string `kSquareStrings[sq]`. -/
def kSquareStrings (sq : Nat) : List Char := (kSquareStringsTable.getD sq "").toList

/-- `move::ToString(move)`. -/
def move.ToString (m : Nat) : List Char :=
  let str := kSquareStrings (GetSourceSquare m) ++ kSquareStrings (GetTargetSquare m)
  let promotion_char := (PieceToChar (GetPromotedPiece m)).toLower
  if promotion_char ≠ ' ' then str ++ [promotion_char] else str

/-- The loop `for (i = 0; i < new_pv_line.count; i++) pv_line_.moves[i] =
new_pv_line.moves[i];` of `Search` and the assignment of the count that
follows it. -/
def PvLine.CopyFrom (pv_line_ new_pv_line : PvLine) : PvLine :=
  { moves := fun i =>
      if 0 ≤ i ∧ i < new_pv_line.count then new_pv_line.moves i else pv_line_.moves i
    count := new_pv_line.count }

/-- What `PrintSearchInfo` prints of the engine, without the fields that
depend on the clock and on floating-point arithmetic (`time`, `nps`,
`hashfull`): the score field, the depth, the node count and the moves of the
line. -/
structure InfoLine where
  score : List Char
  depth : Int
  nodes : Nat
  pv : List (List Char)
  deriving DecidableEq

/-- `PrintSearchInfo(&pv_line_, position)`. -/
def PrintSearchInfo (e : SearchEngine) : InfoLine :=
  { score := PrintSearchInfoScore e.score
    depth := e.current_depth_
    nodes := e.nodes
    pv := (List.range e.pv_line_.count.toNat).map (fun i => move.ToString (e.pv_line_.moves i)) }

/-- The statements of `Search` before the iterative-deepening loop: the time
to search, the reset of the search variables (the two `memset` calls clear the
cells of the arrays and nothing else) and the first `CheckStop`.  `GetTime()`
is read as the clock value of the next checkup. -/
def SearchSetup (env : Environment) (S : SearchState) : SearchState :=
  let e := S.engine
  let start_time_ := (env.GetTime e.checkups + (2 ^ 64 - 1)) % 2 ^ 64
  let time_remaining :=
    if S.position.state_.side_to_move = kWhite then e.white_time_ else e.black_time_
  let increment :=
    if S.position.state_.side_to_move = kWhite then e.white_inc_ else e.black_inc_
  let e := { e with start_time_ := start_time_ }
  let e :=
    if e.engine_decides_search_params_ then
      if time_remaining = 0 then { e with engine_decides_search_params_ := false }
      else if time_remaining < kTimeBuffer then
        { e with engine_decides_search_params_ := false, search_depth_ := 1 }
      else
        let moves_to_go_ := if e.moves_to_go_ = 0 then kDefaultMovesToGo else e.moves_to_go_
        { e with
          moves_to_go_ := moves_to_go_
          end_time_ := (((start_time_ : Int) +
            Int.tdiv (time_remaining - kTimeBuffer) moves_to_go_ + increment) % 2 ^ 64).toNat }
    else e
  let e := { e with
    killer_moves_ := fun d i =>
      if 0 ≤ d ∧ d < kMaxSearchDepth ∧ i < kNumKillerMoves then 0 else e.killer_moves_ d i
    history_moves_ := fun p t => if p < 12 ∧ t < 64 then 0 else e.history_moves_ p t
    nodes := 0
    ply := 0
    current_depth_ := 1
    score := kUnknownScore }
  { S with engine := CheckStop env e }

/-- The statements `score = temp_score;`, the copy of the line and the
assignment of its count, which `Search` executes in this or another order
where it takes over the result of an iteration. -/
def SearchEngine.Report (e : SearchEngine) (temp_score : Int) (new_pv_line : PvLine) :
    SearchEngine :=
  { e with pv_line_ := e.pv_line_.CopyFrom new_pv_line, score := temp_score }

/-- The end of an iteration that goes on: `current_depth_++; CheckStop();`. -/
def SearchEngine.Deepen (env : Environment) (e : SearchEngine) : SearchEngine :=
  CheckStop env { e with current_depth_ := e.current_depth_ + 1 }

/-- The iterative-deepening loop of `Search`, `do { ... } while (!stop_search_)`,
with at most the given number of iterations left; `negamax` is the call of
`Negamax`.  The result is the info lines printed so far, `printed_info` and
the objects after the loop; `none` when `negamax` does not return or the
iterations run out. -/
def SearchLoop (env : Environment)
    (negamax : Int → Int → Int → PvLine → Bool → SearchState → Option NegamaxResult) :
    Nat → Int → Int → List InfoLine → SearchState → Option (List InfoLine × Bool × SearchState)
  | 0, _, _, _, _ => none
  | n + 1, alpha, beta, info, S =>
    match negamax alpha beta S.engine.current_depth_ PvLine.empty false S with
    | none => none
    | some (temp_score, new_pv_line, S1) =>
      let researched : Option NegamaxResult :=
        if temp_score ≤ alpha ∨ temp_score ≥ beta then
          negamax (-kInfinity) kInfinity S1.engine.current_depth_ new_pv_line false S1
        else some (temp_score, new_pv_line, S1)
      match researched with
      | none => none
      | some (temp_score, new_pv_line, S2) =>
        if S2.engine.stop_search_ then
          if new_pv_line.moves 0 = S2.engine.pv_line_.moves 0 then
            some (info, false, { S2 with engine := S2.engine.Report temp_score new_pv_line })
          else if temp_score > S2.engine.score then
            some (info, false, { S2 with engine := S2.engine.Report temp_score new_pv_line })
          else
            some (info, false, { S2 with engine := { S2.engine with
              current_depth_ := S2.engine.current_depth_ - 1 } })
        else
          let e3 := S2.engine.Report temp_score new_pv_line
          let info := info ++ [PrintSearchInfo e3]
          if (e3.score > kCheckmateScore ∧ e3.score < kCheckmateWindow) ∨
              (e3.score > -kCheckmateWindow ∧ e3.score < -kCheckmateScore) then
            some (info, true, { S2 with engine := { e3 with stop_search_ := true } })
          else if (e3.Deepen env).stop_search_ then
            some (info, true, { S2 with engine := e3.Deepen env })
          else
            SearchLoop env negamax n (temp_score - kAspirationWindow)
              (temp_score + kAspirationWindow) info { S2 with engine := e3.Deepen env }

/-- What `Search` writes to the standard output: the info lines and the line
that starts with `bestmove`. -/
structure SearchOutput where
  info : List InfoLine
  bestmove : List Char

/-- The end of `Search` after the loop: the info line printed when the last
iteration printed none, and the `bestmove` line. -/
def SearchFinish (r : Option (List InfoLine × Bool × SearchState)) :
    Option (SearchOutput × SearchState) :=
  match r with
  | none => none
  | some (info, printed_info, S1) =>
    some (⟨if printed_info then info else info ++ [PrintSearchInfo S1.engine],
        "bestmove ".toList ++ move.ToString (S1.engine.pv_line_.moves 0)⟩, S1)

/-- `SearchEngine::Search(position)`: the output and the objects after the
call; `none` when a `Negamax` call needs a deeper recursion than the first
argument allows.  The loop ends after at most `kMaxSearchDepth` iterations,
since each one that goes on has raised `current_depth_` and `ShouldStop`
holds above `kMaxSearchDepth`. -/
def Search (zk : ZobristKeys) (env : Environment) (fuel : Nat) (S : SearchState) :
    Option (SearchOutput × SearchState) :=
  SearchFinish
    (SearchLoop env (Negamax zk env fuel) 128 (-kInfinity) kInfinity [] (SearchSetup env S))

/-- The start position with a halfmove clock of 100. -/
def fiftyFen : List Char := "rnbqkbnr/pppppppp/8/8/8/8/PPPPPPPP/RNBQKBNR w KQkq - 100 1".toList

/-- A fresh engine after `go depth 1` on the position of `fiftyFen`, with an
empty transposition table of one slot. -/
def fiftyRoot : SearchState :=
  { engine := { sampleEngine with search_depth_ := 1 }
    position := (Set sampleKeys blankPosition fiftyFen).2
    transposition_table_ := ⟨1, 1, 0, fun _ => TTEntry.empty⟩ }

/-- A fresh engine after `go infinite` on the stalemate `staleState`
(`7k/5K2/6P1/8/8/8/8/8 b - - 0 1`), with an empty transposition table of one
slot. -/
def staleRoot : SearchState := searchSample staleState

/-- The info line of an iteration at depth `d` that counted one node more and
found the draw score without a line. -/
def staleLine (d : Int) : InfoLine := ⟨PrintSearchInfoScore kDrawScore, d, d.toNat, []⟩

/-- The info lines of `k` such iterations from depth `d` on. -/
def staleLines (d : Int) : Nat → List InfoLine
  | 0 => []
  | k + 1 => staleLine d :: staleLines (d + 1) k

/-- The state of an unlimited search of the stalemate `staleState` at the head
of the iteration with `current_depth_ = d`, under the sample environment. -/
structure StaleRun (d : Int) (S : SearchState) : Prop where
  state : S.position.state_ = staleState
  table : S.transposition_table_ = ⟨1, 1, 0, fun _ => TTEntry.empty⟩
  depth : S.engine.current_depth_ = d
  nodes : (S.engine.nodes : Int) = d - 1
  running : S.engine.stop_search_ = false
  ply : S.engine.ply = 0
  max_nodes : S.engine.max_nodes_ = 0
  search_depth : S.engine.search_depth_ = -1
  end_time : S.engine.end_time_ = 0
  pv : S.engine.pv_line_.moves 0 = 0
  count : S.engine.pv_line_.count = 0

/-! # Proofs -/

/-! ## Facts about the move encoding -/

theorem or_shift_eq_add (a b k : Nat) (h : a < 2 ^ k) :
    a ||| (b <<< k) = a + b * 2 ^ k := by
  rw [Nat.shiftLeft_eq, Nat.mul_comm b, Nat.lor_comm, ← Nat.mul_add_lt_is_or h, Nat.add_comm]

theorem and_mask_eq_mod (x k : Nat) : x &&& (2 ^ k - 1) = x % 2 ^ k :=
  Nat.and_pow_two_sub_one_eq_mod x k

theorem move.CreateMove_eq_sum (source target piece promoted_piece : Nat)
    (capture double_push en_passant castle : Bool)
    (hs : source < 64) (ht : target < 64) (hp : piece < 16) (hq : promoted_piece < 16) :
    move.CreateMove source target piece promoted_piece capture double_push en_passant castle
      = source + target * 2 ^ 6 + piece * 2 ^ 12 + promoted_piece * 2 ^ 16 +
        capture.toNat * 2 ^ 20 + double_push.toNat * 2 ^ 21 +
        en_passant.toNat * 2 ^ 22 + castle.toNat * 2 ^ 23 := by
  have hc : capture.toNat < 2 := Bool.toNat_lt capture
  have hd : double_push.toNat < 2 := Bool.toNat_lt double_push
  have he : en_passant.toNat < 2 := Bool.toNat_lt en_passant
  unfold move.CreateMove
  rw [or_shift_eq_add source target 6 (by omega)]
  rw [or_shift_eq_add _ piece 12 (by omega)]
  rw [or_shift_eq_add _ promoted_piece 16 (by omega)]
  rw [or_shift_eq_add _ capture.toNat 20 (by omega)]
  rw [or_shift_eq_add _ double_push.toNat 21 (by omega)]
  rw [or_shift_eq_add _ en_passant.toNat 22 (by omega)]
  rw [or_shift_eq_add _ castle.toNat 23 (by omega)]

theorem toNat_mod_two_ne_zero (x : Nat) (b : Bool) (h : x % 2 = b.toNat) :
    ((x &&& 1) != 0) = b := by
  have h1 : x &&& 1 = x % 2 := and_mask_eq_mod x 1
  rw [h1, h]
  cases b <;> rfl

/-- The getters read back what `CreateMove` packed. -/
theorem move.CreateMove_fields (source target piece promoted_piece : Nat)
    (capture double_push en_passant castle : Bool)
    (hs : source < 64) (ht : target < 64) (hp : piece < 12)
    (hq : promoted_piece < 12 ∨ promoted_piece = kNoPiece) :
    let m := move.CreateMove source target piece promoted_piece
      capture double_push en_passant castle
    m < 2 ^ 24 ∧ move.GetSourceSquare m = source ∧ move.GetTargetSquare m = target ∧
    move.GetPiece m = piece ∧ move.GetPromotedPiece m = promoted_piece ∧
    move.IsCapture m = capture ∧ move.IsDoublePush m = double_push ∧
    move.IsEnPassant m = en_passant ∧ move.IsCastle m = castle := by
  intro m
  have hq' : promoted_piece < 16 := by
    rcases hq with h | h
    · omega
    · rw [h]; decide
  have hm : m = source + target * 2 ^ 6 + piece * 2 ^ 12 + promoted_piece * 2 ^ 16 +
        capture.toNat * 2 ^ 20 + double_push.toNat * 2 ^ 21 +
        en_passant.toNat * 2 ^ 22 + castle.toNat * 2 ^ 23 :=
    move.CreateMove_eq_sum _ _ _ _ _ _ _ _ hs ht (by omega) hq'
  have hc : capture.toNat < 2 := Bool.toNat_lt capture
  have hd : double_push.toNat < 2 := Bool.toNat_lt double_push
  have he : en_passant.toNat < 2 := Bool.toNat_lt en_passant
  have hk : castle.toNat < 2 := Bool.toNat_lt castle
  have e63 : (0x3F : Nat) = 2 ^ 6 - 1 := by norm_num
  have e15 : (0xF : Nat) = 2 ^ 4 - 1 := by norm_num
  refine ⟨by omega, ?_, ?_, ?_, ?_, ?_, ?_, ?_, ?_⟩
  · unfold move.GetSourceSquare
    rw [e63, and_mask_eq_mod]; omega
  · unfold move.GetTargetSquare
    rw [e63, and_mask_eq_mod, Nat.shiftRight_eq_div_pow]; omega
  · unfold move.GetPiece
    rw [e15, and_mask_eq_mod, Nat.shiftRight_eq_div_pow]; omega
  · unfold move.GetPromotedPiece
    rw [e15, and_mask_eq_mod, Nat.shiftRight_eq_div_pow]; omega
  · unfold move.IsCapture
    apply toNat_mod_two_ne_zero
    rw [Nat.shiftRight_eq_div_pow]; omega
  · unfold move.IsDoublePush
    apply toNat_mod_two_ne_zero
    rw [Nat.shiftRight_eq_div_pow]; omega
  · unfold move.IsEnPassant
    apply toNat_mod_two_ne_zero
    rw [Nat.shiftRight_eq_div_pow]; omega
  · unfold move.IsCastle
    apply toNat_mod_two_ne_zero
    rw [Nat.shiftRight_eq_div_pow]; omega

/-! ## Facts about the bit primitives -/

theorem GetBit_eq_testBit (n i : Nat) : GetBit n i = n.testBit i := by
  unfold GetBit
  rw [Nat.one_shiftLeft, Nat.and_two_pow]
  cases h : n.testBit i <;> simp

theorem testBit_SetBit (n i j : Nat) :
    (SetBit n i).testBit j = (n.testBit j || decide (i = j)) := by
  unfold SetBit
  rw [Nat.testBit_or, Nat.one_shiftLeft, Nat.testBit_two_pow]

theorem testBit_ClearBit (n i j : Nat) (hi : i < 64) :
    (ClearBit n i).testBit j = (n.testBit j && (decide (j < 64) && !decide (i = j))) := by
  unfold ClearBit kWordMask
  rw [Nat.testBit_and, Nat.testBit_xor, Nat.testBit_two_pow_sub_one, Nat.one_shiftLeft,
    Nat.testBit_two_pow]
  by_cases h1 : j < 64 <;> by_cases h2 : i = j <;> simp [h1, h2]
  omega

/-- Every nonzero number is an odd multiple of a power of two. -/
theorem exists_low_bit (n : Nat) (h : n ≠ 0) : ∃ k a, n = 2 ^ (k + 1) * a + 2 ^ k := by
  induction n using Nat.strong_induction_on with
  | _ n ih =>
    rcases Nat.even_or_odd n with he | ho
    · obtain ⟨m, hm⟩ := he
      have hm0 : m ≠ 0 := by omega
      obtain ⟨k, a, hk⟩ := ih m (by omega) hm0
      refine ⟨k + 1, a, ?_⟩
      rw [hm, hk]; ring
    · obtain ⟨m, hm⟩ := ho
      exact ⟨0, m, by rw [hm]; ring⟩

theorem ClearLSB_low_bit (k a : Nat) : ClearLSB (2 ^ (k + 1) * a + 2 ^ k) = 2 ^ (k + 1) * a := by
  unfold ClearLSB
  have hp : 0 < 2 ^ k := Nat.two_pow_pos k
  have h1 : 2 ^ k < 2 ^ (k + 1) := Nat.pow_lt_pow_right (by norm_num) (Nat.lt_succ_self k)
  have e1 : 2 ^ (k + 1) * a + 2 ^ k = 2 ^ (k + 1) * a ||| 2 ^ k := Nat.mul_add_lt_is_or h1 a
  have e2 : 2 ^ (k + 1) * a + 2 ^ k - 1 = 2 ^ (k + 1) * a ||| (2 ^ k - 1) := by
    rw [← Nat.mul_add_lt_is_or (by omega) a]; omega
  rw [e2, e1]
  apply Nat.eq_of_testBit_eq
  intro i
  simp only [Nat.testBit_and, Nat.testBit_or, Nat.testBit_two_pow, Nat.testBit_two_pow_sub_one]
  by_cases h : k = i
  · subst h; simp
  · cases ((2 ^ (k + 1) * a).testBit i) <;> simp [h]

theorem testBit_low_bit (k a j : Nat) :
    (2 ^ (k + 1) * a + 2 ^ k).testBit j =
      ((2 ^ (k + 1) * a).testBit j || decide (k = j)) := by
  have h1 : 2 ^ k < 2 ^ (k + 1) := Nat.pow_lt_pow_right (by norm_num) (Nat.lt_succ_self k)
  rw [Nat.mul_add_lt_is_or h1 a, Nat.testBit_or, Nat.testBit_two_pow]

theorem testBit_mul_low (k a j : Nat) (h : j ≤ k) : (2 ^ (k + 1) * a).testBit j = false := by
  rw [Nat.testBit_mul_pow_two]
  simp; omega

set_option maxRecDepth 100000 in
theorem CountBits_two_pow_sub_one : ∀ k, k < 64 → CountBits (2 ^ k - 1) = k := by decide!

theorem GetLSBIndex_low_bit (k a : Nat) (h : 2 ^ (k + 1) * a + 2 ^ k < 2 ^ 64) :
    GetLSBIndex (2 ^ (k + 1) * a + 2 ^ k) = k := by
  have hp : 0 < 2 ^ k := Nat.two_pow_pos k
  have hk : k < 64 := by
    by_contra hc
    have : 2 ^ 64 ≤ 2 ^ k := Nat.pow_le_pow_right (by norm_num) (by omega)
    omega
  have h1 : 2 ^ k < 2 ^ (k + 1) := Nat.pow_lt_pow_right (by norm_num) (Nat.lt_succ_self k)
  have hsplit : (2 : Nat) ^ 64 = 2 ^ (k + 1) * 2 ^ (63 - k) := by
    rw [← Nat.pow_add]; congr 1; omega
  have ha : a < 2 ^ (63 - k) := by
    by_contra hc
    have : 2 ^ (k + 1) * 2 ^ (63 - k) ≤ 2 ^ (k + 1) * a := Nat.mul_le_mul_left _ (by omega)
    omega
  have hneg : (2 ^ 64 - (2 ^ (k + 1) * a + 2 ^ k)) % 2 ^ 64
      = 2 ^ (k + 1) * (2 ^ (63 - k) - (a + 1)) + 2 ^ k := by
    rw [Nat.mod_eq_of_lt (by omega), hsplit, Nat.mul_sub, Nat.mul_add]
    have : 2 ^ (k + 1) * a + 2 ^ (k + 1) * 1 ≤ 2 ^ (k + 1) * 2 ^ (63 - k) := by
      rw [← Nat.mul_add]; exact Nat.mul_le_mul_left _ (by omega)
    have e : (2:Nat) ^ (k + 1) = 2 * 2 ^ k := by rw [Nat.pow_succ]; ring
    omega
  have hand : (2 ^ (k + 1) * a + 2 ^ k) &&& (2 ^ (k + 1) * (2 ^ (63 - k) - (a + 1)) + 2 ^ k)
      = 2 ^ k := by
    apply Nat.eq_of_testBit_eq
    intro i
    rw [Nat.testBit_and, testBit_low_bit, testBit_low_bit, Nat.testBit_two_pow]
    by_cases hi : k = i
    · simp [hi]
    · simp only [hi, decide_False, Bool.or_false]
      rw [Nat.testBit_mul_pow_two, Nat.testBit_mul_pow_two, Nat.testBit_two_pow_sub_succ ha]
      cases (a.testBit (i - (k + 1))) <;> simp
  unfold GetLSBIndex
  rw [hneg, hand]
  have : (2 ^ k + (2 ^ 64 - 1)) % 2 ^ 64 = 2 ^ k - 1 := by
    have hlt : 2 ^ k < 2 ^ 64 := Nat.pow_lt_pow_right (by norm_num) hk
    omega
  rw [this]
  exact CountBits_two_pow_sub_one k hk


theorem filter_range_low (p q : Nat → Bool) (k : Nat)
    (hlow : ∀ j, j < k → p j = false ∧ q j = false) (hk : p k = true ∧ q k = false)
    (hhigh : ∀ j, k < j → p j = q j) :
    ∀ N, k < N → (List.range N).filter p = k :: (List.range N).filter q := by
  have hzero : ∀ (r : Nat → Bool) (M : Nat), (∀ j, j < M → r j = false) →
      (List.range M).filter r = [] := by
    intro r M hr
    rw [List.filter_eq_nil_iff]
    intro x hx
    rw [List.mem_range] at hx
    simp [hr x hx]
  intro N
  induction N with
  | zero => intro h; omega
  | succ N ih =>
    intro hN
    rw [List.range_succ, List.filter_append, List.filter_append]
    by_cases hkN : k = N
    · subst hkN
      rw [hzero p k (fun j hj => (hlow j hj).1), hzero q k (fun j hj => (hlow j hj).2)]
      simp [hk.1, hk.2]
    · have hlt : k < N := by omega
      rw [ih hlt]
      simp [List.filter_cons, hhigh N hlt]

theorem bitsOf_zero : bitsOf 0 = [] := by
  unfold bitsOf
  rw [List.filter_eq_nil_iff]
  intro x _
  simp

theorem bitsOf_low_bit (k a : Nat) (h : 2 ^ (k + 1) * a + 2 ^ k < 2 ^ 64) :
    bitsOf (2 ^ (k + 1) * a + 2 ^ k) = k :: bitsOf (2 ^ (k + 1) * a) := by
  have hk : k < 64 := by
    by_contra hc
    have : 2 ^ 64 ≤ 2 ^ k := Nat.pow_le_pow_right (by norm_num) (by omega)
    omega
  unfold bitsOf
  apply filter_range_low _ _ k _ _ _ 64 hk
  · intro j hj
    constructor
    · rw [testBit_low_bit, testBit_mul_low k a j (by omega)]
      simp; omega
    · exact testBit_mul_low k a j (by omega)
  · constructor
    · rw [testBit_low_bit]; simp
    · exact testBit_mul_low k a k (le_refl k)
  · intro j hj
    rw [testBit_low_bit]
    have : ¬ k = j := by omega
    simp [this]

theorem mem_bitsOf (n i : Nat) : i ∈ bitsOf n ↔ i < 64 ∧ n.testBit i = true := by
  unfold bitsOf
  rw [List.mem_filter, List.mem_range]

theorem bitsOf_length_le (n : Nat) : (bitsOf n).length ≤ 64 := by
  unfold bitsOf
  calc ((List.range 64).filter _).length ≤ (List.range 64).length := List.length_filter_le _ _
    _ = 64 := List.length_range 64

theorem CountBitsLoop_eq (fuel : Nat) : ∀ (n c : Nat), n < 2 ^ 64 →
    (bitsOf n).length ≤ fuel → CountBitsLoop fuel n c = c + (bitsOf n).length := by
  induction fuel with
  | zero =>
    intro n c _ hl
    have : (bitsOf n).length = 0 := by omega
    simp [CountBitsLoop, this]
  | succ f ih =>
    intro n c hn hl
    unfold CountBitsLoop
    by_cases h0 : n = 0
    · simp [h0, bitsOf_zero]
    · obtain ⟨k, a, hka⟩ := exists_low_bit n h0
      have hclr : n &&& (n - 1) = 2 ^ (k + 1) * a := by
        have := ClearLSB_low_bit k a
        unfold ClearLSB at this
        rw [hka]; exact this
      have hb := bitsOf_low_bit k a (by rw [← hka]; exact hn)
      rw [← hka] at hb
      have hp : 0 < 2 ^ k := Nat.two_pow_pos k
      have hlt : 2 ^ (k + 1) * a < 2 ^ 64 := by omega
      simp only [h0, if_false]
      rw [hclr, ih _ _ hlt (by rw [hb] at hl; simpa using hl), hb]
      simp; omega

theorem CountBits_eq (n : Nat) (hn : n < 2 ^ 64) : CountBits n = (bitsOf n).length := by
  unfold CountBits
  rw [CountBitsLoop_eq 64 n 0 hn (bitsOf_length_le n)]
  simp

theorem BitScan_eq (fuel : Nat) : ∀ (n : Nat), n < 2 ^ 64 →
    (bitsOf n).length ≤ fuel → BitScan fuel n = bitsOf n := by
  induction fuel with
  | zero =>
    intro n _ hl
    have : bitsOf n = [] := List.eq_nil_of_length_eq_zero (by omega)
    simp [BitScan, this]
  | succ f ih =>
    intro n hn hl
    unfold BitScan
    by_cases h0 : n = 0
    · simp [h0, bitsOf_zero]
    · obtain ⟨k, a, hka⟩ := exists_low_bit n h0
      have hb := bitsOf_low_bit k a (by rw [← hka]; exact hn)
      have hg := GetLSBIndex_low_bit k a (by rw [← hka]; exact hn)
      have hc := ClearLSB_low_bit k a
      rw [← hka] at hb hg hc
      have hp : 0 < 2 ^ k := Nat.two_pow_pos k
      have hlt : 2 ^ (k + 1) * a < 2 ^ 64 := by omega
      simp only [h0, if_false]
      rw [hg, hc, hb, ih _ hlt (by rw [hb] at hl; simpa using hl)]

/-- The bit loop with fuel 64 visits exactly the set squares of a 64-bit
bitboard, lowest first: the fuel never runs out. -/
theorem BitScan_64 (n : Nat) (hn : n < 2 ^ 64) : BitScan 64 n = bitsOf n :=
  BitScan_eq 64 n hn (bitsOf_length_le n)

/-! ## The magic tables agree with the ray walks -/

namespace precomputed_data

set_option maxRecDepth 1000000 in
theorem rookMagicCheck_all : ∀ sq, sq < 64 → rookMagicCheck sq = true := by decide!

set_option maxRecDepth 1000000 in
theorem bishopMagicCheck_all : ∀ sq, sq < 64 → bishopMagicCheck sq = true := by decide!

set_option maxRecDepth 1000000 in
theorem rookRaysInMask_all : ∀ sq, sq < 64 → rookRaysInMask sq = true := by decide!

set_option maxRecDepth 1000000 in
theorem bishopRaysInMask_all : ∀ sq, sq < 64 → bishopRaysInMask sq = true := by decide!

end precomputed_data

namespace precomputed_data

theorem strictly_eq {α : Type} (x : Nat) (k : Nat → α) : strictly x k = k x := by
  cases x <;> rfl

/-- Two stop predicates that agree on every ray square on which the loop
condition holds give the same ray. -/
theorem RayLoop_congr (cond : Nat → Bool) (step : Nat → Nat) (stop stop' : Nat → Bool) :
    ∀ (fuel cur attacks : Nat),
      (∀ i, i < fuel → (∀ j, j ≤ i + 1 → cond (step^[j] cur) = true) →
        stop (step^[i + 1] cur) = stop' (step^[i + 1] cur)) →
      RayLoop cond step stop fuel cur attacks = RayLoop cond step stop' fuel cur attacks := by
  intro fuel
  induction fuel with
  | zero => intro cur attacks _; rfl
  | succ n ih =>
    intro cur attacks h
    unfold RayLoop
    by_cases hc : cond cur = true
    · simp only [hc, if_true]
      by_cases hc' : cond (step cur) = true
      · have h0 := h 0 (Nat.succ_pos n) (by
          intro j hj
          interval_cases j
          · simpa using hc
          · simpa using hc')
        simp only [Function.iterate_succ, Function.iterate_zero, Function.comp, id] at h0
        rw [h0]
        by_cases hs : stop' (step cur) = true
        · simp [hs]
        · simp only [hs]
          apply ih
          intro i hi hj
          have := h (i + 1) (Nat.succ_lt_succ hi) (by
            intro j hj'
            cases j with
            | zero => simpa using hc
            | succ j =>
              have := hj j (by omega)
              simpa [Function.iterate_succ, Function.comp] using this)
          simpa [Function.iterate_succ, Function.comp] using this
      · have hstop : ∀ (s : Nat → Bool),
            (if s (step cur) = true then SetBit attacks (step cur)
              else RayLoop cond step s n (step cur) (SetBit attacks (step cur)))
              = SetBit attacks (step cur) := by
          intro s
          split
          · rfl
          · cases n with
            | zero => rfl
            | succ m => unfold RayLoop; simp [hc']
        rw [hstop, hstop]
    · simp [hc]

theorem rayInMask_spec (cond : Nat → Bool) (step : Nat → Nat) (mask sq : Nat)
    (h : rayInMask cond step mask sq = true) (i : Nat) (hi : i < 8)
    (hc : ∀ j, j ≤ i + 1 → cond (step^[j] sq) = true) :
    mask.testBit (step^[i + 1] sq) = true := by
  unfold rayInMask at h
  rw [List.all_eq_true] at h
  have := h i (List.mem_range.mpr hi)
  rw [Bool.or_eq_true] at this
  rcases this with h1 | h1
  · exfalso
    rw [Bool.not_eq_true', ← Bool.not_eq_true, List.all_eq_true] at h1
    apply h1
    intro j hj
    exact hc j (by have := List.mem_range.mp hj; omega)
  · exact h1

/-- Masking the occupancy with a mask that holds the inner ray squares does
not change a ray. -/
theorem RayLoop_mask (cond : Nat → Bool) (step : Nat → Nat) (mask sq occ attacks : Nat)
    (h : rayInMask cond step mask sq = true) :
    RayLoop cond step (GetBit (occ &&& mask)) 8 sq attacks
      = RayLoop cond step (GetBit occ) 8 sq attacks := by
  apply RayLoop_congr
  intro i hi hc
  rw [GetBit_eq_testBit, GetBit_eq_testBit, Nat.testBit_and,
    rayInMask_spec cond step mask sq h i hi hc, Bool.and_true]

theorem GenerateRookAttacks_mask (sq occ : Nat) (hsq : sq < 64) :
    GenerateRookAttacks sq (occ &&& GenerateRookAttackMask sq) = GenerateRookAttacks sq occ := by
  have h := rookRaysInMask_all sq hsq
  unfold rookRaysInMask at h
  simp only [Bool.and_eq_true] at h
  obtain ⟨⟨⟨h1, h2⟩, h3⟩, h4⟩ := h
  unfold GenerateRookAttacks
  simp only [RayLoop_mask _ _ _ _ _ _ h1, RayLoop_mask _ _ _ _ _ _ h2,
    RayLoop_mask _ _ _ _ _ _ h3, RayLoop_mask _ _ _ _ _ _ h4]

theorem GenerateBishopAttacks_mask (sq occ : Nat) (hsq : sq < 64) :
    GenerateBishopAttacks sq (occ &&& GenerateBishopAttackMask sq)
      = GenerateBishopAttacks sq occ := by
  have h := bishopRaysInMask_all sq hsq
  unfold bishopRaysInMask at h
  simp only [Bool.and_eq_true] at h
  obtain ⟨⟨⟨h1, h2⟩, h3⟩, h4⟩ := h
  unfold GenerateBishopAttacks
  simp only [RayLoop_mask _ _ _ _ _ _ h1, RayLoop_mask _ _ _ _ _ _ h2,
    RayLoop_mask _ _ _ _ _ _ h3, RayLoop_mask _ _ _ _ _ _ h4]

/-! ### The occupancy keys -/

theorem GenerateOccupancyKeyLoop_eq (index : Nat) : ∀ (n j mask key : Nat),
    GenerateOccupancyKeyLoop index n j mask key
      = key ||| deposit (index >>> j) (scanBits n mask) := by
  intro n
  induction n with
  | zero => intro j mask key; simp [GenerateOccupancyKeyLoop, scanBits, deposit]
  | succ n ih =>
    intro j mask key
    unfold GenerateOccupancyKeyLoop
    rw [ih]
    simp only [scanBits, deposit]
    have e1 : GetBit index j = (index >>> j).testBit 0 := by
      rw [GetBit_eq_testBit, Nat.testBit_shiftRight]; simp
    have e2 : index >>> j / 2 = index >>> (j + 1) := by
      rw [Nat.shiftRight_succ]
    rw [e1, e2]
    cases (index >>> j).testBit 0
    · simp
    · simp [SetBit, Nat.lor_assoc]

theorem scanBits_eq (n : Nat) : ∀ (m : Nat), m < 2 ^ 64 → n = (bitsOf m).length →
    scanBits n m = bitsOf m := by
  induction n with
  | zero =>
    intro m _ hl
    have : bitsOf m = [] := List.eq_nil_of_length_eq_zero hl.symm
    simp [scanBits, this]
  | succ n ih =>
    intro m hm hl
    have h0 : m ≠ 0 := by
      intro h
      rw [h, bitsOf_zero] at hl
      simp at hl
    obtain ⟨k, a, hka⟩ := exists_low_bit m h0
    have hb := bitsOf_low_bit k a (by rw [← hka]; exact hm)
    have hg := GetLSBIndex_low_bit k a (by rw [← hka]; exact hm)
    have hc := ClearLSB_low_bit k a
    rw [← hka] at hb hg hc
    have hp : 0 < 2 ^ k := Nat.two_pow_pos k
    have hlt : 2 ^ (k + 1) * a < 2 ^ 64 := by omega
    unfold scanBits
    rw [hg, hc, hb, ih _ hlt (by rw [hb] at hl; simpa using hl)]

theorem GenerateOccupancyKey_eq (index mask : Nat) (hm : mask < 2 ^ 64) :
    GenerateOccupancyKey index mask = deposit index (bitsOf mask) := by
  unfold GenerateOccupancyKey
  rw [GenerateOccupancyKeyLoop_eq, scanBits_eq _ mask hm (CountBits_eq mask hm)]
  simp

theorem testBit_orBits (L : List Nat) (i : Nat) : (orBits L).testBit i = decide (i ∈ L) := by
  induction L with
  | nil => simp [orBits]
  | cons b bs ih =>
    simp only [orBits, Nat.testBit_or, ih, Nat.one_shiftLeft, Nat.testBit_two_pow,
      List.mem_cons]
    by_cases h : b = i
    · simp [h]
    · have h' : ¬ i = b := fun e => h e.symm
      simp [h, h']

theorem orBits_bitsOf (m : Nat) (hm : m < 2 ^ 64) : orBits (bitsOf m) = m := by
  apply Nat.eq_of_testBit_eq
  intro i
  rw [testBit_orBits]
  by_cases h : m.testBit i = true
  · have hi : i < 64 := by
      by_contra hc
      have := Nat.testBit_lt_two_pow (x := m) (i := i)
        (lt_of_lt_of_le hm (Nat.pow_le_pow_right (by norm_num) (by omega)))
      rw [this] at h
      exact Bool.false_ne_true h
    rw [h, decide_eq_true_eq, mem_bitsOf]
    exact ⟨hi, h⟩
  · have h' : m.testBit i = false := by simpa using h
    rw [h', decide_eq_false_iff_not, mem_bitsOf]
    intro hx
    exact h hx.2

/-- Every subset of the listed squares is a deposit. -/
theorem deposit_surj (L : List Nat) : ∀ (o : Nat),
    ∃ k, k < 2 ^ L.length ∧ deposit k L = o &&& orBits L := by
  induction L with
  | nil => intro o; exact ⟨0, by simp, by simp [deposit, orBits]⟩
  | cons b bs ih =>
    intro o
    obtain ⟨k, hk, hd⟩ := ih o
    refine ⟨2 * k + (o.testBit b).toNat, ?_, ?_⟩
    · have : (o.testBit b).toNat < 2 := Bool.toNat_lt _
      rw [List.length_cons, Nat.pow_succ]
      omega
    · have hb : (o.testBit b).toNat < 2 := Bool.toNat_lt _
      have e0 : (2 * k + (o.testBit b).toNat).testBit 0 = o.testBit b := by
        rw [Nat.testBit_zero]
        cases o.testBit b <;> simp <;> omega
      have e1 : (2 * k + (o.testBit b).toNat) / 2 = k := by omega
      simp only [deposit, orBits, e0, e1, hd]
      rw [Nat.and_or_distrib_left]
      congr 1
      rw [Nat.one_shiftLeft, Nat.and_two_pow]
      cases o.testBit b <;> simp

end precomputed_data

namespace precomputed_data

theorem indexBitmap_nil (magic shift o P : Nat) :
    indexBitmap magic shift [] o P = P ||| (1 <<< (((o * magic) % 2 ^ 64) >>> shift)) := rfl

theorem indexBitmap_cons (magic shift b : Nat) (bs : List Nat) (o P : Nat) :
    indexBitmap magic shift (b :: bs) o P
      = indexBitmap magic shift bs (o ||| (1 <<< b)) (indexBitmap magic shift bs o P) := by
  show strictly (indexBitmap magic shift bs o P) (fun P1 =>
      strictly (Nat.lor o (Nat.shiftLeft 1 b)) (fun o1 => indexBitmap magic shift bs o1 P1)) = _
  rw [strictly_eq, strictly_eq]
  rfl

theorem indexBitmap_testBit (magic shift : Nat) (L : List Nat) : ∀ (o P i : Nat),
    (indexBitmap magic shift L o P).testBit i = true ↔
      (P.testBit i = true ∨
        ∃ k, k < 2 ^ L.length ∧ (((o ||| deposit k L) * magic) % 2 ^ 64) >>> shift = i) := by
  induction L with
  | nil =>
    intro o P i
    rw [indexBitmap_nil, Nat.testBit_or, Nat.one_shiftLeft, Nat.testBit_two_pow, Bool.or_eq_true,
      decide_eq_true_eq]
    constructor
    · rintro (h | h)
      · exact Or.inl h
      · exact Or.inr ⟨0, by simp, by simpa [deposit] using h⟩
    · rintro (h | ⟨k, _, h⟩)
      · exact Or.inl h
      · exact Or.inr (by simpa [deposit] using h)
  | cons b bs ih =>
    intro o P i
    rw [indexBitmap_cons, ih, ih]
    constructor
    · rintro ((h | ⟨k, hk, h⟩) | ⟨k, hk, h⟩)
      · exact Or.inl h
      · refine Or.inr ⟨2 * k, ?_, ?_⟩
        · rw [List.length_cons, Nat.pow_succ]; omega
        · have e0 : (2 * k).testBit 0 = false := by rw [Nat.testBit_zero]; simp
          have e1 : 2 * k / 2 = k := by omega
          simp only [deposit, e0, e1]
          simpa using h
      · refine Or.inr ⟨2 * k + 1, ?_, ?_⟩
        · rw [List.length_cons, Nat.pow_succ]; omega
        · have e0 : (2 * k + 1).testBit 0 = true := by rw [Nat.testBit_zero]; simp; omega
          have e1 : (2 * k + 1) / 2 = k := by omega
          simp only [deposit, e0, e1, if_true]
          rw [← Nat.lor_assoc]
          exact h
    · rintro (h | ⟨k, hk, h⟩)
      · exact Or.inl (Or.inl h)
      · have hk2 : k / 2 < 2 ^ bs.length := by
          rw [List.length_cons, Nat.pow_succ] at hk; omega
        simp only [deposit] at h
        cases hb : k.testBit 0
        · rw [hb] at h
          exact Or.inl (Or.inr ⟨k / 2, hk2, by simpa using h⟩)
        · rw [hb] at h
          refine Or.inr ⟨k / 2, hk2, ?_⟩
          rw [Nat.lor_assoc]
          simpa using h

theorem magicIndex_lt (magic bits o : Nat) (hb : bits ≤ 64) :
    magicIndex magic bits o < 2 ^ bits := by
  unfold magicIndex
  rw [Nat.shiftRight_eq_div_pow]
  apply Nat.div_lt_of_lt_mul
  rw [← Nat.pow_add]
  have : 64 - bits + bits = 64 := by omega
  rw [this]
  exact Nat.mod_lt _ (Nat.two_pow_pos 64)

/-- A magic number that passed the check sends different occupancy keys to
different indices. -/
theorem magicCheck_inj (mask magic bits : Nat) (h : magicCheck mask magic bits = true)
    (k k' : Nat) (hk : k < 2 ^ bits) (hk' : k' < 2 ^ bits)
    (he : magicIndex magic bits (GenerateOccupancyKey k mask)
      = magicIndex magic bits (GenerateOccupancyKey k' mask)) : k = k' := by
  unfold magicCheck at h
  simp only [Bool.and_eq_true, decide_eq_true_eq] at h
  obtain ⟨⟨⟨hm, hbits⟩, hb64⟩, hmap⟩ := h
  have hlen : (bitsOf mask).length = bits := by rw [hbits, CountBits_eq mask hm]
  let f : Fin (2 ^ bits) → Fin (2 ^ bits) :=
    fun x => ⟨magicIndex magic bits (deposit x.1 (bitsOf mask)), magicIndex_lt _ _ _ hb64⟩
  have hsurj : Function.Surjective f := by
    intro y
    have hy : (indexBitmap magic (64 - bits) (bitsOf mask) 0 0).testBit y.1 = true := by
      rw [hmap, Nat.testBit_two_pow_sub_one]
      exact decide_eq_true y.2
    rw [indexBitmap_testBit] at hy
    rcases hy with hy | ⟨x, hx, hxy⟩
    · simp at hy
    · rw [hlen] at hx
      refine ⟨⟨x, hx⟩, ?_⟩
      apply Fin.ext
      show magicIndex magic bits (deposit x (bitsOf mask)) = y.1
      unfold magicIndex
      simpa using hxy
  have hinj : Function.Injective f := Finite.injective_iff_surjective.mpr hsurj
  rw [GenerateOccupancyKey_eq _ _ hm, GenerateOccupancyKey_eq _ _ hm] at he
  have := @hinj ⟨k, hk⟩ ⟨k', hk'⟩ (Fin.ext he)
  exact Fin.mk.inj_iff.mp this

/-- Every masked occupancy is one of the `2 ^ bits` occupancy keys. -/
theorem magicCheck_key (mask magic bits : Nat) (h : magicCheck mask magic bits = true)
    (occ : Nat) : ∃ k, k < 2 ^ bits ∧ GenerateOccupancyKey k mask = occ &&& mask := by
  unfold magicCheck at h
  simp only [Bool.and_eq_true, decide_eq_true_eq] at h
  obtain ⟨⟨⟨hm, hbits⟩, _⟩, _⟩ := h
  have hlen : (bitsOf mask).length = bits := by rw [hbits, CountBits_eq mask hm]
  obtain ⟨k, hk, hd⟩ := deposit_surj (bitsOf mask) occ
  rw [hlen] at hk
  refine ⟨k, hk, ?_⟩
  rw [GenerateOccupancyKey_eq _ _ hm, hd, orBits_bitsOf mask hm]

/-! ### The table rows -/

theorem FillRow_other (gen : Nat → Nat) (mask magic bits : Nat) : ∀ (n k0 : Nat)
    (row : Nat → Nat) (i : Nat),
    (∀ k, k0 ≤ k → k < k0 + n → magicIndex magic bits (GenerateOccupancyKey k mask) ≠ i) →
    FillRow gen mask magic bits n k0 row i = row i := by
  intro n
  induction n with
  | zero => intro k0 row i _; rfl
  | succ n ih =>
    intro k0 row i h
    unfold FillRow
    rw [ih (k0 + 1) _ i (fun k h1 h2 => h k (by omega) (by omega))]
    have := h k0 (le_refl _) (by omega)
    unfold magicIndex at this
    exact if_neg (fun e => this e.symm)

theorem FillRow_get (gen : Nat → Nat) (mask magic bits N : Nat)
    (hinj : ∀ k k', k < N → k' < N →
      magicIndex magic bits (GenerateOccupancyKey k mask)
        = magicIndex magic bits (GenerateOccupancyKey k' mask) → k = k') :
    ∀ (n k0 : Nat) (row : Nat → Nat), k0 + n ≤ N → ∀ k, k0 ≤ k → k < k0 + n →
      FillRow gen mask magic bits n k0 row (magicIndex magic bits (GenerateOccupancyKey k mask))
        = gen (GenerateOccupancyKey k mask) := by
  intro n
  induction n with
  | zero => intro k0 row _ k h1 h2; omega
  | succ n ih =>
    intro k0 row hN k h1 h2
    unfold FillRow
    by_cases hk : k = k0
    · subst hk
      rw [FillRow_other]
      · simp [magicIndex]
      · intro k' h3 h4 he
        have := hinj k' k (by omega) (by omega) he
        omega
    · exact ih (k0 + 1) _ (by omega) k (by omega) (by omega)

end precomputed_data

namespace precomputed_data

theorem InitSquare_self (t : SlidingTables) (sq : Nat) : SquareFilled (InitSquare t sq) sq := by
  constructor
  · simp [InitSquare]
  · simp [InitSquare]
  · exact ⟨t.bishop_attacks sq, by simp [InitSquare]⟩
  · exact ⟨t.rook_attacks sq, by simp [InitSquare]⟩

theorem InitSquare_other (t : SlidingTables) (sq s : Nat) (h : s ≠ sq)
    (hf : SquareFilled t s) : SquareFilled (InitSquare t sq) s := by
  obtain ⟨h1, h2, h3, h4⟩ := hf
  constructor
  · simpa [InitSquare, h] using h1
  · simpa [InitSquare, h] using h2
  · simpa [InitSquare, h] using h3
  · simpa [InitSquare, h] using h4

theorem foldl_InitSquare_filled (n : Nat) : ∀ sq, sq < n →
    SquareFilled ((List.range n).foldl InitSquare zeroTables) sq := by
  induction n with
  | zero => intro sq h; omega
  | succ n ih =>
    intro sq h
    rw [List.range_succ, List.foldl_append]
    simp only [List.foldl_cons, List.foldl_nil]
    by_cases hs : sq = n
    · subst hs; exact InitSquare_self _ _
    · exact InitSquare_other _ _ _ hs (ih sq (by omega))

theorem InitSlidingAttacks_filled (sq : Nat) (h : sq < 64) :
    SquareFilled InitSlidingAttacks sq :=
  foldl_InitSquare_filled 64 sq h

/-- A lookup in a filled row with a checked magic number returns the stored
attack set of the masked occupancy. -/
theorem FillRow_lookup (gen : Nat → Nat) (mask magic bits : Nat)
    (h : magicCheck mask magic bits = true) (row : Nat → Nat) (occ : Nat) :
    FillRow gen mask magic (CountBits mask) (1 <<< CountBits mask) 0 row
        ((((occ &&& mask) * magic) % 2 ^ 64) >>> (64 - bits))
      = gen (occ &&& mask) := by
  have hbits : bits = CountBits mask := by
    unfold magicCheck at h
    simp only [Bool.and_eq_true, decide_eq_true_eq] at h
    exact h.1.1.2
  obtain ⟨k, hk, hkey⟩ := magicCheck_key mask magic bits h occ
  have hget := FillRow_get gen mask magic bits (2 ^ bits)
    (fun a b ha hb he => magicCheck_inj mask magic bits h a b ha hb he)
    (2 ^ bits) 0 row (by omega) k (Nat.zero_le k) (by omega)
  rw [hkey] at hget
  rw [← hbits, Nat.one_shiftLeft]
  exact hget

theorem GetRookAttacks_eq (sq occ : Nat) (h : sq < 64) :
    GetRookAttacks sq occ = GenerateRookAttacks sq occ := by
  obtain ⟨_, hmask, _, ⟨row, hrow⟩⟩ := InitSlidingAttacks_filled sq h
  unfold GetRookAttacks RookIndex
  rw [hrow, hmask, FillRow_lookup _ _ _ _ (rookMagicCheck_all sq h)]
  exact GenerateRookAttacks_mask sq occ h

theorem GetBishopAttacks_eq (sq occ : Nat) (h : sq < 64) :
    GetBishopAttacks sq occ = GenerateBishopAttacks sq occ := by
  obtain ⟨hmask, _, ⟨row, hrow⟩, _⟩ := InitSlidingAttacks_filled sq h
  unfold GetBishopAttacks BishopIndex
  rw [hrow, hmask, FillRow_lookup _ _ _ _ (bishopMagicCheck_all sq h)]
  exact GenerateBishopAttacks_mask sq occ h

theorem rook_relevant_bits_le : ∀ sq, sq < 64 → rook_relevant_bits sq ≤ 12 := by decide

theorem bishop_relevant_bits_le : ∀ sq, sq < 64 → bishop_relevant_bits sq ≤ 9 := by decide

theorem RookIndex_lt (sq occ : Nat) (h : sq < 64) : RookIndex sq occ < 4096 := by
  have h1 := magicIndex_lt (rook_magic_numbers sq) (rook_relevant_bits sq)
    (occ &&& InitSlidingAttacks.rook_masks sq) (by have := rook_relevant_bits_le sq h; omega)
  have h2 : 2 ^ rook_relevant_bits sq ≤ 2 ^ 12 :=
    Nat.pow_le_pow_right (by norm_num) (rook_relevant_bits_le sq h)
  unfold magicIndex at h1
  unfold RookIndex
  omega

theorem BishopIndex_lt (sq occ : Nat) (h : sq < 64) : BishopIndex sq occ < 512 := by
  have h1 := magicIndex_lt (bishop_magic_numbers sq) (bishop_relevant_bits sq)
    (occ &&& InitSlidingAttacks.bishop_masks sq) (by have := bishop_relevant_bits_le sq h; omega)
  have h2 : 2 ^ bishop_relevant_bits sq ≤ 2 ^ 9 :=
    Nat.pow_le_pow_right (by norm_num) (bishop_relevant_bits_le sq h)
  unfold magicIndex at h1
  unfold BishopIndex
  omega


/-- The loop condition of a ray fails within `fuel` steps. -/
theorem RayLoop_fuel (cond : Nat → Bool) (step : Nat → Nat) (stop : Nat → Bool) :
    ∀ (fuel cur attacks : Nat), (∃ j, j ≤ fuel ∧ cond (step^[j] cur) = false) →
      ∀ extra, RayLoop cond step stop (fuel + extra) cur attacks
        = RayLoop cond step stop fuel cur attacks := by
  intro fuel
  induction fuel with
  | zero =>
    intro cur attacks h extra
    obtain ⟨j, hj, hc⟩ := h
    have : j = 0 := by omega
    subst this
    simp only [Function.iterate_zero, id] at hc
    cases extra with
    | zero => rfl
    | succ e =>
      rw [Nat.zero_add]
      unfold RayLoop
      simp [hc]
  | succ n ih =>
    intro cur attacks h extra
    obtain ⟨j, hj, hc⟩ := h
    rw [Nat.succ_add]
    unfold RayLoop
    by_cases hcur : cond cur = true
    · simp only [hcur, if_true]
      have hj0 : j ≠ 0 := by
        intro e
        subst e
        simp only [Function.iterate_zero, id] at hc
        rw [hc] at hcur
        exact Bool.false_ne_true hcur
      obtain ⟨j', rfl⟩ := Nat.exists_eq_succ_of_ne_zero hj0
      rw [ih (step cur) _ ⟨j', by omega, by simpa [Function.iterate_succ] using hc⟩]
    · simp [hcur]

end precomputed_data

/-- The sixteen loop conditions of the slider generators all fail within
eight steps from a square of the board, so fuel 8 never runs out. -/
theorem precomputed_data.ray_conditions_fail : ∀ sq, sq < 64 →
    (∃ j, j ≤ 8 ∧ (fun c => decide (GetRank c < 7)) ((fun c => c - 8)^[j] sq) = false) ∧
    (∃ j, j ≤ 8 ∧ (fun c => decide (GetFile c < 7)) ((fun c => c + 1)^[j] sq) = false) ∧
    (∃ j, j ≤ 8 ∧ (fun c => decide (GetRank c > 0)) ((fun c => c + 8)^[j] sq) = false) ∧
    (∃ j, j ≤ 8 ∧ (fun c => decide (GetFile c > 0)) ((fun c => c - 1)^[j] sq) = false) ∧
    (∃ j, j ≤ 8 ∧ (fun c => decide (GetFile c < 7) && decide (GetRank c < 7))
      ((fun c => c - 7)^[j] sq) = false) ∧
    (∃ j, j ≤ 8 ∧ (fun c => decide (GetFile c < 7) && decide (GetRank c > 0))
      ((fun c => c + 9)^[j] sq) = false) ∧
    (∃ j, j ≤ 8 ∧ (fun c => decide (GetFile c > 0) && decide (GetRank c > 0))
      ((fun c => c + 7)^[j] sq) = false) ∧
    (∃ j, j ≤ 8 ∧ (fun c => decide (GetFile c > 0) && decide (GetRank c < 7))
      ((fun c => c - 9)^[j] sq) = false) := by
  decide

/-- C10: with the rook magic numbers and relevant-bit counts listed in the
source and the table filled by `InitSlidingAttacks`, for every square and every
64-bit occupancy the table index is below 4096 and `GetRookAttacks` returns
the ray walk `GenerateRookAttacks`. -/
theorem precomputed_data.GetRookAttacks_correct (sq occ : Nat) (hsq : sq < 64)
    (hocc : occ < 2 ^ 64) :
    precomputed_data.RookIndex sq occ < 4096 ∧
    precomputed_data.GetRookAttacks sq occ = precomputed_data.GenerateRookAttacks sq occ :=
  ⟨precomputed_data.RookIndex_lt sq occ hsq, precomputed_data.GetRookAttacks_eq sq occ hsq⟩

theorem precomputed_data.GetRookAttacks_correct_witness :
    (63 < 64 ∧ 0x8100000000000081 < 2 ^ 64) ∧
    precomputed_data.RookIndex 63 0x8100000000000081 < 4096 ∧
    precomputed_data.GetRookAttacks 63 0x8100000000000081
      = precomputed_data.GenerateRookAttacks 63 0x8100000000000081 :=
  ⟨⟨by decide, by decide⟩,
    precomputed_data.GetRookAttacks_correct 63 0x8100000000000081 (by decide) (by decide)⟩

/-- C9: packing a move and reading the eight fields back returns the
arguments, and the packed value is below 2^24. -/
theorem move.CreateMove_roundtrip (source target piece promoted_piece : Nat)
    (capture double_push en_passant castle : Bool)
    (hs : source < 64) (ht : target < 64) (hp : piece < 12)
    (hq : promoted_piece < 12 ∨ promoted_piece = kNoPiece) :
    let m := move.CreateMove source target piece promoted_piece
      capture double_push en_passant castle
    m < 2 ^ 24 ∧ move.GetSourceSquare m = source ∧ move.GetTargetSquare m = target ∧
    move.GetPiece m = piece ∧ move.GetPromotedPiece m = promoted_piece ∧
    move.IsCapture m = capture ∧ move.IsDoublePush m = double_push ∧
    move.IsEnPassant m = en_passant ∧ move.IsCastle m = castle :=
  move.CreateMove_fields source target piece promoted_piece capture double_push en_passant
    castle hs ht hp hq

theorem move.CreateMove_roundtrip_witness :
    (52 < 64 ∧ 36 < 64 ∧ 0 < 12 ∧ (13 < 12 ∨ 13 = kNoPiece)) ∧
    (let m := move.CreateMove 52 36 0 13 false true false false
     m < 2 ^ 24 ∧ move.GetSourceSquare m = 52 ∧ move.GetTargetSquare m = 36 ∧
     move.GetPiece m = 0 ∧ move.GetPromotedPiece m = 13 ∧
     move.IsCapture m = false ∧ move.IsDoublePush m = true ∧
     move.IsEnPassant m = false ∧ move.IsCastle m = false) :=
  ⟨⟨by decide, by decide, by decide, Or.inr rfl⟩,
    move.CreateMove_roundtrip 52 36 0 13 false true false false
      (by decide) (by decide) (by decide) (Or.inr rfl)⟩

/-! ## Facts about `MakeMove` -/

/-- C2: when `MakeMove` returns false, for whatever move value and
quiescence flag, the state it leaves is the state before the call, field by
field. -/
theorem MakeMove_false_restores (zk : ZobristKeys) (st : PositionState) (mv : Nat)
    (quiescencse : Bool)
    (h : (MakeMove zk st mv quiescencse).1 = false) :
    (MakeMove zk st mv quiescencse).2 = st := by
  unfold MakeMove at h ⊢
  by_cases h1 : (quiescencse && !move.IsCapture mv) = true
  · simp [h1]
  · by_cases h2 : IsSquareAttacked (ApplyMove zk st mv)
        (GetLSBIndex ((ApplyMove zk st mv).piece_bitboards
          (GetPiece kKing (GetPieceColor (move.GetPiece mv)))))
        (OppositeColor (GetPieceColor (move.GetPiece mv))) = true
    · simp [h1, h2]
    · simp [h1, h2] at h

set_option maxRecDepth 100000 in
theorem MakeMove_false_restores_witness :
    (MakeMove sampleKeys sampleStart
      (move.CreateMove 52 36 0 13 false true false false) true).1 = false ∧
    (MakeMove sampleKeys sampleStart
      (move.CreateMove 52 36 0 13 false true false false) true).2 = sampleStart :=
  ⟨by decide, MakeMove_false_restores sampleKeys sampleStart _ true (by decide)⟩

/-! ## Facts about `Set` -/

theorem ParsePlacement_cons (c : Char) (rest : List Char) (bb : Nat → Nat) (sq : Nat) :
    ParsePlacement (c :: rest) bb sq =
      if c = ' ' then (bb, some (c :: rest))
      else if c = '/' then ParsePlacement rest bb sq
      else if '1' ≤ c ∧ c ≤ '8' then ParsePlacement rest bb (sq + (c.toNat - 48))
      else
        match CharToPiece c with
        | none => (bb, none)
        | some p => ParsePlacement rest (setAt bb p (SetBit (bb p) sq)) (sq + 1) := by
  rw [ParsePlacement]
  try rfl

theorem takeWhile_field (l t : List Char) (hl : ∀ x, x ∈ l → x ≠ ' ')
    (ht : t = [] ∨ ∃ r, t = ' ' :: r) :
    (l ++ t).takeWhile (fun c => decide (c ≠ ' ')) = l := by
  induction l with
  | nil =>
    rcases ht with h | ⟨r, h⟩
    · simp [h]
    · simp [h]
  | cons c l ih =>
    have hc := hl c (List.mem_cons_self c l)
    rw [List.cons_append, List.takeWhile_cons]
    simp only [hc, ne_eq, not_false_eq_true, decide_True, if_true]
    rw [ih (fun x hx => hl x (List.mem_cons_of_mem c hx))]

theorem dropWhile_field (l r : List Char) (hl : ∀ x, x ∈ l → x ≠ ' ') :
    (l ++ ' ' :: r).dropWhile (fun c => decide (c ≠ ' ')) = ' ' :: r := by
  induction l with
  | nil => simp
  | cons c l ih =>
    have hc := hl c (List.mem_cons_self c l)
    rw [List.cons_append, List.dropWhile_cons]
    simp only [hc, ne_eq, not_false_eq_true, decide_True, if_true]
    exact ih (fun x hx => hl x (List.mem_cons_of_mem c hx))

theorem Set_placement_continues (zk : ZobristKeys) (pos : Position) (fen : List Char)
    (bb : Nat → Nat) (rest : List Char)
    (h : ParsePlacement fen (fun _ => 0) 0 = (bb, some rest)) :
    Set zk pos fen =
      SetColour zk { pos with repetition_table_ := pos.repetition_table_.Clear }
        (GenerateOccupancies
          { pos.state_ with piece_bitboards := bb, piece_occupancy := fun _ => 0 }) rest := by
  unfold Set
  rw [h]

theorem SetColour_castling_continues (zk : ZobristKeys) (pos : Position) (st : PositionState)
    (c1 c2 : Char) (r : List Char) (rights : Nat) (rest2 : List Char)
    (h : ParseCastling r kNoCastling = (rights, some rest2)) :
    SetColour zk pos st (' ' :: c1 :: c2 :: r) =
      SetEnPassant zk pos
        { st with
          side_to_move := if c1 = 'w' then kWhite else kBlack
          castling_rights := rights } rest2.tail := by
  unfold SetColour
  have : Advance 2 (' ' :: c1 :: c2 :: r).tail = some r := by simp [Advance]
  rw [this]
  simp only
  rw [h]
  simp

theorem digit_char : ∀ d, d < 10 →
    (Char.ofNat (48 + d)).toNat - 48 = d ∧ (Char.ofNat (48 + d)).isDigit = true ∧
    IsSpace (Char.ofNat (48 + d)) = false ∧ Char.ofNat (48 + d) ≠ '-' ∧
    Char.ofNat (48 + d) ≠ '+' ∧ Char.ofNat (48 + d) ≠ ' ' := by
  decide

/-- What `DigitsLoop` produces: a non-empty run of digits with value `n`. -/
theorem DigitsLoop_spec (fuel : Nat) : ∀ (n : Nat) (acc : List Char), n < fuel →
    ∃ ds, DigitsLoop fuel n acc = ds ++ acc ∧ ds ≠ [] ∧
      (∀ c, c ∈ ds → c.isDigit = true ∧ c ≠ ' ') ∧
      (∃ c r, ds = c :: r ∧ IsSpace c = false ∧ c ≠ '-' ∧ c ≠ '+') ∧
      ∀ a, digitsValue a ds = a * 10 ^ ds.length + n := by
  induction fuel with
  | zero => intro n acc h; omega
  | succ f ih =>
    intro n acc hn
    unfold DigitsLoop
    have hd := digit_char (n % 10) (Nat.mod_lt n (by norm_num))
    by_cases h0 : n / 10 = 0
    · rw [if_pos h0]
      refine ⟨[Char.ofNat (48 + n % 10)], rfl, by simp, ?_, ?_, ?_⟩
      · intro c hc
        rw [List.mem_singleton] at hc
        rw [hc]
        exact ⟨hd.2.1, hd.2.2.2.2.2⟩
      · exact ⟨_, [], rfl, hd.2.2.1, hd.2.2.2.1, hd.2.2.2.2.1⟩
      · intro a
        simp only [digitsValue, List.foldl_cons, List.foldl_nil, hd.1, List.length_singleton]
        omega
    · rw [if_neg h0]
      obtain ⟨ds, e, hne, hall, ⟨c, r, hcr, hc1, hc2, hc3⟩, hval⟩ :=
        ih (n / 10) (Char.ofNat (48 + n % 10) :: acc) (by omega)
      refine ⟨ds ++ [Char.ofNat (48 + n % 10)], ?_, by simp, ?_, ?_, ?_⟩
      · rw [e]; simp
      · intro x hx
        rw [List.mem_append, List.mem_singleton] at hx
        rcases hx with hx | hx
        · exact hall x hx
        · rw [hx]; exact ⟨hd.2.1, hd.2.2.2.2.2⟩
      · exact ⟨c, r ++ [Char.ofNat (48 + n % 10)], by rw [hcr]; simp, hc1, hc2, hc3⟩
      · intro a
        have := hval a
        simp only [digitsValue] at this ⊢
        rw [List.foldl_append, this]
        simp only [List.foldl_cons, List.foldl_nil, hd.1, List.length_append,
          List.length_singleton, Nat.pow_succ]
        have h10 : n = 10 * (n / 10) + n % 10 := (Nat.div_add_mod n 10).symm
        nlinarith [h10]

theorem takeWhile_all (p : Char → Bool) (l : List Char) (h : ∀ c, c ∈ l → p c = true) :
    l.takeWhile p = l := by
  induction l with
  | nil => rfl
  | cons c l ih =>
    rw [List.takeWhile_cons, h c (List.mem_cons_self c l),
      ih (fun x hx => h x (List.mem_cons_of_mem c hx))]
    rfl

/-- `stoi` reads back what `to_string` wrote, for a non-negative `int`. -/
theorem stoi_NatToString (n : Nat) (hn : n < 2 ^ 31) :
    stoi (NatToString n) = some (n : Int) ∧ ∀ c, c ∈ NatToString n → c ≠ ' ' := by
  obtain ⟨ds, e, hne, hall, ⟨c, r, hcr, hc1, hc2, hc3⟩, hval⟩ :=
    DigitsLoop_spec (n + 1) n [] (Nat.lt_succ_self n)
  have e' : NatToString n = ds := by
    unfold NatToString
    rw [e, List.append_nil]
  rw [e']
  refine ⟨?_, fun x hx => (hall x hx).2⟩
  unfold stoi
  have h1 : ds.dropWhile IsSpace = ds := by
    rw [hcr, List.dropWhile_cons, hc1]
    rfl
  have h2 : ds.head? = some c := by rw [hcr]; rfl
  simp only [h1, h2, Option.some.injEq, hc2, hc3, or_self, if_false]
  rw [takeWhile_all _ ds (fun x hx => (hall x hx).1)]
  rw [if_neg hne]
  have hv := hval 0
  simp only [digitsValue, Nat.zero_mul, Nat.zero_add] at hv
  simp only [hv, decide_False, Bool.false_eq_true, if_false]
  rw [if_pos]
  constructor
  · omega
  · have : (n : Int) < 2 ^ 31 := by exact_mod_cast hn
    omega

theorem PieceOnLoop_range (bb : Nat → Nat) (sq : Nat) : ∀ (n p0 : Nat),
    PieceOnLoop bb sq n p0 = kNoPiece ∨
      (p0 ≤ PieceOnLoop bb sq n p0 ∧ PieceOnLoop bb sq n p0 < p0 + n ∧
        GetBit (bb (PieceOnLoop bb sq n p0)) sq = true) := by
  intro n
  induction n with
  | zero => intro p0; left; rfl
  | succ n ih =>
    intro p0
    unfold PieceOnLoop
    by_cases h : GetBit (bb p0) sq = true
    · right
      rw [if_pos h]
      exact ⟨le_refl _, by omega, h⟩
    · rw [if_neg h]
      rcases ih (p0 + 1) with h1 | ⟨h1, h2, h3⟩
      · left; exact h1
      · right; exact ⟨by omega, by omega, h3⟩

theorem PieceOn_range (s : PositionState) (sq : Nat) :
    PieceOn s sq = kNoPiece ∨ (PieceOn s sq < 12 ∧
      GetBit (s.piece_bitboards (PieceOn s sq)) sq = true) := by
  unfold PieceOn
  rcases PieceOnLoop_range s.piece_bitboards sq 12 0 with h | ⟨_, h2, h3⟩
  · left; exact h
  · right; exact ⟨by omega, h3⟩

/-- The piece loop returns the only piece whose bitboard holds the square. -/
theorem PieceOnLoop_unique (bb : Nat → Nat) (sq q0 : Nat)
    (h : ∀ q, q < 12 → (GetBit (bb q) sq = true ↔ q = q0)) : ∀ (n p0 : Nat),
    p0 ≤ q0 → q0 < p0 + n → p0 + n ≤ 12 → PieceOnLoop bb sq n p0 = q0 := by
  intro n
  induction n with
  | zero => intro p0 h1 h2; omega
  | succ n ih =>
    intro p0 h1 h2 h3
    unfold PieceOnLoop
    by_cases hb : GetBit (bb p0) sq = true
    · rw [if_pos hb]
      exact (h p0 (by omega)).mp hb
    · rw [if_neg hb]
      have hne : p0 ≠ q0 := fun e => hb ((h p0 (by omega)).mpr e)
      exact ih (p0 + 1) (by omega) (by omega) (by omega)

theorem PieceOnLoop_none (bb : Nat → Nat) (sq : Nat) : ∀ (n p0 : Nat),
    (∀ q, p0 ≤ q → q < p0 + n → GetBit (bb q) sq = false) →
    PieceOnLoop bb sq n p0 = kNoPiece := by
  intro n
  induction n with
  | zero => intro p0 _; rfl
  | succ n ih =>
    intro p0 h
    unfold PieceOnLoop
    rw [h p0 (le_refl _) (by omega)]
    simp only [Bool.false_eq_true, if_false]
    exact ih (p0 + 1) (fun q h1 h2 => h q (by omega) (by omega))

/-- A state whose bitboards are placed from `p` shows the pieces of `p`. -/
theorem PieceOn_of_Placed (p s : PositionState) (h : Placed p s.piece_bitboards 64)
    (j : Nat) (hj : j < 64) : PieceOn s j = PieceOn p j := by
  rcases PieceOn_range p j with h0 | ⟨h1, _⟩
  · rw [h0]
    unfold PieceOn
    apply PieceOnLoop_none
    intro q _ _
    rw [GetBit_eq_testBit]
    by_contra hc
    have := (h q j).mp (by simpa using hc)
    rw [h0] at this
    exact this.2.2 this.2.1.symm
  · have goal : PieceOnLoop s.piece_bitboards j 12 0 = PieceOn p j := by
      apply PieceOnLoop_unique _ _ (PieceOn p j) _ 12 0 (Nat.zero_le _) (by omega) (le_refl _)
      intro q _
      rw [GetBit_eq_testBit, h q j]
      constructor
      · intro hh; exact hh.2.1.symm
      · intro hh
        refine ⟨hj, hh.symm, ?_⟩
        rw [hh]
        unfold kNoPiece
        omega
    exact goal

theorem piece_char : ∀ q, q < 12 →
    CharToPiece (PieceToChar q) = some q ∧ PieceToChar q ≠ ' ' ∧ PieceToChar q ≠ '/' ∧
    ¬ ('1' ≤ PieceToChar q ∧ PieceToChar q ≤ '8') := by
  decide

theorem count_char : ∀ e, e < 9 → 0 < e →
    NatToString e = [Char.ofNat (48 + e)] ∧ Char.ofNat (48 + e) ≠ ' ' ∧
    Char.ofNat (48 + e) ≠ '/' ∧ ('1' ≤ Char.ofNat (48 + e) ∧ Char.ofNat (48 + e) ≤ '8') ∧
    (Char.ofNat (48 + e)).toNat - 48 = e := by
  decide

theorem GetSquare_eq : ∀ r, r < 8 → ∀ f, f < 8 → GetSquare f r = 8 * (7 - r) + f := by
  decide

theorem Placed_extend (p : PositionState) (bb : Nat → Nat) (c e : Nat) (h : Placed p bb c)
    (hempty : ∀ j, c ≤ j → j < c + e → PieceOn p j = kNoPiece) : Placed p bb (c + e) := by
  intro q j
  rw [h q j]
  constructor
  · rintro ⟨h1, h2, h3⟩; exact ⟨by omega, h2, h3⟩
  · rintro ⟨h1, h2, h3⟩
    refine ⟨?_, h2, h3⟩
    by_contra hc
    have := hempty j (by omega) h1
    rw [this] at h2
    exact h3 h2.symm

theorem Placed_set (p : PositionState) (bb : Nat → Nat) (j0 : Nat) (h : Placed p bb j0)
    (hq : PieceOn p j0 ≠ kNoPiece) :
    Placed p (setAt bb (PieceOn p j0) (SetBit (bb (PieceOn p j0)) j0)) (j0 + 1) := by
  intro q j
  unfold setAt
  by_cases hqq : q = PieceOn p j0
  · rw [if_pos hqq, testBit_SetBit, Bool.or_eq_true, h _ j, decide_eq_true_eq]
    constructor
    · rintro (⟨h1, h2, h3⟩ | h1)
      · exact ⟨by omega, by rw [hqq]; exact h2, by rw [hqq]; exact h3⟩
      · exact ⟨by omega, by rw [hqq, ← h1], by rw [hqq]; exact hq⟩
    · rintro ⟨h1, h2, h3⟩
      by_cases hj : j0 = j
      · right; exact hj
      · left; exact ⟨by omega, by rw [← hqq]; exact h2, by rw [← hqq]; exact h3⟩
  · rw [if_neg hqq, h q j]
    constructor
    · rintro ⟨h1, h2, h3⟩; exact ⟨by omega, h2, h3⟩
    · rintro ⟨h1, h2, h3⟩
      refine ⟨?_, h2, h3⟩
      by_contra hc
      have : j = j0 := by omega
      rw [this] at h2
      exact hqq h2.symm

/-- Parsing what `ToFen` wrote for the rest of a rank places its pieces. -/
theorem FenRank_parse (p : PositionState) (r : Nat) (hr : r < 8) (tail : List Char) :
    ∀ (k f0 e c : Nat) (bb : Nat → Nat), f0 + k = 8 → c + e = 8 * (7 - r) + f0 → e ≤ f0 →
      (∀ j, c ≤ j → j < c + e → PieceOn p j = kNoPiece) → Placed p bb c →
      ∃ bb', ParsePlacement (FenRank p r (List.range' f0 k) e ++ tail) bb c
          = ParsePlacement tail bb' (8 * (7 - r) + 8) ∧ Placed p bb' (8 * (7 - r) + 8) := by
  intro k
  induction k with
  | zero =>
    intro f0 e c bb hf hc he hempty hpl
    have hf0 : f0 = 8 := by omega
    subst hf0
    simp only [List.range'_zero, FenRank]
    by_cases h0 : e > 0
    · obtain ⟨e1, e2, e3, e4, e5⟩ := count_char e (by omega) h0
      rw [if_pos h0, e1, List.singleton_append, ParsePlacement_cons, if_neg e2, if_neg e3,
        if_pos e4, e5, hc]
      exact ⟨bb, rfl, hc ▸ Placed_extend p bb c e hpl hempty⟩
    · have : e = 0 := by omega
      subst this
      rw [if_neg h0, List.nil_append]
      rw [Nat.add_zero] at hc
      exact ⟨bb, by rw [hc], hc ▸ hpl⟩
  | succ k ih =>
    intro f0 e c bb hf hc he hempty hpl
    have hsq : GetSquare f0 r = c + e := by rw [GetSquare_eq r hr f0 (by omega), hc]
    rw [List.range'_succ]
    simp only [FenRank, hsq]
    by_cases hp : PieceOn p (c + e) = kNoPiece
    · rw [if_pos hp]
      apply ih (f0 + 1) (e + 1) c bb (by omega) (by omega) (by omega) _ hpl
      intro j h1 h2
      by_cases hj : j < c + e
      · exact hempty j h1 hj
      · have : j = c + e := by omega
        rw [this]; exact hp
    · rw [if_neg hp]
      have hq12 : PieceOn p (c + e) < 12 := by
        rcases PieceOn_range p (c + e) with h | h
        · exact absurd h hp
        · exact h.1
      obtain ⟨p1, p2, p3, p4⟩ := piece_char _ hq12
      have hpl' : Placed p bb (c + e) := Placed_extend p bb c e hpl hempty
      have hstep : ∀ (l : List Char),
          ParsePlacement ((if e > 0 then NatToString e else []) ++
            PieceToChar (PieceOn p (c + e)) :: l) bb c
          = ParsePlacement l (setAt bb (PieceOn p (c + e))
              (SetBit (bb (PieceOn p (c + e))) (c + e))) (c + e + 1) := by
        intro l
        by_cases h0 : e > 0
        · obtain ⟨e1, e2, e3, e4, e5⟩ := count_char e (by omega) h0
          rw [if_pos h0, e1, List.singleton_append, ParsePlacement_cons, if_neg e2, if_neg e3,
            if_pos e4, e5, ParsePlacement_cons, if_neg p2, if_neg p3, if_neg p4, p1]
        · have : e = 0 := by omega
          subst this
          rw [if_neg h0, List.nil_append, ParsePlacement_cons, if_neg p2, if_neg p3, if_neg p4,
            p1]
          rfl
      rw [List.append_assoc, List.cons_append, hstep]
      exact ih (f0 + 1) 0 (c + e + 1) _ (by omega) (by omega) (by omega)
        (fun j h1 h2 => by omega) (Placed_set p bb (c + e) hpl' hp)

/-- Parsing what `ToFen` wrote for the last `m` ranks places their pieces. -/
theorem FenRanks_parse (p : PositionState) (tail : List Char) :
    ∀ (m : Nat) (bb : Nat → Nat), m ≤ 8 → Placed p bb (8 * (8 - m)) →
      ∃ bb', ParsePlacement (FenRanks p (List.range m).reverse ++ tail) bb (8 * (8 - m))
          = ParsePlacement tail bb' 64 ∧ Placed p bb' 64 := by
  intro m
  induction m with
  | zero =>
    intro bb _ h
    exact ⟨bb, rfl, h⟩
  | succ m ih =>
    intro bb hm h
    rw [List.range_succ, List.reverse_append, List.reverse_singleton, List.singleton_append]
    simp only [FenRanks, List.append_assoc]
    have e0 : [0, 1, 2, 3, 4, 5, 6, 7] = List.range' 0 8 := by decide
    have hc : 8 * (8 - (m + 1)) = 8 * (7 - m) := by omega
    rw [e0, hc]
    rw [hc] at h
    obtain ⟨bb1, h1, h2⟩ := FenRank_parse p m (by omega)
      ((if m > 0 then ['/'] else []) ++ (FenRanks p (List.range m).reverse ++ tail))
      8 0 0 (8 * (7 - m)) bb (by omega) (by omega) (le_refl _) (fun j h1 h2 => by omega) h
    rw [h1]
    have hc2 : 8 * (7 - m) + 8 = 8 * (8 - m) := by omega
    rw [hc2] at h2 ⊢
    by_cases h0 : m > 0
    · rw [if_pos h0, List.singleton_append, ParsePlacement_cons, if_neg (by decide),
        if_pos rfl]
      exact ih bb1 (by omega) h2
    · rw [if_neg h0, List.nil_append]
      exact ih bb1 (by omega) h2

theorem FenRank_congr (s p : PositionState) (r : Nat) : ∀ (fs : List Nat),
    (∀ f, f ∈ fs → PieceOn s (GetSquare f r) = PieceOn p (GetSquare f r)) →
    ∀ e, FenRank s r fs e = FenRank p r fs e := by
  intro fs
  induction fs with
  | nil => intro _ e; rfl
  | cons f fs ih =>
    intro h e
    have hf := h f (List.mem_cons_self f fs)
    have ih' := ih (fun x hx => h x (List.mem_cons_of_mem f hx))
    simp only [FenRank, hf, ih']

theorem FenRanks_congr (s p : PositionState)
    (h : ∀ j, j < 64 → PieceOn s j = PieceOn p j) : ∀ (rs : List Nat),
    (∀ r, r ∈ rs → r < 8) → FenRanks s rs = FenRanks p rs := by
  intro rs
  induction rs with
  | nil => intro _; rfl
  | cons r rs ih =>
    intro hr
    have hr8 := hr r (List.mem_cons_self r rs)
    simp only [FenRanks]
    rw [ih (fun x hx => hr x (List.mem_cons_of_mem r hx))]
    rw [FenRank_congr s p r [0, 1, 2, 3, 4, 5, 6, 7]]
    intro f hf
    have hf8 : f < 8 := by
      simp only [List.mem_cons, List.mem_singleton, List.not_mem_nil, or_false] at hf
      omega
    apply h
    rw [GetSquare_eq r hr8 f hf8]
    omega

/-- The castling loop reads back the castling field of `ToFen`. -/
theorem ParseCastling_FenCastling (rights : Nat) (h : rights < 16) (x : List Char) :
    ParseCastling (FenCastling rights ++ ' ' :: x) kNoCastling = (rights, some (' ' :: x)) := by
  interval_cases rights <;> rfl

theorem FenEnPassant_square : ∀ ep, ep < 64 →
    FenEnPassant ep = [FileToChar (GetFile ep), RankToChar (GetRank ep)] ∧
    FileToChar (GetFile ep) ≠ '-' ∧
    ParseEnPassantSquare (FileToChar (GetFile ep)) (RankToChar (GetRank ep)) = ep := by
  decide

theorem SetClocks_ok (zk : ZobristKeys) (pos : Position) (st : PositionState)
    (half full : List Char) (h n : Int)
    (hh : ∀ x, x ∈ half → x ≠ ' ') (hf : ∀ x, x ∈ full → x ≠ ' ')
    (h1 : stoi half = some h) (h2 : stoi full = some n) :
    SetClocks zk pos st (half ++ ' ' :: full) =
      (SetResult.ok, { pos with state_ :=
        { st with
          halfmove_clock := h
          ply := 2 * (n - 1) + (if st.side_to_move = kBlack then 1 else 0)
          key := GenerateKey zk { st with
            halfmove_clock := h
            ply := 2 * (n - 1) + (if st.side_to_move = kBlack then 1 else 0) } } }) := by
  unfold SetClocks
  have e1 : (half ++ ' ' :: full).takeWhile (fun c => decide (c ≠ ' ')) = half := by
    have := takeWhile_field half (' ' :: (full ++ [])) hh (Or.inr ⟨_, rfl⟩)
    simpa using this
  have e2 : (half ++ ' ' :: full).dropWhile (fun c => decide (c ≠ ' ')) = ' ' :: full :=
    dropWhile_field half _ hh
  have e3 : full.takeWhile (fun c => decide (c ≠ ' ')) = full := by
    have := takeWhile_field full [] hf (Or.inl rfl)
    simpa using this
  rw [if_pos (by simp), e1, e2, List.tail_cons, e3, h1, h2]

/-- The en-passant field and the clocks of `ToFen` read back. -/
theorem SetEnPassant_ok (zk : ZobristKeys) (pos : Position) (st : PositionState)
    (ep : Nat) (hep : ep < 64 ∨ ep = kNoSquare)
    (half full : List Char) (h n : Int)
    (hh : ∀ x, x ∈ half → x ≠ ' ') (hf : ∀ x, x ∈ full → x ≠ ' ')
    (h1 : stoi half = some h) (h2 : stoi full = some n) :
    SetEnPassant zk pos st (FenEnPassant ep ++ ' ' :: (half ++ ' ' :: full)) =
      (SetResult.ok, { pos with state_ :=
        { st with
          en_passant_square := ep
          halfmove_clock := h
          ply := 2 * (n - 1) + (if st.side_to_move = kBlack then 1 else 0)
          key := GenerateKey zk { st with
            en_passant_square := ep
            halfmove_clock := h
            ply := 2 * (n - 1) + (if st.side_to_move = kBlack then 1 else 0) } } }) := by
  rcases hep with hlt | heq
  · obtain ⟨e1, e2, e3⟩ := FenEnPassant_square ep hlt
    rw [e1]
    simp only [List.cons_append, List.nil_append, SetEnPassant, if_neg e2]
    have : Advance 2 (RankToChar (GetRank ep) :: ' ' :: (half ++ ' ' :: full))
        = some (half ++ ' ' :: full) := by simp [Advance]
    rw [this]
    simp only [List.headD_cons, e3]
    rw [SetClocks_ok zk pos _ half full h n hh hf h1 h2]
  · rw [heq]
    have : FenEnPassant kNoSquare = ['-'] := rfl
    rw [this]
    simp only [List.cons_append, List.nil_append, SetEnPassant, if_true]
    have : Advance 1 (' ' :: (half ++ ' ' :: full)) = some (half ++ ' ' :: full) := by
      simp [Advance]
    rw [this]
    simp only
    rw [SetClocks_ok zk pos _ half full h n hh hf h1 h2]

theorem to_string_nonneg (v : Int) (h0 : 0 ≤ v) (h1 : v < 2 ^ 31) :
    stoi (to_string v) = some v ∧ ∀ c, c ∈ to_string v → c ≠ ' ' := by
  unfold to_string
  rw [if_neg (by omega)]
  have hn : v.toNat < 2 ^ 31 := by
    have : (v.toNat : Int) = v := Int.toNat_of_nonneg h0
    omega
  obtain ⟨e1, e2⟩ := stoi_NatToString v.toNat hn
  rw [e1, Int.toNat_of_nonneg h0]
  exact ⟨rfl, e2⟩

/-- The result of `Set` on the FEN string of a state. -/
theorem Set_ToFen (zk : ZobristKeys) (pos : Position) (p : PositionState)
    (hep : p.en_passant_square < 64 ∨ p.en_passant_square = kNoSquare)
    (hcr : p.castling_rights < 16)
    (hh0 : 0 ≤ p.halfmove_clock) (hh1 : p.halfmove_clock < 2 ^ 31)
    (hp0 : 0 ≤ p.ply) (hp1 : p.ply < 2 ^ 31) :
    ∃ bb st, Placed p bb 64 ∧
      Set zk pos (ToFen p) = (SetResult.ok, ⟨st, pos.repetition_table_.Clear⟩) ∧
      st.piece_bitboards = bb ∧
      st.side_to_move = (if p.side_to_move = kWhite then kWhite else kBlack) ∧
      st.castling_rights = p.castling_rights ∧
      st.en_passant_square = p.en_passant_square ∧
      st.halfmove_clock = p.halfmove_clock ∧
      st.ply = 2 * (p.ply / 2) + (if p.side_to_move = kWhite then 0 else 1) := by
  obtain ⟨s1, s2⟩ := to_string_nonneg p.halfmove_clock hh0 hh1
  obtain ⟨s3, s4⟩ := to_string_nonneg (p.ply / 2 + 1) (by omega) (by omega)
  have hranks : [7, 6, 5, 4, 3, 2, 1, 0] = (List.range 8).reverse := by decide
  have hfen : ToFen p = FenRanks p (List.range 8).reverse ++ ' ' ::
      (if p.side_to_move = kWhite then 'w' else 'b') :: ' ' ::
      (FenCastling p.castling_rights ++ ' ' ::
        (FenEnPassant p.en_passant_square ++ ' ' ::
          (to_string p.halfmove_clock ++ ' ' :: to_string (p.ply / 2 + 1)))) := by
    unfold ToFen
    rw [hranks]
    by_cases hw : p.side_to_move = kWhite <;>
      simp only [hw, if_true, if_false, List.append_assoc, List.singleton_append,
        List.cons_append, List.nil_append]
  have hzero : Placed p (fun _ => 0) (8 * (8 - 8)) := by
    intro q j
    simp
  obtain ⟨bb, hparse, hplaced⟩ := FenRanks_parse p
    (' ' :: (if p.side_to_move = kWhite then 'w' else 'b') :: ' ' ::
      (FenCastling p.castling_rights ++ ' ' ::
        (FenEnPassant p.en_passant_square ++ ' ' ::
          (to_string p.halfmove_clock ++ ' ' :: to_string (p.ply / 2 + 1)))))
    8 (fun _ => 0) (le_refl 8) hzero
  have hparse' : ParsePlacement (ToFen p) (fun _ => 0) 0 = (bb, some
      (' ' :: (if p.side_to_move = kWhite then 'w' else 'b') :: ' ' ::
      (FenCastling p.castling_rights ++ ' ' ::
        (FenEnPassant p.en_passant_square ++ ' ' ::
          (to_string p.halfmove_clock ++ ' ' :: to_string (p.ply / 2 + 1)))))) := by
    rw [hfen]
    have : 8 * (8 - 8) = 0 := by norm_num
    rw [this] at hparse
    rw [hparse, ParsePlacement_cons, if_pos rfl]
  rw [Set_placement_continues zk pos _ bb _ hparse']
  rw [SetColour_castling_continues zk _ _ _ ' ' _ p.castling_rights _
    (ParseCastling_FenCastling p.castling_rights hcr _)]
  rw [List.tail_cons]
  rw [SetEnPassant_ok zk _ _ p.en_passant_square hep _ _ p.halfmove_clock (p.ply / 2 + 1)
    s2 s4 s1 s3]
  refine ⟨bb, _, hplaced, rfl, ?_, ?_, rfl, rfl, rfl, ?_⟩
  · simp [GenerateOccupancies]
  · by_cases hw : p.side_to_move = kWhite <;> simp [hw]
  · by_cases hw : p.side_to_move = kWhite
    · simp [hw, kWhite, kBlack]
    · simp [hw, kWhite, kBlack]

/-- C6: for every state with a valid or absent en-passant square, castling
rights in the four-bit range and non-negative `int` clocks, `Set` accepts the
string `ToFen` writes and `ToFen` of the state it builds is that string again. -/
theorem ToFen_Set_roundtrip (zk : ZobristKeys) (pos : Position) (p : PositionState)
    (hep : p.en_passant_square < 64 ∨ p.en_passant_square = kNoSquare)
    (hcr : p.castling_rights < 16)
    (hh0 : 0 ≤ p.halfmove_clock) (hh1 : p.halfmove_clock < 2 ^ 31)
    (hp0 : 0 ≤ p.ply) (hp1 : p.ply < 2 ^ 31) :
    (Set zk pos (ToFen p)).1 = SetResult.ok ∧
    ToFen (Set zk pos (ToFen p)).2.state_ = ToFen p := by
  obtain ⟨bb, st, hpl, hset, h1, h2, h3, h4, h5, h6⟩ :=
    Set_ToFen zk pos p hep hcr hh0 hh1 hp0 hp1
  rw [hset]
  refine ⟨rfl, ?_⟩
  show ToFen st = ToFen p
  have hpiece : ∀ j, j < 64 → PieceOn st j = PieceOn p j :=
    fun j hj => PieceOn_of_Placed p st (h1 ▸ hpl) j hj
  have hr : FenRanks st [7, 6, 5, 4, 3, 2, 1, 0] = FenRanks p [7, 6, 5, 4, 3, 2, 1, 0] :=
    FenRanks_congr st p hpiece _ (by decide)
  unfold ToFen
  rw [hr, h2, h3, h4, h5, h6]
  have hside : (if (if p.side_to_move = kWhite then kWhite else kBlack) = kWhite
      then ['w'] else ['b']) = (if p.side_to_move = kWhite then ['w'] else ['b']) := by
    by_cases hw : p.side_to_move = kWhite <;> simp [hw, kWhite, kBlack]
  have hply : (2 * (p.ply / 2) + (if p.side_to_move = kWhite then 0 else 1)) / 2 + 1
      = p.ply / 2 + 1 := by
    by_cases hw : p.side_to_move = kWhite
    · simp only [hw, if_true]; omega
    · simp only [hw, if_false]; omega
  rw [hside, hply]

set_option maxRecDepth 100000 in
theorem ToFen_Set_roundtrip_witness :
    ((sampleStart.en_passant_square < 64 ∨ sampleStart.en_passant_square = kNoSquare) ∧
      sampleStart.castling_rights < 16 ∧
      0 ≤ sampleStart.halfmove_clock ∧ sampleStart.halfmove_clock < 2 ^ 31 ∧
      0 ≤ sampleStart.ply ∧ sampleStart.ply < 2 ^ 31) ∧
    (Set sampleKeys blankPosition (ToFen sampleStart)).1 = SetResult.ok ∧
    ToFen (Set sampleKeys blankPosition (ToFen sampleStart)).2.state_ = ToFen sampleStart :=
  ⟨⟨Or.inr (by decide!), by decide!, by decide!, by decide!, by decide!, by decide!⟩,
    ToFen_Set_roundtrip sampleKeys blankPosition sampleStart (Or.inr (by decide!)) (by decide!)
      (by decide!) (by decide!) (by decide!) (by decide!)⟩

/-! ## Squares of the bitboard array -/

theorem testBit_of_lt_word (n i : Nat) (hn : n < 2 ^ 64) (h : n.testBit i = true) : i < 64 := by
  by_contra hc
  have h1 : n < 2 ^ i := lt_of_lt_of_le hn (Nat.pow_le_pow_right (by decide) (by omega))
  rw [Nat.testBit_lt_two_pow h1] at h
  exact Bool.noConfusion h

theorem SetBit_lt (n i : Nat) (hn : n < 2 ^ 64) (hi : i < 64) : SetBit n i < 2 ^ 64 := by
  unfold SetBit
  apply Nat.or_lt_two_pow hn
  rw [Nat.one_shiftLeft]
  exact Nat.pow_lt_pow_right (by decide) hi

theorem ClearBit_lt (n i : Nat) (hn : n < 2 ^ 64) : ClearBit n i < 2 ^ 64 := by
  unfold ClearBit
  exact lt_of_le_of_lt Nat.and_le_left hn

theorem testBit_ClearBit_word (n i j : Nat) (hn : n < 2 ^ 64) :
    (ClearBit n i).testBit j = (n.testBit j && !decide (j = i)) := by
  unfold ClearBit kWordMask
  rw [Nat.testBit_and, Nat.testBit_xor, Nat.testBit_two_pow_sub_one, Nat.one_shiftLeft,
    Nat.testBit_two_pow]
  cases h : n.testBit j
  · simp
  · have hj := testBit_of_lt_word n j hn h
    by_cases h2 : i = j
    · subst h2; simp [hj]
    · have h3 : ¬ j = i := fun e => h2 e.symm
      simp [hj, h2, h3]

theorem Bounded_SetSquare (bb : Nat → Nat) (q j : Nat) (h : Bounded bb) (hj : j < 64) :
    Bounded (SetSquare bb q j) := by
  intro x hx
  unfold SetSquare setAt
  by_cases e : x = q
  · rw [if_pos e]; exact SetBit_lt _ _ (h q (e ▸ hx)) hj
  · rw [if_neg e]; exact h x hx

theorem Bounded_ClearSquare (bb : Nat → Nat) (q j : Nat) (h : Bounded bb) :
    Bounded (ClearSquare bb q j) := by
  intro x hx
  unfold ClearSquare setAt
  by_cases e : x = q
  · rw [if_pos e]; exact ClearBit_lt _ _ (h q (e ▸ hx))
  · rw [if_neg e]; exact h x hx

theorem testBit_SetSquare (bb : Nat → Nat) (q j x i : Nat) :
    (SetSquare bb q j x).testBit i = ((bb x).testBit i || (decide (x = q) && decide (i = j))) := by
  unfold SetSquare setAt
  by_cases e : x = q
  · subst e
    rw [if_pos rfl, testBit_SetBit]
    by_cases e2 : j = i
    · subst e2; simp
    · have e3 : ¬ i = j := fun e => e2 e.symm
      simp [e2, e3]
  · rw [if_neg e]; simp [e]

theorem testBit_ClearSquare (bb : Nat → Nat) (q j x i : Nat) (h : Bounded bb) (hq : q < 14) :
    (ClearSquare bb q j x).testBit i =
      ((bb x).testBit i && !(decide (x = q) && decide (i = j))) := by
  unfold ClearSquare setAt
  by_cases e : x = q
  · subst e
    rw [if_pos rfl, testBit_ClearBit_word _ _ _ (h x hq)]
    simp
  · rw [if_neg e]; simp [e]

theorem testBit_WhiteUnion (bb : Nat → Nat) (i : Nat) :
    (WhiteUnion bb).testBit i = true ↔ ∃ p, p < 6 ∧ (bb p).testBit i = true := by
  unfold WhiteUnion
  simp only [Nat.testBit_or, Bool.or_eq_true]
  constructor
  · rintro (((((h | h) | h) | h) | h) | h)
    exacts [⟨0, by decide, h⟩, ⟨1, by decide, h⟩, ⟨2, by decide, h⟩, ⟨3, by decide, h⟩,
      ⟨4, by decide, h⟩, ⟨5, by decide, h⟩]
  · rintro ⟨p, hp, h⟩
    have : p = 0 ∨ p = 1 ∨ p = 2 ∨ p = 3 ∨ p = 4 ∨ p = 5 := by omega
    rcases this with e | e | e | e | e | e <;> subst e <;> simp [h]

theorem testBit_BlackUnion (bb : Nat → Nat) (i : Nat) :
    (BlackUnion bb).testBit i = true ↔ ∃ p, 6 ≤ p ∧ p < 12 ∧ (bb p).testBit i = true := by
  unfold BlackUnion
  simp only [Nat.testBit_or, Bool.or_eq_true]
  constructor
  · rintro (((((h | h) | h) | h) | h) | h)
    exacts [⟨6, by decide, by decide, h⟩, ⟨7, by decide, by decide, h⟩,
      ⟨8, by decide, by decide, h⟩, ⟨9, by decide, by decide, h⟩,
      ⟨10, by decide, by decide, h⟩, ⟨11, by decide, by decide, h⟩]
  · rintro ⟨p, hp, hp2, h⟩
    have : p = 6 ∨ p = 7 ∨ p = 8 ∨ p = 9 ∨ p = 10 ∨ p = 11 := by omega
    rcases this with e | e | e | e | e | e <;> subst e <;> simp [h]

/-- The occupancy of a colour holds a square when one of its six pieces does. -/
theorem testBit_occupancy (s : PositionState) (h : OccupanciesAgree s) (c i : Nat) (hc : c < 2) :
    (s.piece_occupancy c).testBit i = true ↔
      ∃ pt, pt < 6 ∧ (s.piece_bitboards (GetPiece pt c)).testBit i = true := by
  obtain ⟨hw, hb, _⟩ := h
  have : c = 0 ∨ c = 1 := by omega
  rcases this with e | e <;> subst e
  · have hw' : s.piece_occupancy 0 = WhiteUnion s.piece_bitboards := hw
    rw [hw', testBit_WhiteUnion]
    constructor
    · rintro ⟨p, hp, h⟩; exact ⟨p, hp, by simpa [GetPiece] using h⟩
    · rintro ⟨p, hp, h⟩; exact ⟨p, hp, by simpa [GetPiece] using h⟩
  · have hb' : s.piece_occupancy 1 = BlackUnion s.piece_bitboards := hb
    rw [hb', testBit_BlackUnion]
    constructor
    · rintro ⟨p, hp, hp2, h⟩
      refine ⟨p - 6, by omega, ?_⟩
      have : GetPiece (p - 6) 1 = p := by unfold GetPiece kPieceTypeCount; omega
      rw [this]; exact h
    · rintro ⟨p, hp, h⟩
      refine ⟨p + 6, by omega, by omega, ?_⟩
      simpa [GetPiece, kPieceTypeCount] using h

/-- The occupancy of both colours holds a square when one of the twelve pieces does. -/
theorem testBit_both (s : PositionState) (h : OccupanciesAgree s) (i : Nat) :
    (s.piece_occupancy kBothColors).testBit i = true ↔
      ∃ p, p < 12 ∧ (s.piece_bitboards p).testBit i = true := by
  obtain ⟨_, _, hb⟩ := h
  rw [hb, Nat.testBit_or, Bool.or_eq_true, testBit_WhiteUnion, testBit_BlackUnion]
  constructor
  · rintro (⟨p, hp, h⟩ | ⟨p, _, hp, h⟩)
    · exact ⟨p, by omega, h⟩
    · exact ⟨p, hp, h⟩
  · rintro ⟨p, hp, h⟩
    by_cases h6 : p < 6
    · exact Or.inl ⟨p, h6, h⟩
    · exact Or.inr ⟨p, by omega, hp, h⟩

theorem OccupanciesAgree_GenerateOccupancies (s : PositionState) :
    OccupanciesAgree (GenerateOccupancies s) := by
  unfold OccupanciesAgree GenerateOccupancies WhiteUnion BlackUnion
  simp [setAt, kWhite, kBlack, kBothColors]

/-- With disjoint bitboards `PieceOn` finds the piece that holds the square. -/
theorem PieceOn_eq (s : PositionState) (hd : NoOverlap s.piece_bitboards) (p i : Nat)
    (hp : p < 12) (h : (s.piece_bitboards p).testBit i = true) : PieceOn s i = p := by
  unfold PieceOn
  apply PieceOnLoop_unique s.piece_bitboards i p
  · intro q hq
    rw [GetBit_eq_testBit]
    constructor
    · intro hq2; exact hd q p i hq hp hq2 h
    · intro e; rw [e]; exact h
  · omega
  · omega
  · omega

/-- On a square no piece holds `PieceOn` returns `kNoPiece`. -/
theorem PieceOn_empty (s : PositionState) (i : Nat)
    (h : ∀ p, p < 12 → (s.piece_bitboards p).testBit i = false) : PieceOn s i = kNoPiece := by
  unfold PieceOn
  apply PieceOnLoop_none
  intro q _ hq
  rw [GetBit_eq_testBit]
  exact h q (by omega)

/-! ## The ray walks, square by square -/

namespace precomputed_data

/-- The squares a ray loop adds: the `n`-th square of the walk, for every `n`
the walk reaches within the fuel. -/
theorem testBit_RayLoop (cond : Nat → Bool) (step : Nat → Nat) (occ : Nat) (x : Nat) :
    ∀ (fuel sq attacks : Nat),
      (RayLoop cond step (GetBit occ) fuel sq attacks).testBit x = true ↔
        (attacks.testBit x = true ∨
          ∃ n, 1 ≤ n ∧ n ≤ fuel ∧ x = step^[n] sq ∧ RayReaches cond step occ sq n) := by
  intro fuel
  induction fuel with
  | zero =>
    intro sq attacks
    unfold RayLoop
    constructor
    · intro h; exact Or.inl h
    · rintro (h | ⟨n, h1, h2, _⟩)
      · exact h
      · omega
  | succ f ih =>
    intro sq attacks
    unfold RayLoop
    by_cases hc : cond sq = true
    · rw [if_pos hc]
      by_cases hs : GetBit occ (step sq) = true
      · rw [if_pos hs, testBit_SetBit]
        constructor
        · intro h
          rcases Bool.or_eq_true _ _ ▸ h with h | h
          · exact Or.inl h
          · right
            refine ⟨1, le_refl _, by omega, ?_, ?_, ?_⟩
            · simpa using (of_decide_eq_true h).symm
            · intro i hi
              have : i = 0 := by omega
              subst this; simpa using hc
            · intro i h1 h2; omega
        · rintro (h | ⟨n, h1, h2, hx, hr1, hr2⟩)
          · simp [h]
          · have hn : n = 1 := by
              by_contra hne
              have := hr2 1 (le_refl _) (by omega)
              rw [Function.iterate_one] at this
              rw [this] at hs
              exact Bool.noConfusion hs
            subst hn
            rw [Function.iterate_one] at hx
            simp [hx]
      · rw [if_neg hs, ih, testBit_SetBit]
        have hs' : GetBit occ (step sq) = false := by simpa using hs
        constructor
        · rintro (h | ⟨n, h1, h2, hx, hr1, hr2⟩)
          · rcases Bool.or_eq_true _ _ ▸ h with h | h
            · exact Or.inl h
            · right
              refine ⟨1, le_refl _, by omega, ?_, ?_, ?_⟩
              · simpa using (of_decide_eq_true h).symm
              · intro i hi
                have : i = 0 := by omega
                subst this; simpa using hc
              · intro i h1 h2; omega
          · right
            refine ⟨n + 1, by omega, by omega, ?_, ?_, ?_⟩
            · rw [Function.iterate_succ_apply]; exact hx
            · intro i hi
              rcases Nat.eq_zero_or_pos i with e | e
              · subst e; simpa using hc
              · obtain ⟨j, rfl⟩ : ∃ j, i = j + 1 := ⟨i - 1, by omega⟩
                rw [Function.iterate_succ_apply]
                exact hr1 j (by omega)
            · intro i h1' h2'
              obtain ⟨j, rfl⟩ : ∃ j, i = j + 1 := ⟨i - 1, by omega⟩
              rw [Function.iterate_succ_apply]
              rcases Nat.eq_zero_or_pos j with e | e
              · subst e; simpa using hs'
              · exact hr2 j e (by omega)
        · rintro (h | ⟨n, h1, h2, hx, hr1, hr2⟩)
          · left; simp [h]
          · rcases Nat.lt_or_ge 1 n with hn | hn
            · right
              obtain ⟨m, rfl⟩ : ∃ m, n = m + 1 := ⟨n - 1, by omega⟩
              refine ⟨m, by omega, by omega, ?_, ?_, ?_⟩
              · rw [Function.iterate_succ_apply] at hx; exact hx
              · intro i hi
                have := hr1 (i + 1) (by omega)
                rw [Function.iterate_succ_apply] at this; exact this
              · intro i h1' h2'
                have := hr2 (i + 1) (by omega) (by omega)
                rw [Function.iterate_succ_apply] at this; exact this
            · have hn1 : n = 1 := by omega
              subst hn1
              rw [Function.iterate_one] at hx
              left; simp [hx]
    · rw [if_neg hc]
      constructor
      · intro h; exact Or.inl h
      · rintro (h | ⟨n, h1, h2, hx, hr1, hr2⟩)
        · exact h
        · exact absurd (by simpa using hr1 0 (by omega)) hc

/-- A walk along one ray, read from its end, is a walk along the opposite ray. -/
theorem RayReaches_back (cond : Nat → Bool) (step : Nat → Nat) (cond' : Nat → Bool)
    (step' : Nat → Nat)
    (hgeo : ∀ sq, sq < 64 → ∀ n, n < 9 → rayBackCheck cond step cond' step' sq n = true)
    (occ sq x : Nat) (hsq : sq < 64)
    (h : ∃ n, 1 ≤ n ∧ n ≤ 8 ∧ x = step^[n] sq ∧ RayReaches cond step occ sq n) :
    x < 64 ∧ ∃ n, 1 ≤ n ∧ n ≤ 8 ∧ sq = step'^[n] x ∧ RayReaches cond' step' occ x n := by
  obtain ⟨n, h1, h2, hx, hr1, hr2⟩ := h
  have hg := hgeo sq hsq n (by omega)
  unfold rayBackCheck at hg
  have hall : (List.range n).all (fun i => cond (step^[i] sq)) = true := by
    rw [List.all_eq_true]
    intro i hi
    exact hr1 i (List.mem_range.mp hi)
  rw [if_pos hall] at hg
  simp only [Bool.and_eq_true, List.all_eq_true, List.mem_range, decide_eq_true_eq,
    beq_iff_eq] at hg
  obtain ⟨⟨hlt, hback⟩, hcond⟩ := hg
  rw [← hx] at hlt hback hcond
  refine ⟨hlt, n, h1, h2, ?_, ?_, ?_⟩
  · have := hback n (by omega)
    rw [Nat.sub_self, Function.iterate_zero, id] at this
    exact this.symm
  · intro i hi; exact hcond i hi
  · intro i hi1 hi2
    rw [hback i (by omega)]
    exact hr2 (n - i) (by omega) (by omega)

end precomputed_data

namespace precomputed_data

set_option maxRecDepth 1000000 in
theorem north_back : ∀ sq, sq < 64 → ∀ n, n < 9 →
    rayBackCheck (fun c => decide (GetRank c < 7)) (fun c => c - 8)
      (fun c => decide (GetRank c > 0)) (fun c => c + 8) sq n = true := by decide!

set_option maxRecDepth 1000000 in
theorem south_back : ∀ sq, sq < 64 → ∀ n, n < 9 →
    rayBackCheck (fun c => decide (GetRank c > 0)) (fun c => c + 8)
      (fun c => decide (GetRank c < 7)) (fun c => c - 8) sq n = true := by decide!

set_option maxRecDepth 1000000 in
theorem east_back : ∀ sq, sq < 64 → ∀ n, n < 9 →
    rayBackCheck (fun c => decide (GetFile c < 7)) (fun c => c + 1)
      (fun c => decide (GetFile c > 0)) (fun c => c - 1) sq n = true := by decide!

set_option maxRecDepth 1000000 in
theorem west_back : ∀ sq, sq < 64 → ∀ n, n < 9 →
    rayBackCheck (fun c => decide (GetFile c > 0)) (fun c => c - 1)
      (fun c => decide (GetFile c < 7)) (fun c => c + 1) sq n = true := by decide!

set_option maxRecDepth 1000000 in
theorem north_east_back : ∀ sq, sq < 64 → ∀ n, n < 9 →
    rayBackCheck (fun c => decide (GetFile c < 7) && decide (GetRank c < 7)) (fun c => c - 7)
      (fun c => decide (GetFile c > 0) && decide (GetRank c > 0)) (fun c => c + 7) sq n = true := by
  decide!

set_option maxRecDepth 1000000 in
theorem south_west_back : ∀ sq, sq < 64 → ∀ n, n < 9 →
    rayBackCheck (fun c => decide (GetFile c > 0) && decide (GetRank c > 0)) (fun c => c + 7)
      (fun c => decide (GetFile c < 7) && decide (GetRank c < 7)) (fun c => c - 7) sq n = true := by
  decide!

set_option maxRecDepth 1000000 in
theorem south_east_back : ∀ sq, sq < 64 → ∀ n, n < 9 →
    rayBackCheck (fun c => decide (GetFile c < 7) && decide (GetRank c > 0)) (fun c => c + 9)
      (fun c => decide (GetFile c > 0) && decide (GetRank c < 7)) (fun c => c - 9) sq n = true := by
  decide!

set_option maxRecDepth 1000000 in
theorem north_west_back : ∀ sq, sq < 64 → ∀ n, n < 9 →
    rayBackCheck (fun c => decide (GetFile c > 0) && decide (GetRank c < 7)) (fun c => c - 9)
      (fun c => decide (GetFile c < 7) && decide (GetRank c > 0)) (fun c => c + 9) sq n = true := by
  decide!

/-- The squares `GenerateRookAttacks` sets are those the four walks reach. -/
theorem testBit_GenerateRookAttacks (sq occ x : Nat) :
    (GenerateRookAttacks sq occ).testBit x = true ↔
      (RayHit (fun c => decide (GetRank c < 7)) (fun c => c - 8) occ sq x ∨
       RayHit (fun c => decide (GetFile c < 7)) (fun c => c + 1) occ sq x ∨
       RayHit (fun c => decide (GetRank c > 0)) (fun c => c + 8) occ sq x ∨
       RayHit (fun c => decide (GetFile c > 0)) (fun c => c - 1) occ sq x) := by
  unfold GenerateRookAttacks RayHit
  simp only [testBit_RayLoop, Nat.zero_testBit]
  constructor
  · rintro ((((h | h) | h) | h) | h)
    · exact Bool.noConfusion h
    · exact Or.inl h
    · exact Or.inr (Or.inl h)
    · exact Or.inr (Or.inr (Or.inl h))
    · exact Or.inr (Or.inr (Or.inr h))
  · rintro (h | h | h | h)
    · exact Or.inl (Or.inl (Or.inl (Or.inr h)))
    · exact Or.inl (Or.inl (Or.inr h))
    · exact Or.inl (Or.inr h)
    · exact Or.inr h

/-- The squares `GenerateBishopAttacks` sets are those the four walks reach. -/
theorem testBit_GenerateBishopAttacks (sq occ x : Nat) :
    (GenerateBishopAttacks sq occ).testBit x = true ↔
      (RayHit (fun c => decide (GetFile c < 7) && decide (GetRank c < 7)) (fun c => c - 7)
        occ sq x ∨
       RayHit (fun c => decide (GetFile c < 7) && decide (GetRank c > 0)) (fun c => c + 9)
        occ sq x ∨
       RayHit (fun c => decide (GetFile c > 0) && decide (GetRank c > 0)) (fun c => c + 7)
        occ sq x ∨
       RayHit (fun c => decide (GetFile c > 0) && decide (GetRank c < 7)) (fun c => c - 9)
        occ sq x) := by
  unfold GenerateBishopAttacks RayHit
  simp only [testBit_RayLoop, Nat.zero_testBit]
  constructor
  · rintro ((((h | h) | h) | h) | h)
    · exact Bool.noConfusion h
    · exact Or.inl h
    · exact Or.inr (Or.inl h)
    · exact Or.inr (Or.inr (Or.inl h))
    · exact Or.inr (Or.inr (Or.inr h))
  · rintro (h | h | h | h)
    · exact Or.inl (Or.inl (Or.inl (Or.inr h)))
    · exact Or.inl (Or.inl (Or.inr h))
    · exact Or.inl (Or.inr h)
    · exact Or.inr h

/-- A rook on `sq` attacks `x` exactly when a rook on `x` would attack `sq`. -/
theorem GenerateRookAttacks_symm (sq occ x : Nat) (hsq : sq < 64)
    (h : (GenerateRookAttacks sq occ).testBit x = true) :
    x < 64 ∧ (GenerateRookAttacks x occ).testBit sq = true := by
  rw [testBit_GenerateRookAttacks] at h
  rw [testBit_GenerateRookAttacks]
  rcases h with h | h | h | h
  · obtain ⟨hx, h'⟩ := RayReaches_back _ _ _ _ north_back occ sq x hsq h
    exact ⟨hx, Or.inr (Or.inr (Or.inl h'))⟩
  · obtain ⟨hx, h'⟩ := RayReaches_back _ _ _ _ east_back occ sq x hsq h
    exact ⟨hx, Or.inr (Or.inr (Or.inr h'))⟩
  · obtain ⟨hx, h'⟩ := RayReaches_back _ _ _ _ south_back occ sq x hsq h
    exact ⟨hx, Or.inl h'⟩
  · obtain ⟨hx, h'⟩ := RayReaches_back _ _ _ _ west_back occ sq x hsq h
    exact ⟨hx, Or.inr (Or.inl h')⟩

/-- A bishop on `sq` attacks `x` exactly when a bishop on `x` would attack `sq`. -/
theorem GenerateBishopAttacks_symm (sq occ x : Nat) (hsq : sq < 64)
    (h : (GenerateBishopAttacks sq occ).testBit x = true) :
    x < 64 ∧ (GenerateBishopAttacks x occ).testBit sq = true := by
  rw [testBit_GenerateBishopAttacks] at h
  rw [testBit_GenerateBishopAttacks]
  rcases h with h | h | h | h
  · obtain ⟨hx, h'⟩ := RayReaches_back _ _ _ _ north_east_back occ sq x hsq h
    exact ⟨hx, Or.inr (Or.inr (Or.inl h'))⟩
  · obtain ⟨hx, h'⟩ := RayReaches_back _ _ _ _ south_east_back occ sq x hsq h
    exact ⟨hx, Or.inr (Or.inr (Or.inr h'))⟩
  · obtain ⟨hx, h'⟩ := RayReaches_back _ _ _ _ south_west_back occ sq x hsq h
    exact ⟨hx, Or.inl h'⟩
  · obtain ⟨hx, h'⟩ := RayReaches_back _ _ _ _ north_west_back occ sq x hsq h
    exact ⟨hx, Or.inr (Or.inl h')⟩

set_option maxRecDepth 1000000 in
theorem pawn_attacks_symm : ∀ sq, sq < 64 → ∀ c, c < 2 →
    pawn_attacks sq c < 2 ^ 64 ∧
    ∀ x, x < 64 → (pawn_attacks sq c).testBit x = (pawn_attacks x (OppositeColor c)).testBit sq := by
  decide!

set_option maxRecDepth 1000000 in
theorem knight_attacks_symm : ∀ sq, sq < 64 →
    knight_attacks sq < 2 ^ 64 ∧
    ∀ x, x < 64 → (knight_attacks sq).testBit x = (knight_attacks x).testBit sq := by
  decide!

set_option maxRecDepth 1000000 in
theorem king_attacks_symm : ∀ sq, sq < 64 →
    king_attacks sq < 2 ^ 64 ∧
    ∀ x, x < 64 → (king_attacks sq).testBit x = (king_attacks x).testBit sq := by
  decide!

end precomputed_data

/-! ## Attacked squares -/

theorem and_ne_zero_of_testBit (a b i : Nat) (ha : a.testBit i = true) (hb : b.testBit i = true) :
    a &&& b ≠ 0 := by
  intro h
  have h1 : (a &&& b).testBit i = true := by rw [Nat.testBit_and, ha, hb]; rfl
  rw [h, Nat.zero_testBit] at h1
  exact Bool.noConfusion h1

theorem exists_testBit_of_and_ne_zero (a b : Nat) (h : a &&& b ≠ 0) :
    ∃ i, a.testBit i = true ∧ b.testBit i = true := by
  by_contra hc
  apply h
  apply Nat.eq_of_testBit_eq
  intro i
  rw [Nat.zero_testBit, Nat.testBit_and]
  cases ha : a.testBit i
  · rfl
  · cases hb : b.testBit i
    · rfl
    · exact absurd ⟨i, ha, hb⟩ hc

/-- The six tests of `IsSquareAttacked`. -/
theorem IsSquareAttacked_iff (s : PositionState) (sq side : Nat) :
    IsSquareAttacked s sq side = true ↔
      (precomputed_data.pawn_attacks sq (OppositeColor side) &&&
        s.piece_bitboards (GetPiece kPawn side) ≠ 0 ∨
       precomputed_data.knight_attacks sq &&& s.piece_bitboards (GetPiece kKnight side) ≠ 0 ∨
       precomputed_data.GetBishopAttacks sq (s.piece_occupancy kBothColors) &&&
        s.piece_bitboards (GetPiece kBishop side) ≠ 0 ∨
       precomputed_data.GetRookAttacks sq (s.piece_occupancy kBothColors) &&&
        s.piece_bitboards (GetPiece kRook side) ≠ 0 ∨
       precomputed_data.GetQueenAttacks sq (s.piece_occupancy kBothColors) &&&
        s.piece_bitboards (GetPiece kQueen side) ≠ 0 ∨
       precomputed_data.king_attacks sq &&& s.piece_bitboards (GetPiece kKing side) ≠ 0) := by
  unfold IsSquareAttacked
  simp only []
  split_ifs with h1 h2 h3 h4 h5 h6 <;> simp [*]

/-- A square in the attack set of a pawn of `side` is attacked by `side`. -/
theorem attacked_of_pawn (s : PositionState) (source target side : Nat)
    (hs : source < 64) (ht : target < 64) (hc : side < 2)
    (h1 : (precomputed_data.pawn_attacks source side).testBit target = true)
    (h2 : (s.piece_bitboards (GetPiece kPawn side)).testBit source = true) :
    IsSquareAttacked s target side = true := by
  rw [IsSquareAttacked_iff]
  left
  apply and_ne_zero_of_testBit _ _ source _ h2
  rw [← (precomputed_data.pawn_attacks_symm source hs side hc).2 target ht]
  exact h1

theorem attacked_of_knight (s : PositionState) (source target side : Nat)
    (hs : source < 64) (ht : target < 64)
    (h1 : (precomputed_data.knight_attacks source).testBit target = true)
    (h2 : (s.piece_bitboards (GetPiece kKnight side)).testBit source = true) :
    IsSquareAttacked s target side = true := by
  rw [IsSquareAttacked_iff]
  right; left
  apply and_ne_zero_of_testBit _ _ source _ h2
  rw [← (precomputed_data.knight_attacks_symm source hs).2 target ht]
  exact h1

theorem attacked_of_king (s : PositionState) (source target side : Nat)
    (hs : source < 64) (ht : target < 64)
    (h1 : (precomputed_data.king_attacks source).testBit target = true)
    (h2 : (s.piece_bitboards (GetPiece kKing side)).testBit source = true) :
    IsSquareAttacked s target side = true := by
  rw [IsSquareAttacked_iff]
  right; right; right; right; right
  apply and_ne_zero_of_testBit _ _ source _ h2
  rw [← (precomputed_data.king_attacks_symm source hs).2 target ht]
  exact h1

theorem GetBishopAttacks_symm (source occ target : Nat) (hs : source < 64)
    (h : (precomputed_data.GetBishopAttacks source occ).testBit target = true) :
    target < 64 ∧ (precomputed_data.GetBishopAttacks target occ).testBit source = true := by
  rw [precomputed_data.GetBishopAttacks_eq source occ hs] at h
  obtain ⟨ht, h'⟩ := precomputed_data.GenerateBishopAttacks_symm source occ target hs h
  exact ⟨ht, by rw [precomputed_data.GetBishopAttacks_eq target occ ht]; exact h'⟩

theorem GetRookAttacks_symm (source occ target : Nat) (hs : source < 64)
    (h : (precomputed_data.GetRookAttacks source occ).testBit target = true) :
    target < 64 ∧ (precomputed_data.GetRookAttacks target occ).testBit source = true := by
  rw [precomputed_data.GetRookAttacks_eq source occ hs] at h
  obtain ⟨ht, h'⟩ := precomputed_data.GenerateRookAttacks_symm source occ target hs h
  exact ⟨ht, by rw [precomputed_data.GetRookAttacks_eq target occ ht]; exact h'⟩

theorem GetQueenAttacks_symm (source occ target : Nat) (hs : source < 64)
    (h : (precomputed_data.GetQueenAttacks source occ).testBit target = true) :
    target < 64 ∧ (precomputed_data.GetQueenAttacks target occ).testBit source = true := by
  unfold precomputed_data.GetQueenAttacks at h
  unfold precomputed_data.GetQueenAttacks
  rw [Nat.testBit_or, Bool.or_eq_true] at h
  rw [Nat.testBit_or, Bool.or_eq_true]
  rcases h with h | h
  · obtain ⟨ht, h'⟩ := GetBishopAttacks_symm source occ target hs h
    exact ⟨ht, Or.inl h'⟩
  · obtain ⟨ht, h'⟩ := GetRookAttacks_symm source occ target hs h
    exact ⟨ht, Or.inr h'⟩

theorem attacked_of_bishop (s : PositionState) (source target side : Nat) (hs : source < 64)
    (h1 : (precomputed_data.GetBishopAttacks source (s.piece_occupancy kBothColors)).testBit
      target = true)
    (h2 : (s.piece_bitboards (GetPiece kBishop side)).testBit source = true) :
    IsSquareAttacked s target side = true := by
  rw [IsSquareAttacked_iff]
  right; right; left
  exact and_ne_zero_of_testBit _ _ source (GetBishopAttacks_symm _ _ _ hs h1).2 h2

theorem attacked_of_rook (s : PositionState) (source target side : Nat) (hs : source < 64)
    (h1 : (precomputed_data.GetRookAttacks source (s.piece_occupancy kBothColors)).testBit
      target = true)
    (h2 : (s.piece_bitboards (GetPiece kRook side)).testBit source = true) :
    IsSquareAttacked s target side = true := by
  rw [IsSquareAttacked_iff]
  right; right; right; left
  exact and_ne_zero_of_testBit _ _ source (GetRookAttacks_symm _ _ _ hs h1).2 h2

theorem attacked_of_queen (s : PositionState) (source target side : Nat) (hs : source < 64)
    (h1 : (precomputed_data.GetQueenAttacks source (s.piece_occupancy kBothColors)).testBit
      target = true)
    (h2 : (s.piece_bitboards (GetPiece kQueen side)).testBit source = true) :
    IsSquareAttacked s target side = true := by
  rw [IsSquareAttacked_iff]
  right; right; right; right; left
  exact and_ne_zero_of_testBit _ _ source (GetQueenAttacks_symm _ _ _ hs h1).2 h2

/-! ## Every generated move comes from one branch of the generator -/

theorem mem_BitScan (n i : Nat) (hn : n < 2 ^ 64) (h : i ∈ BitScan 64 n) :
    i < 64 ∧ n.testBit i = true := by
  rw [BitScan_64 n hn, mem_bitsOf] at h
  exact h

theorem testBit_Complement (x i : Nat) (hi : i < 64) :
    (Complement x).testBit i = !x.testBit i := by
  unfold Complement kWordMask
  rw [Nat.testBit_xor, Nat.testBit_two_pow_sub_one]
  simp [hi]

theorem lt_word_of_testBit (n : Nat) (h : ∀ i, n.testBit i = true → i < 64) : n < 2 ^ 64 := by
  apply Nat.lt_pow_two_of_testBit
  intro i hi
  cases hb : n.testBit i
  · rfl
  · have := h i hb; omega

theorem PieceAttacks_lt (pt sq occ : Nat) (hsq : sq < 64) : PieceAttacks pt sq occ < 2 ^ 64 := by
  unfold PieceAttacks
  split_ifs
  · exact (precomputed_data.knight_attacks_symm sq hsq).1
  · exact lt_word_of_testBit _ (fun i h => (GetBishopAttacks_symm sq occ i hsq h).1)
  · exact lt_word_of_testBit _ (fun i h => (GetRookAttacks_symm sq occ i hsq h).1)
  · exact lt_word_of_testBit _ (fun i h => (GetQueenAttacks_symm sq occ i hsq h).1)
  · exact (precomputed_data.king_attacks_symm sq hsq).1

theorem mem_PromotionMoves (source target piece side : Nat) (capture : Bool) (m : Nat)
    (h : m ∈ PromotionMoves source target piece side capture) :
    ∃ pt, pt ∈ [kQueen, kRook, kBishop, kKnight] ∧
      m = move.CreateMove source target piece (GetPiece pt side) capture false false false := by
  unfold PromotionMoves at h
  simp only [List.mem_cons, List.mem_singleton, List.not_mem_nil, or_false] at h
  rcases h with h | h | h | h
  · exact ⟨kQueen, by simp, h⟩
  · exact ⟨kRook, by simp, h⟩
  · exact ⟨kBishop, by simp, h⟩
  · exact ⟨kKnight, by simp, h⟩

theorem PawnStep_of_valid (side source k : Nat)
    (h : IsValidSquare ((source : Int) + (k : Int) * (if side = kWhite then -8 else 8)) = true) :
    PawnStep side source k
      ((source : Int) + (k : Int) * (if side = kWhite then -8 else 8)).toNat := by
  unfold IsValidSquare at h
  rw [Bool.and_eq_true, decide_eq_true_eq, decide_eq_true_eq] at h
  unfold PawnStep
  by_cases hw : side = kWhite
  · rw [if_pos hw] at h ⊢
    rw [if_pos hw]
    omega
  · rw [if_neg hw] at h ⊢
    rw [if_neg hw]
    omega

theorem PawnPushMoves_sound (s : PositionState) (source m : Nat) (hs : source < 64)
    (hbit : (s.piece_bitboards (GetPiece kPawn s.side_to_move)).testBit source = true)
    (hm : m ∈ PawnPushMoves s source) : Generated s m := by
  unfold PawnPushMoves at hm
  simp only [] at hm
  have hv : ∀ k : Nat,
      IsValidSquare ((source : Int) + (k : Int) *
        (if s.side_to_move = kWhite then -8 else 8)) = true →
      PawnStep s.side_to_move source k ((source : Int) + (k : Int) *
        (if s.side_to_move = kWhite then -8 else 8)).toNat :=
    fun k h => PawnStep_of_valid _ _ k h
  have hp : (if s.side_to_move = kWhite then 7 else 0) = PromotionRank s.side_to_move := rfl
  have hst : (if s.side_to_move = kWhite then 1 else 6) = StartingRank s.side_to_move := rfl
  rw [hp, hst] at hm
  generalize (if s.side_to_move = kWhite then (-8 : Int) else 8) = d at hm hv
  have e1 : (source : Int) + d = (source : Int) + ((1 : Nat) : Int) * d := by simp
  have e2 : (source : Int) + 2 * d = (source : Int) + ((2 : Nat) : Int) * d := by simp
  rw [e1, e2] at hm
  by_cases h1 : (IsValidSquare ((source : Int) + ((1 : Nat) : Int) * d) &&
      !GetBit (s.piece_occupancy kBothColors) ((source : Int) + ((1 : Nat) : Int) * d).toNat) = true
  · rw [if_pos h1] at hm
    rw [Bool.and_eq_true] at h1
    have hfree : GetBit (s.piece_occupancy kBothColors)
        ((source : Int) + ((1 : Nat) : Int) * d).toNat = false := by simpa using h1.2
    by_cases h2 : GetRank ((source : Int) + ((1 : Nat) : Int) * d).toNat =
        PromotionRank s.side_to_move
    · rw [if_pos h2] at hm
      obtain ⟨pt, hpt, rfl⟩ := mem_PromotionMoves _ _ _ _ _ _ hm
      exact Generated.pushPromotion source _ pt hs hbit (hv 1 h1.1) hfree h2 hpt
    · rw [if_neg h2, List.mem_cons] at hm
      rcases hm with rfl | hm
      · exact Generated.push source _ hs hbit (hv 1 h1.1) hfree h2
      · by_cases h3 : GetRank source = StartingRank s.side_to_move
        · rw [if_pos h3] at hm
          by_cases h4 : (IsValidSquare ((source : Int) + ((2 : Nat) : Int) * d) &&
              !GetBit (s.piece_occupancy kBothColors)
                ((source : Int) + ((2 : Nat) : Int) * d).toNat) = true
          · rw [if_pos h4, List.mem_singleton] at hm
            subst hm
            rw [Bool.and_eq_true] at h4
            exact Generated.doublePush source _ _ hs hbit (hv 1 h1.1) hfree h2 h3 (hv 2 h4.1)
              (by simpa using h4.2)
          · rw [if_neg h4] at hm
            exact absurd hm (List.not_mem_nil _)
        · rw [if_neg h3] at hm
          exact absurd hm (List.not_mem_nil _)
  · rw [if_neg h1] at hm
    exact absurd hm (List.not_mem_nil _)

theorem PawnCaptureMoves_sound (s : PositionState) (source target m : Nat) (hs : source < 64)
    (ht : target < 64)
    (hbit : (s.piece_bitboards (GetPiece kPawn s.side_to_move)).testBit source = true)
    (hatt : (precomputed_data.pawn_attacks source s.side_to_move).testBit target = true)
    (hm : m ∈ PawnCaptureMoves s source target) : Generated s m := by
  unfold PawnCaptureMoves at hm
  simp only [] at hm
  have hp : (if s.side_to_move = kWhite then 7 else 0) = PromotionRank s.side_to_move := rfl
  rw [hp] at hm
  split_ifs at hm with h1 h2 h3
  · obtain ⟨pt, hpt, rfl⟩ := mem_PromotionMoves _ _ _ _ _ _ hm
    exact Generated.capturePromotion source target pt hs ht hbit hatt h1 h2 hpt
  · rw [List.mem_singleton] at hm
    subst hm
    exact Generated.pawnCapture source target hs ht hbit hatt h1 h2
  · rw [List.mem_singleton] at hm
    subst hm
    exact Generated.enPassant source target hs ht hbit hatt (by simpa using h1) h3
  · exact absurd hm (List.not_mem_nil _)

theorem TargetMoves_sound (s : PositionState) (pt source m : Nat) (h1 : 1 ≤ pt) (h5 : pt ≤ 5)
    (hs : source < 64)
    (hbit : (s.piece_bitboards (GetPiece pt s.side_to_move)).testBit source = true)
    (hm : m ∈ TargetMoves s (GetPiece pt s.side_to_move) source
      (PieceAttacks pt source (s.piece_occupancy kBothColors) &&&
        Complement (s.piece_occupancy s.side_to_move))) : Generated s m := by
  unfold TargetMoves at hm
  rw [List.mem_map] at hm
  obtain ⟨target, ht, rfl⟩ := hm
  have hlt : PieceAttacks pt source (s.piece_occupancy kBothColors) &&&
      Complement (s.piece_occupancy s.side_to_move) < 2 ^ 64 :=
    lt_of_le_of_lt Nat.and_le_left (PieceAttacks_lt pt source _ hs)
  obtain ⟨ht64, htb⟩ := mem_BitScan _ _ hlt ht
  rw [Nat.testBit_and, Bool.and_eq_true, testBit_Complement _ _ ht64] at htb
  have hown : (s.piece_occupancy s.side_to_move).testBit target = false := by simpa using htb.2
  have := Generated.piece (s := s) pt source target h1 h5 hs ht64 hbit htb.1 hown
  cases hc : GetBit (s.piece_occupancy (OppositeColor s.side_to_move)) target
  · rw [hc] at this; simpa using this
  · rw [hc] at this; simpa using this

theorem CastleMove_sound (s : PositionState) (right : Nat) (empty safe : List Nat)
    (source target m : Nat)
    (hopt : (right, empty, safe, source, target) ∈ CastleOptions s.side_to_move)
    (hm : m ∈ CastleMove s right empty safe source target) : Generated s m := by
  unfold CastleMove at hm
  split_ifs at hm with h1 h2
  · rw [List.mem_singleton] at hm
    subst hm
    rw [Bool.and_eq_true, List.all_eq_true, List.all_eq_true] at h2
    exact Generated.castle right empty safe source target hopt h1
      (fun sq hsq => by simpa using h2.1 sq hsq) (fun sq hsq => by simpa using h2.2 sq hsq)
  · exact absurd hm (List.not_mem_nil _)
  · exact absurd hm (List.not_mem_nil _)

/-- The king square the generator reads holds the king. -/
theorem testBit_GetLSBIndex (n : Nat) (hn : n < 2 ^ 64) (h0 : n ≠ 0) :
    GetLSBIndex n < 64 ∧ n.testBit (GetLSBIndex n) = true := by
  obtain ⟨k, a, e⟩ := exists_low_bit n h0
  subst e
  rw [GetLSBIndex_low_bit k a hn]
  have hp : 0 < 2 ^ k := Nat.two_pow_pos k
  have hk : k < 64 := by
    by_contra hc
    have : 2 ^ 64 ≤ 2 ^ k := Nat.pow_le_pow_right (by decide) (by omega)
    omega
  refine ⟨hk, ?_⟩
  rw [testBit_low_bit]
  simp

theorem PieceAttacks_knight (sq occ : Nat) :
    PieceAttacks kKnight sq occ = precomputed_data.knight_attacks sq := by
  unfold PieceAttacks; rw [if_pos rfl]

theorem PieceAttacks_bishop (sq occ : Nat) :
    PieceAttacks kBishop sq occ = precomputed_data.GetBishopAttacks sq occ := by
  unfold PieceAttacks; rw [if_neg (by decide), if_pos rfl]

theorem PieceAttacks_rook (sq occ : Nat) :
    PieceAttacks kRook sq occ = precomputed_data.GetRookAttacks sq occ := by
  unfold PieceAttacks; rw [if_neg (by decide), if_neg (by decide), if_pos rfl]

theorem PieceAttacks_queen (sq occ : Nat) :
    PieceAttacks kQueen sq occ = precomputed_data.GetQueenAttacks sq occ := by
  unfold PieceAttacks; rw [if_neg (by decide), if_neg (by decide), if_neg (by decide), if_pos rfl]

theorem PieceAttacks_king (sq occ : Nat) :
    PieceAttacks kKing sq occ = precomputed_data.king_attacks sq := by
  unfold PieceAttacks
  rw [if_neg (by decide), if_neg (by decide), if_neg (by decide), if_neg (by decide)]

/-- Every move of `GenerateMoves` comes from one branch of the generator. -/
theorem Generated_of_mem (s : PositionState) (hside : s.side_to_move < 2)
    (hb : Bounded s.piece_bitboards)
    (hk : s.piece_bitboards (GetPiece kKing s.side_to_move) ≠ 0)
    (m : Nat) (hm : m ∈ GenerateMoves s) : Generated s m := by
  have hP : ∀ pt, pt < 6 → s.piece_bitboards (GetPiece pt s.side_to_move) < 2 ^ 64 := by
    intro pt hpt
    apply hb
    unfold GetPiece kPieceTypeCount
    omega
  unfold GenerateMoves at hm
  simp only [List.mem_append] at hm
  rcases hm with ((((hm | hm) | hm) | hm) | hm) | hm
  · unfold GeneratePawnMoves at hm
    rw [List.mem_flatMap] at hm
    obtain ⟨source, hsrc, hm⟩ := hm
    obtain ⟨hs, hbit⟩ := mem_BitScan _ _ (hP kPawn (by decide)) hsrc
    rw [List.mem_append] at hm
    rcases hm with hm | hm
    · exact PawnPushMoves_sound s source m hs hbit hm
    · rw [List.mem_flatMap] at hm
      obtain ⟨target, htgt, hm⟩ := hm
      obtain ⟨ht, hatt⟩ := mem_BitScan _ _
        (precomputed_data.pawn_attacks_symm source hs s.side_to_move hside).1 htgt
      exact PawnCaptureMoves_sound s source target m hs ht hbit hatt hm
  · unfold GenerateKnightMoves at hm
    rw [List.mem_flatMap] at hm
    obtain ⟨source, hsrc, hm⟩ := hm
    obtain ⟨hs, hbit⟩ := mem_BitScan _ _ (hP kKnight (by decide)) hsrc
    rw [← PieceAttacks_knight source (s.piece_occupancy kBothColors)] at hm
    exact TargetMoves_sound s kKnight source m (by decide) (by decide) hs hbit hm
  · unfold GenerateBishopMoves at hm
    rw [List.mem_flatMap] at hm
    obtain ⟨source, hsrc, hm⟩ := hm
    obtain ⟨hs, hbit⟩ := mem_BitScan _ _ (hP kBishop (by decide)) hsrc
    rw [← PieceAttacks_bishop source (s.piece_occupancy kBothColors)] at hm
    exact TargetMoves_sound s kBishop source m (by decide) (by decide) hs hbit hm
  · unfold GenerateRookMoves at hm
    rw [List.mem_flatMap] at hm
    obtain ⟨source, hsrc, hm⟩ := hm
    obtain ⟨hs, hbit⟩ := mem_BitScan _ _ (hP kRook (by decide)) hsrc
    rw [← PieceAttacks_rook source (s.piece_occupancy kBothColors)] at hm
    exact TargetMoves_sound s kRook source m (by decide) (by decide) hs hbit hm
  · unfold GenerateQueenMoves at hm
    rw [List.mem_flatMap] at hm
    obtain ⟨source, hsrc, hm⟩ := hm
    obtain ⟨hs, hbit⟩ := mem_BitScan _ _ (hP kQueen (by decide)) hsrc
    rw [← PieceAttacks_queen source (s.piece_occupancy kBothColors)] at hm
    exact TargetMoves_sound s kQueen source m (by decide) (by decide) hs hbit hm
  · unfold GenerateKingMoves at hm
    simp only [] at hm
    rw [List.mem_append] at hm
    obtain ⟨hs, hbit⟩ := testBit_GetLSBIndex _ (hP kKing (by decide)) hk
    rcases hm with hm | hm
    · rw [← PieceAttacks_king _ (s.piece_occupancy kBothColors)] at hm
      exact TargetMoves_sound s kKing _ m (by decide) (by decide) hs hbit hm
    · split_ifs at hm with hw
      · rw [List.mem_append] at hm
        rcases hm with hm | hm
        · exact CastleMove_sound s _ _ _ _ _ m (by unfold CastleOptions; rw [if_pos hw]; simp) hm
        · exact CastleMove_sound s _ _ _ _ _ m (by unfold CastleOptions; rw [if_pos hw]; simp) hm
      · rw [List.mem_append] at hm
        rcases hm with hm | hm
        · exact CastleMove_sound s _ _ _ _ _ m (by unfold CastleOptions; rw [if_neg hw]; simp) hm
        · exact CastleMove_sound s _ _ _ _ _ m (by unfold CastleOptions; rw [if_neg hw]; simp) hm

/-! ## What `MakeMove` does to the board -/

theorem ApplyMove_boards (zk : ZobristKeys) (s : PositionState) (m : Nat) :
    (ApplyMove zk s m).piece_bitboards =
      MovedBoards s.piece_bitboards (PieceOn s (move.GetTargetSquare m))
        (move.GetSourceSquare m) (move.GetTargetSquare m) (move.GetPiece m)
        (move.GetPromotedPiece m) (move.IsCapture m) (move.IsEnPassant m) (move.IsCastle m) :=
  rfl

theorem ApplyMove_side (zk : ZobristKeys) (s : PositionState) (m : Nat) :
    (ApplyMove zk s m).side_to_move = OppositeColor s.side_to_move := rfl

theorem ApplyMove_en_passant (zk : ZobristKeys) (s : PositionState) (m : Nat) :
    (ApplyMove zk s m).en_passant_square =
      if move.IsDoublePush m then
        (if GetPieceColor (move.GetPiece m) = kWhite then move.GetTargetSquare m + 8
          else move.GetTargetSquare m - 8)
      else kNoSquare := rfl

theorem ApplyMove_castling (zk : ZobristKeys) (s : PositionState) (m : Nat) :
    (ApplyMove zk s m).castling_rights =
      s.castling_rights &&& kCastlingUpdates (move.GetSourceSquare m) &&&
        kCastlingUpdates (move.GetTargetSquare m) := rfl

theorem ApplyMove_occupancy (zk : ZobristKeys) (s : PositionState) (m : Nat) :
    OccupanciesAgree (ApplyMove zk s m) := by
  unfold ApplyMove
  exact OccupanciesAgree_GenerateOccupancies _

/-- A true result of `MakeMove` leaves the move applied and the king of the
moved piece's colour not attacked. -/
theorem MakeMove_true (zk : ZobristKeys) (s : PositionState) (m : Nat) (q : Bool)
    (h : (MakeMove zk s m q).1 = true) :
    (MakeMove zk s m q).2 = ApplyMove zk s m ∧
    IsSquareAttacked (ApplyMove zk s m)
      (GetLSBIndex ((ApplyMove zk s m).piece_bitboards
        (GetPiece kKing (GetPieceColor (move.GetPiece m)))))
      (OppositeColor (GetPieceColor (move.GetPiece m))) = false := by
  unfold MakeMove at h ⊢
  by_cases h1 : (q && !move.IsCapture m) = true
  · rw [if_pos h1] at h; exact Bool.noConfusion h
  · rw [if_neg h1] at h ⊢
    simp only [] at h ⊢
    by_cases h2 : IsSquareAttacked (ApplyMove zk s m)
        (GetLSBIndex ((ApplyMove zk s m).piece_bitboards
          (GetPiece kKing (GetPieceColor (move.GetPiece m)))))
        (OppositeColor (GetPieceColor (move.GetPiece m))) = true
    · rw [if_pos h2] at h; exact Bool.noConfusion h
    · rw [if_neg h2]
      exact ⟨rfl, by simpa using h2⟩

theorem testBit_ClearBit_square (n j i : Nat) (hi : i < 64) :
    (ClearBit n j).testBit i = (n.testBit i && !decide (i = j)) := by
  unfold ClearBit kWordMask
  rw [Nat.testBit_and, Nat.testBit_xor, Nat.testBit_two_pow_sub_one, Nat.one_shiftLeft,
    Nat.testBit_two_pow]
  by_cases h2 : j = i
  · subst h2; simp [hi]
  · have h3 : ¬ i = j := fun e => h2 e.symm
    simp [hi, h2, h3]

theorem testBit_ClearSquare_square (bb : Nat → Nat) (q j x i : Nat) (hi : i < 64) :
    (ClearSquare bb q j x).testBit i =
      ((bb x).testBit i && !(decide (x = q) && decide (i = j))) := by
  unfold ClearSquare setAt
  by_cases e : x = q
  · subst e
    rw [if_pos rfl, testBit_ClearBit_square _ _ _ hi]
    simp
  · rw [if_neg e]; simp [e]

/-- The squares of the bitboards after a move that is not a castling move. -/
theorem testBit_MovedBoards (bb : Nat → Nat) (captured source target piece promoted : Nat)
    (capture en_passant : Bool) (x i : Nat) (hi : i < 64) :
    (MovedBoards bb captured source target piece promoted capture en_passant false x).testBit i =
      (((((((bb x).testBit i && !(decide (x = piece) && decide (i = source))) ||
            (decide (x = piece) && decide (i = target))) &&
          !(capture && (decide (x = captured) && decide (i = target)))) &&
        !(decide (promoted ≠ kNoPiece) && (decide (x = piece) && decide (i = target)))) ||
        (decide (promoted ≠ kNoPiece) && (decide (x = promoted) && decide (i = target)))) &&
      !(en_passant && (decide (x = GetPiece kPawn (OppositeColor (GetPieceColor piece))) &&
        decide (i = if GetPieceColor piece = kWhite then target + 8 else target - 8)))) := by
  unfold MovedBoards
  cases capture <;> cases en_passant <;> by_cases hp : promoted = kNoPiece <;>
    simp [hp, testBit_SetSquare, testBit_ClearSquare_square, hi]

/-! ## The generated moves, as the invariant proofs use them -/

theorem GetPieceColor_GetPiece (pt c : Nat) (h : pt < 6) : GetPieceColor (GetPiece pt c) = c := by
  unfold GetPieceColor GetPiece kPieceTypeCount
  omega

theorem GetPiece_lt (pt c : Nat) (h : pt < 6) (hc : c < 2) : GetPiece pt c < 12 := by
  unfold GetPiece kPieceTypeCount
  omega

theorem OppositeColor_lt (c : Nat) (hc : c < 2) :
    OppositeColor c < 2 ∧ OppositeColor c ≠ c ∧ OppositeColor (OppositeColor c) = c := by
  have : c = 0 ∨ c = 1 := by omega
  rcases this with e | e <;> subst e <;> decide

theorem piece_cases (x : Nat) (hx : x < 12) (c : Nat) (hc : c < 2) :
    (∃ pt, pt < 6 ∧ x = GetPiece pt c) ∨ (∃ pt, pt < 6 ∧ x = GetPiece pt (OppositeColor c)) := by
  have : c = 0 ∨ c = 1 := by omega
  rcases this with e | e <;> subst e
  · by_cases h : x < 6
    · exact Or.inl ⟨x, h, by unfold GetPiece; omega⟩
    · exact Or.inr ⟨x - 6, by omega, by
        have : OppositeColor 0 = 1 := by decide
        rw [this]; unfold GetPiece kPieceTypeCount; omega⟩
  · by_cases h : x < 6
    · exact Or.inr ⟨x, h, by
        have : OppositeColor 1 = 0 := by decide
        rw [this]; unfold GetPiece; omega⟩
    · exact Or.inl ⟨x - 6, by omega, by unfold GetPiece kPieceTypeCount; omega⟩

theorem GetPiece_inj (pt pt' c c' : Nat) (h : pt < 6) (h' : pt' < 6)
    (e : GetPiece pt c = GetPiece pt' c') : pt = pt' ∧ c = c' := by
  unfold GetPiece kPieceTypeCount at e
  omega

/-- A square that is clear in the occupancy of both colours holds no piece. -/
theorem free_of_both (s : PositionState) (ho : OccupanciesAgree s) (i : Nat)
    (h : GetBit (s.piece_occupancy kBothColors) i = false) :
    ∀ x, x < 12 → (s.piece_bitboards x).testBit i = false := by
  intro x hx
  rw [GetBit_eq_testBit] at h
  cases hb : (s.piece_bitboards x).testBit i
  · rfl
  · have := (testBit_both s ho i).mpr ⟨x, hx, hb⟩
    rw [h] at this
    exact Bool.noConfusion this

/-- A square that is clear in the occupancy of a colour holds no piece of it. -/
theorem free_of_colour (s : PositionState) (ho : OccupanciesAgree s) (c i : Nat) (hc : c < 2)
    (h : (s.piece_occupancy c).testBit i = false) :
    ∀ x, x < 6 → (s.piece_bitboards (GetPiece x c)).testBit i = false := by
  intro x hx
  cases hb : (s.piece_bitboards (GetPiece x c)).testBit i
  · rfl
  · have := (testBit_occupancy s ho c i hc).mpr ⟨x, hx, hb⟩
    rw [h] at this
    exact Bool.noConfusion this

/-- On a square an opposing piece holds there is no piece of the side to move. -/
theorem own_free_of_taken (s : PositionState) (hd : NoOverlap s.piece_bitboards) (c i : Nat)
    (hc : c < 2)
    (h : ∃ x, x < 6 ∧ (s.piece_bitboards (GetPiece x (OppositeColor c))).testBit i = true) :
    ∀ x, x < 6 → (s.piece_bitboards (GetPiece x c)).testBit i = false := by
  intro x hx
  obtain ⟨y, hy, hyb⟩ := h
  obtain ⟨ho1, ho2, _⟩ := OppositeColor_lt c hc
  cases hb : (s.piece_bitboards (GetPiece x c)).testBit i
  · rfl
  · have := hd _ _ i (GetPiece_lt x c hx hc) (GetPiece_lt y _ hy ho1) hb hyb
    exact absurd (GetPiece_inj _ _ _ _ hx hy this).2.symm ho2

set_option maxRecDepth 1000000 in
theorem black_pawn_target : ∀ sq, sq < 64 → ∀ x, x < 64 →
    (precomputed_data.pawn_attacks sq 1).testBit x = true → 8 ≤ x := by decide!

/-- A square in the attack set of a piece of the side is attacked by the side. -/
theorem attacked_of_piece (s : PositionState) (pt source target : Nat) (h1 : 1 ≤ pt)
    (h5 : pt ≤ 5) (hs : source < 64) (ht : target < 64)
    (hbit : (s.piece_bitboards (GetPiece pt s.side_to_move)).testBit source = true)
    (hatt : (PieceAttacks pt source (s.piece_occupancy kBothColors)).testBit target = true) :
    IsSquareAttacked s target s.side_to_move = true := by
  have : pt = kKnight ∨ pt = kBishop ∨ pt = kRook ∨ pt = kQueen ∨ pt = kKing := by
    unfold kKnight kBishop kRook kQueen kKing; omega
  rcases this with e | e | e | e | e <;> subst e
  · rw [PieceAttacks_knight] at hatt
    exact attacked_of_knight s source target _ hs ht hatt hbit
  · rw [PieceAttacks_bishop] at hatt
    exact attacked_of_bishop s source target _ hs hatt hbit
  · rw [PieceAttacks_rook] at hatt
    exact attacked_of_rook s source target _ hs hatt hbit
  · rw [PieceAttacks_queen] at hatt
    exact attacked_of_queen s source target _ hs hatt hbit
  · rw [PieceAttacks_king] at hatt
    exact attacked_of_king s source target _ hs ht hatt hbit

theorem promoted_type (pt : Nat) (h : pt ∈ [kQueen, kRook, kBishop, kKnight]) :
    1 ≤ pt ∧ pt ≤ 4 := by
  simp only [List.mem_cons, List.mem_singleton, List.not_mem_nil, or_false] at h
  unfold kQueen kRook kBishop kKnight at h
  omega

/-- A generated move is a castling move or has the properties of `PlainMove`. -/
theorem PlainMove_of_Generated (s : PositionState) (hc : Consistent s) (m : Nat)
    (hg : Generated s m) :
    (∃ source target pt promoted capture double_push en_passant,
      m = move.CreateMove source target (GetPiece pt s.side_to_move) promoted
        capture double_push en_passant false ∧
      PlainMove s source target pt promoted capture double_push en_passant) ∨
    (∃ right empty safe source target,
      (right, empty, safe, source, target) ∈ CastleOptions s.side_to_move ∧
      s.castling_rights &&& right ≠ 0 ∧
      (∀ sq, sq ∈ empty → GetBit (s.piece_occupancy kBothColors) sq = false) ∧
      m = move.CreateMove source target (GetPiece kKing s.side_to_move) kNoPiece
        false false false true) := by
  have ho := hc.occupancy
  have hside := hc.side
  obtain ⟨hopp, _, _⟩ := OppositeColor_lt _ hside
  cases hg with
  | push source target hs hbit hstep hfree hrank =>
    exact Or.inl ⟨source, target, kPawn, kNoPiece, false, false, false, rfl,
      { source_lt := hs, target_lt := hstep.1, pt_lt := by decide, holds := hbit
        own_free := fun x hx => free_of_both s ho target hfree _ (GetPiece_lt x _ hx hside)
        promoted_ok := Or.inl rfl
        quiet := fun _ => free_of_both s ho target hfree
        taken := fun h => Bool.noConfusion h
        passing := fun h => Bool.noConfusion h
        double := fun h => Bool.noConfusion h }⟩
  | pushPromotion source target pt hs hbit hstep hfree hrank hpt =>
    exact Or.inl ⟨source, target, kPawn, GetPiece pt s.side_to_move, false, false, false, rfl,
      { source_lt := hs, target_lt := hstep.1, pt_lt := by decide, holds := hbit
        own_free := fun x hx => free_of_both s ho target hfree _ (GetPiece_lt x _ hx hside)
        promoted_ok := Or.inr ⟨rfl, rfl, rfl, pt, (promoted_type pt hpt).1,
          (promoted_type pt hpt).2, rfl⟩
        quiet := fun _ => free_of_both s ho target hfree
        taken := fun h => Bool.noConfusion h
        passing := fun h => Bool.noConfusion h
        double := fun h => Bool.noConfusion h }⟩
  | doublePush source middle target hs hbit hstep hfree hrank hstart hstep2 hfree2 =>
    have he : (if s.side_to_move = kWhite then target + 8 else target - 8) = middle := by
      unfold PawnStep at hstep hstep2
      by_cases hw : s.side_to_move = kWhite
      · rw [if_pos hw] at hstep hstep2 ⊢; omega
      · rw [if_neg hw] at hstep hstep2 ⊢; omega
    have hne : middle ≠ target := by
      unfold PawnStep at hstep hstep2
      by_cases hw : s.side_to_move = kWhite
      · rw [if_pos hw] at hstep hstep2; omega
      · rw [if_neg hw] at hstep hstep2; omega
    exact Or.inl ⟨source, target, kPawn, kNoPiece, false, true, false, rfl,
      { source_lt := hs, target_lt := hstep2.1, pt_lt := by decide, holds := hbit
        own_free := fun x hx => free_of_both s ho target hfree2 _ (GetPiece_lt x _ hx hside)
        promoted_ok := Or.inl rfl
        quiet := fun _ => free_of_both s ho target hfree2
        taken := fun h => Bool.noConfusion h
        passing := fun h => Bool.noConfusion h
        double := fun _ => ⟨rfl, by rw [he]; exact hne, by
          rw [he]; exact free_of_both s ho middle hfree⟩ }⟩
  | pawnCapture source target hs ht hbit hatt hocc hrank =>
    have hx := (testBit_occupancy s ho _ target hopp).mp (by rw [← GetBit_eq_testBit]; exact hocc)
    exact Or.inl ⟨source, target, kPawn, kNoPiece, true, false, false, rfl,
      { source_lt := hs, target_lt := ht, pt_lt := by decide, holds := hbit
        own_free := own_free_of_taken s hc.disjoint _ target hside hx
        promoted_ok := Or.inl rfl
        quiet := fun h => Bool.noConfusion h
        taken := fun _ _ => ⟨hx, attacked_of_pawn s source target _ hs ht hside hatt hbit⟩
        passing := fun h => Bool.noConfusion h
        double := fun h => Bool.noConfusion h }⟩
  | capturePromotion source target pt hs ht hbit hatt hocc hrank hpt =>
    have hx := (testBit_occupancy s ho _ target hopp).mp (by rw [← GetBit_eq_testBit]; exact hocc)
    exact Or.inl ⟨source, target, kPawn, GetPiece pt s.side_to_move, true, false, false, rfl,
      { source_lt := hs, target_lt := ht, pt_lt := by decide, holds := hbit
        own_free := own_free_of_taken s hc.disjoint _ target hside hx
        promoted_ok := Or.inr ⟨rfl, rfl, rfl, pt, (promoted_type pt hpt).1,
          (promoted_type pt hpt).2, rfl⟩
        quiet := fun h => Bool.noConfusion h
        taken := fun _ _ => ⟨hx, attacked_of_pawn s source target _ hs ht hside hatt hbit⟩
        passing := fun h => Bool.noConfusion h
        double := fun h => Bool.noConfusion h }⟩
  | enPassant source target hs ht hbit hatt hocc hep =>
    have hfree : ∀ x, x < 12 → (s.piece_bitboards x).testBit target = false := by
      apply free_of_both s ho target
      rw [GetBit_eq_testBit, hep]
      exact hc.en_passant (hep ▸ ht)
    exact Or.inl ⟨source, target, kPawn, kNoPiece, true, false, true, rfl,
      { source_lt := hs, target_lt := ht, pt_lt := by decide, holds := hbit
        own_free := fun x hx => hfree _ (GetPiece_lt x _ hx hside)
        promoted_ok := Or.inl rfl
        quiet := fun h => Bool.noConfusion h
        taken := fun _ h => Bool.noConfusion h
        passing := fun _ => ⟨rfl, rfl, hfree, fun hw => by
          have h1 : s.side_to_move = 1 := by unfold kWhite at hw; omega
          rw [h1] at hatt
          exact black_pawn_target source hs target ht hatt⟩
        double := fun h => Bool.noConfusion h }⟩
  | piece pt source target h1 h5 hs ht hbit hatt hown =>
    refine Or.inl ⟨source, target, pt, kNoPiece,
      GetBit (s.piece_occupancy (OppositeColor s.side_to_move)) target, false, false, rfl, ?_⟩
    have hownfree := free_of_colour s ho _ target hside hown
    exact
      { source_lt := hs, target_lt := ht, pt_lt := by omega, holds := hbit
        own_free := hownfree
        promoted_ok := Or.inl rfl
        quiet := fun hq x hx => by
          rw [GetBit_eq_testBit] at hq
          rcases piece_cases x hx _ hside with ⟨y, hy, rfl⟩ | ⟨y, hy, rfl⟩
          · exact hownfree y hy
          · exact free_of_colour s ho _ target hopp hq y hy
        taken := fun hq _ => ⟨(testBit_occupancy s ho _ target hopp).mp
            (by rw [← GetBit_eq_testBit]; exact hq),
          attacked_of_piece s pt source target h1 h5 hs ht hbit hatt⟩
        passing := fun h => Bool.noConfusion h
        double := fun h => Bool.noConfusion h }
  | castle right empty safe source target hopt hright hempty hsafe =>
    exact Or.inr ⟨right, empty, safe, source, target, hopt, hright, hempty, rfl⟩

/-- The squares of the bitboards after a move that is not a castling move, as
a proposition. -/
theorem testBit_MovedBoards_iff (bb : Nat → Nat) (captured source target piece promoted : Nat)
    (capture en_passant : Bool) (x i : Nat) (hi : i < 64) :
    (MovedBoards bb captured source target piece promoted capture en_passant false x).testBit i
        = true ↔
      ((((((bb x).testBit i = true ∧ ¬(x = piece ∧ i = source)) ∨ (x = piece ∧ i = target)) ∧
          ¬(capture = true ∧ x = captured ∧ i = target)) ∧
        ¬(promoted ≠ kNoPiece ∧ x = piece ∧ i = target)) ∨
        (promoted ≠ kNoPiece ∧ x = promoted ∧ i = target)) ∧
      ¬(en_passant = true ∧ x = GetPiece kPawn (OppositeColor (GetPieceColor piece)) ∧
        i = if GetPieceColor piece = kWhite then target + 8 else target - 8) := by
  rw [testBit_MovedBoards _ _ _ _ _ _ _ _ _ _ hi]
  simp only [Bool.and_eq_true, Bool.or_eq_true, Bool.not_eq_true', decide_eq_true_eq,
    Bool.and_eq_false_iff, decide_eq_false_iff_not, ne_eq, not_and_or, Bool.not_eq_true,
    not_not]

theorem Bounded_MovedBoards (bb : Nat → Nat) (captured source target piece promoted : Nat)
    (capture en_passant : Bool) (hb : Bounded bb) (ht : target < 64) :
    Bounded (MovedBoards bb captured source target piece promoted capture en_passant false) := by
  unfold MovedBoards
  cases capture <;> cases en_passant <;> by_cases hp : promoted = kNoPiece <;>
    simp only [hp, ne_eq, not_true_eq_false, not_false_eq_true, if_true, if_false,
      Bool.false_eq_true] <;>
    repeat' (first | exact hb | apply Bounded_ClearSquare | refine Bounded_SetSquare _ _ _ ?_ ht)

theorem plain_logic {b xP iS iT cap xC r13 xR e : Prop}
    (hA : iT → b → cap ∧ xC) (hB : xP → ¬xC) (hep : iT → ¬e) :
    ((((((b ∧ ¬(xP ∧ iS)) ∨ (xP ∧ iT)) ∧ ¬(cap ∧ xC ∧ iT)) ∧ ¬(¬r13 ∧ xP ∧ iT)) ∨
      (¬r13 ∧ xR ∧ iT)) ∧ ¬e) ↔
    ((iT ∧ ((¬r13 ∧ xR) ∨ (r13 ∧ xP))) ∨ (¬iT ∧ b ∧ ¬(xP ∧ iS) ∧ ¬e)) := by
  tauto

/-- The squares of the twelve bitboards after a generated move that is not a
castling move: the target holds the moved or promoted piece alone; elsewhere a
piece stands where it stood, the source and the pawn taken en passant apart. -/
theorem MovedBoards_plain (s : PositionState) (source target pt promoted : Nat)
    (capture double_push en_passant : Bool) (hc : Consistent s)
    (hm : PlainMove s source target pt promoted capture double_push en_passant)
    (x i : Nat) (hx : x < 12) (hi : i < 64) :
    (MovedBoards s.piece_bitboards (PieceOn s target) source target
      (GetPiece pt s.side_to_move) promoted capture en_passant false x).testBit i = true ↔
      ((i = target ∧ ((¬ promoted = kNoPiece ∧ x = promoted) ∨
          (promoted = kNoPiece ∧ x = GetPiece pt s.side_to_move))) ∨
       (¬ i = target ∧ (s.piece_bitboards x).testBit i = true ∧
        ¬(x = GetPiece pt s.side_to_move ∧ i = source) ∧
        ¬(en_passant = true ∧ x = GetPiece kPawn (OppositeColor s.side_to_move) ∧
          i = if s.side_to_move = kWhite then target + 8 else target - 8))) := by
  have hside := hc.side
  have hcol : GetPieceColor (GetPiece pt s.side_to_move) = s.side_to_move :=
    GetPieceColor_GetPiece pt _ hm.pt_lt
  rw [testBit_MovedBoards_iff _ _ _ _ _ _ _ _ _ _ hi, hcol]
  have hep : i = target →
      ¬(en_passant = true ∧ x = GetPiece kPawn (OppositeColor s.side_to_move) ∧
        i = if s.side_to_move = kWhite then target + 8 else target - 8) := by
    rintro hiT ⟨he, _, h⟩
    have h8 := (hm.passing he).2.2.2
    by_cases hw : s.side_to_move = kWhite
    · rw [if_pos hw] at h; omega
    · rw [if_neg hw] at h; have := h8 hw; omega
  have hA : i = target → (s.piece_bitboards x).testBit i = true →
      capture = true ∧ x = PieceOn s target := by
    intro hiT hb
    subst hiT
    cases hcap : capture
    · rw [hm.quiet hcap x hx] at hb; exact Bool.noConfusion hb
    · cases hen : en_passant
      · exact ⟨rfl, (PieceOn_eq s hc.disjoint x i hx hb).symm⟩
      · rw [(hm.passing hen).2.2.1 x hx] at hb; exact Bool.noConfusion hb
  have hB : x = GetPiece pt s.side_to_move → ¬ x = PieceOn s target := by
    intro e1 e2
    have hfreeP := hm.own_free pt hm.pt_lt
    rcases PieceOn_range s target with h13 | ⟨_, hbit⟩
    · rw [h13] at e2; unfold kNoPiece at e2; omega
    · rw [GetBit_eq_testBit, ← e2, e1, hfreeP] at hbit
      exact Bool.noConfusion hbit
  exact plain_logic hA hB hep

theorem GetLSBIndex_two_pow (k : Nat) (hk : k < 64) : GetLSBIndex (2 ^ k) = k := by
  have h := GetLSBIndex_low_bit k 0 (by
    rw [Nat.mul_zero, Nat.zero_add]
    exact Nat.pow_lt_pow_right (by decide) hk)
  rw [Nat.mul_zero, Nat.zero_add] at h
  exact h

theorem testBit_two_pow_eq (k i : Nat) (h : (2 ^ k).testBit i = true) : i = k := by
  rw [Nat.testBit_two_pow] at h
  exact (of_decide_eq_true h).symm

/-- Two words of the board with the same squares are equal. -/
theorem eq_of_squares (a b : Nat) (ha : a < 2 ^ 64) (hb : b < 2 ^ 64)
    (h : ∀ i, i < 64 → (a.testBit i = true ↔ b.testBit i = true)) : a = b := by
  apply Nat.eq_of_testBit_eq
  intro i
  by_cases hi : i < 64
  · rw [Bool.eq_iff_iff]; exact h i hi
  · have h1 : a.testBit i = false := by
      cases e : a.testBit i
      · rfl
      · exact absurd (testBit_of_lt_word a i ha e) hi
    have h2 : b.testBit i = false := by
      cases e : b.testBit i
      · rfl
      · exact absurd (testBit_of_lt_word b i hb e) hi
    rw [h1, h2]

/-- The king bitboards after a generated move that is not a castling move: a
king that did not move stands where it stood, a king that moved stands on the
target. -/
theorem kings_plain (s : PositionState) (source target pt promoted : Nat)
    (capture double_push en_passant : Bool) (hc : Consistent s)
    (hm : PlainMove s source target pt promoted capture double_push en_passant)
    (c : Nat) (hc2 : c < 2) :
    MovedBoards s.piece_bitboards (PieceOn s target) source target
        (GetPiece pt s.side_to_move) promoted capture en_passant false (GetPiece kKing c) =
      s.piece_bitboards (GetPiece kKing c) ∨
    (GetPiece kKing c = GetPiece pt s.side_to_move ∧
      MovedBoards s.piece_bitboards (PieceOn s target) source target
        (GetPiece pt s.side_to_move) promoted capture en_passant false (GetPiece kKing c) =
      2 ^ target) := by
  have hside := hc.side
  obtain ⟨hopp, hoppne, hoppopp⟩ := OppositeColor_lt _ hside
  have hK12 : GetPiece kKing c < 12 := GetPiece_lt kKing c (by decide) hc2
  have hbd := Bounded_MovedBoards s.piece_bitboards (PieceOn s target) source target
    (GetPiece pt s.side_to_move) promoted capture en_passant hc.bounded hm.target_lt
  have key := fun i hi => MovedBoards_plain s source target pt promoted capture double_push
    en_passant hc hm (GetPiece kKing c) i hK12 hi
  obtain ⟨k, hk, hK⟩ := hc.kings c hc2
  have hKlt : s.piece_bitboards (GetPiece kKing c) < 2 ^ 64 := hc.bounded _ (by omega)
  by_cases hKP : GetPiece kKing c = GetPiece pt s.side_to_move
  · right
    refine ⟨hKP, ?_⟩
    obtain ⟨hpt, hcs⟩ := GetPiece_inj _ _ _ _ (by decide) hm.pt_lt hKP
    have h13 : promoted = kNoPiece := by
      rcases hm.promoted_ok with h | ⟨h, _⟩
      · exact h
      · rw [h] at hpt; exact absurd hpt (by decide)
    have hS : source = k := by
      have := hm.holds
      rw [← hKP, hK] at this
      exact testBit_two_pow_eq k source this
    apply eq_of_squares _ _ (hbd _ (by omega)) (Nat.pow_lt_pow_right (by decide) hm.target_lt)
    intro i hi
    rw [key i hi, Nat.testBit_two_pow, decide_eq_true_eq]
    constructor
    · rintro (⟨e, _⟩ | ⟨_, hb, hns, _⟩)
      · exact e.symm
      · rw [hK] at hb
        have := testBit_two_pow_eq k i hb
        exact absurd ⟨hKP, this.trans hS.symm⟩ hns
    · intro e
      exact Or.inl ⟨e.symm, Or.inr ⟨h13, hKP⟩⟩
  · left
    apply eq_of_squares _ _ (hbd _ (by omega)) hKlt
    intro i hi
    rw [key i hi]
    constructor
    · rintro (⟨_, ⟨hn13, e⟩ | ⟨_, e⟩⟩ | ⟨_, hb, _⟩)
      · rcases hm.promoted_ok with h | ⟨_, _, _, rt, h1, h4, h⟩
        · exact absurd h hn13
        · rw [h] at e
          have := (GetPiece_inj _ _ _ _ (by decide) (by omega) e).1
          unfold kKing at this; omega
      · exact absurd e hKP
      · exact hb
    · intro hb
      right
      refine ⟨?_, hb, fun h => hKP h.1, ?_⟩
      · intro hiT
        subst hiT
        by_cases hcs : c = s.side_to_move
        · subst hcs
          rw [hm.own_free kKing (by decide)] at hb
          exact Bool.noConfusion hb
        · have hco : c = OppositeColor s.side_to_move := by omega
          cases hcap : capture
          · rw [hm.quiet hcap _ hK12] at hb; exact Bool.noConfusion hb
          · cases hen : en_passant
            · have hatt := (hm.taken hcap hen).2
              have hsafe := hc.safe
              rw [← hco, hK, GetLSBIndex_two_pow k hk] at hsafe
              rw [hK] at hb
              rw [testBit_two_pow_eq k i hb, hsafe] at hatt
              exact Bool.noConfusion hatt
            · rw [(hm.passing hen).2.2.1 _ hK12] at hb; exact Bool.noConfusion hb
      · rintro ⟨_, e, _⟩
        have := (GetPiece_inj _ _ _ _ (by decide) (by decide) e).1
        exact absurd this (by decide)

theorem kCastlingUpdates_home :
    (kCastlingUpdates 60).testBit 0 = false ∧ (kCastlingUpdates 60).testBit 1 = false ∧
    (kCastlingUpdates 4).testBit 2 = false ∧ (kCastlingUpdates 4).testBit 3 = false := by
  decide

/-- A castling right that survives a move was there before it, and neither the
source nor the target of the move clears it. -/
theorem castling_survives (rights a b j : Nat)
    (h : (rights &&& a &&& b).testBit j = true) :
    rights.testBit j = true ∧ a.testBit j = true ∧ b.testBit j = true := by
  rw [Nat.testBit_and, Nat.testBit_and, Bool.and_eq_true, Bool.and_eq_true] at h
  exact ⟨h.1.1, h.1.2, h.2⟩

/-- The invariant holds after a generated move that is not a castling move and
leaves the mover's king not attacked. -/
theorem Consistent_plain (zk : ZobristKeys) (s : PositionState)
    (source target pt promoted : Nat) (capture double_push en_passant : Bool)
    (hc : Consistent s)
    (hm : PlainMove s source target pt promoted capture double_push en_passant)
    (hsafe : IsSquareAttacked
      (ApplyMove zk s (move.CreateMove source target (GetPiece pt s.side_to_move) promoted
        capture double_push en_passant false))
      (GetLSBIndex ((ApplyMove zk s (move.CreateMove source target (GetPiece pt s.side_to_move)
        promoted capture double_push en_passant false)).piece_bitboards
          (GetPiece kKing s.side_to_move)))
      (OppositeColor s.side_to_move) = false) :
    Consistent (ApplyMove zk s (move.CreateMove source target (GetPiece pt s.side_to_move)
      promoted capture double_push en_passant false)) := by
  have hside := hc.side
  obtain ⟨hopp, hoppne, hoppopp⟩ := OppositeColor_lt _ hside
  have hP : GetPiece pt s.side_to_move < 12 := GetPiece_lt pt _ hm.pt_lt hside
  have hR : promoted < 12 ∨ promoted = kNoPiece := by
    rcases hm.promoted_ok with h | ⟨_, _, _, rt, h1, h4, h⟩
    · exact Or.inr h
    · left; rw [h]; exact GetPiece_lt rt _ (by omega) hside
  obtain ⟨_, fS, fT, fP, fR, fcap, fdp, fep, fcas⟩ := move.CreateMove_fields source target
    (GetPiece pt s.side_to_move) promoted capture double_push en_passant false
    hm.source_lt hm.target_lt hP hR
  have hcol : GetPieceColor (GetPiece pt s.side_to_move) = s.side_to_move :=
    GetPieceColor_GetPiece pt _ hm.pt_lt
  have hB : (ApplyMove zk s (move.CreateMove source target (GetPiece pt s.side_to_move)
      promoted capture double_push en_passant false)).piece_bitboards =
      MovedBoards s.piece_bitboards (PieceOn s target) source target
        (GetPiece pt s.side_to_move) promoted capture en_passant false := by
    rw [ApplyMove_boards, fS, fT, fP, fR, fcap, fep, fcas]
  have hbd := Bounded_MovedBoards s.piece_bitboards (PieceOn s target) source target
    (GetPiece pt s.side_to_move) promoted capture en_passant hc.bounded hm.target_lt
  have key := MovedBoards_plain s source target pt promoted capture double_push
    en_passant hc hm
  have hkings := kings_plain s source target pt promoted capture double_push en_passant hc hm
  have hocc := ApplyMove_occupancy zk s (move.CreateMove source target
    (GetPiece pt s.side_to_move) promoted capture double_push en_passant false)
  refine
    { side := by rw [ApplyMove_side]; exact hopp
      bounded := by rw [hB]; exact hbd
      disjoint := ?_
      occupancy := hocc
      en_passant := ?_
      kings := ?_
      safe := by rw [ApplyMove_side, hoppopp]; exact hsafe
      castle_white := ?_
      castle_black := ?_ }
  · rw [hB]
    intro p q i hp hq h1 h2
    have hi : i < 64 := testBit_of_lt_word _ i (hbd p (by omega)) h1
    rw [key p i hp hi] at h1
    rw [key q i hq hi] at h2
    rcases h1 with ⟨e1, h1⟩ | ⟨ne1, h1, _⟩ <;> rcases h2 with ⟨e2, h2⟩ | ⟨ne2, h2, _⟩
    · rcases h1 with ⟨n1, h1⟩ | ⟨n1, h1⟩ <;> rcases h2 with ⟨n2, h2⟩ | ⟨n2, h2⟩
      · rw [h1, h2]
      · exact absurd n2 n1
      · exact absurd n1 n2
      · rw [h1, h2]
    · exact absurd e1 ne2
    · exact absurd e2 ne1
    · exact hc.disjoint p q i hp hq h1 h2
  · rw [ApplyMove_en_passant, fdp, fP, fT, hcol]
    intro hlt
    by_cases hdp : double_push = true
    · rw [if_pos hdp] at hlt ⊢
      obtain ⟨_, hne, hfree⟩ := hm.double hdp
      cases hb : ((ApplyMove zk s (move.CreateMove source target (GetPiece pt s.side_to_move)
        promoted capture double_push en_passant false)).piece_occupancy kBothColors).testBit
          (if s.side_to_move = kWhite then target + 8 else target - 8)
      · rfl
      · obtain ⟨x, hx, hxb⟩ := (testBit_both _ hocc _).mp hb
        rw [hB, key x _ hx hlt] at hxb
        rcases hxb with ⟨e, _⟩ | ⟨_, hxb, _⟩
        · exact absurd e hne
        · rw [hfree x hx] at hxb; exact Bool.noConfusion hxb
    · rw [if_neg hdp] at hlt
      exact absurd hlt (by decide)
  · intro c hc2
    obtain ⟨k, hk, hK⟩ := hc.kings c hc2
    rw [hB]
    rcases hkings c hc2 with h | ⟨_, h⟩
    · exact ⟨k, hk, h.trans hK⟩
    · exact ⟨target, hm.target_lt, h⟩
  · rw [ApplyMove_castling, fS, fT, hB]
    intro h
    have h' : ∃ j, (j = 0 ∨ j = 1) ∧ s.castling_rights.testBit j = true ∧
        (kCastlingUpdates source).testBit j = true := by
      rcases h with h | h
      · exact ⟨0, Or.inl rfl, (castling_survives _ _ _ _ h).1, (castling_survives _ _ _ _ h).2.1⟩
      · exact ⟨1, Or.inr rfl, (castling_survives _ _ _ _ h).1, (castling_survives _ _ _ _ h).2.1⟩
    obtain ⟨j, hj, hr, hu⟩ := h'
    have hking : (s.piece_bitboards (GetPiece kKing kWhite)).testBit 60 = true :=
      hc.castle_white (by rcases hj with e | e <;> subst e <;> simp [hr])
    rcases hkings kWhite (by decide) with h | ⟨hKP, _⟩
    · rw [h]; exact hking
    · exfalso
      obtain ⟨k, hk, hK⟩ := hc.kings kWhite (by decide)
      have hholds := hm.holds
      rw [← hKP, hK] at hholds
      rw [hK] at hking
      have e1 := testBit_two_pow_eq k source hholds
      have e2 := testBit_two_pow_eq k 60 hking
      rw [e1, ← e2] at hu
      rcases hj with e | e <;> subst e
      · rw [kCastlingUpdates_home.1] at hu; exact Bool.noConfusion hu
      · rw [kCastlingUpdates_home.2.1] at hu; exact Bool.noConfusion hu
  · rw [ApplyMove_castling, fS, fT, hB]
    intro h
    have h' : ∃ j, (j = 2 ∨ j = 3) ∧ s.castling_rights.testBit j = true ∧
        (kCastlingUpdates source).testBit j = true := by
      rcases h with h | h
      · exact ⟨2, Or.inl rfl, (castling_survives _ _ _ _ h).1, (castling_survives _ _ _ _ h).2.1⟩
      · exact ⟨3, Or.inr rfl, (castling_survives _ _ _ _ h).1, (castling_survives _ _ _ _ h).2.1⟩
    obtain ⟨j, hj, hr, hu⟩ := h'
    have hking : (s.piece_bitboards (GetPiece kKing kBlack)).testBit 4 = true :=
      hc.castle_black (by rcases hj with e | e <;> subst e <;> simp [hr])
    rcases hkings kBlack (by decide) with h | ⟨hKP, _⟩
    · rw [h]; exact hking
    · exfalso
      obtain ⟨k, hk, hK⟩ := hc.kings kBlack (by decide)
      have hholds := hm.holds
      rw [← hKP, hK] at hholds
      rw [hK] at hking
      have e1 := testBit_two_pow_eq k source hholds
      have e2 := testBit_two_pow_eq k 4 hking
      rw [e1, ← e2] at hu
      rcases hj with e | e <;> subst e
      · rw [kCastlingUpdates_home.2.2.1] at hu; exact Bool.noConfusion hu
      · rw [kCastlingUpdates_home.2.2.2] at hu; exact Bool.noConfusion hu

/-! ## Castling moves -/

theorem testBit_of_and_two_pow (n j : Nat) (h : n &&& 2 ^ j ≠ 0) : n.testBit j = true := by
  cases hb : n.testBit j
  · exfalso; apply h
    rw [Nat.and_two_pow, hb]; simp
  · rfl

/-- The squares of the bitboards after a castling move. -/
theorem testBit_MovedBoards_castle (bb : Nat → Nat) (captured source target piece : Nat)
    (x i : Nat) (hi : i < 64) :
    (MovedBoards bb captured source target piece kNoPiece false false true x).testBit i = true ↔
      (((((bb x).testBit i = true ∧ ¬(x = piece ∧ i = source)) ∨ (x = piece ∧ i = target)) ∧
        ¬(x = GetPiece kRook (GetPieceColor piece) ∧
          i = (if target = 62 then 63 else if target = 58 then 56
            else if target = 6 then 7 else if target = 2 then 0 else kNoSquare))) ∨
       (x = GetPiece kRook (GetPieceColor piece) ∧
          i = (if target = 62 then 61 else if target = 58 then 59
            else if target = 6 then 5 else if target = 2 then 3 else kNoSquare))) := by
  unfold MovedBoards
  simp only [Bool.false_eq_true, if_false, ne_eq, not_true_eq_false, if_true,
    testBit_SetSquare, testBit_ClearSquare_square _ _ _ _ _ hi,
    Bool.and_eq_true, Bool.or_eq_true, Bool.not_eq_true', decide_eq_true_eq,
    Bool.and_eq_false_iff, decide_eq_false_iff_not, not_and_or]

theorem castle_logic {b xK iS iT xR iRs iRt : Prop}
    (h1 : iT → ¬b) (h2 : iRt → ¬b) (h3 : iT → ¬iRt) (h4 : xK → ¬xR) :
    ((((b ∧ ¬(xK ∧ iS)) ∨ (xK ∧ iT)) ∧ ¬(xR ∧ iRs)) ∨ (xR ∧ iRt)) ↔
    ((iT ∧ xK) ∨ (iRt ∧ xR) ∨ (¬iT ∧ ¬iRt ∧ b ∧ ¬(xK ∧ iS) ∧ ¬(xR ∧ iRs))) := by
  tauto

/-- The generated castling moves have the properties of `CastlingMove`. -/
theorem CastlingMove_of_option (s : PositionState) (hc : Consistent s)
    (right : Nat) (empty safe : List Nat) (source target : Nat)
    (hopt : (right, empty, safe, source, target) ∈ CastleOptions s.side_to_move)
    (hright : s.castling_rights &&& right ≠ 0)
    (hempty : ∀ sq, sq ∈ empty → GetBit (s.piece_occupancy kBothColors) sq = false) :
    ∃ rook_source rook_target, CastlingMove s source target rook_source rook_target := by
  have ho := hc.occupancy
  unfold CastleOptions at hopt
  by_cases hw : s.side_to_move = kWhite
  · rw [if_pos hw] at hopt
    simp only [List.mem_cons, List.mem_singleton, List.not_mem_nil, or_false,
      Prod.mk.injEq] at hopt
    rcases hopt with ⟨rfl, rfl, rfl, rfl, rfl⟩ | ⟨rfl, rfl, rfl, rfl, rfl⟩
    · have hk := hc.castle_white (Or.inl (testBit_of_and_two_pow _ 0 hright))
      exact ⟨63, 61,
        { holds := by rw [hw]; exact hk
          source_lt := by decide, target_lt := by decide, rook_target_lt := by decide
          apart := by decide
          free_target := free_of_both s ho 62 (hempty 62 (by simp))
          free_rook_target := free_of_both s ho 61 (hempty 61 (by simp))
          rook_source_eq := by decide, rook_target_eq := by decide
          cleared_white := fun _ => by decide
          cleared_black := fun h => by rw [hw] at h; exact absurd h (by decide) }⟩
    · have hk := hc.castle_white (Or.inr (testBit_of_and_two_pow _ 1 hright))
      exact ⟨56, 59,
        { holds := by rw [hw]; exact hk
          source_lt := by decide, target_lt := by decide, rook_target_lt := by decide
          apart := by decide
          free_target := free_of_both s ho 58 (hempty 58 (by simp))
          free_rook_target := free_of_both s ho 59 (hempty 59 (by simp))
          rook_source_eq := by decide, rook_target_eq := by decide
          cleared_white := fun _ => by decide
          cleared_black := fun h => by rw [hw] at h; exact absurd h (by decide) }⟩
  · rw [if_neg hw] at hopt
    have hb : s.side_to_move = kBlack := by
      have := hc.side; unfold kWhite at hw; unfold kBlack; omega
    simp only [List.mem_cons, List.mem_singleton, List.not_mem_nil, or_false,
      Prod.mk.injEq] at hopt
    rcases hopt with ⟨rfl, rfl, rfl, rfl, rfl⟩ | ⟨rfl, rfl, rfl, rfl, rfl⟩
    · have hk := hc.castle_black (Or.inl (testBit_of_and_two_pow _ 2 hright))
      exact ⟨7, 5,
        { holds := by rw [hb]; exact hk
          source_lt := by decide, target_lt := by decide, rook_target_lt := by decide
          apart := by decide
          free_target := free_of_both s ho 6 (hempty 6 (by simp))
          free_rook_target := free_of_both s ho 5 (hempty 5 (by simp))
          rook_source_eq := by decide, rook_target_eq := by decide
          cleared_white := fun h => absurd h hw
          cleared_black := fun _ => by decide }⟩
    · have hk := hc.castle_black (Or.inr (testBit_of_and_two_pow _ 3 hright))
      exact ⟨0, 3,
        { holds := by rw [hb]; exact hk
          source_lt := by decide, target_lt := by decide, rook_target_lt := by decide
          apart := by decide
          free_target := free_of_both s ho 2 (hempty 2 (by simp))
          free_rook_target := free_of_both s ho 3 (hempty 3 (by simp))
          rook_source_eq := by decide, rook_target_eq := by decide
          cleared_white := fun h => absurd h hw
          cleared_black := fun _ => by decide }⟩

theorem Bounded_MovedBoards_castle (bb : Nat → Nat) (captured source target piece : Nat)
    (rook_target : Nat) (hb : Bounded bb) (ht : target < 64) (hr : rook_target < 64)
    (he : (if target = 62 then 61 else if target = 58 then 59
      else if target = 6 then 5 else if target = 2 then 3 else kNoSquare) = rook_target) :
    Bounded (MovedBoards bb captured source target piece kNoPiece false false true) := by
  unfold MovedBoards
  simp only [Bool.false_eq_true, if_false, ne_eq, not_true_eq_false, if_true]
  rw [he]
  exact Bounded_SetSquare _ _ _ (Bounded_ClearSquare _ _ _
    (Bounded_SetSquare _ _ _ (Bounded_ClearSquare _ _ _ hb) ht)) hr

/-- The invariant holds after a generated castling move that leaves the
mover's king not attacked. -/
theorem Consistent_castle (zk : ZobristKeys) (s : PositionState)
    (source target rook_source rook_target : Nat) (hc : Consistent s)
    (hm : CastlingMove s source target rook_source rook_target)
    (hsafe : IsSquareAttacked
      (ApplyMove zk s (move.CreateMove source target (GetPiece kKing s.side_to_move) kNoPiece
        false false false true))
      (GetLSBIndex ((ApplyMove zk s (move.CreateMove source target
        (GetPiece kKing s.side_to_move) kNoPiece false false false true)).piece_bitboards
          (GetPiece kKing s.side_to_move)))
      (OppositeColor s.side_to_move) = false) :
    Consistent (ApplyMove zk s (move.CreateMove source target (GetPiece kKing s.side_to_move)
      kNoPiece false false false true)) := by
  have hside := hc.side
  obtain ⟨hopp, hoppne, hoppopp⟩ := OppositeColor_lt _ hside
  have hP : GetPiece kKing s.side_to_move < 12 := GetPiece_lt kKing _ (by decide) hside
  obtain ⟨_, fS, fT, fP, fR, fcap, fdp, fep, fcas⟩ := move.CreateMove_fields source target
    (GetPiece kKing s.side_to_move) kNoPiece false false false true
    hm.source_lt hm.target_lt hP (Or.inr rfl)
  have hcol : GetPieceColor (GetPiece kKing s.side_to_move) = s.side_to_move :=
    GetPieceColor_GetPiece kKing _ (by decide)
  have hB : (ApplyMove zk s (move.CreateMove source target (GetPiece kKing s.side_to_move)
      kNoPiece false false false true)).piece_bitboards =
      MovedBoards s.piece_bitboards (PieceOn s target) source target
        (GetPiece kKing s.side_to_move) kNoPiece false false true := by
    rw [ApplyMove_boards, fS, fT, fP, fR, fcap, fep, fcas]
  have hbd := Bounded_MovedBoards_castle s.piece_bitboards (PieceOn s target) source target
    (GetPiece kKing s.side_to_move) rook_target hc.bounded hm.target_lt hm.rook_target_lt
    hm.rook_target_eq
  have hKR : ∀ x, x = GetPiece kKing s.side_to_move → ¬ x = GetPiece kRook s.side_to_move := by
    intro x e1 e2
    have := (GetPiece_inj _ _ _ _ (by decide) (by decide) (e1.symm.trans e2)).1
    exact absurd this (by decide)
  have key : ∀ x i, x < 12 → i < 64 →
      ((MovedBoards s.piece_bitboards (PieceOn s target) source target
        (GetPiece kKing s.side_to_move) kNoPiece false false true x).testBit i = true ↔
      ((i = target ∧ x = GetPiece kKing s.side_to_move) ∨
       (i = rook_target ∧ x = GetPiece kRook s.side_to_move) ∨
       (¬ i = target ∧ ¬ i = rook_target ∧ (s.piece_bitboards x).testBit i = true ∧
        ¬(x = GetPiece kKing s.side_to_move ∧ i = source) ∧
        ¬(x = GetPiece kRook s.side_to_move ∧ i = rook_source)))) := by
    intro x i hx hi
    rw [testBit_MovedBoards_castle _ _ _ _ _ _ _ hi, hcol, hm.rook_source_eq, hm.rook_target_eq]
    have h1 : i = target → ¬ (s.piece_bitboards x).testBit i = true := by
      intro e; rw [e, hm.free_target x hx]; exact Bool.noConfusion
    have h2 : i = rook_target → ¬ (s.piece_bitboards x).testBit i = true := by
      intro e; rw [e, hm.free_rook_target x hx]; exact Bool.noConfusion
    have h3 : i = target → ¬ i = rook_target := fun e1 e2 => hm.apart (e1.symm.trans e2)
    have := @castle_logic _ _ (i = source) _ _ (i = rook_source) _ h1 h2 h3 (hKR x)
    constructor
    · intro h; rcases this.mp h with h | h | h
      · exact Or.inl h
      · exact Or.inr (Or.inl h)
      · exact Or.inr (Or.inr h)
    · intro h; apply this.mpr
      rcases h with h | h | h
      · exact Or.inl h
      · exact Or.inr (Or.inl h)
      · exact Or.inr (Or.inr h)
  have hkings : ∀ c, c < 2 →
      MovedBoards s.piece_bitboards (PieceOn s target) source target
        (GetPiece kKing s.side_to_move) kNoPiece false false true (GetPiece kKing c) =
        s.piece_bitboards (GetPiece kKing c) ∨
      (c = s.side_to_move ∧
        MovedBoards s.piece_bitboards (PieceOn s target) source target
        (GetPiece kKing s.side_to_move) kNoPiece false false true (GetPiece kKing c) =
        2 ^ target) := by
    intro c hc2
    have hK12 : GetPiece kKing c < 12 := GetPiece_lt kKing c (by decide) hc2
    obtain ⟨k, hk, hK⟩ := hc.kings c hc2
    by_cases hcs : c = s.side_to_move
    · right
      refine ⟨hcs, ?_⟩
      subst hcs
      have hS : source = k := by
        have := hm.holds
        rw [hK] at this
        exact testBit_two_pow_eq k source this
      apply eq_of_squares _ _ (hbd _ (by omega)) (Nat.pow_lt_pow_right (by decide) hm.target_lt)
      intro i hi
      rw [key _ i hK12 hi, Nat.testBit_two_pow, decide_eq_true_eq]
      constructor
      · rintro (⟨e, _⟩ | ⟨_, e⟩ | ⟨_, _, hb, hns, _⟩)
        · exact e.symm
        · exact absurd e (hKR _ rfl)
        · rw [hK] at hb
          have := testBit_two_pow_eq k i hb
          exact absurd ⟨rfl, this.trans hS.symm⟩ hns
      · intro e
        exact Or.inl ⟨e.symm, rfl⟩
    · left
      have hne : ¬ GetPiece kKing c = GetPiece kKing s.side_to_move := fun e =>
        hcs (GetPiece_inj _ _ _ _ (by decide) (by decide) e).2
      have hne2 : ¬ GetPiece kKing c = GetPiece kRook s.side_to_move := fun e =>
        absurd (GetPiece_inj _ _ _ _ (by decide) (by decide) e).1 (by decide)
      apply eq_of_squares _ _ (hbd _ (by omega)) (hc.bounded _ (by omega))
      intro i hi
      rw [key _ i hK12 hi]
      constructor
      · rintro (⟨_, e⟩ | ⟨_, e⟩ | ⟨_, _, hb, _⟩)
        · exact absurd e hne
        · exact absurd e hne2
        · exact hb
      · intro hb
        refine Or.inr (Or.inr ⟨?_, ?_, hb, fun h => hne h.1, fun h => hne2 h.1⟩)
        · intro e; rw [e, hm.free_target _ hK12] at hb; exact Bool.noConfusion hb
        · intro e; rw [e, hm.free_rook_target _ hK12] at hb; exact Bool.noConfusion hb
  have hocc := ApplyMove_occupancy zk s (move.CreateMove source target
    (GetPiece kKing s.side_to_move) kNoPiece false false false true)
  refine
    { side := by rw [ApplyMove_side]; exact hopp
      bounded := by rw [hB]; exact hbd
      disjoint := ?_
      occupancy := hocc
      en_passant := ?_
      kings := ?_
      safe := by rw [ApplyMove_side, hoppopp]; exact hsafe
      castle_white := ?_
      castle_black := ?_ }
  · rw [hB]
    intro p q i hp hq h1 h2
    have hi : i < 64 := testBit_of_lt_word _ i (hbd p (by omega)) h1
    rw [key p i hp hi] at h1
    rw [key q i hq hi] at h2
    rcases h1 with ⟨e1, h1⟩ | ⟨e1, h1⟩ | ⟨ne1, nr1, h1, _⟩ <;>
      rcases h2 with ⟨e2, h2⟩ | ⟨e2, h2⟩ | ⟨ne2, nr2, h2, _⟩
    · rw [h1, h2]
    · exact absurd (e1.symm.trans e2) hm.apart
    · exact absurd e1 ne2
    · exact absurd (e2.symm.trans e1) hm.apart
    · rw [h1, h2]
    · exact absurd e1 nr2
    · exact absurd e2 ne1
    · exact absurd e2 nr1
    · exact hc.disjoint p q i hp hq h1 h2
  · rw [ApplyMove_en_passant, fdp, if_neg Bool.false_ne_true]
    intro hlt
    exact absurd hlt (by decide)
  · intro c hc2
    obtain ⟨k, hk, hK⟩ := hc.kings c hc2
    rw [hB]
    rcases hkings c hc2 with h | ⟨_, h⟩
    · exact ⟨k, hk, h.trans hK⟩
    · exact ⟨target, hm.target_lt, h⟩
  · rw [ApplyMove_castling, fS, fT, hB]
    intro h
    have h' : ∃ j, (j = 0 ∨ j = 1) ∧ s.castling_rights.testBit j = true ∧
        (kCastlingUpdates source).testBit j = true := by
      rcases h with h | h
      · exact ⟨0, Or.inl rfl, (castling_survives _ _ _ _ h).1, (castling_survives _ _ _ _ h).2.1⟩
      · exact ⟨1, Or.inr rfl, (castling_survives _ _ _ _ h).1, (castling_survives _ _ _ _ h).2.1⟩
    obtain ⟨j, hj, hr, hu⟩ := h'
    have hking : (s.piece_bitboards (GetPiece kKing kWhite)).testBit 60 = true :=
      hc.castle_white (by rcases hj with e | e <;> subst e <;> simp [hr])
    rcases hkings kWhite (by decide) with h | ⟨hw, _⟩
    · rw [h]; exact hking
    · exfalso
      have hcl := hm.cleared_white hw.symm
      rcases hj with e | e <;> subst e
      · rw [hcl.1] at hu; exact Bool.noConfusion hu
      · rw [hcl.2] at hu; exact Bool.noConfusion hu
  · rw [ApplyMove_castling, fS, fT, hB]
    intro h
    have h' : ∃ j, (j = 2 ∨ j = 3) ∧ s.castling_rights.testBit j = true ∧
        (kCastlingUpdates source).testBit j = true := by
      rcases h with h | h
      · exact ⟨2, Or.inl rfl, (castling_survives _ _ _ _ h).1, (castling_survives _ _ _ _ h).2.1⟩
      · exact ⟨3, Or.inr rfl, (castling_survives _ _ _ _ h).1, (castling_survives _ _ _ _ h).2.1⟩
    obtain ⟨j, hj, hr, hu⟩ := h'
    have hking : (s.piece_bitboards (GetPiece kKing kBlack)).testBit 4 = true :=
      hc.castle_black (by rcases hj with e | e <;> subst e <;> simp [hr])
    rcases hkings kBlack (by decide) with h | ⟨hw, _⟩
    · rw [h]; exact hking
    · exfalso
      have hcl := hm.cleared_black hw.symm
      rcases hj with e | e <;> subst e
      · rw [hcl.1] at hu; exact Bool.noConfusion hu
      · rw [hcl.2] at hu; exact Bool.noConfusion hu

/-- The invariant holds after a successful `MakeMove` on a generated move. -/
theorem Consistent_step (zk : ZobristKeys) (s : PositionState) (m : Nat) (q : Bool)
    (hc : Consistent s) (hm : m ∈ GenerateMoves s) (ht : (MakeMove zk s m q).1 = true) :
    Consistent (MakeMove zk s m q).2 := by
  obtain ⟨he, hsafe⟩ := MakeMove_true zk s m q ht
  rw [he]
  have hk : s.piece_bitboards (GetPiece kKing s.side_to_move) ≠ 0 := by
    obtain ⟨k, _, hK⟩ := hc.kings _ hc.side
    rw [hK]
    exact Nat.pos_iff_ne_zero.mp (Nat.two_pow_pos k)
  have hg := Generated_of_mem s hc.side hc.bounded hk m hm
  rcases PlainMove_of_Generated s hc m hg with
    ⟨source, target, pt, promoted, capture, double_push, en_passant, rfl, hp⟩ |
    ⟨right, empty, safe, source, target, hopt, hright, hempty, rfl⟩
  · have hP : GetPiece pt s.side_to_move < 12 := GetPiece_lt pt _ hp.pt_lt hc.side
    have hR : promoted < 12 ∨ promoted = kNoPiece := by
      rcases hp.promoted_ok with h | ⟨_, _, _, rt, h1, h4, h⟩
      · exact Or.inr h
      · left; rw [h]; exact GetPiece_lt rt _ (by omega) hc.side
    have fP := (move.CreateMove_fields source target (GetPiece pt s.side_to_move) promoted
      capture double_push en_passant false hp.source_lt hp.target_lt hP hR).2.2.2.1
    rw [fP, GetPieceColor_GetPiece pt _ hp.pt_lt] at hsafe
    exact Consistent_plain zk s source target pt promoted capture double_push en_passant hc hp
      hsafe
  · obtain ⟨rs, rt, hcm⟩ := CastlingMove_of_option s hc right empty safe source target hopt
      hright hempty
    have hP : GetPiece kKing s.side_to_move < 12 := GetPiece_lt kKing _ (by decide) hc.side
    have fP := (move.CreateMove_fields source target (GetPiece kKing s.side_to_move) kNoPiece
      false false false true hcm.source_lt hcm.target_lt hP (Or.inr rfl)).2.2.2.1
    rw [fP, GetPieceColor_GetPiece kKing _ (by decide)] at hsafe
    exact Consistent_castle zk s source target rs rt hc hcm hsafe

/-! ## The start position -/

/-- On the board `IsSquareAttacked` is the test along the rays. -/
theorem IsSquareAttacked_eq_rays (s : PositionState) (sq side : Nat) (h : sq < 64) :
    IsSquareAttacked s sq side = RayAttacked s sq side := by
  rw [Bool.eq_iff_iff, IsSquareAttacked_iff]
  unfold RayAttacked precomputed_data.GetQueenAttacks
  rw [precomputed_data.GetBishopAttacks_eq sq _ h, precomputed_data.GetRookAttacks_eq sq _ h]
  simp only [Bool.or_eq_true, decide_eq_true_eq, or_assoc]

theorem SetClocks_boards (zk : ZobristKeys) (pos : Position) (st : PositionState)
    (half : List Char) :
    (SetClocks zk pos st half).2.state_.piece_bitboards = st.piece_bitboards ∧
    (SetClocks zk pos st half).2.state_.piece_occupancy = st.piece_occupancy := by
  unfold SetClocks
  split
  · split
    · exact ⟨rfl, rfl⟩
    · split <;> exact ⟨rfl, rfl⟩
  · exact ⟨rfl, rfl⟩

theorem SetEnPassant_boards (zk : ZobristKeys) (pos : Position) (st : PositionState)
    (ep : List Char) :
    (SetEnPassant zk pos st ep).2.state_.piece_bitboards = st.piece_bitboards ∧
    (SetEnPassant zk pos st ep).2.state_.piece_occupancy = st.piece_occupancy := by
  cases ep with
  | nil => exact ⟨rfl, rfl⟩
  | cons c rest =>
    simp only [SetEnPassant]
    by_cases hc : c = '-'
    · simp only [hc, if_true]
      cases Advance 1 rest with
      | none => exact ⟨rfl, rfl⟩
      | some half => exact SetClocks_boards zk pos _ half
    · simp only [hc, if_false]
      cases Advance 2 rest with
      | none => exact ⟨rfl, rfl⟩
      | some half => exact SetClocks_boards zk pos _ half

theorem SetColour_boards (zk : ZobristKeys) (pos : Position) (st : PositionState)
    (rest : List Char) :
    (SetColour zk pos st rest).2.state_.piece_bitboards = st.piece_bitboards ∧
    (SetColour zk pos st rest).2.state_.piece_occupancy = st.piece_occupancy := by
  unfold SetColour
  split
  · exact ⟨rfl, rfl⟩
  · split
    · exact ⟨rfl, rfl⟩
    · exact SetEnPassant_boards zk pos _ _

/-- After a successful `Set` the occupancies are those `GenerateOccupancies`
computes from the bitboards, the other cells of the array being zero. -/
theorem Set_occupancy (zk : ZobristKeys) (pos : Position) (fen : List Char)
    (h : (Set zk pos fen).1 = SetResult.ok) :
    (Set zk pos fen).2.state_.piece_occupancy =
      setAt (setAt (setAt (fun _ => 0) kWhite
        (WhiteUnion (Set zk pos fen).2.state_.piece_bitboards)) kBlack
        (BlackUnion (Set zk pos fen).2.state_.piece_bitboards)) kBothColors
        (WhiteUnion (Set zk pos fen).2.state_.piece_bitboards |||
          BlackUnion (Set zk pos fen).2.state_.piece_bitboards) := by
  unfold Set at h ⊢
  split at h
  · exact absurd h (by simp)
  · rename_i bb rest heq
    obtain ⟨h1, h2⟩ := SetColour_boards zk
      { pos with repetition_table_ := pos.repetition_table_.Clear }
      (GenerateOccupancies
        { pos.state_ with piece_bitboards := bb, piece_occupancy := fun _ => 0 }) rest
    rw [h1, h2]
    simp [GenerateOccupancies, WhiteUnion, BlackUnion]

/-- Two arrays that place the same pieces are equal. -/
theorem Placed_unique (p : PositionState) (bb bb' : Nat → Nat) (n : Nat)
    (h : Placed p bb n) (h' : Placed p bb' n) : bb = bb' := by
  funext q
  apply Nat.eq_of_testBit_eq
  intro j
  rw [Bool.eq_iff_iff, h q j, h' q j]

set_option maxRecDepth 100000 in
theorem kStartingPositionFen_eq : kStartingPositionFen = ToFen sampleStart := by decide!

set_option maxRecDepth 100000 in
/-- The state `Reset` leaves, whatever the keys and the position before. -/
theorem Reset_shape (zk : ZobristKeys) (pos : Position) :
    Placed sampleStart (Reset zk pos).state_.piece_bitboards 64 ∧
    (Reset zk pos).state_.piece_occupancy =
      setAt (setAt (setAt (fun _ => 0) kWhite
        (WhiteUnion (Reset zk pos).state_.piece_bitboards)) kBlack
        (BlackUnion (Reset zk pos).state_.piece_bitboards)) kBothColors
        (WhiteUnion (Reset zk pos).state_.piece_bitboards |||
          BlackUnion (Reset zk pos).state_.piece_bitboards) ∧
    (Reset zk pos).state_.side_to_move = kWhite ∧
    (Reset zk pos).state_.castling_rights = 15 ∧
    (Reset zk pos).state_.en_passant_square = kNoSquare := by
  obtain ⟨bb, st, hpl, hset, hbb, hside, hcr, hep, _, _⟩ := Set_ToFen zk
    { pos with state_ := ⟨fun _ => 0, fun _ => 0, 0, 0, 0, 0, 0, 0⟩ } sampleStart
    (Or.inr (by decide!)) (by decide!) (by decide!) (by decide!) (by decide!) (by decide!)
  have hok : (Set zk { pos with state_ := ⟨fun _ => 0, fun _ => 0, 0, 0, 0, 0, 0, 0⟩ }
      (ToFen sampleStart)).1 = SetResult.ok := by rw [hset]
  have hocc := Set_occupancy zk _ _ hok
  unfold Reset
  rw [kStartingPositionFen_eq]
  refine ⟨?_, hocc, ?_, ?_, ?_⟩
  · rw [hset, hbb]; exact hpl
  · rw [hset, hside]; decide!
  · rw [hset, hcr]; decide!
  · rw [hset, hep]; decide!

/-- The invariant reads the boards, the side to move, the en-passant square
and the castling rights only. -/
theorem Consistent_congr (s t : PositionState)
    (h1 : s.piece_bitboards = t.piece_bitboards) (h2 : s.piece_occupancy = t.piece_occupancy)
    (h3 : s.side_to_move = t.side_to_move) (h4 : s.en_passant_square = t.en_passant_square)
    (h5 : s.castling_rights = t.castling_rights) (hc : Consistent s) : Consistent t := by
  obtain ⟨bb, occ, side, ep, cr, key, clock, ply⟩ := s
  obtain ⟨bb', occ', side', ep', cr', key', clock', ply'⟩ := t
  simp only at h1 h2 h3 h4 h5
  subst h1 h2 h3 h4 h5
  exact
    { side := hc.side, bounded := hc.bounded, disjoint := hc.disjoint
      occupancy := hc.occupancy, en_passant := hc.en_passant, kings := hc.kings
      safe := hc.safe, castle_white := hc.castle_white, castle_black := hc.castle_black }

theorem NoOverlap_of_Placed (p : PositionState) (bb : Nat → Nat) (n : Nat)
    (h : Placed p bb n) : NoOverlap bb := by
  intro x y i _ _ hx hy
  have h1 := ((h x i).mp hx).2.1
  have h2 := ((h y i).mp hy).2.1
  exact h1.symm.trans h2

theorem Bounded_of_Placed (p : PositionState) (bb : Nat → Nat) (h : Placed p bb 64) :
    Bounded bb := by
  intro x _
  exact lt_word_of_testBit _ (fun i hi => ((h x i).mp hi).1)

set_option maxRecDepth 100000 in
/-- The invariant holds in the start position. -/
theorem Consistent_start (zk : ZobristKeys) (pos : Position) :
    Consistent (Reset zk pos).state_ := by
  obtain ⟨hpl, hocc, hside, hcr, hep⟩ := Reset_shape zk pos
  obtain ⟨hpl0, _, _, _, _⟩ := Reset_shape sampleKeys blankPosition
  have hbb : (Reset zk pos).state_.piece_bitboards = sampleStart.piece_bitboards :=
    Placed_unique sampleStart _ _ 64 hpl hpl0
  have hoa : OccupanciesAgree (Reset zk pos).state_ := by
    unfold OccupanciesAgree
    rw [hocc]
    simp [setAt, kWhite, kBlack, kBothColors]
  have hq : (Reset zk pos).state_.piece_occupancy kBothColors =
      sampleStart.piece_occupancy kBothColors := by
    rw [hoa.2.2, hbb]; decide!
  refine
    { side := by rw [hside]; decide
      bounded := Bounded_of_Placed _ _ hpl
      disjoint := NoOverlap_of_Placed _ _ _ hpl
      occupancy := hoa
      en_passant := by rw [hep]; intro h; exact absurd h (by decide)
      kings := ?_
      safe := ?_
      castle_white := by intro _; rw [hbb]; decide!
      castle_black := by intro _; rw [hbb]; decide! }
  · intro c hc
    rw [hbb]
    have : c = 0 ∨ c = 1 := by omega
    rcases this with e | e <;> subst e
    · exact ⟨60, by decide, by decide!⟩
    · exact ⟨4, by decide, by decide!⟩
  · rw [hside, hbb]
    have h4 : GetLSBIndex (sampleStart.piece_bitboards (GetPiece kKing (OppositeColor kWhite)))
        = 4 := by decide!
    rw [h4, IsSquareAttacked_eq_rays _ _ _ (by decide)]
    unfold RayAttacked
    rw [hq, hbb]
    decide!

/-- The invariant holds in every position of a game. -/
theorem Consistent_of_Reachable (zk : ZobristKeys) (s : PositionState) (h : Reachable zk s) :
    Consistent s := by
  induction h with
  | start pos => exact Consistent_start zk pos
  | step s m q _ hm ht ih => exact Consistent_step zk s m q ih hm ht

/-! ## The invariants of the positions of a game -/

theorem xor_eq_or_of_and_eq_zero (a b : Nat) (h : a &&& b = 0) : a ^^^ b = a ||| b := by
  apply Nat.eq_of_testBit_eq
  intro i
  have hi : (a &&& b).testBit i = false := by rw [h, Nat.zero_testBit]
  rw [Nat.testBit_and] at hi
  rw [Nat.testBit_xor, Nat.testBit_or]
  cases ha : a.testBit i <;> cases hb : b.testBit i <;> simp [ha, hb] at hi ⊢

theorem and_eq_zero_of_no_common_bit (a b : Nat)
    (h : ∀ i, a.testBit i = true → b.testBit i = true → False) : a &&& b = 0 := by
  by_contra hc
  obtain ⟨i, h1, h2⟩ := exists_testBit_of_and_ne_zero a b hc
  exact h i h1 h2

set_option maxRecDepth 100000 in
theorem CountBits_two_pow : ∀ k, k < 64 → CountBits (2 ^ k) = 1 := by decide!

/-- C4: in every position reached from the start position by successful
`MakeMove` calls on generated moves the twelve piece bitboards are pairwise
disjoint, the occupancy of each colour is the union of its six piece bitboards,
and white occupancy XOR black occupancy = white occupancy OR black occupancy =
the occupancy of both colours. -/
theorem Reachable_bitboards (zk : ZobristKeys) (s : PositionState) (h : Reachable zk s) :
    (∀ p q, p < 12 → q < 12 → p ≠ q → s.piece_bitboards p &&& s.piece_bitboards q = 0) ∧
    s.piece_occupancy kWhite =
      s.piece_bitboards 0 ||| s.piece_bitboards 1 ||| s.piece_bitboards 2 |||
      s.piece_bitboards 3 ||| s.piece_bitboards 4 ||| s.piece_bitboards 5 ∧
    s.piece_occupancy kBlack =
      s.piece_bitboards 6 ||| s.piece_bitboards 7 ||| s.piece_bitboards 8 |||
      s.piece_bitboards 9 ||| s.piece_bitboards 10 ||| s.piece_bitboards 11 ∧
    s.piece_occupancy kWhite ^^^ s.piece_occupancy kBlack =
      s.piece_occupancy kWhite ||| s.piece_occupancy kBlack ∧
    s.piece_occupancy kWhite ||| s.piece_occupancy kBlack = s.piece_occupancy kBothColors := by
  have hc := Consistent_of_Reachable zk s h
  obtain ⟨hw, hb, hboth⟩ := hc.occupancy
  refine ⟨?_, hw, hb, ?_, ?_⟩
  · intro p q hp hq hne
    apply and_eq_zero_of_no_common_bit
    intro i h1 h2
    exact hne (hc.disjoint p q i hp hq h1 h2)
  · apply xor_eq_or_of_and_eq_zero
    apply and_eq_zero_of_no_common_bit
    intro i h1 h2
    rw [hw, testBit_WhiteUnion] at h1
    rw [hb, testBit_BlackUnion] at h2
    obtain ⟨p, hp, hpb⟩ := h1
    obtain ⟨q, hq6, hq, hqb⟩ := h2
    have := hc.disjoint p q i (by omega) hq hpb hqb
    omega
  · rw [hboth, hw, hb]

theorem Reachable_bitboards_witness :
    Reachable sampleKeys sampleStart ∧
    ((∀ p q, p < 12 → q < 12 → p ≠ q →
      sampleStart.piece_bitboards p &&& sampleStart.piece_bitboards q = 0) ∧
    sampleStart.piece_occupancy kWhite =
      sampleStart.piece_bitboards 0 ||| sampleStart.piece_bitboards 1 |||
      sampleStart.piece_bitboards 2 ||| sampleStart.piece_bitboards 3 |||
      sampleStart.piece_bitboards 4 ||| sampleStart.piece_bitboards 5 ∧
    sampleStart.piece_occupancy kBlack =
      sampleStart.piece_bitboards 6 ||| sampleStart.piece_bitboards 7 |||
      sampleStart.piece_bitboards 8 ||| sampleStart.piece_bitboards 9 |||
      sampleStart.piece_bitboards 10 ||| sampleStart.piece_bitboards 11 ∧
    sampleStart.piece_occupancy kWhite ^^^ sampleStart.piece_occupancy kBlack =
      sampleStart.piece_occupancy kWhite ||| sampleStart.piece_occupancy kBlack ∧
    sampleStart.piece_occupancy kWhite ||| sampleStart.piece_occupancy kBlack =
      sampleStart.piece_occupancy kBothColors) :=
  ⟨Reachable.start blankPosition,
    Reachable_bitboards sampleKeys sampleStart (Reachable.start blankPosition)⟩

/-- C5: in every position reached from the start position by successful
`MakeMove` calls on generated moves the white-king bitboard and the black-king
bitboard each have exactly one set bit. -/
theorem Reachable_one_king (zk : ZobristKeys) (s : PositionState) (h : Reachable zk s) :
    CountBits (s.piece_bitboards (GetPiece kKing kWhite)) = 1 ∧
    CountBits (s.piece_bitboards (GetPiece kKing kBlack)) = 1 ∧
    (∃ k, k < 64 ∧ s.piece_bitboards (GetPiece kKing kWhite) = 2 ^ k) ∧
    (∃ k, k < 64 ∧ s.piece_bitboards (GetPiece kKing kBlack) = 2 ^ k) := by
  have hc := Consistent_of_Reachable zk s h
  obtain ⟨k, hk, hK⟩ := hc.kings kWhite (by decide)
  obtain ⟨k', hk', hK'⟩ := hc.kings kBlack (by decide)
  refine ⟨?_, ?_, ⟨k, hk, hK⟩, ⟨k', hk', hK'⟩⟩
  · rw [hK]; exact CountBits_two_pow k hk
  · rw [hK']; exact CountBits_two_pow k' hk'

theorem Reachable_one_king_witness :
    Reachable sampleKeys sampleStart ∧
    (CountBits (sampleStart.piece_bitboards (GetPiece kKing kWhite)) = 1 ∧
    CountBits (sampleStart.piece_bitboards (GetPiece kKing kBlack)) = 1 ∧
    (∃ k, k < 64 ∧ sampleStart.piece_bitboards (GetPiece kKing kWhite) = 2 ^ k) ∧
    (∃ k, k < 64 ∧ sampleStart.piece_bitboards (GetPiece kKing kBlack) = 2 ^ k)) :=
  ⟨Reachable.start blankPosition,
    Reachable_one_king sampleKeys sampleStart (Reachable.start blankPosition)⟩

/-! ## The result of `MakeMove` -/

theorem CastleOptions_squares (side right : Nat) (empty safe : List Nat) (source target : Nat)
    (h : (right, empty, safe, source, target) ∈ CastleOptions side) :
    source < 64 ∧ target < 64 := by
  unfold CastleOptions at h
  split_ifs at h <;>
    simp only [List.mem_cons, List.mem_singleton, List.not_mem_nil, or_false,
      Prod.mk.injEq] at h <;>
    rcases h with ⟨_, _, _, rfl, rfl⟩ | ⟨_, _, _, rfl, rfl⟩ <;> decide

/-- A generated move moves a piece of the side to move. -/
theorem Generated_piece_colour (s : PositionState) (hside : s.side_to_move < 2) (m : Nat)
    (hg : Generated s m) : GetPieceColor (move.GetPiece m) = s.side_to_move := by
  have hfield : ∀ (source target pt promoted : Nat) (c d e k : Bool), source < 64 →
      target < 64 → pt < 6 → (promoted < 12 ∨ promoted = kNoPiece) →
      GetPieceColor (move.GetPiece (move.CreateMove source target (GetPiece pt s.side_to_move)
        promoted c d e k)) = s.side_to_move := by
    intro source target pt promoted c d e k hs ht hpt hR
    rw [(move.CreateMove_fields source target (GetPiece pt s.side_to_move) promoted c d e k
      hs ht (GetPiece_lt pt _ hpt hside) hR).2.2.2.1]
    exact GetPieceColor_GetPiece pt _ hpt
  have hprom : ∀ pt, pt ∈ [kQueen, kRook, kBishop, kKnight] →
      GetPiece pt s.side_to_move < 12 := by
    intro pt hpt
    exact GetPiece_lt pt _ (by have := promoted_type pt hpt; omega) hside
  cases hg with
  | push source target hs hbit hstep hfree hrank =>
    exact hfield _ _ _ _ _ _ _ _ hs hstep.1 (by decide) (Or.inr rfl)
  | pushPromotion source target pt hs hbit hstep hfree hrank hpt =>
    exact hfield _ _ _ _ _ _ _ _ hs hstep.1 (by decide) (Or.inl (hprom pt hpt))
  | doublePush source middle target hs hbit hstep hfree hrank hstart hstep2 hfree2 =>
    exact hfield _ _ _ _ _ _ _ _ hs hstep2.1 (by decide) (Or.inr rfl)
  | pawnCapture source target hs ht hbit hatt hocc hrank =>
    exact hfield _ _ _ _ _ _ _ _ hs ht (by decide) (Or.inr rfl)
  | capturePromotion source target pt hs ht hbit hatt hocc hrank hpt =>
    exact hfield _ _ _ _ _ _ _ _ hs ht (by decide) (Or.inl (hprom pt hpt))
  | enPassant source target hs ht hbit hatt hocc hep =>
    exact hfield _ _ _ _ _ _ _ _ hs ht (by decide) (Or.inr rfl)
  | piece pt source target h1 h5 hs ht hbit hatt hown =>
    exact hfield _ _ _ _ _ _ _ _ hs ht (by omega) (Or.inr rfl)
  | castle right empty safe source target hopt hright hempty hsafe =>
    obtain ⟨hs, ht⟩ := CastleOptions_squares _ _ _ _ _ _ hopt
    exact hfield _ _ _ _ _ _ _ _ hs ht (by decide) (Or.inr rfl)

/-- C3: for a position with a colour to move, 64-bit bitboards and a king of
the side to move, and a move `m` of `GenerateMoves`, `MakeMove(m, q)` returns
false exactly when `q` is set and `m` is not a capture, or the king of the
side that moved is attacked by the side now to move in the position with the
move applied; after a true result the move is applied and that king is not
attacked. -/
theorem MakeMove_result (zk : ZobristKeys) (s : PositionState) (m : Nat) (q : Bool)
    (hside : s.side_to_move < 2) (hb : Bounded s.piece_bitboards)
    (hk : s.piece_bitboards (GetPiece kKing s.side_to_move) ≠ 0)
    (hm : m ∈ GenerateMoves s) :
    ((MakeMove zk s m q).1 = false ↔
      ((q = true ∧ move.IsCapture m = false) ∨
        IsSquareAttacked (ApplyMove zk s m)
          (GetLSBIndex ((ApplyMove zk s m).piece_bitboards (GetPiece kKing s.side_to_move)))
          (ApplyMove zk s m).side_to_move = true)) ∧
    ((MakeMove zk s m q).1 = true →
      (MakeMove zk s m q).2 = ApplyMove zk s m ∧
      IsSquareAttacked (MakeMove zk s m q).2
        (GetLSBIndex ((MakeMove zk s m q).2.piece_bitboards (GetPiece kKing s.side_to_move)))
        (MakeMove zk s m q).2.side_to_move = false) := by
  have hcol := Generated_piece_colour s hside m (Generated_of_mem s hside hb hk m hm)
  have hflag : (MakeMove zk s m q).1 = false ↔
      ((q = true ∧ move.IsCapture m = false) ∨
        IsSquareAttacked (ApplyMove zk s m)
          (GetLSBIndex ((ApplyMove zk s m).piece_bitboards (GetPiece kKing s.side_to_move)))
          (ApplyMove zk s m).side_to_move = true) := by
    rw [ApplyMove_side]
    unfold MakeMove
    rw [hcol]
    by_cases h1 : (q && !move.IsCapture m) = true
    · rw [if_pos h1]
      simp only [Bool.and_eq_true, Bool.not_eq_true'] at h1
      exact ⟨fun _ => Or.inl h1, fun _ => rfl⟩
    · rw [if_neg h1]
      simp only [Bool.and_eq_true, Bool.not_eq_true'] at h1
      by_cases h2 : IsSquareAttacked (ApplyMove zk s m)
          (GetLSBIndex ((ApplyMove zk s m).piece_bitboards (GetPiece kKing s.side_to_move)))
          (OppositeColor s.side_to_move) = true
      · rw [if_pos h2]
        exact ⟨fun _ => Or.inr h2, fun _ => rfl⟩
      · rw [if_neg h2]
        constructor
        · intro h; exact absurd h (by simp)
        · rintro (h | h)
          · exact absurd h h1
          · exact absurd h h2
  refine ⟨hflag, ?_⟩
  intro ht
  obtain ⟨he, hsafe⟩ := MakeMove_true zk s m q ht
  rw [hcol] at hsafe
  rw [he, ApplyMove_side]
  exact ⟨rfl, hsafe⟩

/-! ## The key after an en-passant capture -/

theorem ApplyMove_key (zk : ZobristKeys) (s : PositionState) (m : Nat) :
    (ApplyMove zk s m).key =
      MovedKey zk s.key (PieceOn s (move.GetTargetSquare m))
        (move.GetSourceSquare m) (move.GetTargetSquare m) (move.GetPiece m)
        (move.GetPromotedPiece m) (move.IsCapture m) (move.IsDoublePush m)
        (move.IsEnPassant m) (move.IsCastle m) s.en_passant_square s.castling_rights :=
  rfl

theorem BoardsAgree_ApplyMove (zk zk' : ZobristKeys) (s t : PositionState) (m : Nat)
    (h : BoardsAgree s t) : BoardsAgree (ApplyMove zk s m) (ApplyMove zk' t m) := by
  obtain ⟨bb, occ, side, ep, cr, key, clock, ply⟩ := s
  obtain ⟨bb', occ', side', ep', cr', key', clock', ply'⟩ := t
  obtain ⟨h1, h2, h3, h4, h5⟩ := h
  simp only at h1 h2 h3 h4 h5
  subst h1 h2 h3 h4 h5
  exact ⟨rfl, rfl, rfl, rfl, rfl⟩

theorem BoardsAgree_GeneratePawnMoves (s t : PositionState) (h : BoardsAgree s t) :
    GeneratePawnMoves s = GeneratePawnMoves t := by
  obtain ⟨bb, occ, side, ep, cr, key, clock, ply⟩ := s
  obtain ⟨bb', occ', side', ep', cr', key', clock', ply'⟩ := t
  obtain ⟨h1, h2, h3, h4, h5⟩ := h
  simp only at h1 h2 h3 h4 h5
  subst h1 h2 h3 h4 h5
  rfl

theorem BoardsAgree_IsSquareAttacked (s t : PositionState) (h : BoardsAgree s t)
    (sq side : Nat) : IsSquareAttacked s sq side = IsSquareAttacked t sq side := by
  obtain ⟨bb, occ, side, ep, cr, key, clock, ply⟩ := s
  obtain ⟨bb', occ', side', ep', cr', key', clock', ply'⟩ := t
  obtain ⟨h1, h2, h3, h4, h5⟩ := h
  simp only at h1 h2 h3 h4 h5
  subst h1 h2 h3 h4 h5
  rfl

theorem BoardsAgree_GenerateKey (zk : ZobristKeys) (s t : PositionState)
    (h : BoardsAgree s t) : GenerateKey zk s = GenerateKey zk t := by
  obtain ⟨bb, occ, side, ep, cr, key, clock, ply⟩ := s
  obtain ⟨bb', occ', side', ep', cr', key', clock', ply'⟩ := t
  obtain ⟨h1, h2, h3, h4, h5⟩ := h
  simp only at h1 h2 h3 h4 h5
  subst h1 h2 h3 h4 h5
  rfl

theorem BoardsAgree_start (zk : ZobristKeys) (pos : Position) :
    BoardsAgree (Reset zk pos).state_ sampleStart := by
  obtain ⟨hpl, hocc, hside, hcr, hep⟩ := Reset_shape zk pos
  obtain ⟨hpl0, hocc0, hside0, hcr0, hep0⟩ := Reset_shape sampleKeys blankPosition
  have hbb : (Reset zk pos).state_.piece_bitboards = sampleStart.piece_bitboards :=
    Placed_unique sampleStart _ _ 64 hpl hpl0
  refine ⟨hbb, ?_, hside.trans hside0.symm, hep.trans hep0.symm, hcr.trans hcr0.symm⟩
  rw [hocc, hbb]
  exact hocc0.symm

/-! ### The line 1. e4 a6 2. e5 d5 3. exd6 e.p. -/

theorem xor_cancel (a b : Nat) : a ^^^ (a ^^^ b) = b := by
  rw [← Nat.xor_assoc, Nat.xor_self, Nat.zero_xor]

theorem xor_left_comm (a b c : Nat) : a ^^^ (b ^^^ c) = b ^^^ (a ^^^ c) := by
  rw [← Nat.xor_assoc, Nat.xor_comm a b, Nat.xor_assoc]

theorem SetClocks_key (zk : ZobristKeys) (pos : Position) (st : PositionState)
    (half : List Char) (h : (SetClocks zk pos st half).1 = SetResult.ok) :
    (SetClocks zk pos st half).2.state_.key =
      GenerateKey zk (SetClocks zk pos st half).2.state_ := by
  unfold SetClocks at h ⊢
  by_cases hmem : ' ' ∈ half
  · rw [if_pos hmem] at h ⊢
    generalize stoi (half.takeWhile (fun c => c ≠ ' ')) = r1 at h ⊢
    cases r1 with
    | none => exact absurd h (by simp)
    | some v =>
      simp only [] at h ⊢
      generalize stoi (((half.dropWhile (fun c => c ≠ ' ')).tail).takeWhile
          (fun c => c ≠ ' ')) = r2 at h ⊢
      cases r2 with
      | none => exact absurd h (by simp)
      | some n => rfl
  · rw [if_neg hmem] at h
    exact absurd h (by simp)

theorem SetEnPassant_key (zk : ZobristKeys) (pos : Position) (st : PositionState)
    (ep : List Char) (h : (SetEnPassant zk pos st ep).1 = SetResult.ok) :
    (SetEnPassant zk pos st ep).2.state_.key =
      GenerateKey zk (SetEnPassant zk pos st ep).2.state_ := by
  cases ep with
  | nil => exact absurd h (by simp [SetEnPassant])
  | cons c rest =>
    simp only [SetEnPassant] at h ⊢
    by_cases hc : c = '-'
    · simp only [hc, if_true] at h ⊢
      generalize Advance 1 rest = r at h ⊢
      cases r with
      | none => exact absurd h (by simp)
      | some half => exact SetClocks_key zk pos _ half h
    · simp only [hc, if_false] at h ⊢
      generalize Advance 2 rest = r at h ⊢
      cases r with
      | none => exact absurd h (by simp)
      | some half => exact SetClocks_key zk pos _ half h

theorem SetColour_key (zk : ZobristKeys) (pos : Position) (st : PositionState)
    (rest : List Char) (h : (SetColour zk pos st rest).1 = SetResult.ok) :
    (SetColour zk pos st rest).2.state_.key =
      GenerateKey zk (SetColour zk pos st rest).2.state_ := by
  unfold SetColour at h ⊢
  generalize Advance 2 rest.tail = r1 at h ⊢
  cases r1 with
  | none => exact absurd h (by simp)
  | some castling =>
    simp only [] at h ⊢
    generalize ParseCastling castling kNoCastling = r2 at h ⊢
    obtain ⟨rights, r⟩ := r2
    cases r with
    | none => exact absurd h (by simp)
    | some rest2 => exact SetEnPassant_key zk pos _ _ h

/-- After a successful `Set` the key is the one `GenerateKey` computes. -/
theorem Set_key (zk : ZobristKeys) (pos : Position) (fen : List Char)
    (h : (Set zk pos fen).1 = SetResult.ok) :
    (Set zk pos fen).2.state_.key = GenerateKey zk (Set zk pos fen).2.state_ := by
  unfold Set at h ⊢
  generalize ParsePlacement fen (fun _ => 0) 0 = r1 at h ⊢
  obtain ⟨bb, r⟩ := r1
  cases r with
  | none => exact absurd h (by simp)
  | some rest => exact SetColour_key zk _ _ rest h

set_option maxRecDepth 100000 in
theorem Reset_key (zk : ZobristKeys) (pos : Position) :
    (Reset zk pos).state_.key = GenerateKey zk (Reset zk pos).state_ := by
  obtain ⟨bb, st, hpl, hset, _⟩ := Set_ToFen zk
    { pos with state_ := ⟨fun _ => 0, fun _ => 0, 0, 0, 0, 0, 0, 0⟩ } sampleStart
    (Or.inr (by decide!)) (by decide!) (by decide!) (by decide!) (by decide!) (by decide!)
  unfold Reset
  rw [kStartingPositionFen_eq]
  exact Set_key zk _ _ (by rw [hset])

/-- One move of the line: it is generated, `MakeMove` accepts and applies it. -/
theorem line_step (zk : ZobristKeys) (t c : PositionState) (m : Nat) (h : BoardsAgree t c)
    (hmem : m ∈ GeneratePawnMoves c)
    (hlt : GetLSBIndex ((ApplyMove sampleKeys c m).piece_bitboards
      (GetPiece kKing (GetPieceColor (move.GetPiece m)))) < 64)
    (hsafe : RayAttacked (ApplyMove sampleKeys c m)
      (GetLSBIndex ((ApplyMove sampleKeys c m).piece_bitboards
        (GetPiece kKing (GetPieceColor (move.GetPiece m)))))
      (OppositeColor (GetPieceColor (move.GetPiece m))) = false) :
    m ∈ GenerateMoves t ∧ (MakeMove zk t m false).1 = true ∧
    (MakeMove zk t m false).2 = ApplyMove zk t m ∧
    BoardsAgree (ApplyMove zk t m) (ApplyMove sampleKeys c m) := by
  have hb := BoardsAgree_ApplyMove zk sampleKeys t c m h
  have hA : IsSquareAttacked (ApplyMove zk t m)
      (GetLSBIndex ((ApplyMove zk t m).piece_bitboards
        (GetPiece kKing (GetPieceColor (move.GetPiece m)))))
      (OppositeColor (GetPieceColor (move.GetPiece m))) = false := by
    rw [hb.1, BoardsAgree_IsSquareAttacked _ _ hb, IsSquareAttacked_eq_rays _ _ _ hlt]
    exact hsafe
  refine ⟨?_, ?_, ?_, hb⟩
  · unfold GenerateMoves
    rw [BoardsAgree_GeneratePawnMoves t c h]
    simp only [List.mem_append]
    exact Or.inl (Or.inl (Or.inl (Or.inl (Or.inl hmem))))
  · unfold MakeMove
    simp [hA]
  · unfold MakeMove
    simp [hA]

/-- The key after one move, from the fields of the move and of the state. -/
theorem key_step (zk : ZobristKeys) (t c : PositionState) (m : Nat) (h : BoardsAgree t c)
    (captured source target piece promoted : Nat) (capture double_push en_passant castle : Bool)
    (old_en_passant old_rights : Nat)
    (h1 : PieceOn c (move.GetTargetSquare m) = captured)
    (h2 : move.GetSourceSquare m = source) (h3 : move.GetTargetSquare m = target)
    (h4 : move.GetPiece m = piece) (h5 : move.GetPromotedPiece m = promoted)
    (h6 : move.IsCapture m = capture) (h7 : move.IsDoublePush m = double_push)
    (h8 : move.IsEnPassant m = en_passant) (h9 : move.IsCastle m = castle)
    (h10 : c.en_passant_square = old_en_passant) (h11 : c.castling_rights = old_rights) :
    (ApplyMove zk t m).key =
      MovedKey zk t.key captured source target piece promoted capture double_push en_passant
        castle old_en_passant old_rights := by
  have hp : PieceOn t (move.GetTargetSquare m) = PieceOn c (move.GetTargetSquare m) := by
    unfold PieceOn; rw [h.1]
  rw [ApplyMove_key, hp, h1, h2, h3, h4, h5, h6, h7, h8, h9, h.2.2.2.1, h.2.2.2.2, h10, h11]

theorem KeyOfPieces_twelve (zk : ZobristKeys) (bb : Nat → Nat) :
    KeyOfPieces zk bb 12 0 0 =
      KeyOfSquares zk 11 (BitScan 64 (bb 11)) (KeyOfSquares zk 10 (BitScan 64 (bb 10))
      (KeyOfSquares zk 9 (BitScan 64 (bb 9)) (KeyOfSquares zk 8 (BitScan 64 (bb 8))
      (KeyOfSquares zk 7 (BitScan 64 (bb 7)) (KeyOfSquares zk 6 (BitScan 64 (bb 6))
      (KeyOfSquares zk 5 (BitScan 64 (bb 5)) (KeyOfSquares zk 4 (BitScan 64 (bb 4))
      (KeyOfSquares zk 3 (BitScan 64 (bb 3)) (KeyOfSquares zk 2 (BitScan 64 (bb 2))
      (KeyOfSquares zk 1 (BitScan 64 (bb 1)) (KeyOfSquares zk 0 (BitScan 64 (bb 0)) 0)))))))))))
    := rfl

set_option maxRecDepth 1000000 in
theorem e2e4_facts :
    e2e4 ∈ GeneratePawnMoves sampleStart ∧
    GetLSBIndex ((ApplyMove sampleKeys sampleStart e2e4).piece_bitboards
      (GetPiece kKing (GetPieceColor (move.GetPiece e2e4)))) < 64 ∧
    RayAttacked (ApplyMove sampleKeys sampleStart e2e4)
      (GetLSBIndex ((ApplyMove sampleKeys sampleStart e2e4).piece_bitboards
        (GetPiece kKing (GetPieceColor (move.GetPiece e2e4)))))
      (OppositeColor (GetPieceColor (move.GetPiece e2e4))) = false ∧
    PieceOn sampleStart (move.GetTargetSquare e2e4) = 13 ∧
    move.GetSourceSquare e2e4 = 52 ∧ move.GetTargetSquare e2e4 = 36 ∧
    move.GetPiece e2e4 = 0 ∧ move.GetPromotedPiece e2e4 = 13 ∧
    move.IsCapture e2e4 = false ∧ move.IsDoublePush e2e4 = true ∧
    move.IsEnPassant e2e4 = false ∧ move.IsCastle e2e4 = false ∧
    sampleStart.en_passant_square = 64 ∧ sampleStart.castling_rights = 15 := by
  decide!

set_option maxRecDepth 1000000 in
theorem a7a6_facts :
    a7a6 ∈ GeneratePawnMoves sampleAfter1 ∧
    GetLSBIndex ((ApplyMove sampleKeys sampleAfter1 a7a6).piece_bitboards
      (GetPiece kKing (GetPieceColor (move.GetPiece a7a6)))) < 64 ∧
    RayAttacked (ApplyMove sampleKeys sampleAfter1 a7a6)
      (GetLSBIndex ((ApplyMove sampleKeys sampleAfter1 a7a6).piece_bitboards
        (GetPiece kKing (GetPieceColor (move.GetPiece a7a6)))))
      (OppositeColor (GetPieceColor (move.GetPiece a7a6))) = false ∧
    PieceOn sampleAfter1 (move.GetTargetSquare a7a6) = 13 ∧
    move.GetSourceSquare a7a6 = 8 ∧ move.GetTargetSquare a7a6 = 16 ∧
    move.GetPiece a7a6 = 6 ∧ move.GetPromotedPiece a7a6 = 13 ∧
    move.IsCapture a7a6 = false ∧ move.IsDoublePush a7a6 = false ∧
    move.IsEnPassant a7a6 = false ∧ move.IsCastle a7a6 = false ∧
    sampleAfter1.en_passant_square = 44 ∧ sampleAfter1.castling_rights = 15 := by
  decide!

set_option maxRecDepth 1000000 in
theorem e4e5_facts :
    e4e5 ∈ GeneratePawnMoves sampleAfter2 ∧
    GetLSBIndex ((ApplyMove sampleKeys sampleAfter2 e4e5).piece_bitboards
      (GetPiece kKing (GetPieceColor (move.GetPiece e4e5)))) < 64 ∧
    RayAttacked (ApplyMove sampleKeys sampleAfter2 e4e5)
      (GetLSBIndex ((ApplyMove sampleKeys sampleAfter2 e4e5).piece_bitboards
        (GetPiece kKing (GetPieceColor (move.GetPiece e4e5)))))
      (OppositeColor (GetPieceColor (move.GetPiece e4e5))) = false ∧
    PieceOn sampleAfter2 (move.GetTargetSquare e4e5) = 13 ∧
    move.GetSourceSquare e4e5 = 36 ∧ move.GetTargetSquare e4e5 = 28 ∧
    move.GetPiece e4e5 = 0 ∧ move.GetPromotedPiece e4e5 = 13 ∧
    move.IsCapture e4e5 = false ∧ move.IsDoublePush e4e5 = false ∧
    move.IsEnPassant e4e5 = false ∧ move.IsCastle e4e5 = false ∧
    sampleAfter2.en_passant_square = 64 ∧ sampleAfter2.castling_rights = 15 := by
  decide!

set_option maxRecDepth 1000000 in
theorem d7d5_facts :
    d7d5 ∈ GeneratePawnMoves sampleAfter3 ∧
    GetLSBIndex ((ApplyMove sampleKeys sampleAfter3 d7d5).piece_bitboards
      (GetPiece kKing (GetPieceColor (move.GetPiece d7d5)))) < 64 ∧
    RayAttacked (ApplyMove sampleKeys sampleAfter3 d7d5)
      (GetLSBIndex ((ApplyMove sampleKeys sampleAfter3 d7d5).piece_bitboards
        (GetPiece kKing (GetPieceColor (move.GetPiece d7d5)))))
      (OppositeColor (GetPieceColor (move.GetPiece d7d5))) = false ∧
    PieceOn sampleAfter3 (move.GetTargetSquare d7d5) = 13 ∧
    move.GetSourceSquare d7d5 = 11 ∧ move.GetTargetSquare d7d5 = 27 ∧
    move.GetPiece d7d5 = 6 ∧ move.GetPromotedPiece d7d5 = 13 ∧
    move.IsCapture d7d5 = false ∧ move.IsDoublePush d7d5 = true ∧
    move.IsEnPassant d7d5 = false ∧ move.IsCastle d7d5 = false ∧
    sampleAfter3.en_passant_square = 64 ∧ sampleAfter3.castling_rights = 15 := by
  decide!

set_option maxRecDepth 1000000 in
theorem e5d6_facts :
    e5d6 ∈ GeneratePawnMoves sampleAfter4 ∧
    GetLSBIndex ((ApplyMove sampleKeys sampleAfter4 e5d6).piece_bitboards
      (GetPiece kKing (GetPieceColor (move.GetPiece e5d6)))) < 64 ∧
    RayAttacked (ApplyMove sampleKeys sampleAfter4 e5d6)
      (GetLSBIndex ((ApplyMove sampleKeys sampleAfter4 e5d6).piece_bitboards
        (GetPiece kKing (GetPieceColor (move.GetPiece e5d6)))))
      (OppositeColor (GetPieceColor (move.GetPiece e5d6))) = false ∧
    PieceOn sampleAfter4 (move.GetTargetSquare e5d6) = 13 ∧
    move.GetSourceSquare e5d6 = 28 ∧ move.GetTargetSquare e5d6 = 19 ∧
    move.GetPiece e5d6 = 0 ∧ move.GetPromotedPiece e5d6 = 13 ∧
    move.IsCapture e5d6 = true ∧ move.IsDoublePush e5d6 = false ∧
    move.IsEnPassant e5d6 = true ∧ move.IsCastle e5d6 = false ∧
    sampleAfter4.en_passant_square = 19 ∧ sampleAfter4.castling_rights = 15 := by
  decide!

set_option maxRecDepth 1000000 in
theorem sampleStart_scans :
    BitScan 64 (sampleStart.piece_bitboards 0) = [48, 49, 50, 51, 52, 53, 54, 55] ∧
    BitScan 64 (sampleStart.piece_bitboards 1) = [57, 62] ∧
    BitScan 64 (sampleStart.piece_bitboards 2) = [58, 61] ∧
    BitScan 64 (sampleStart.piece_bitboards 3) = [56, 63] ∧
    BitScan 64 (sampleStart.piece_bitboards 4) = [59] ∧
    BitScan 64 (sampleStart.piece_bitboards 5) = [60] ∧
    BitScan 64 (sampleStart.piece_bitboards 6) = [8, 9, 10, 11, 12, 13, 14, 15] ∧
    BitScan 64 (sampleStart.piece_bitboards 7) = [1, 6] ∧
    BitScan 64 (sampleStart.piece_bitboards 8) = [2, 5] ∧
    BitScan 64 (sampleStart.piece_bitboards 9) = [0, 7] ∧
    BitScan 64 (sampleStart.piece_bitboards 10) = [3] ∧
    BitScan 64 (sampleStart.piece_bitboards 11) = [4] ∧
    sampleStart.en_passant_square = 64 ∧ sampleStart.side_to_move = 0 ∧ sampleStart.castling_rights = 15 := by
  decide!

set_option maxRecDepth 1000000 in
theorem sampleAfter5_scans :
    BitScan 64 (sampleAfter5.piece_bitboards 0) = [19, 48, 49, 50, 51, 53, 54, 55] ∧
    BitScan 64 (sampleAfter5.piece_bitboards 1) = [57, 62] ∧
    BitScan 64 (sampleAfter5.piece_bitboards 2) = [58, 61] ∧
    BitScan 64 (sampleAfter5.piece_bitboards 3) = [56, 63] ∧
    BitScan 64 (sampleAfter5.piece_bitboards 4) = [59] ∧
    BitScan 64 (sampleAfter5.piece_bitboards 5) = [60] ∧
    BitScan 64 (sampleAfter5.piece_bitboards 6) = [9, 10, 12, 13, 14, 15, 16] ∧
    BitScan 64 (sampleAfter5.piece_bitboards 7) = [1, 6] ∧
    BitScan 64 (sampleAfter5.piece_bitboards 8) = [2, 5] ∧
    BitScan 64 (sampleAfter5.piece_bitboards 9) = [0, 7] ∧
    BitScan 64 (sampleAfter5.piece_bitboards 10) = [3] ∧
    BitScan 64 (sampleAfter5.piece_bitboards 11) = [4] ∧
    sampleAfter5.en_passant_square = 64 ∧ sampleAfter5.side_to_move = 1 ∧ sampleAfter5.castling_rights = 15 := by
  decide!

set_option maxRecDepth 100000 in
/-- C1 (the code departs from the claim): after the generated and accepted
moves 1. e4 a6 2. e5 d5 3. exd6 e.p. from the start position the key
`MakeMove` maintains differs from the key `GenerateKey` recomputes by the word
read at `piece_keys[kNoPiece][d6]`, past the end of the table: the en-passant
capture carries the capture flag and its target square is empty. -/
theorem key_after_en_passant (zk : ZobristKeys) (pos : Position) :
    Reachable zk (Play zk (Reset zk pos).state_ enPassantLine) ∧
    (Play zk (Reset zk pos).state_ enPassantLine).key ^^^
      GenerateKey zk (Play zk (Reset zk pos).state_ enPassantLine) =
      zk.piece_keys kNoPiece 19 := by
  have b0 := BoardsAgree_start zk pos
  obtain ⟨a1, a2, a3, a4, a5, a6, a7, a8, a9, a10, a11, a12, a13, a14⟩ := e2e4_facts
  obtain ⟨m1, fl1, e1, b1⟩ := line_step zk _ sampleStart e2e4 b0 a1 a2 a3
  have k1 := key_step zk _ sampleStart e2e4 b0 _ _ _ _ _ _ _ _ _ _ _
    a4 a5 a6 a7 a8 a9 a10 a11 a12 a13 a14
  have r1 := Reachable.step _ e2e4 false (Reachable.start pos) m1 fl1
  rw [e1] at r1
  obtain ⟨c1, c2, c3, c4, c5, c6, c7, c8, c9, c10, c11, c12, c13, c14⟩ := a7a6_facts
  obtain ⟨m2, fl2, e2, b2⟩ := line_step zk _ sampleAfter1 a7a6 b1 c1 c2 c3
  have k2 := key_step zk _ sampleAfter1 a7a6 b1 _ _ _ _ _ _ _ _ _ _ _
    c4 c5 c6 c7 c8 c9 c10 c11 c12 c13 c14
  have r2 := Reachable.step _ a7a6 false r1 m2 fl2
  rw [e2] at r2
  obtain ⟨d1, d2, d3, d4, d5, d6, d7, d8, d9, d10, d11, d12, d13, d14⟩ := e4e5_facts
  obtain ⟨m3, fl3, e3, b3⟩ := line_step zk _ sampleAfter2 e4e5 b2 d1 d2 d3
  have k3 := key_step zk _ sampleAfter2 e4e5 b2 _ _ _ _ _ _ _ _ _ _ _
    d4 d5 d6 d7 d8 d9 d10 d11 d12 d13 d14
  have r3 := Reachable.step _ e4e5 false r2 m3 fl3
  rw [e3] at r3
  obtain ⟨g1, g2, g3, g4, g5, g6, g7, g8, g9, g10, g11, g12, g13, g14⟩ := d7d5_facts
  obtain ⟨m4, fl4, e4, b4⟩ := line_step zk _ sampleAfter3 d7d5 b3 g1 g2 g3
  have k4 := key_step zk _ sampleAfter3 d7d5 b3 _ _ _ _ _ _ _ _ _ _ _
    g4 g5 g6 g7 g8 g9 g10 g11 g12 g13 g14
  have r4 := Reachable.step _ d7d5 false r3 m4 fl4
  rw [e4] at r4
  obtain ⟨j1, j2, j3, j4, j5, j6, j7, j8, j9, j10, j11, j12, j13, j14⟩ := e5d6_facts
  obtain ⟨m5, fl5, e5, b5⟩ := line_step zk _ sampleAfter4 e5d6 b4 j1 j2 j3
  have k5 := key_step zk _ sampleAfter4 e5d6 b4 _ _ _ _ _ _ _ _ _ _ _
    j4 j5 j6 j7 j8 j9 j10 j11 j12 j13 j14
  have r5 := Reachable.step _ e5d6 false r4 m5 fl5
  rw [e5] at r5
  have hPlay : Play zk (Reset zk pos).state_ enPassantLine =
      ApplyMove zk (ApplyMove zk (ApplyMove zk (ApplyMove zk
        (ApplyMove zk (Reset zk pos).state_ e2e4) a7a6) e4e5) d7d5) e5d6 := by
    rw [Play, enPassantLine, List.foldl_cons, List.foldl_cons, List.foldl_cons,
      List.foldl_cons, List.foldl_cons, List.foldl_nil, e1, e2, e3, e4, e5]
  rw [hPlay]
  refine ⟨r5, ?_⟩
  have hg5 := BoardsAgree_GenerateKey zk _ sampleAfter5 b5
  have hg0 := BoardsAgree_GenerateKey zk _ _ b0
  rw [k5, k4, k3, k2, k1, Reset_key, hg5, hg0]
  obtain ⟨s0, s1, s2, s3, s4, s5, s6, s7, s8, s9, s10, s11, s12, s13, s14⟩ := sampleStart_scans
  obtain ⟨t0, t1, t2, t3, t4, t5, t6, t7, t8, t9, t10, t11, t12, t13, t14⟩ := sampleAfter5_scans
  unfold GenerateKey
  rw [KeyOfPieces_twelve, KeyOfPieces_twelve,
    s0, s1, s2, s3, s4, s5, s6, s7, s8, s9, s10, s11, s12, s13, s14,
    t0, t1, t2, t3, t4, t5, t6, t7, t8, t9, t10, t11, t12, t13, t14]
  simp [MovedKey, KeyOfSquares, kNoSquare, kBlack, kWhite, kNoPiece, kPawn,
    kRook, GetPieceColor, GetPiece, OppositeColor, kPieceTypeCount, kCastlingUpdates,
    kCastlingUpdatesTable]
  have hx : ∀ x : Nat, (x ^^^ x) ^^^ zk.piece_keys 13 19 = zk.piece_keys 13 19 := by
    intro x; rw [Nat.xor_self, Nat.zero_xor]
  refine Eq.trans ?_ (hx (
    zk.piece_keys 0 48 ^^^ zk.piece_keys 0 49 ^^^ zk.piece_keys 0 50 ^^^ zk.piece_keys 0 51 ^^^
    zk.piece_keys 0 52 ^^^ zk.piece_keys 0 53 ^^^ zk.piece_keys 0 54 ^^^ zk.piece_keys 0 55 ^^^
    zk.piece_keys 1 57 ^^^ zk.piece_keys 1 62 ^^^ zk.piece_keys 2 58 ^^^ zk.piece_keys 2 61 ^^^
    zk.piece_keys 3 56 ^^^ zk.piece_keys 3 63 ^^^ zk.piece_keys 4 59 ^^^ zk.piece_keys 5 60 ^^^
    zk.piece_keys 6 8 ^^^ zk.piece_keys 6 9 ^^^ zk.piece_keys 6 10 ^^^ zk.piece_keys 6 11 ^^^
    zk.piece_keys 6 12 ^^^ zk.piece_keys 6 13 ^^^ zk.piece_keys 6 14 ^^^ zk.piece_keys 6 15 ^^^
    zk.piece_keys 7 1 ^^^ zk.piece_keys 7 6 ^^^ zk.piece_keys 8 2 ^^^ zk.piece_keys 8 5 ^^^
    zk.piece_keys 9 0 ^^^ zk.piece_keys 9 7 ^^^ zk.piece_keys 10 3 ^^^ zk.piece_keys 11 4 ^^^
    zk.piece_keys 0 19 ^^^ zk.piece_keys 6 16 ^^^ zk.piece_keys 0 36 ^^^ zk.piece_keys 0 28 ^^^
    zk.piece_keys 6 27 ^^^ zk.en_passant_keys 44 ^^^ zk.en_passant_keys 19 ^^^
    zk.castling_keys 15 ^^^ zk.castling_keys 15 ^^^ zk.castling_keys 15 ^^^
    zk.castling_keys 15 ^^^ zk.castling_keys 15 ^^^ zk.castling_keys 15 ^^^ zk.side_key ^^^
    zk.side_key ^^^ zk.side_key))
  ac_rfl

set_option maxRecDepth 100000 in
/-- The start position has a colour to move, 64-bit bitboards and a king of
the side to move, and the generator produces e2e4 there. -/
theorem sampleStart_ready :
    sampleStart.side_to_move < 2 ∧ Bounded sampleStart.piece_bitboards ∧
    sampleStart.piece_bitboards (GetPiece kKing sampleStart.side_to_move) ≠ 0 ∧
    e2e4 ∈ GenerateMoves sampleStart := by
  have hc : Consistent sampleStart := Consistent_start sampleKeys blankPosition
  refine ⟨hc.side, hc.bounded, by decide!, ?_⟩
  unfold GenerateMoves
  simp only [List.mem_append]
  exact Or.inl (Or.inl (Or.inl (Or.inl (Or.inl e2e4_facts.1))))

theorem MakeMove_result_witness :
    (sampleStart.side_to_move < 2 ∧ Bounded sampleStart.piece_bitboards ∧
      sampleStart.piece_bitboards (GetPiece kKing sampleStart.side_to_move) ≠ 0 ∧
      e2e4 ∈ GenerateMoves sampleStart) ∧
    ((MakeMove sampleKeys sampleStart e2e4 false).1 = false ↔
      ((false = true ∧ move.IsCapture e2e4 = false) ∨
        IsSquareAttacked (ApplyMove sampleKeys sampleStart e2e4)
          (GetLSBIndex ((ApplyMove sampleKeys sampleStart e2e4).piece_bitboards
            (GetPiece kKing sampleStart.side_to_move)))
          (ApplyMove sampleKeys sampleStart e2e4).side_to_move = true)) ∧
    ((MakeMove sampleKeys sampleStart e2e4 false).1 = true →
      (MakeMove sampleKeys sampleStart e2e4 false).2 = ApplyMove sampleKeys sampleStart e2e4 ∧
      IsSquareAttacked (MakeMove sampleKeys sampleStart e2e4 false).2
        (GetLSBIndex ((MakeMove sampleKeys sampleStart e2e4 false).2.piece_bitboards
          (GetPiece kKing sampleStart.side_to_move)))
        (MakeMove sampleKeys sampleStart e2e4 false).2.side_to_move = false) :=
  ⟨sampleStart_ready,
    MakeMove_result sampleKeys sampleStart e2e4 false sampleStart_ready.1 sampleStart_ready.2.1
      sampleStart_ready.2.2.1 sampleStart_ready.2.2.2⟩

/-! ## The bishop lookup, the attack test and the castling rights -/

/-- C11: with the bishop magic numbers and relevant-bit counts listed in the
source and the table filled by `InitSlidingAttacks`, for every square and every
64-bit occupancy the table index is below 512 and `GetBishopAttacks` returns
the ray walk `GenerateBishopAttacks`, whose squares are, on each of the four
diagonals, those up to and including the first occupied one. -/
theorem precomputed_data.GetBishopAttacks_correct (sq occ : Nat) (hsq : sq < 64)
    (hocc : occ < 2 ^ 64) :
    precomputed_data.BishopIndex sq occ < 512 ∧
    precomputed_data.GetBishopAttacks sq occ = precomputed_data.GenerateBishopAttacks sq occ ∧
    ∀ x, (precomputed_data.GenerateBishopAttacks sq occ).testBit x = true ↔
      (precomputed_data.RayHit (fun c => decide (GetFile c < 7) && decide (GetRank c < 7))
        (fun c => c - 7) occ sq x ∨
       precomputed_data.RayHit (fun c => decide (GetFile c < 7) && decide (GetRank c > 0))
        (fun c => c + 9) occ sq x ∨
       precomputed_data.RayHit (fun c => decide (GetFile c > 0) && decide (GetRank c > 0))
        (fun c => c + 7) occ sq x ∨
       precomputed_data.RayHit (fun c => decide (GetFile c > 0) && decide (GetRank c < 7))
        (fun c => c - 9) occ sq x) :=
  have _ := hocc
  ⟨precomputed_data.BishopIndex_lt sq occ hsq, precomputed_data.GetBishopAttacks_eq sq occ hsq,
    precomputed_data.testBit_GenerateBishopAttacks sq occ⟩

theorem precomputed_data.GetBishopAttacks_correct_witness :
    (27 < 64 ∧ 0x0000201008000000 < 2 ^ 64) ∧
    precomputed_data.BishopIndex 27 0x0000201008000000 < 512 ∧
    precomputed_data.GetBishopAttacks 27 0x0000201008000000 =
      precomputed_data.GenerateBishopAttacks 27 0x0000201008000000 ∧
    ∀ x, (precomputed_data.GenerateBishopAttacks 27 0x0000201008000000).testBit x = true ↔
      (precomputed_data.RayHit (fun c => decide (GetFile c < 7) && decide (GetRank c < 7))
        (fun c => c - 7) 0x0000201008000000 27 x ∨
       precomputed_data.RayHit (fun c => decide (GetFile c < 7) && decide (GetRank c > 0))
        (fun c => c + 9) 0x0000201008000000 27 x ∨
       precomputed_data.RayHit (fun c => decide (GetFile c > 0) && decide (GetRank c > 0))
        (fun c => c + 7) 0x0000201008000000 27 x ∨
       precomputed_data.RayHit (fun c => decide (GetFile c > 0) && decide (GetRank c < 7))
        (fun c => c - 9) 0x0000201008000000 27 x) :=
  ⟨⟨by decide, by decide⟩,
    precomputed_data.GetBishopAttacks_correct 27 0x0000201008000000 (by decide) (by decide)⟩

/-- C12: for a square of the board and a colour, `IsSquareAttacked` is true
exactly when a piece of that colour stands on a square from which it attacks
the square: a pawn whose capture squares hold it, a knight or king whose leap
set holds it, or a bishop, rook or queen whose ray walk under the occupancy of
both colours holds it. -/
theorem IsSquareAttacked_spec (s : PositionState) (sq side : Nat) (hsq : sq < 64)
    (hside : side < 2) :
    IsSquareAttacked s sq side = true ↔
      ∃ src, src < 64 ∧
        (((s.piece_bitboards (GetPiece kPawn side)).testBit src = true ∧
            (precomputed_data.GeneratePawnAttackMask src side).testBit sq = true) ∨
         ((s.piece_bitboards (GetPiece kKnight side)).testBit src = true ∧
            (precomputed_data.GenerateKnightAttackMask src).testBit sq = true) ∨
         ((s.piece_bitboards (GetPiece kBishop side)).testBit src = true ∧
            (precomputed_data.GenerateBishopAttacks src
              (s.piece_occupancy kBothColors)).testBit sq = true) ∨
         ((s.piece_bitboards (GetPiece kRook side)).testBit src = true ∧
            (precomputed_data.GenerateRookAttacks src
              (s.piece_occupancy kBothColors)).testBit sq = true) ∨
         ((s.piece_bitboards (GetPiece kQueen side)).testBit src = true ∧
            ((precomputed_data.GenerateBishopAttacks src
                (s.piece_occupancy kBothColors)).testBit sq = true ∨
             (precomputed_data.GenerateRookAttacks src
                (s.piece_occupancy kBothColors)).testBit sq = true)) ∨
         ((s.piece_bitboards (GetPiece kKing side)).testBit src = true ∧
            (precomputed_data.GenerateKingAttackMask src).testBit sq = true)) := by
  obtain ⟨hopp, _, hoppopp⟩ := OppositeColor_lt side hside
  constructor
  · intro h
    rw [IsSquareAttacked_iff] at h
    rcases h with h | h | h | h | h | h
    · obtain ⟨i, h1, h2⟩ := exists_testBit_of_and_ne_zero _ _ h
      have hb := precomputed_data.pawn_attacks_symm sq hsq _ hopp
      have hi := testBit_of_lt_word _ i hb.1 h1
      rw [hb.2 i hi, hoppopp] at h1
      exact ⟨i, hi, Or.inl ⟨h2, h1⟩⟩
    · obtain ⟨i, h1, h2⟩ := exists_testBit_of_and_ne_zero _ _ h
      have hb := precomputed_data.knight_attacks_symm sq hsq
      have hi := testBit_of_lt_word _ i hb.1 h1
      rw [hb.2 i hi] at h1
      exact ⟨i, hi, Or.inr (Or.inl ⟨h2, h1⟩)⟩
    · obtain ⟨i, h1, h2⟩ := exists_testBit_of_and_ne_zero _ _ h
      obtain ⟨hi, h3⟩ := GetBishopAttacks_symm sq _ i hsq h1
      rw [precomputed_data.GetBishopAttacks_eq i _ hi] at h3
      exact ⟨i, hi, Or.inr (Or.inr (Or.inl ⟨h2, h3⟩))⟩
    · obtain ⟨i, h1, h2⟩ := exists_testBit_of_and_ne_zero _ _ h
      obtain ⟨hi, h3⟩ := GetRookAttacks_symm sq _ i hsq h1
      rw [precomputed_data.GetRookAttacks_eq i _ hi] at h3
      exact ⟨i, hi, Or.inr (Or.inr (Or.inr (Or.inl ⟨h2, h3⟩)))⟩
    · obtain ⟨i, h1, h2⟩ := exists_testBit_of_and_ne_zero _ _ h
      obtain ⟨hi, h3⟩ := GetQueenAttacks_symm sq _ i hsq h1
      unfold precomputed_data.GetQueenAttacks at h3
      rw [precomputed_data.GetBishopAttacks_eq i _ hi, precomputed_data.GetRookAttacks_eq i _ hi,
        Nat.testBit_or, Bool.or_eq_true] at h3
      exact ⟨i, hi, Or.inr (Or.inr (Or.inr (Or.inr (Or.inl ⟨h2, h3⟩))))⟩
    · obtain ⟨i, h1, h2⟩ := exists_testBit_of_and_ne_zero _ _ h
      have hb := precomputed_data.king_attacks_symm sq hsq
      have hi := testBit_of_lt_word _ i hb.1 h1
      rw [hb.2 i hi] at h1
      exact ⟨i, hi, Or.inr (Or.inr (Or.inr (Or.inr (Or.inr ⟨h2, h1⟩))))⟩
  · rintro ⟨src, hs, h | h | h | h | h | h⟩
    · exact attacked_of_pawn s src sq side hs hsq hside h.2 h.1
    · exact attacked_of_knight s src sq side hs hsq h.2 h.1
    · refine attacked_of_bishop s src sq side hs ?_ h.1
      rw [precomputed_data.GetBishopAttacks_eq src _ hs]; exact h.2
    · refine attacked_of_rook s src sq side hs ?_ h.1
      rw [precomputed_data.GetRookAttacks_eq src _ hs]; exact h.2
    · refine attacked_of_queen s src sq side hs ?_ h.1
      unfold precomputed_data.GetQueenAttacks
      rw [precomputed_data.GetBishopAttacks_eq src _ hs, precomputed_data.GetRookAttacks_eq src _ hs,
        Nat.testBit_or, Bool.or_eq_true]
      exact h.2
    · exact attacked_of_king s src sq side hs hsq h.2 h.1

theorem IsSquareAttacked_spec_witness :
    (44 < 64 ∧ 0 < 2) ∧
    (IsSquareAttacked sampleStart 44 0 = true ↔
      ∃ src, src < 64 ∧
        (((sampleStart.piece_bitboards (GetPiece kPawn 0)).testBit src = true ∧
            (precomputed_data.GeneratePawnAttackMask src 0).testBit 44 = true) ∨
         ((sampleStart.piece_bitboards (GetPiece kKnight 0)).testBit src = true ∧
            (precomputed_data.GenerateKnightAttackMask src).testBit 44 = true) ∨
         ((sampleStart.piece_bitboards (GetPiece kBishop 0)).testBit src = true ∧
            (precomputed_data.GenerateBishopAttacks src
              (sampleStart.piece_occupancy kBothColors)).testBit 44 = true) ∨
         ((sampleStart.piece_bitboards (GetPiece kRook 0)).testBit src = true ∧
            (precomputed_data.GenerateRookAttacks src
              (sampleStart.piece_occupancy kBothColors)).testBit 44 = true) ∨
         ((sampleStart.piece_bitboards (GetPiece kQueen 0)).testBit src = true ∧
            ((precomputed_data.GenerateBishopAttacks src
                (sampleStart.piece_occupancy kBothColors)).testBit 44 = true ∨
             (precomputed_data.GenerateRookAttacks src
                (sampleStart.piece_occupancy kBothColors)).testBit 44 = true)) ∨
         ((sampleStart.piece_bitboards (GetPiece kKing 0)).testBit src = true ∧
            (precomputed_data.GenerateKingAttackMask src).testBit 44 = true))) :=
  ⟨⟨by decide, by decide⟩, IsSquareAttacked_spec sampleStart 44 0 (by decide) (by decide)⟩

theorem GetSourceSquare_lt (m : Nat) : move.GetSourceSquare m < 64 := by
  unfold move.GetSourceSquare
  exact lt_of_le_of_lt Nat.and_le_right (by decide)

theorem GetTargetSquare_lt (m : Nat) : move.GetTargetSquare m < 64 := by
  unfold move.GetTargetSquare
  exact lt_of_le_of_lt Nat.and_le_right (by decide)

theorem kCastlingUpdates_bits : ∀ sq, sq < 64 →
    (kCastlingUpdates sq).testBit 0 = !decide (sq = 60 ∨ sq = 63) ∧
    (kCastlingUpdates sq).testBit 1 = !decide (sq = 60 ∨ sq = 56) ∧
    (kCastlingUpdates sq).testBit 2 = !decide (sq = 4 ∨ sq = 7) ∧
    (kCastlingUpdates sq).testBit 3 = !decide (sq = 4 ∨ sq = 0) := by
  decide

/-- `MakeMove` accepts e2e4 in the start position. -/
theorem e2e4_accepted : (MakeMove sampleKeys sampleStart e2e4 false).1 = true :=
  (line_step sampleKeys sampleStart sampleStart e2e4 ⟨rfl, rfl, rfl, rfl, rfl⟩
    e2e4_facts.1 e2e4_facts.2.1 e2e4_facts.2.2.1).2.1

/-- C15: after a successful `MakeMove` with source `s` and target `t` the
castling rights are the old rights AND `kCastlingUpdates[s]` AND
`kCastlingUpdates[t]`; no right is gained; the white king-side right survives
exactly when it was set and neither square is e1 or h1, the white queen-side
right when neither is e1 or a1, the black king-side right when neither is e8
or h8, the black queen-side right when neither is e8 or a8. -/
theorem MakeMove_castling_rights (zk : ZobristKeys) (s : PositionState) (m : Nat) (q : Bool)
    (h : (MakeMove zk s m q).1 = true) :
    (MakeMove zk s m q).2.castling_rights =
      s.castling_rights &&& kCastlingUpdates (move.GetSourceSquare m) &&&
        kCastlingUpdates (move.GetTargetSquare m) ∧
    (∀ j, (MakeMove zk s m q).2.castling_rights.testBit j = true →
      s.castling_rights.testBit j = true) ∧
    ((MakeMove zk s m q).2.castling_rights.testBit 0 =
      (s.castling_rights.testBit 0 &&
        !decide (move.GetSourceSquare m = 60 ∨ move.GetSourceSquare m = 63 ∨
          move.GetTargetSquare m = 60 ∨ move.GetTargetSquare m = 63))) ∧
    ((MakeMove zk s m q).2.castling_rights.testBit 1 =
      (s.castling_rights.testBit 1 &&
        !decide (move.GetSourceSquare m = 60 ∨ move.GetSourceSquare m = 56 ∨
          move.GetTargetSquare m = 60 ∨ move.GetTargetSquare m = 56))) ∧
    ((MakeMove zk s m q).2.castling_rights.testBit 2 =
      (s.castling_rights.testBit 2 &&
        !decide (move.GetSourceSquare m = 4 ∨ move.GetSourceSquare m = 7 ∨
          move.GetTargetSquare m = 4 ∨ move.GetTargetSquare m = 7))) ∧
    ((MakeMove zk s m q).2.castling_rights.testBit 3 =
      (s.castling_rights.testBit 3 &&
        !decide (move.GetSourceSquare m = 4 ∨ move.GetSourceSquare m = 0 ∨
          move.GetTargetSquare m = 4 ∨ move.GetTargetSquare m = 0))) := by
  rw [(MakeMove_true zk s m q h).1, ApplyMove_castling]
  obtain ⟨a0, a1, a2, a3⟩ := kCastlingUpdates_bits _ (GetSourceSquare_lt m)
  obtain ⟨b0, b1, b2, b3⟩ := kCastlingUpdates_bits _ (GetTargetSquare_lt m)
  refine ⟨rfl, ?_, ?_, ?_, ?_, ?_⟩
  · intro j hj
    exact (castling_survives _ _ _ j hj).1
  · rw [Nat.testBit_and, Nat.testBit_and, a0, b0]
    cases s.castling_rights.testBit 0 <;> simp [not_or, Bool.and_assoc]
  · rw [Nat.testBit_and, Nat.testBit_and, a1, b1]
    cases s.castling_rights.testBit 1 <;> simp [not_or, Bool.and_assoc]
  · rw [Nat.testBit_and, Nat.testBit_and, a2, b2]
    cases s.castling_rights.testBit 2 <;> simp [not_or, Bool.and_assoc]
  · rw [Nat.testBit_and, Nat.testBit_and, a3, b3]
    cases s.castling_rights.testBit 3 <;> simp [not_or, Bool.and_assoc]

theorem MakeMove_castling_rights_witness :
    (MakeMove sampleKeys sampleStart e2e4 false).1 = true ∧
    ((MakeMove sampleKeys sampleStart e2e4 false).2.castling_rights =
      sampleStart.castling_rights &&& kCastlingUpdates (move.GetSourceSquare e2e4) &&&
        kCastlingUpdates (move.GetTargetSquare e2e4) ∧
    (∀ j, (MakeMove sampleKeys sampleStart e2e4 false).2.castling_rights.testBit j = true →
      sampleStart.castling_rights.testBit j = true) ∧
    ((MakeMove sampleKeys sampleStart e2e4 false).2.castling_rights.testBit 0 =
      (sampleStart.castling_rights.testBit 0 &&
        !decide (move.GetSourceSquare e2e4 = 60 ∨ move.GetSourceSquare e2e4 = 63 ∨
          move.GetTargetSquare e2e4 = 60 ∨ move.GetTargetSquare e2e4 = 63))) ∧
    ((MakeMove sampleKeys sampleStart e2e4 false).2.castling_rights.testBit 1 =
      (sampleStart.castling_rights.testBit 1 &&
        !decide (move.GetSourceSquare e2e4 = 60 ∨ move.GetSourceSquare e2e4 = 56 ∨
          move.GetTargetSquare e2e4 = 60 ∨ move.GetTargetSquare e2e4 = 56))) ∧
    ((MakeMove sampleKeys sampleStart e2e4 false).2.castling_rights.testBit 2 =
      (sampleStart.castling_rights.testBit 2 &&
        !decide (move.GetSourceSquare e2e4 = 4 ∨ move.GetSourceSquare e2e4 = 7 ∨
          move.GetTargetSquare e2e4 = 4 ∨ move.GetTargetSquare e2e4 = 7))) ∧
    ((MakeMove sampleKeys sampleStart e2e4 false).2.castling_rights.testBit 3 =
      (sampleStart.castling_rights.testBit 3 &&
        !decide (move.GetSourceSquare e2e4 = 4 ∨ move.GetSourceSquare e2e4 = 0 ∨
          move.GetTargetSquare e2e4 = 4 ∨ move.GetTargetSquare e2e4 = 0)))) :=
  ⟨e2e4_accepted, MakeMove_castling_rights sampleKeys sampleStart e2e4 false e2e4_accepted⟩

/-! ## The piece loops and the castling moves -/

theorem mem_TargetMoves (s : PositionState) (piece source attacks m : Nat)
    (hlt : attacks < 2 ^ 64) :
    m ∈ TargetMoves s piece source attacks ↔
      ∃ target, target < 64 ∧ attacks.testBit target = true ∧
        m = move.CreateMove source target piece kNoPiece
          (GetBit (s.piece_occupancy (OppositeColor s.side_to_move)) target)
          false false false := by
  unfold TargetMoves
  rw [List.mem_map, BitScan_64 _ hlt]
  constructor
  · rintro ⟨t, ht, rfl⟩
    rw [mem_bitsOf] at ht
    refine ⟨t, ht.1, ht.2, ?_⟩
    cases GetBit (s.piece_occupancy (OppositeColor s.side_to_move)) t
    · rw [if_neg Bool.false_ne_true]
    · rw [if_pos rfl]
  · rintro ⟨t, h1, h2, rfl⟩
    refine ⟨t, (mem_bitsOf _ _).2 ⟨h1, h2⟩, ?_⟩
    cases GetBit (s.piece_occupancy (OppositeColor s.side_to_move)) t
    · rw [if_neg Bool.false_ne_true]
    · rw [if_pos rfl]

theorem bitsOf_nodup (n : Nat) : (bitsOf n).Nodup := by
  unfold bitsOf
  exact List.Nodup.filter _ (List.nodup_range 64)

theorem TargetMoves_nodup (s : PositionState) (piece source attacks : Nat)
    (hs : source < 64) (hp : piece < 12) (hlt : attacks < 2 ^ 64) :
    (TargetMoves s piece source attacks).Nodup := by
  unfold TargetMoves
  rw [BitScan_64 _ hlt]
  apply List.Nodup.map_on
  · intro x hx y hy hxy
    rw [mem_bitsOf] at hx hy
    have e : ∀ t, t < 64 → move.GetTargetSquare
        (if GetBit (s.piece_occupancy (OppositeColor s.side_to_move)) t = true then
          move.CreateMove source t piece kNoPiece true false false false
        else move.CreateMove source t piece kNoPiece false false false false) = t := by
      intro t ht
      cases GetBit (s.piece_occupancy (OppositeColor s.side_to_move)) t
      · rw [if_neg Bool.false_ne_true]
        exact (move.CreateMove_fields source t piece kNoPiece false false false false
          hs ht hp (Or.inr rfl)).2.2.1
      · rw [if_pos rfl]
        exact (move.CreateMove_fields source t piece kNoPiece true false false false
          hs ht hp (Or.inr rfl)).2.2.1
    have h := congrArg move.GetTargetSquare hxy
    rw [e x hx.1, e y hy.1] at h
    exact h
  · exact bitsOf_nodup _

theorem PieceMoves_knight (s : PositionState) : PieceMoves s kKnight = GenerateKnightMoves s := by
  unfold PieceMoves; rw [if_pos rfl]

theorem PieceMoves_bishop (s : PositionState) : PieceMoves s kBishop = GenerateBishopMoves s := by
  unfold PieceMoves; rw [if_neg (by decide), if_pos rfl]

theorem PieceMoves_rook (s : PositionState) : PieceMoves s kRook = GenerateRookMoves s := by
  unfold PieceMoves; rw [if_neg (by decide), if_neg (by decide), if_pos rfl]

theorem PieceMoves_queen (s : PositionState) : PieceMoves s kQueen = GenerateQueenMoves s := by
  unfold PieceMoves; rw [if_neg (by decide), if_neg (by decide), if_neg (by decide), if_pos rfl]

theorem PieceMoves_king (s : PositionState) :
    PieceMoves s kKing =
      TargetMoves s (GetPiece kKing s.side_to_move)
        (GetLSBIndex (s.piece_bitboards (GetPiece kKing s.side_to_move)))
        (PieceAttacks kKing (GetLSBIndex (s.piece_bitboards (GetPiece kKing s.side_to_move)))
            (s.piece_occupancy kBothColors) &&&
          Complement (s.piece_occupancy s.side_to_move)) := by
  unfold PieceMoves
  rw [if_neg (by decide), if_neg (by decide), if_neg (by decide), if_neg (by decide),
    PieceAttacks_king]

theorem GenerateKingMoves_split (s : PositionState) :
    GenerateKingMoves s = PieceMoves s kKing ++ CastlingMoves s := by
  unfold PieceMoves
  rw [if_neg (by decide), if_neg (by decide), if_neg (by decide), if_neg (by decide)]
  rfl

theorem GenerateMoves_split (s : PositionState) :
    GenerateMoves s = GeneratePawnMoves s ++ PieceMoves s kKnight ++ PieceMoves s kBishop ++
      PieceMoves s kRook ++ PieceMoves s kQueen ++ (PieceMoves s kKing ++ CastlingMoves s) := by
  rw [PieceMoves_knight, PieceMoves_bishop, PieceMoves_rook, PieceMoves_queen,
    ← GenerateKingMoves_split]
  rfl

/-- The knight, bishop, rook and queen loops, written with `PieceAttacks`. -/
theorem PieceMoves_loop (s : PositionState) (pt : Nat) (h1 : 1 ≤ pt) (h4 : pt ≤ 4) :
    PieceMoves s pt =
      (BitScan 64 (s.piece_bitboards (GetPiece pt s.side_to_move))).flatMap (fun source =>
        TargetMoves s (GetPiece pt s.side_to_move) source
          (PieceAttacks pt source (s.piece_occupancy kBothColors) &&&
            Complement (s.piece_occupancy s.side_to_move))) := by
  have h : pt = kKnight ∨ pt = kBishop ∨ pt = kRook ∨ pt = kQueen := by
    unfold kKnight kBishop kRook kQueen; omega
  rcases h with rfl | rfl | rfl | rfl
  · rw [PieceMoves_knight]; unfold GenerateKnightMoves; simp only [PieceAttacks_knight]
  · rw [PieceMoves_bishop]; unfold GenerateBishopMoves; simp only [PieceAttacks_bishop]
  · rw [PieceMoves_rook]; unfold GenerateRookMoves; simp only [PieceAttacks_rook]
  · rw [PieceMoves_queen]; unfold GenerateQueenMoves; simp only [PieceAttacks_queen]

theorem mem_PieceMoves (s : PositionState) (hside : s.side_to_move < 2)
    (hb : Bounded s.piece_bitboards)
    (hking : ∃ k, k < 64 ∧ s.piece_bitboards (GetPiece kKing s.side_to_move) = 2 ^ k)
    (pt : Nat) (h1 : 1 ≤ pt) (h5 : pt ≤ 5) (m : Nat) :
    m ∈ PieceMoves s pt ↔
      ∃ source target, source < 64 ∧ target < 64 ∧
        (s.piece_bitboards (GetPiece pt s.side_to_move)).testBit source = true ∧
        (PieceAttacks pt source (s.piece_occupancy kBothColors)).testBit target = true ∧
        (s.piece_occupancy s.side_to_move).testBit target = false ∧
        m = move.CreateMove source target (GetPiece pt s.side_to_move) kNoPiece
          (GetBit (s.piece_occupancy (OppositeColor s.side_to_move)) target)
          false false false := by
  have hp : GetPiece pt s.side_to_move < 12 := GetPiece_lt pt _ (by omega) hside
  have hbb : s.piece_bitboards (GetPiece pt s.side_to_move) < 2 ^ 64 := hb _ (by omega)
  have hlt : ∀ source, source < 64 →
      PieceAttacks pt source (s.piece_occupancy kBothColors) &&&
        Complement (s.piece_occupancy s.side_to_move) < 2 ^ 64 := fun source hs =>
    lt_of_le_of_lt Nat.and_le_left (PieceAttacks_lt pt source _ hs)
  have key : ∀ source, source < 64 →
      (m ∈ TargetMoves s (GetPiece pt s.side_to_move) source
          (PieceAttacks pt source (s.piece_occupancy kBothColors) &&&
            Complement (s.piece_occupancy s.side_to_move)) ↔
        ∃ target, target < 64 ∧
          (PieceAttacks pt source (s.piece_occupancy kBothColors)).testBit target = true ∧
          (s.piece_occupancy s.side_to_move).testBit target = false ∧
          m = move.CreateMove source target (GetPiece pt s.side_to_move) kNoPiece
            (GetBit (s.piece_occupancy (OppositeColor s.side_to_move)) target)
            false false false) := by
    intro source hs
    rw [mem_TargetMoves _ _ _ _ _ (hlt source hs)]
    constructor
    · rintro ⟨t, ht, hbit, hm⟩
      rw [Nat.testBit_and, Bool.and_eq_true, testBit_Complement _ _ ht] at hbit
      exact ⟨t, ht, hbit.1, by simpa using hbit.2, hm⟩
    · rintro ⟨t, ht, ha, ho, hm⟩
      refine ⟨t, ht, ?_, hm⟩
      rw [Nat.testBit_and, Bool.and_eq_true, testBit_Complement _ _ ht, ho]
      exact ⟨ha, rfl⟩
  by_cases h4 : pt ≤ 4
  · rw [PieceMoves_loop s pt h1 h4, List.mem_flatMap]
    constructor
    · rintro ⟨source, hsrc, hm⟩
      obtain ⟨hs, hbit⟩ := mem_BitScan _ _ hbb hsrc
      obtain ⟨t, ht, ha, ho, e⟩ := (key source hs).1 hm
      exact ⟨source, t, hs, ht, hbit, ha, ho, e⟩
    · rintro ⟨source, t, hs, ht, hbit, ha, ho, e⟩
      refine ⟨source, ?_, (key source hs).2 ⟨t, ht, ha, ho, e⟩⟩
      rw [BitScan_64 _ hbb, mem_bitsOf]
      exact ⟨hs, hbit⟩
  · have e5 : pt = kKing := by unfold kKing; omega
    subst e5
    obtain ⟨k, hk, hkb⟩ := hking
    rw [PieceMoves_king, hkb, GetLSBIndex_two_pow k hk]
    constructor
    · intro hm
      obtain ⟨t, ht, ha, ho, e⟩ := (key k hk).1 hm
      exact ⟨k, t, hk, ht, by rw [Nat.testBit_two_pow_self], ha, ho, e⟩
    · rintro ⟨source, t, hs, ht, hbit, ha, ho, e⟩
      rw [Nat.testBit_two_pow] at hbit
      have hks : k = source := by simpa using hbit
      subst hks
      exact (key k hk).2 ⟨t, ht, ha, ho, e⟩

theorem PieceMoves_nodup (s : PositionState) (hside : s.side_to_move < 2)
    (hb : Bounded s.piece_bitboards)
    (hking : ∃ k, k < 64 ∧ s.piece_bitboards (GetPiece kKing s.side_to_move) = 2 ^ k)
    (pt : Nat) (h1 : 1 ≤ pt) (h5 : pt ≤ 5) : (PieceMoves s pt).Nodup := by
  have hp : GetPiece pt s.side_to_move < 12 := GetPiece_lt pt _ (by omega) hside
  have hbb : s.piece_bitboards (GetPiece pt s.side_to_move) < 2 ^ 64 := hb _ (by omega)
  have hlt : ∀ source, source < 64 →
      PieceAttacks pt source (s.piece_occupancy kBothColors) &&&
        Complement (s.piece_occupancy s.side_to_move) < 2 ^ 64 := fun source hs =>
    lt_of_le_of_lt Nat.and_le_left (PieceAttacks_lt pt source _ hs)
  by_cases h4 : pt ≤ 4
  · rw [PieceMoves_loop s pt h1 h4, List.nodup_flatMap]
    constructor
    · intro source hsrc
      exact TargetMoves_nodup _ _ _ _ (mem_BitScan _ _ hbb hsrc).1 hp
        (hlt source (mem_BitScan _ _ hbb hsrc).1)
    · have hnd : (BitScan 64 (s.piece_bitboards (GetPiece pt s.side_to_move))).Nodup := by
        rw [BitScan_64 _ hbb]; exact bitsOf_nodup _
      apply hnd.pairwise_of_forall_ne
      intro a ha b hb' hab m hma hmb
      have hsa := (mem_BitScan _ _ hbb ha).1
      have hsb := (mem_BitScan _ _ hbb hb').1
      obtain ⟨t, ht, _, e⟩ := (mem_TargetMoves _ _ _ _ _ (hlt a hsa)).1 hma
      obtain ⟨t', ht', _, e'⟩ := (mem_TargetMoves _ _ _ _ _ (hlt b hsb)).1 hmb
      have f := (move.CreateMove_fields a t (GetPiece pt s.side_to_move) kNoPiece
        (GetBit (s.piece_occupancy (OppositeColor s.side_to_move)) t) false false false
        hsa ht hp (Or.inr rfl)).2.1
      have f' := (move.CreateMove_fields b t' (GetPiece pt s.side_to_move) kNoPiece
        (GetBit (s.piece_occupancy (OppositeColor s.side_to_move)) t') false false false
        hsb ht' hp (Or.inr rfl)).2.1
      rw [← e] at f
      rw [← e'] at f'
      exact hab (f.symm.trans f')
  · have e5 : pt = kKing := by unfold kKing; omega
    subst e5
    obtain ⟨k, hk, hkb⟩ := hking
    rw [PieceMoves_king, hkb, GetLSBIndex_two_pow k hk]
    exact TargetMoves_nodup _ _ _ _ hk hp (hlt k hk)

theorem mem_CastleMove (s : PositionState) (right : Nat) (empty safe : List Nat)
    (source target m : Nat) :
    m ∈ CastleMove s right empty safe source target ↔
      m = move.CreateMove source target (GetPiece kKing s.side_to_move) kNoPiece
        false false false true ∧
      s.castling_rights &&& right ≠ 0 ∧
      (∀ sq ∈ empty, GetBit (s.piece_occupancy kBothColors) sq = false) ∧
      (∀ sq ∈ safe, IsSquareAttacked s sq (OppositeColor s.side_to_move) = false) := by
  unfold CastleMove
  by_cases h1 : s.castling_rights &&& right ≠ 0
  · rw [if_pos h1]
    by_cases h2 : (empty.all (fun sq => !GetBit (s.piece_occupancy kBothColors) sq) &&
        safe.all (fun sq => !IsSquareAttacked s sq (OppositeColor s.side_to_move))) = true
    · rw [if_pos h2, List.mem_singleton]
      rw [Bool.and_eq_true, List.all_eq_true, List.all_eq_true] at h2
      constructor
      · intro h
        exact ⟨h, h1, fun sq hsq => by simpa using h2.1 sq hsq,
          fun sq hsq => by simpa using h2.2 sq hsq⟩
      · intro h; exact h.1
    · rw [if_neg h2]
      constructor
      · intro h; exact absurd h (List.not_mem_nil _)
      · rintro ⟨_, _, he, hs⟩
        exfalso
        apply h2
        rw [Bool.and_eq_true, List.all_eq_true, List.all_eq_true]
        exact ⟨fun sq hsq => by simpa using he sq hsq, fun sq hsq => by simpa using hs sq hsq⟩
  · rw [if_neg h1]
    constructor
    · intro h; exact absurd h (List.not_mem_nil _)
    · rintro ⟨_, h, _⟩; exact absurd h h1

theorem mem_CastlingMoves (s : PositionState) (m : Nat) :
    m ∈ CastlingMoves s ↔
      ∃ right empty safe source target,
        (right, empty, safe, source, target) ∈ CastleOptions s.side_to_move ∧
        m ∈ CastleMove s right empty safe source target := by
  unfold CastlingMoves CastleOptions
  by_cases hw : s.side_to_move = kWhite
  · rw [if_pos hw, if_pos hw, List.mem_append]
    constructor
    · rintro (h | h)
      · exact ⟨_, _, _, _, _, List.mem_cons_self _ _, h⟩
      · exact ⟨_, _, _, _, _, List.mem_cons_of_mem _ (List.mem_cons_self _ _), h⟩
    · rintro ⟨r, e, sf, so, t, hmem, h⟩
      simp only [List.mem_cons, List.mem_singleton, List.not_mem_nil, or_false,
        Prod.mk.injEq] at hmem
      rcases hmem with ⟨rfl, rfl, rfl, rfl, rfl⟩ | ⟨rfl, rfl, rfl, rfl, rfl⟩
      · exact Or.inl h
      · exact Or.inr h
  · rw [if_neg hw, if_neg hw, List.mem_append]
    constructor
    · rintro (h | h)
      · exact ⟨_, _, _, _, _, List.mem_cons_self _ _, h⟩
      · exact ⟨_, _, _, _, _, List.mem_cons_of_mem _ (List.mem_cons_self _ _), h⟩
    · rintro ⟨r, e, sf, so, t, hmem, h⟩
      simp only [List.mem_cons, List.mem_singleton, List.not_mem_nil, or_false,
        Prod.mk.injEq] at hmem
      rcases hmem with ⟨rfl, rfl, rfl, rfl, rfl⟩ | ⟨rfl, rfl, rfl, rfl, rfl⟩
      · exact Or.inl h
      · exact Or.inr h

/-- Two castling options of one side with the same target square are the same
option. -/
theorem CastleOptions_target (side : Nat) (r r' : Nat) (e e' sf sf' : List Nat)
    (so so' t : Nat)
    (h : (r, e, sf, so, t) ∈ CastleOptions side)
    (h' : (r', e', sf', so', t) ∈ CastleOptions side) :
    r = r' ∧ e = e' ∧ sf = sf' ∧ so = so' := by
  unfold CastleOptions at h h'
  split_ifs at h h' <;>
    simp only [List.mem_cons, List.mem_singleton, List.not_mem_nil, or_false,
      Prod.mk.injEq] at h h' <;>
    rcases h with ⟨rfl, rfl, rfl, rfl, rfl⟩ | ⟨rfl, rfl, rfl, rfl, rfl⟩ <;>
    rcases h' with ⟨rfl, rfl, rfl, rfl, h5⟩ | ⟨rfl, rfl, rfl, rfl, h5⟩ <;>
    first
      | exact ⟨rfl, rfl, rfl, rfl⟩
      | exact absurd h5 (by decide)

/-- C13: in a position with a king of the side to move, `GenerateKingMoves`
emits the castling move of an option of that side (the king from e1 to g1 or
c1, from e8 to g8 or c8, castle flag set) if and only if the right bit of the
option is set, the squares between king and rook are empty (f and g file, or
d, c and b file) and neither the king square nor the square the king crosses
(f or d file) is attacked by the opponent; every move of `GenerateKingMoves`
with the castle flag is such a move.  The destination square is not among the
squares tested for an attack. -/
theorem GenerateKingMoves_castling (s : PositionState) (hside : s.side_to_move < 2)
    (hb : Bounded s.piece_bitboards)
    (hk : s.piece_bitboards (GetPiece kKing s.side_to_move) ≠ 0) :
    (∀ right empty safe source target,
      (right, empty, safe, source, target) ∈ CastleOptions s.side_to_move →
      (move.CreateMove source target (GetPiece kKing s.side_to_move) kNoPiece
          false false false true ∈ GenerateKingMoves s ↔
        s.castling_rights &&& right ≠ 0 ∧
        (∀ sq ∈ empty, GetBit (s.piece_occupancy kBothColors) sq = false) ∧
        (∀ sq ∈ safe, IsSquareAttacked s sq (OppositeColor s.side_to_move) = false))) ∧
    (∀ m ∈ GenerateKingMoves s, move.IsCastle m = true →
      ∃ right empty safe source target,
        (right, empty, safe, source, target) ∈ CastleOptions s.side_to_move ∧
        m = move.CreateMove source target (GetPiece kKing s.side_to_move) kNoPiece
          false false false true) ∧
    CastleOptions kWhite =
      [(kWhiteKingSide, [61, 62], [60, 61], 60, 62),
       (kWhiteQueenSide, [59, 58, 57], [60, 59], 60, 58)] ∧
    CastleOptions kBlack =
      [(kBlackKingSide, [5, 6], [4, 5], 4, 6),
       (kBlackQueenSide, [3, 2, 1], [4, 3], 4, 2)] := by
  have hp : GetPiece kKing s.side_to_move < 12 := GetPiece_lt kKing _ (by decide) hside
  obtain ⟨hks, _⟩ := testBit_GetLSBIndex _ (hb _ (by omega)) hk
  have hstep : ∀ m, m ∈ PieceMoves s kKing → move.IsCastle m = false := by
    intro m hm
    rw [PieceMoves_king] at hm
    obtain ⟨t, ht, _, e⟩ := (mem_TargetMoves _ _ _ _ _
      (lt_of_le_of_lt Nat.and_le_left (PieceAttacks_lt kKing _ _ hks))).1 hm
    rw [e]
    exact (move.CreateMove_fields _ t _ kNoPiece _ false false false hks ht hp
      (Or.inr rfl)).2.2.2.2.2.2.2.2
  refine ⟨?_, ?_, rfl, rfl⟩
  · intro right empty safe source target hopt
    obtain ⟨hso, hta⟩ := CastleOptions_squares _ _ _ _ _ _ hopt
    have hf := move.CreateMove_fields source target (GetPiece kKing s.side_to_move) kNoPiece
      false false false true hso hta hp (Or.inr rfl)
    rw [GenerateKingMoves_split, List.mem_append]
    constructor
    · rintro (h | h)
      · have := hstep _ h
        rw [hf.2.2.2.2.2.2.2.2] at this
        exact absurd this (by decide)
      · obtain ⟨r', e', sf', so', t', hopt', h'⟩ := (mem_CastlingMoves s _).1 h
        obtain ⟨e, hr, he, hs⟩ := (mem_CastleMove _ _ _ _ _ _ _).1 h'
        obtain ⟨hso', hta'⟩ := CastleOptions_squares _ _ _ _ _ _ hopt'
        have hf' := move.CreateMove_fields so' t' (GetPiece kKing s.side_to_move) kNoPiece
          false false false true hso' hta' hp (Or.inr rfl)
        have ht : target = t' := by
          have h1 := hf.2.2.1
          rw [e, hf'.2.2.1] at h1
          exact h1.symm
        subst ht
        obtain ⟨rfl, rfl, rfl, rfl⟩ := CastleOptions_target _ _ _ _ _ _ _ _ _ _ hopt hopt'
        exact ⟨hr, he, hs⟩
    · rintro ⟨hr, he, hs⟩
      exact Or.inr ((mem_CastlingMoves s _).2
        ⟨right, empty, safe, source, target, hopt,
          (mem_CastleMove _ _ _ _ _ _ _).2 ⟨rfl, hr, he, hs⟩⟩)
  · intro m hm hc
    rw [GenerateKingMoves_split, List.mem_append] at hm
    rcases hm with h | h
    · rw [hstep m h] at hc
      exact absurd hc (by decide)
    · obtain ⟨r', e', sf', so', t', hopt', h'⟩ := (mem_CastlingMoves s _).1 h
      exact ⟨r', e', sf', so', t', hopt', ((mem_CastleMove _ _ _ _ _ _ _).1 h').1⟩

theorem GenerateKingMoves_castling_witness :
    (sampleStart.side_to_move < 2 ∧ Bounded sampleStart.piece_bitboards ∧
      sampleStart.piece_bitboards (GetPiece kKing sampleStart.side_to_move) ≠ 0) ∧
    ((∀ right empty safe source target,
      (right, empty, safe, source, target) ∈ CastleOptions sampleStart.side_to_move →
      (move.CreateMove source target (GetPiece kKing sampleStart.side_to_move) kNoPiece
          false false false true ∈ GenerateKingMoves sampleStart ↔
        sampleStart.castling_rights &&& right ≠ 0 ∧
        (∀ sq ∈ empty, GetBit (sampleStart.piece_occupancy kBothColors) sq = false) ∧
        (∀ sq ∈ safe, IsSquareAttacked sampleStart sq (OppositeColor sampleStart.side_to_move) = false))) ∧
    (∀ m ∈ GenerateKingMoves sampleStart, move.IsCastle m = true →
      ∃ right empty safe source target,
        (right, empty, safe, source, target) ∈ CastleOptions sampleStart.side_to_move ∧
        m = move.CreateMove source target (GetPiece kKing sampleStart.side_to_move) kNoPiece
          false false false true) ∧
    CastleOptions kWhite =
      [(kWhiteKingSide, [61, 62], [60, 61], 60, 62),
       (kWhiteQueenSide, [59, 58, 57], [60, 59], 60, 58)] ∧
    CastleOptions kBlack =
      [(kBlackKingSide, [5, 6], [4, 5], 4, 6),
       (kBlackQueenSide, [3, 2, 1], [4, 3], 4, 2)]) :=
  ⟨⟨sampleStart_ready.1, sampleStart_ready.2.1, sampleStart_ready.2.2.1⟩,
    GenerateKingMoves_castling sampleStart sampleStart_ready.1 sampleStart_ready.2.1
      sampleStart_ready.2.2.1⟩

theorem sampleStart_king :
    ∃ k, k < 64 ∧ sampleStart.piece_bitboards (GetPiece kKing sampleStart.side_to_move) = 2 ^ k :=
  ⟨60, by decide, by decide!⟩

/-- C14: in a position where the side to move has one king, the moves of
`GenerateMoves` are the pawn moves, then the moves of the knight, bishop,
rook, queen and king loops, then the castling moves (which carry the castle
flag).  For each piece type `pt` of these five, the moves of its loop are,
without repetition, the moves `CreateMove source target piece kNoPiece capture
false false false` for the pairs where `source` holds a `pt` of the side to
move and `target` lies in the attack set of `pt` from `source` (under the full
occupancy) outside the mover's own occupancy; such a move decodes to its source
and target, to the piece `pt` of the mover's colour, to no promotion, no
double-push, en-passant or castle flag, and its capture flag is the bit of
`target` in the opponent's occupancy. -/
theorem PieceMoves_spec (s : PositionState) (hside : s.side_to_move < 2)
    (hb : Bounded s.piece_bitboards)
    (hking : ∃ k, k < 64 ∧ s.piece_bitboards (GetPiece kKing s.side_to_move) = 2 ^ k) :
    GenerateMoves s =
      GeneratePawnMoves s ++ PieceMoves s kKnight ++ PieceMoves s kBishop ++
        PieceMoves s kRook ++ PieceMoves s kQueen ++ (PieceMoves s kKing ++ CastlingMoves s) ∧
    (∀ m ∈ CastlingMoves s, move.IsCastle m = true) ∧
    ∀ pt, 1 ≤ pt → pt ≤ 5 →
      (PieceMoves s pt).Nodup ∧
      (∀ m, m ∈ PieceMoves s pt ↔
        ∃ source target, source < 64 ∧ target < 64 ∧
          (s.piece_bitboards (GetPiece pt s.side_to_move)).testBit source = true ∧
          (PieceAttacks pt source (s.piece_occupancy kBothColors)).testBit target = true ∧
          (s.piece_occupancy s.side_to_move).testBit target = false ∧
          m = move.CreateMove source target (GetPiece pt s.side_to_move) kNoPiece
            (GetBit (s.piece_occupancy (OppositeColor s.side_to_move)) target)
            false false false) ∧
      (∀ source target, source < 64 → target < 64 →
        move.GetSourceSquare (move.CreateMove source target (GetPiece pt s.side_to_move)
          kNoPiece (GetBit (s.piece_occupancy (OppositeColor s.side_to_move)) target)
          false false false) = source ∧
        move.GetTargetSquare (move.CreateMove source target (GetPiece pt s.side_to_move)
          kNoPiece (GetBit (s.piece_occupancy (OppositeColor s.side_to_move)) target)
          false false false) = target ∧
        move.GetPiece (move.CreateMove source target (GetPiece pt s.side_to_move)
          kNoPiece (GetBit (s.piece_occupancy (OppositeColor s.side_to_move)) target)
          false false false) = GetPiece pt s.side_to_move ∧
        GetPieceType (GetPiece pt s.side_to_move) = pt ∧
        GetPieceColor (GetPiece pt s.side_to_move) = s.side_to_move ∧
        move.GetPromotedPiece (move.CreateMove source target (GetPiece pt s.side_to_move)
          kNoPiece (GetBit (s.piece_occupancy (OppositeColor s.side_to_move)) target)
          false false false) = kNoPiece ∧
        move.IsCapture (move.CreateMove source target (GetPiece pt s.side_to_move)
          kNoPiece (GetBit (s.piece_occupancy (OppositeColor s.side_to_move)) target)
          false false false) =
            (s.piece_occupancy (OppositeColor s.side_to_move)).testBit target ∧
        move.IsDoublePush (move.CreateMove source target (GetPiece pt s.side_to_move)
          kNoPiece (GetBit (s.piece_occupancy (OppositeColor s.side_to_move)) target)
          false false false) = false ∧
        move.IsEnPassant (move.CreateMove source target (GetPiece pt s.side_to_move)
          kNoPiece (GetBit (s.piece_occupancy (OppositeColor s.side_to_move)) target)
          false false false) = false ∧
        move.IsCastle (move.CreateMove source target (GetPiece pt s.side_to_move)
          kNoPiece (GetBit (s.piece_occupancy (OppositeColor s.side_to_move)) target)
          false false false) = false) := by
  refine ⟨GenerateMoves_split s, ?_, ?_⟩
  · intro m hm
    obtain ⟨r, e, sf, so, t, hopt, h⟩ := (mem_CastlingMoves s m).1 hm
    obtain ⟨hso, hta⟩ := CastleOptions_squares _ _ _ _ _ _ hopt
    rw [((mem_CastleMove _ _ _ _ _ _ _).1 h).1]
    exact (move.CreateMove_fields so t _ kNoPiece false false false true hso hta
      (GetPiece_lt kKing _ (by decide) hside) (Or.inr rfl)).2.2.2.2.2.2.2.2
  · intro pt h1 h5
    have hp : GetPiece pt s.side_to_move < 12 := GetPiece_lt pt _ (by omega) hside
    refine ⟨PieceMoves_nodup s hside hb hking pt h1 h5,
      mem_PieceMoves s hside hb hking pt h1 h5, ?_⟩
    intro source target hs ht
    have f := move.CreateMove_fields source target (GetPiece pt s.side_to_move) kNoPiece
      (GetBit (s.piece_occupancy (OppositeColor s.side_to_move)) target) false false false
      hs ht hp (Or.inr rfl)
    refine ⟨f.2.1, f.2.2.1, f.2.2.2.1, ?_, ?_, f.2.2.2.2.1, ?_, f.2.2.2.2.2.2.1,
      f.2.2.2.2.2.2.2.1, f.2.2.2.2.2.2.2.2⟩
    · unfold GetPieceType GetPiece kPieceTypeCount
      omega
    · unfold GetPieceColor GetPiece kPieceTypeCount
      omega
    · rw [f.2.2.2.2.2.1, GetBit_eq_testBit]

theorem PieceMoves_spec_witness :
    (sampleStart.side_to_move < 2 ∧ Bounded sampleStart.piece_bitboards ∧
      ∃ k, k < 64 ∧
        sampleStart.piece_bitboards (GetPiece kKing sampleStart.side_to_move) = 2 ^ k) ∧
    (GenerateMoves sampleStart =
      GeneratePawnMoves sampleStart ++ PieceMoves sampleStart kKnight ++ PieceMoves sampleStart kBishop ++
        PieceMoves sampleStart kRook ++ PieceMoves sampleStart kQueen ++ (PieceMoves sampleStart kKing ++ CastlingMoves sampleStart) ∧
    (∀ m ∈ CastlingMoves sampleStart, move.IsCastle m = true) ∧
    ∀ pt, 1 ≤ pt → pt ≤ 5 →
      (PieceMoves sampleStart pt).Nodup ∧
      (∀ m, m ∈ PieceMoves sampleStart pt ↔
        ∃ source target, source < 64 ∧ target < 64 ∧
          (sampleStart.piece_bitboards (GetPiece pt sampleStart.side_to_move)).testBit source = true ∧
          (PieceAttacks pt source (sampleStart.piece_occupancy kBothColors)).testBit target = true ∧
          (sampleStart.piece_occupancy sampleStart.side_to_move).testBit target = false ∧
          m = move.CreateMove source target (GetPiece pt sampleStart.side_to_move) kNoPiece
            (GetBit (sampleStart.piece_occupancy (OppositeColor sampleStart.side_to_move)) target)
            false false false) ∧
      (∀ source target, source < 64 → target < 64 →
        move.GetSourceSquare (move.CreateMove source target (GetPiece pt sampleStart.side_to_move)
          kNoPiece (GetBit (sampleStart.piece_occupancy (OppositeColor sampleStart.side_to_move)) target)
          false false false) = source ∧
        move.GetTargetSquare (move.CreateMove source target (GetPiece pt sampleStart.side_to_move)
          kNoPiece (GetBit (sampleStart.piece_occupancy (OppositeColor sampleStart.side_to_move)) target)
          false false false) = target ∧
        move.GetPiece (move.CreateMove source target (GetPiece pt sampleStart.side_to_move)
          kNoPiece (GetBit (sampleStart.piece_occupancy (OppositeColor sampleStart.side_to_move)) target)
          false false false) = GetPiece pt sampleStart.side_to_move ∧
        GetPieceType (GetPiece pt sampleStart.side_to_move) = pt ∧
        GetPieceColor (GetPiece pt sampleStart.side_to_move) = sampleStart.side_to_move ∧
        move.GetPromotedPiece (move.CreateMove source target (GetPiece pt sampleStart.side_to_move)
          kNoPiece (GetBit (sampleStart.piece_occupancy (OppositeColor sampleStart.side_to_move)) target)
          false false false) = kNoPiece ∧
        move.IsCapture (move.CreateMove source target (GetPiece pt sampleStart.side_to_move)
          kNoPiece (GetBit (sampleStart.piece_occupancy (OppositeColor sampleStart.side_to_move)) target)
          false false false) =
            (sampleStart.piece_occupancy (OppositeColor sampleStart.side_to_move)).testBit target ∧
        move.IsDoublePush (move.CreateMove source target (GetPiece pt sampleStart.side_to_move)
          kNoPiece (GetBit (sampleStart.piece_occupancy (OppositeColor sampleStart.side_to_move)) target)
          false false false) = false ∧
        move.IsEnPassant (move.CreateMove source target (GetPiece pt sampleStart.side_to_move)
          kNoPiece (GetBit (sampleStart.piece_occupancy (OppositeColor sampleStart.side_to_move)) target)
          false false false) = false ∧
        move.IsCastle (move.CreateMove source target (GetPiece pt sampleStart.side_to_move)
          kNoPiece (GetBit (sampleStart.piece_occupancy (OppositeColor sampleStart.side_to_move)) target)
          false false false) = false)) :=
  ⟨⟨sampleStart_ready.1, sampleStart_ready.2.1, sampleStart_king⟩,
    PieceMoves_spec sampleStart sampleStart_ready.1 sampleStart_ready.2.1 sampleStart_king⟩

/-! ## The score `PrintSearchInfo` prints -/

theorem PrintSearchInfoScore_mating (p : Int) (h1 : 1 ≤ p) (h2 : p < 1000) :
    PrintSearchInfoScore (-kCheckmateScore - p) =
      "info score mate ".toList ++ to_string ((p + 1) / 2) := by
  unfold PrintSearchInfoScore kCheckmateScore kCheckmateWindow
  rw [if_neg (by omega), if_pos (by omega)]
  congr 2
  have e : ((-(-49000 : Int) - p + -49000 - 1).natAbs : Int) = p + 1 := by omega
  rw [e, Int.tdiv_eq_ediv (by omega) (by omega)]

theorem PrintSearchInfoScore_mated (p : Int) (h1 : 1 ≤ p) (h2 : p < 1000) :
    PrintSearchInfoScore (kCheckmateScore + p) =
      "info score mate ".toList ++ to_string (-((p + 1) / 2)) := by
  unfold PrintSearchInfoScore kCheckmateScore kCheckmateWindow
  rw [if_pos (by omega)]
  congr 2
  have e : (-49000 : Int) + p - -49000 + 1 = p + 1 := by omega
  rw [e, Int.tdiv_neg, Int.tdiv_eq_ediv (by omega) (by omega)]

/-- C20 (the claim fails at ply 0): the score `kCheckmateScore + 0` of an
engine mated at the root is not inside the mate window, whose bounds are
strict, and is printed as centipawns. -/
theorem PrintSearchInfoScore_mated_at_root :
    PrintSearchInfoScore (kCheckmateScore + 0) = "info score cp -49000".toList := by
  decide

/-- C20, amended: for every ply `p` with `1 ≤ p < 1000` the score
`-kCheckmateScore - p` is printed as `mate (p+1)/2` and the score
`kCheckmateScore + p` as `mate -((p+1)/2)`, which for even `p` is
`mate -(p/2)`, the quotients rounded down; neither is printed as
centipawns. -/
theorem PrintSearchInfoScore_mate (p : Int) (h1 : 1 ≤ p) (h2 : p < 1000) :
    PrintSearchInfoScore (-kCheckmateScore - p) =
      "info score mate ".toList ++ to_string ((p + 1) / 2) ∧
    PrintSearchInfoScore (kCheckmateScore + p) =
      "info score mate ".toList ++ to_string (-((p + 1) / 2)) ∧
    (p % 2 = 0 → -((p + 1) / 2) = -(p / 2)) :=
  ⟨PrintSearchInfoScore_mating p h1 h2, PrintSearchInfoScore_mated p h1 h2,
    fun h => by omega⟩

theorem PrintSearchInfoScore_mate_witness :
    ((1 : Int) ≤ 4 ∧ (4 : Int) < 1000) ∧
    (PrintSearchInfoScore (-kCheckmateScore - 4) =
      "info score mate ".toList ++ to_string (((4 : Int) + 1) / 2) ∧
    PrintSearchInfoScore (kCheckmateScore + 4) =
      "info score mate ".toList ++ to_string (-(((4 : Int) + 1) / 2)) ∧
    ((4 : Int) % 2 = 0 → -(((4 : Int) + 1) / 2) = -((4 : Int) / 2))) :=
  ⟨⟨by decide, by decide⟩, PrintSearchInfoScore_mate 4 (by decide) (by decide)⟩

/-! ## The search leaves the position as it found it -/

theorem MakeMove_rejected (zk : ZobristKeys) (st : PositionState) (mv : Nat)
    (quiescencse : Bool) (h : (MakeMove zk st mv quiescencse).1 = false) :
    (MakeMove zk st mv quiescencse).2 = st := by
  unfold MakeMove at h ⊢
  by_cases h1 : (quiescencse && !move.IsCapture mv) = true
  · simp [h1]
  · by_cases h2 : IsSquareAttacked (ApplyMove zk st mv)
        (GetLSBIndex ((ApplyMove zk st mv).piece_bitboards
          (GetPiece kKing (GetPieceColor (move.GetPiece mv)))))
        (OppositeColor (GetPieceColor (move.GetPiece mv))) = true
    · simp [h1, h2]
    · simp [h1, h2] at h

theorem CountNode_ply (env : Environment) (e : SearchEngine) : (CountNode env e).ply = e.ply := by
  unfold CountNode CheckStop
  split_ifs <;> rfl

theorem Restored_refl (S : SearchState) : Restored S S := ⟨rfl, rfl⟩

theorem Restored_trans {S T U : SearchState} (h1 : Restored S T) (h2 : Restored T U) :
    Restored S U := ⟨h2.1.trans h1.1, h2.2.trans h1.2⟩

/-- A rejected move attempt: `ply++`, `Add`, `MakeMove` returning false,
`ply--`, `RemoveLast`. -/
theorem Restored_Skip (zk : ZobristKeys) (S : SearchState) (mv : Nat) (q : Bool)
    (h : ((S.Enter S.position.state_).MakeMove zk mv q).1 = false) :
    Restored S ((S.Enter S.position.state_).MakeMove zk mv q).2.Skip := by
  have h' : (MakeMove zk S.position.state_ mv q).1 = false := h
  refine ⟨?_, ?_⟩
  · show (MakeMove zk S.position.state_ mv q).2 = S.position.state_
    exact MakeMove_rejected zk _ mv q h'
  · show S.engine.ply + 1 - 1 = S.engine.ply
    omega

theorem Restored_CountNode (env : Environment) (S : SearchState) :
    Restored S { S with engine := CountNode env S.engine } :=
  ⟨rfl, CountNode_ply env S.engine⟩

theorem Restored_Store (S T : SearchState) (depth : Int) (flags : Nat) (score : Int) (mv : Nat)
    (h : Restored S T) : Restored S (T.Store depth flags score mv) := h

theorem Quiescence_fifty (zk : ZobristKeys) (env : Environment) (fuel : Nat) (alpha beta : Int)
    (S : SearchState) (h : S.position.state_.halfmove_clock ≥ 100) :
    Quiescence zk env (fuel + 1) alpha beta S =
      some (kDrawScore, { S with engine := CountNode env S.engine }) := by
  rw [Quiescence]
  simp only
  by_cases h1 : (CountNode env S.engine).ply > 0 ∧
      S.position.repetition_table_.HasRepetition S.position.state_.key = true
  · rw [if_pos h1]
  · rw [if_neg h1, if_pos h]

theorem Negamax_fifty (zk : ZobristKeys) (env : Environment) (fuel : Nat)
    (alpha beta depth : Int) (pv_line : PvLine) (is_null : Bool) (S : SearchState)
    (h : S.position.state_.halfmove_clock ≥ 100) :
    ∃ S', Negamax zk env (fuel + 1) alpha beta depth pv_line is_null S =
      some
        (if (S.transposition_table_.Get S.position.state_.key).key = S.position.state_.key ∧
            (S.transposition_table_.Get S.position.state_.key).depth ≥ depth then
          if (S.transposition_table_.Get S.position.state_.key).flags = kAlphaHashFlag ∧
              (S.transposition_table_.Get S.position.state_.key).score ≤ alpha then alpha
          else if (S.transposition_table_.Get S.position.state_.key).flags = kBetaHashFlag ∧
              (S.transposition_table_.Get S.position.state_.key).score ≥ beta then beta
          else kDrawScore
        else kDrawScore, pv_line, S') := by
  rw [Negamax]
  simp only
  by_cases hh : (S.transposition_table_.Get S.position.state_.key).key = S.position.state_.key ∧
      (S.transposition_table_.Get S.position.state_.key).depth ≥ depth
  · by_cases ha : (S.transposition_table_.Get S.position.state_.key).flags = kAlphaHashFlag ∧
        (S.transposition_table_.Get S.position.state_.key).score ≤ alpha
    · simp only [if_pos hh, if_pos ha]
      exact ⟨_, rfl⟩
    · by_cases hb : (S.transposition_table_.Get S.position.state_.key).flags = kBetaHashFlag ∧
          (S.transposition_table_.Get S.position.state_.key).score ≥ beta
      · simp only [if_pos hh, if_neg ha, if_pos hb]
        exact ⟨_, rfl⟩
      · simp only [if_pos hh, if_neg ha, if_neg hb]
        by_cases h1 : (CountNode env S.engine).ply > 0 ∧
            S.position.repetition_table_.HasRepetition S.position.state_.key = true
        · rw [if_pos h1]
          exact ⟨_, rfl⟩
        · rw [if_neg h1, if_pos h]
          exact ⟨_, rfl⟩
  · simp only [if_neg hh]
    by_cases h1 : (CountNode env S.engine).ply > 0 ∧
        S.position.repetition_table_.HasRepetition S.position.state_.key = true
    · rw [if_pos h1]
      exact ⟨_, rfl⟩
    · rw [if_neg h1, if_pos h]
      exact ⟨_, rfl⟩

/-- C19 (the claim fails for `Negamax`): at the start position with a
halfmove clock of 100, with the window (50, 100) and depth 1, the slot of the
transposition table for the position's key holds an upper bound of 0 found at
depth 1, and `Negamax` returns alpha = 50: the table is probed before the
clock is looked at. -/
theorem Negamax_fifty_cutoff :
    fiftySample.position.state_.halfmove_clock ≥ 100 ∧
    ∃ S', Negamax sampleKeys sampleEnvironment 1 50 100 1 PvLine.empty false fiftySample =
      some (50, PvLine.empty, S') := by
  refine ⟨by decide, ?_⟩
  obtain ⟨S', h⟩ := Negamax_fifty sampleKeys sampleEnvironment 0 50 100 1 PvLine.empty false
    fiftySample (by decide)
  refine ⟨S', ?_⟩
  rw [h, if_pos ⟨rfl, by decide⟩, if_pos ⟨rfl, by decide⟩]

/-- C19, amended: in a position whose halfmove clock is 100 or more,
`Quiescence` returns the draw score 0 for every window and ply, and `Negamax`
returns, for every depth, window, ply and null-child flag: alpha when the
transposition-table slot of the position's key holds that key with a depth of
at least the requested one, the alpha flag and a score of at most alpha; beta
when it holds the key with such a depth, the beta flag and a score of at
least beta (and the first case does not apply); the draw score 0
otherwise. -/
theorem Negamax_fifty_move_rule (zk : ZobristKeys) (env : Environment) (fuel : Nat)
    (alpha beta depth : Int) (pv_line : PvLine) (is_null : Bool) (S : SearchState)
    (h : S.position.state_.halfmove_clock ≥ 100) :
    kDrawScore = 0 ∧
    (∃ S', Quiescence zk env (fuel + 1) alpha beta S = some (kDrawScore, S')) ∧
    ∃ S', Negamax zk env (fuel + 1) alpha beta depth pv_line is_null S =
      some
        (if (S.transposition_table_.Get S.position.state_.key).key = S.position.state_.key ∧
            (S.transposition_table_.Get S.position.state_.key).depth ≥ depth then
          if (S.transposition_table_.Get S.position.state_.key).flags = kAlphaHashFlag ∧
              (S.transposition_table_.Get S.position.state_.key).score ≤ alpha then alpha
          else if (S.transposition_table_.Get S.position.state_.key).flags = kBetaHashFlag ∧
              (S.transposition_table_.Get S.position.state_.key).score ≥ beta then beta
          else kDrawScore
        else kDrawScore, pv_line, S') :=
  ⟨rfl, ⟨_, Quiescence_fifty zk env fuel alpha beta S h⟩,
    Negamax_fifty zk env fuel alpha beta depth pv_line is_null S h⟩

theorem Negamax_fifty_move_rule_witness :
    fiftySample.position.state_.halfmove_clock ≥ 100 ∧
    (kDrawScore = 0 ∧
    (∃ S', Quiescence sampleKeys sampleEnvironment (0 + 1) 50 100 fiftySample =
      some (kDrawScore, S')) ∧
    ∃ S', Negamax sampleKeys sampleEnvironment (0 + 1) 50 100 2 PvLine.empty false fiftySample =
      some
        (if (fiftySample.transposition_table_.Get fiftySample.position.state_.key).key =
              fiftySample.position.state_.key ∧
            (fiftySample.transposition_table_.Get fiftySample.position.state_.key).depth ≥ 2 then
          if (fiftySample.transposition_table_.Get fiftySample.position.state_.key).flags =
                kAlphaHashFlag ∧
              (fiftySample.transposition_table_.Get fiftySample.position.state_.key).score ≤ 50
          then 50
          else if (fiftySample.transposition_table_.Get fiftySample.position.state_.key).flags =
                kBetaHashFlag ∧
              (fiftySample.transposition_table_.Get fiftySample.position.state_.key).score ≥ 100
          then 100
          else kDrawScore
        else kDrawScore, PvLine.empty, S')) :=
  ⟨by decide,
    Negamax_fifty_move_rule sampleKeys sampleEnvironment 0 50 100 2 PvLine.empty false
      fiftySample (by decide)⟩

/-! ## Position state and ply across a search call -/

theorem mem_SortMoves (env : Environment) (hsort : ∀ l x, x ∈ env.sort l → x ∈ l)
    (e : SearchEngine) (s : PositionState) (moves : List Nat) (m : Nat)
    (h : m ∈ SortMoves env e s moves) : m ∈ moves := by
  unfold SortMoves at h
  rw [List.mem_map] at h
  obtain ⟨p, hp, rfl⟩ := h
  have := hsort _ _ hp
  rw [List.mem_map] at this
  obtain ⟨m', hm', rfl⟩ := this
  exact hm'

/-- A generated move with the double-push flag is the double push of a pawn
of the side to move from its starting rank. -/
theorem Generated_double_push (s : PositionState) (hside : s.side_to_move < 2) (m : Nat)
    (hg : Generated s m) (h : move.IsDoublePush m = true) :
    GetPieceColor (move.GetPiece m) = s.side_to_move ∧
    move.GetSourceSquare m < 64 ∧
    GetRank (move.GetSourceSquare m) = StartingRank s.side_to_move ∧
    PawnStep s.side_to_move (move.GetSourceSquare m) 2 (move.GetTargetSquare m) := by
  have hP : ∀ pt, pt < 6 → GetPiece pt s.side_to_move < 12 := fun pt h =>
    GetPiece_lt pt _ h hside
  cases hg with
  | push source target hs hbit hstep hfree hrank =>
    rw [(move.CreateMove_fields source target _ kNoPiece false false false false hs hstep.1
      (hP kPawn (by decide)) (Or.inr rfl)).2.2.2.2.2.2.1] at h
    exact absurd h (by decide)
  | pushPromotion source target pt hs hbit hstep hfree hrank hpt =>
    rw [(move.CreateMove_fields source target _ (GetPiece pt s.side_to_move) false false false
      false hs hstep.1 (hP kPawn (by decide))
      (Or.inl (hP pt (by have := promoted_type pt hpt; omega)))).2.2.2.2.2.2.1] at h
    exact absurd h (by decide)
  | doublePush source middle target hs hbit hstep hfree hrank hstart hstep2 hfree2 =>
    have hf := move.CreateMove_fields source target _ kNoPiece false true false false hs hstep2.1
      (hP kPawn (by decide)) (Or.inr rfl)
    simp only [] at hf
    rw [hf.2.1, hf.2.2.1, hf.2.2.2.1]
    exact ⟨GetPieceColor_GetPiece _ _ (by decide), hs, hstart, hstep2⟩
  | pawnCapture source target hs ht hbit hatt hocc hrank =>
    rw [(move.CreateMove_fields source target _ kNoPiece true false false false hs ht
      (hP kPawn (by decide)) (Or.inr rfl)).2.2.2.2.2.2.1] at h
    exact absurd h (by decide)
  | capturePromotion source target pt hs ht hbit hatt hocc hrank hpt =>
    rw [(move.CreateMove_fields source target _ (GetPiece pt s.side_to_move) true false false
      false hs ht (hP kPawn (by decide))
      (Or.inl (hP pt (by have := promoted_type pt hpt; omega)))).2.2.2.2.2.2.1] at h
    exact absurd h (by decide)
  | enPassant source target hs ht hbit hatt hocc hep =>
    rw [(move.CreateMove_fields source target _ kNoPiece true false true false hs ht
      (hP kPawn (by decide)) (Or.inr rfl)).2.2.2.2.2.2.1] at h
    exact absurd h (by decide)
  | piece pt source target h1 h5 hs ht hbit hatt hown =>
    rw [(move.CreateMove_fields source target _ kNoPiece _ false false false hs ht
      (hP pt (by omega)) (Or.inr rfl)).2.2.2.2.2.2.1] at h
    exact absurd h (by decide)
  | castle right empty safe source target hopt hright hempty hsafe =>
    obtain ⟨hso, hta⟩ := CastleOptions_squares _ _ _ _ _ _ hopt
    rw [(move.CreateMove_fields source target _ kNoPiece false false false true hso hta
      (hP kKing (by decide)) (Or.inr rfl)).2.2.2.2.2.2.1] at h
    exact absurd h (by decide)

/-- C21: with at least one slot, `Get(key)` after `Store(key, depth, flags,
score, bestMove)` returns exactly the stored key, depth, flags, score and move
whatever the slot held before, the slot written is the one at `key` modulo the
capacity, inside the table, and every other slot and the capacity are
unchanged. -/
theorem TranspositionTable_Store_Get (t : TranspositionTable) (key : Nat) (depth : Int)
    (flags : Nat) (score : Int) (bestMove : Nat) (hcap : 1 ≤ t.max_entries_) :
    (t.Store key depth flags score bestMove).Get key = ⟨key, depth, flags, score, bestMove⟩ ∧
    key % t.max_entries_ < t.max_entries_ ∧
    (t.Store key depth flags score bestMove).max_entries_ = t.max_entries_ ∧
    ∀ index, index ≠ key % t.max_entries_ →
      (t.Store key depth flags score bestMove).table_ index = t.table_ index := by
  refine ⟨?_, Nat.mod_lt _ hcap, rfl, ?_⟩
  · simp [TranspositionTable.Store, TranspositionTable.Get, Assign]
  · intro index hne
    simp [TranspositionTable.Store, Assign, hne]

/-- C30: after a successful `MakeMove` the en-passant square is `kNoSquare`
unless the double-push flag of the move is set; with the flag it is the target
plus 8 for a white piece and the target minus 8 for a black piece.  The value
does not depend on the en-passant square held before.  For a double push of
the move generator the subtraction stays on the board and the new square lies
midway between source and target. -/
theorem MakeMove_en_passant_square (zk : ZobristKeys) (s : PositionState) (m : Nat) (q : Bool)
    (h : (MakeMove zk s m q).1 = true) :
    (MakeMove zk s m q).2.en_passant_square =
      (if move.IsDoublePush m then
        (if GetPieceColor (move.GetPiece m) = kWhite then move.GetTargetSquare m + 8
          else move.GetTargetSquare m - 8)
      else kNoSquare) ∧
    (s.side_to_move < 2 → Bounded s.piece_bitboards →
      s.piece_bitboards (GetPiece kKing s.side_to_move) ≠ 0 → m ∈ GenerateMoves s →
      move.IsDoublePush m = true →
      (GetPieceColor (move.GetPiece m) ≠ kWhite → 8 ≤ move.GetTargetSquare m) ∧
      (MakeMove zk s m q).2.en_passant_square < 64 ∧
      2 * (MakeMove zk s m q).2.en_passant_square =
        move.GetSourceSquare m + move.GetTargetSquare m) := by
  have he : (MakeMove zk s m q).2.en_passant_square =
      (if move.IsDoublePush m then
        (if GetPieceColor (move.GetPiece m) = kWhite then move.GetTargetSquare m + 8
          else move.GetTargetSquare m - 8)
      else kNoSquare) := by
    rw [(MakeMove_true zk s m q h).1]
    exact ApplyMove_en_passant zk s m
  refine ⟨he, ?_⟩
  intro hside hb hk hm hd
  obtain ⟨hcol, hs, hrank, hstep⟩ :=
    Generated_double_push s hside m (Generated_of_mem s hside hb hk m hm) hd
  rw [he, if_pos hd, hcol]
  unfold PawnStep at hstep
  by_cases hw : s.side_to_move = kWhite
  · rw [if_pos hw] at hstep ⊢
    exact ⟨fun hn => absurd hw hn, by omega, by omega⟩
  · rw [if_neg hw] at hstep ⊢
    exact ⟨fun _ => by omega, by omega, by omega⟩

theorem MakeMove_en_passant_square_witness :
    (MakeMove sampleKeys sampleStart e2e4 false).1 = true ∧
    (MakeMove sampleKeys sampleStart e2e4 false).2.en_passant_square = 44 ∧
    2 * (MakeMove sampleKeys sampleStart e2e4 false).2.en_passant_square =
      move.GetSourceSquare e2e4 + move.GetTargetSquare e2e4 :=
  ⟨e2e4_accepted,
   ((MakeMove_en_passant_square sampleKeys sampleStart e2e4 false e2e4_accepted).1.trans
     (by decide)),
   ((MakeMove_en_passant_square sampleKeys sampleStart e2e4 false e2e4_accepted).2
     sampleStart_ready.1 sampleStart_ready.2.1 sampleStart_ready.2.2.1 sampleStart_ready.2.2.2
     (by decide)).2.2⟩

theorem TranspositionTable_Store_Get_witness :
    1 ≤ sampleTable.max_entries_ ∧
    (sampleTable.Store 9 3 kBetaHashFlag 25 e2e4).Get 9 = ⟨9, 3, kBetaHashFlag, 25, e2e4⟩ :=
  ⟨by decide, (TranspositionTable_Store_Get sampleTable 9 3 kBetaHashFlag 25 e2e4 (by decide)).1⟩

/-! ## The repetition table holds the most recent keys -/

theorem RepetitionTable_size_le (r : RepetitionTable) : r.size ≤ 228 := by
  unfold RepetitionTable.size kRepetitionTableSize
  split_ifs
  · exact le_refl _
  · omega

theorem RingHolds_Clear (r : RepetitionTable) : RingHolds r.Clear [] := by
  refine ⟨Nat.zero_lt_succ _, Nat.zero_lt_succ _, fun h => rfl, ?_, ?_⟩
  · simp [RepetitionTable.size, RepetitionTable.Clear, kRepetitionTableSize]
  · intro i hi
    simp [RepetitionTable.size, RepetitionTable.Clear, kRepetitionTableSize] at hi

theorem RepetitionTable_size_Add (r : RepetitionTable) (key : Nat)
    (hh : r.head < 228) (ht : r.tail < 228) (hf : r.full = true → r.head = r.tail) :
    (r.Add key).size = if r.full then 228 else r.size + 1 := by
  unfold RepetitionTable.size RepetitionTable.Add kRepetitionTableSize
  simp only []
  by_cases hfull : r.full = true
  · have := hf hfull
    simp [hfull, this]
  · simp only [hfull, if_false, Bool.false_eq_true]
    by_cases he : (r.head + 1) % 228 = r.tail
    · rw [if_pos (by rw [decide_eq_true_eq]; exact he)]; omega
    · rw [if_neg (by rw [decide_eq_true_eq]; exact he)]; omega

theorem RingHolds_Add (r : RepetitionTable) (held : List Nat) (key : Nat)
    (h : RingHolds r held) : RingHolds (r.Add key) (key :: held) := by
  obtain ⟨hh, ht, hf, hs, hring⟩ := h
  have hsize := RepetitionTable_size_Add r key hh ht hf
  have hle := RepetitionTable_size_le r
  have hsz : (r.Add key).size ≤ r.size + 1 := by
    rw [hsize]; split_ifs with hfull
    · unfold RepetitionTable.size; rw [if_pos hfull]; unfold kRepetitionTableSize; omega
    · exact le_refl _
  have hhead : (r.Add key).head = (r.head + 1) % 228 := rfl
  have htable : (r.Add key).table = setAt r.table r.head key := rfl
  refine ⟨?_, ?_, ?_, ?_, ?_⟩
  · rw [hhead]; omega
  · show (if r.full then (r.tail + 1) % kRepetitionTableSize else r.tail) < 228
    unfold kRepetitionTableSize; split_ifs <;> omega
  · intro hfull
    have : decide ((r.Add key).head = (r.Add key).tail) = true := hfull
    simpa using this
  · rw [List.length_cons]; omega
  · intro i hi
    have h228 := RepetitionTable_size_le (r.Add key)
    rw [hhead, htable]
    cases i with
    | zero =>
      have : ((r.head + 1) % 228 + 227 - 0) % 228 = r.head := by omega
      rw [this]; simp [setAt]
    | succ j =>
      have e : ((r.head + 1) % 228 + 227 - (j + 1)) % 228 = (r.head + 227 - j) % 228 := by omega
      have ne : (r.head + 227 - j) % 228 ≠ r.head := by omega
      rw [e, List.getD_cons_succ]
      unfold setAt
      rw [if_neg ne]
      exact hring j (by omega)

theorem RingHolds_RemoveLast (r : RepetitionTable) (held : List Nat)
    (h : RingHolds r held) : RingHolds r.RemoveLast held.tail := by
  obtain ⟨hh, ht, hf, hs, hring⟩ := h
  have hle := RepetitionTable_size_le r
  unfold RepetitionTable.RemoveLast
  by_cases hem : r.IsEmpty = true
  · rw [if_pos hem]
    have h0 : r.size = 0 := by
      unfold RepetitionTable.IsEmpty at hem
      simp only [Bool.and_eq_true, Bool.not_eq_true', decide_eq_true_eq] at hem
      unfold RepetitionTable.size kRepetitionTableSize
      rw [hem.1, hem.2]; simp
    exact ⟨hh, ht, hf, by rw [h0]; exact Nat.zero_le _, fun i hi => by omega⟩
  · rw [if_neg hem]
    have hpos : 0 < r.size ∧
        ({ r with head := (r.head + kRepetitionTableSize - 1) % kRepetitionTableSize,
                  full := false } : RepetitionTable).size = r.size - 1 := by
      unfold RepetitionTable.IsEmpty at hem
      unfold RepetitionTable.size kRepetitionTableSize
      simp only []
      by_cases hfull : r.full = true
      · have := hf hfull
        rw [if_pos hfull]
        simp only [Bool.false_eq_true, if_false]
        omega
      · rw [if_neg hfull]
        simp only [Bool.false_eq_true, if_false]
        have hfull' : r.full = false := by simpa using hfull
        rw [hfull'] at hem
        simp only [Bool.not_false, Bool.true_and, decide_eq_true_eq] at hem
        omega
    refine ⟨?_, ht, fun hfull => Bool.noConfusion hfull, ?_, ?_⟩
    · show (r.head + kRepetitionTableSize - 1) % kRepetitionTableSize < 228
      unfold kRepetitionTableSize; omega
    · rw [hpos.2, List.length_tail]; omega
    · intro i hi
      rw [hpos.2] at hi
      show r.table (((r.head + kRepetitionTableSize - 1) % kRepetitionTableSize + 227 - i) % 228)
        = held.tail.getD i 0
      have e : ((r.head + kRepetitionTableSize - 1) % kRepetitionTableSize + 227 - i) % 228 =
          (r.head + 227 - (i + 1)) % 228 := by unfold kRepetitionTableSize; omega
      rw [e, hring (i + 1) (by omega)]
      cases held with
      | nil => rfl
      | cons a l => rfl

theorem RingHolds_Run (calls : List RepetitionCall) (r : RepetitionTable) (held : List Nat)
    (h : RingHolds r held) : RingHolds (r.Run calls) (KeysHeld held calls) := by
  induction calls generalizing r held with
  | nil => exact h
  | cons c calls ih =>
    cases c with
    | add key => exact ih _ _ (RingHolds_Add r held key h)
    | removeLast => exact ih _ _ (RingHolds_RemoveLast r held h)

/-- The keys the two loops read, the most recent first. -/
theorem RingHolds_recent (r : RepetitionTable) (held : List Nat) (h : RingHolds r held) :
    (List.range (min r.size 100)).map (fun i => r.Get (r.size - i - 1)) =
      held.take (min r.size 100) := by
  obtain ⟨hh, ht, hf, hs, hring⟩ := h
  apply List.ext_getElem
  · rw [List.length_map, List.length_range, List.length_take]; omega
  · intro i h1 h2
    rw [List.length_map, List.length_range] at h1
    rw [List.getElem_map, List.getElem_range, List.getElem_take]
    have hi : i < r.size := by omega
    have hg : r.Get (r.size - i - 1) = r.table ((r.head + 227 - i) % 228) := by
      unfold RepetitionTable.Get
      congr 1
      revert hi
      unfold RepetitionTable.size kRepetitionTableSize
      by_cases hfull : r.full = true
      · have := hf hfull
        rw [if_pos hfull]; omega
      · rw [if_neg hfull]; omega
    rw [hg, hring i hi, List.getD_eq_getElem _ _ (by omega)]

theorem HasRepetition_eq (r : RepetitionTable) (key : Nat) :
    r.HasRepetition key =
      ((List.range (min r.size 100)).map (fun i => r.Get (r.size - i - 1))).any
        (fun x => x == key) := by
  unfold RepetitionTable.HasRepetition
  rw [List.any_map]
  rfl

theorem CountRepetitions_eq (r : RepetitionTable) (key : Nat) :
    r.CountRepetitions key =
      ((List.range (min r.size 100)).map (fun i => r.Get (r.size - i - 1))).count key := by
  unfold RepetitionTable.CountRepetitions
  rw [List.count, List.countP_map, List.countP_eq_length_filter]
  rfl

/-- C23: for the table reached from a cleared table by any sequence of `Add`
and `RemoveLast` calls, `size()` is at most the number of keys added and not
removed, `HasRepetition(k)` is true exactly when `k` is among the most recent
`min(size(), 100)` of those keys, `CountRepetitions(k)` is the number of them
equal to `k`, and `HasRepetition(k)` holds exactly when that count is
positive. -/
theorem RepetitionTable_recent_keys (r0 : RepetitionTable) (calls : List RepetitionCall)
    (k : Nat) :
    (r0.Clear.Run calls).size ≤ (KeysHeld [] calls).length ∧
    ((r0.Clear.Run calls).HasRepetition k = true ↔
      k ∈ (KeysHeld [] calls).take (min (r0.Clear.Run calls).size 100)) ∧
    (r0.Clear.Run calls).CountRepetitions k =
      ((KeysHeld [] calls).take (min (r0.Clear.Run calls).size 100)).count k ∧
    ((r0.Clear.Run calls).HasRepetition k = true ↔
      0 < (r0.Clear.Run calls).CountRepetitions k) := by
  have h := RingHolds_Run calls r0.Clear [] (RingHolds_Clear r0)
  have hrec := RingHolds_recent _ _ h
  have h1 : (r0.Clear.Run calls).HasRepetition k = true ↔
      k ∈ (KeysHeld [] calls).take (min (r0.Clear.Run calls).size 100) := by
    rw [HasRepetition_eq, hrec, List.any_eq_true]
    constructor
    · rintro ⟨x, hx, hxk⟩
      rw [beq_iff_eq] at hxk
      rw [← hxk]; exact hx
    · intro hk
      exact ⟨k, hk, by simp⟩
  have h2 : (r0.Clear.Run calls).CountRepetitions k =
      ((KeysHeld [] calls).take (min (r0.Clear.Run calls).size 100)).count k := by
    rw [CountRepetitions_eq, hrec]
  refine ⟨h.2.2.2.1, h1, h2, ?_⟩
  rw [h1, h2, List.count_pos_iff]

/-! ## The fill counter of the transposition table -/

theorem sampleStores_count : (sampleTable.Clear.StoreAll sampleStores).num_entries_ = 2 := by
  decide

/-! ## The pawn moves, pawn by pawn -/

theorem GetRank_eq (sq : Nat) : GetRank sq = 7 - sq / 8 := by
  unfold GetRank
  rw [Nat.shiftRight_eq_div_pow]

/-- The push part of the pawn loop, case by case. -/
theorem PawnPushMoves_eq (s : PositionState) (source : Nat) (hs : source < 64) :
    PawnPushMoves s source =
      if HasSquareAhead s.side_to_move source = true ∧
          GetBit (s.piece_occupancy kBothColors) (SquareAhead s.side_to_move source 1) = false then
        if GetRank (SquareAhead s.side_to_move source 1) = PromotionRank s.side_to_move then
          PromotionMoves source (SquareAhead s.side_to_move source 1)
            (GetPiece kPawn s.side_to_move) s.side_to_move false
        else
          move.CreateMove source (SquareAhead s.side_to_move source 1)
            (GetPiece kPawn s.side_to_move) kNoPiece false false false false ::
          (if GetRank source = StartingRank s.side_to_move ∧
              GetBit (s.piece_occupancy kBothColors) (SquareAhead s.side_to_move source 2) = false
            then [move.CreateMove source (SquareAhead s.side_to_move source 2)
              (GetPiece kPawn s.side_to_move) kNoPiece false true false false]
            else [])
      else [] := by
  unfold PawnPushMoves
  simp only []
  have hp : (if s.side_to_move = kWhite then 7 else 0) = PromotionRank s.side_to_move := rfl
  have hst : (if s.side_to_move = kWhite then 1 else 6) = StartingRank s.side_to_move := rfl
  rw [hp, hst]
  have hv1 : IsValidSquare ((source : Int) + (if s.side_to_move = kWhite then -8 else 8)) =
      HasSquareAhead s.side_to_move source := by
    unfold IsValidSquare HasSquareAhead
    by_cases hw : s.side_to_move = kWhite
    · rw [if_pos hw, if_pos hw]
      rw [Bool.eq_iff_iff]
      simp only [Bool.and_eq_true, decide_eq_true_eq]
      omega
    · rw [if_neg hw, if_neg hw]
      rw [Bool.eq_iff_iff]
      simp only [Bool.and_eq_true, decide_eq_true_eq]
      omega
  have ht1 : HasSquareAhead s.side_to_move source = true →
      ((source : Int) + (if s.side_to_move = kWhite then -8 else 8)).toNat =
        SquareAhead s.side_to_move source 1 := by
    unfold HasSquareAhead SquareAhead
    by_cases hw : s.side_to_move = kWhite
    · rw [if_pos hw, if_pos hw, if_pos hw, decide_eq_true_eq]; omega
    · rw [if_neg hw, if_neg hw, if_neg hw, decide_eq_true_eq]; omega
  have h2 : GetRank source = StartingRank s.side_to_move →
      IsValidSquare ((source : Int) + 2 * (if s.side_to_move = kWhite then -8 else 8)) = true ∧
      ((source : Int) + 2 * (if s.side_to_move = kWhite then -8 else 8)).toNat =
        SquareAhead s.side_to_move source 2 := by
    rw [GetRank_eq]
    unfold StartingRank IsValidSquare SquareAhead
    by_cases hw : s.side_to_move = kWhite
    · rw [if_pos hw, if_pos hw, if_pos hw, Bool.and_eq_true, decide_eq_true_eq,
        decide_eq_true_eq]
      omega
    · rw [if_neg hw, if_neg hw, if_neg hw, Bool.and_eq_true, decide_eq_true_eq,
        decide_eq_true_eq]
      omega
  rw [hv1]
  by_cases ha : HasSquareAhead s.side_to_move source = true
  · rw [ht1 ha, ha]
    by_cases hfree : GetBit (s.piece_occupancy kBothColors)
        (SquareAhead s.side_to_move source 1) = false
    · rw [hfree]
      simp only [Bool.not_false, Bool.and_self, if_true, and_self]
      by_cases hr : GetRank (SquareAhead s.side_to_move source 1) = PromotionRank s.side_to_move
      · rw [if_pos hr, if_pos hr]
      · rw [if_neg hr, if_neg hr]
        by_cases hstart : GetRank source = StartingRank s.side_to_move
        · obtain ⟨hv2, ht2⟩ := h2 hstart
          rw [if_pos hstart, hv2, ht2]
          by_cases hfree2 : GetBit (s.piece_occupancy kBothColors)
              (SquareAhead s.side_to_move source 2) = false
          · rw [hfree2]; simp [hstart]
          · have : GetBit (s.piece_occupancy kBothColors)
                (SquareAhead s.side_to_move source 2) = true := by simpa using hfree2
            rw [this]; simp
        · rw [if_neg hstart, if_neg (fun h => hstart h.1)]
    · have : GetBit (s.piece_occupancy kBothColors)
          (SquareAhead s.side_to_move source 1) = true := by simpa using hfree
      rw [this]; simp
  · have : HasSquareAhead s.side_to_move source = false := by simpa using ha
    rw [this]; simp

theorem SquareAhead_lt (side source : Nat) (hs : source < 64)
    (h : HasSquareAhead side source = true) : SquareAhead side source 1 < 64 := by
  unfold HasSquareAhead at h
  unfold SquareAhead
  by_cases hw : side = kWhite
  · rw [if_pos hw]; omega
  · rw [if_neg hw, decide_eq_true_eq] at h
    rw [if_neg hw]; omega

theorem SquareAhead_two_lt (side source : Nat) (hs : source < 64)
    (h : GetRank source = StartingRank side) : SquareAhead side source 2 < 64 := by
  rw [GetRank_eq] at h
  unfold StartingRank at h
  unfold SquareAhead
  by_cases hw : side = kWhite
  · rw [if_pos hw]; omega
  · rw [if_neg hw] at h
    rw [if_neg hw]; omega

/-- A push of the pawn loop starts on the pawn and is not a capture. -/
theorem PawnPushMoves_fields (s : PositionState) (hside : s.side_to_move < 2) (source m : Nat)
    (hs : source < 64) (hm : m ∈ PawnPushMoves s source) :
    move.GetSourceSquare m = source ∧ move.IsCapture m = false := by
  have hP : ∀ pt, pt < 6 → GetPiece pt s.side_to_move < 12 := fun pt h =>
    GetPiece_lt pt _ h hside
  rw [PawnPushMoves_eq s source hs] at hm
  split_ifs at hm with h1 h2 h3
  · obtain ⟨pt, hpt, rfl⟩ := mem_PromotionMoves _ _ _ _ _ _ hm
    have hf := move.CreateMove_fields source (SquareAhead s.side_to_move source 1)
      (GetPiece kPawn s.side_to_move) (GetPiece pt s.side_to_move) false false false false hs
      (SquareAhead_lt _ _ hs h1.1) (hP kPawn (by decide))
      (Or.inl (hP pt (by have := promoted_type pt hpt; omega)))
    exact ⟨hf.2.1, hf.2.2.2.2.2.1⟩
  · have hf1 := move.CreateMove_fields source (SquareAhead s.side_to_move source 1)
      (GetPiece kPawn s.side_to_move) kNoPiece false false false false hs
      (SquareAhead_lt _ _ hs h1.1) (hP kPawn (by decide)) (Or.inr rfl)
    have hf2 := move.CreateMove_fields source (SquareAhead s.side_to_move source 2)
      (GetPiece kPawn s.side_to_move) kNoPiece false true false false hs
      (SquareAhead_two_lt _ _ hs h3.1) (hP kPawn (by decide)) (Or.inr rfl)
    simp only [List.mem_cons, List.mem_singleton, List.not_mem_nil, or_false] at hm
    rcases hm with rfl | rfl
    · exact ⟨hf1.2.1, hf1.2.2.2.2.2.1⟩
    · exact ⟨hf2.2.1, hf2.2.2.2.2.2.1⟩
  · have hf1 := move.CreateMove_fields source (SquareAhead s.side_to_move source 1)
      (GetPiece kPawn s.side_to_move) kNoPiece false false false false hs
      (SquareAhead_lt _ _ hs h1.1) (hP kPawn (by decide)) (Or.inr rfl)
    simp only [List.mem_cons, List.mem_singleton, List.not_mem_nil, or_false] at hm
    subst hm
    exact ⟨hf1.2.1, hf1.2.2.2.2.2.1⟩
  · exact absurd hm (List.not_mem_nil _)

/-- A move of the capture part starts on the pawn, ends on the attacked
square and is a capture. -/
theorem PawnCaptureMoves_fields (s : PositionState) (hside : s.side_to_move < 2)
    (source target m : Nat) (hs : source < 64) (ht : target < 64)
    (hm : m ∈ PawnCaptureMoves s source target) :
    move.GetSourceSquare m = source ∧ move.GetTargetSquare m = target ∧
    move.IsCapture m = true := by
  have hP : ∀ pt, pt < 6 → GetPiece pt s.side_to_move < 12 := fun pt h =>
    GetPiece_lt pt _ h hside
  unfold PawnCaptureMoves at hm
  simp only [] at hm
  have hp : (if s.side_to_move = kWhite then 7 else 0) = PromotionRank s.side_to_move := rfl
  rw [hp] at hm
  split_ifs at hm with h1 h2 h3
  · obtain ⟨pt, hpt, rfl⟩ := mem_PromotionMoves _ _ _ _ _ _ hm
    have hf := move.CreateMove_fields source target
      (GetPiece kPawn s.side_to_move) (GetPiece pt s.side_to_move) true false false false hs
      ht (hP kPawn (by decide)) (Or.inl (hP pt (by have := promoted_type pt hpt; omega)))
    exact ⟨hf.2.1, hf.2.2.1, hf.2.2.2.2.2.1⟩
  · rw [List.mem_singleton] at hm
    subst hm
    have hf := move.CreateMove_fields source target
      (GetPiece kPawn s.side_to_move) kNoPiece true false false false hs
      ht (hP kPawn (by decide)) (Or.inr rfl)
    exact ⟨hf.2.1, hf.2.2.1, hf.2.2.2.2.2.1⟩
  · rw [List.mem_singleton] at hm
    subst hm
    have hf := move.CreateMove_fields source target
      (GetPiece kPawn s.side_to_move) kNoPiece true false true false hs
      ht (hP kPawn (by decide)) (Or.inr rfl)
    exact ⟨hf.2.1, hf.2.2.1, hf.2.2.2.2.2.1⟩
  · exact absurd hm (List.not_mem_nil _)

theorem flatMap_filter_none {α β : Type} (l : List α) (f : α → List β) (p : β → Bool)
    (h : ∀ b, b ∈ l → (f b).filter p = []) : (l.flatMap f).filter p = [] := by
  induction l with
  | nil => rfl
  | cons x xs ih =>
    rw [List.flatMap_cons, List.filter_append, h x (List.mem_cons_self _ _),
      ih (fun b hb => h b (List.mem_cons_of_mem _ hb))]
    rfl

/-- Filtering a loop whose passes other than the one for `a` yield nothing
that passes the filter. -/
theorem flatMap_filter_single {α β : Type} (l : List α) (f : α → List β) (p : β → Bool)
    (a : α) (hnd : l.Nodup) (ha : a ∈ l)
    (hother : ∀ b, b ∈ l → b ≠ a → (f b).filter p = []) :
    (l.flatMap f).filter p = (f a).filter p := by
  induction l with
  | nil => exact absurd ha (List.not_mem_nil _)
  | cons x xs ih =>
    rw [List.nodup_cons] at hnd
    rw [List.flatMap_cons, List.filter_append]
    by_cases hx : x = a
    · subst hx
      rw [flatMap_filter_none xs f p (fun b hb => hother b (List.mem_cons_of_mem _ hb)
        (fun e => hnd.1 (e ▸ hb))), List.append_nil]
    · have ha2 : a ∈ xs := by
        rcases List.mem_cons.1 ha with h | h
        · exact absurd h.symm hx
        · exact h
      rw [hother x (List.mem_cons_self _ _) hx, List.nil_append,
        ih hnd.2 ha2 (fun b hb => hother b (List.mem_cons_of_mem _ hb))]

/-- The moves `GeneratePawnMoves` emits for one pawn that are not captures are
the pushes of that pawn. -/
theorem GeneratePawnMoves_pushes (s : PositionState) (hside : s.side_to_move < 2)
    (hb : Bounded s.piece_bitboards) (source : Nat) (hs : source < 64)
    (hpawn : (s.piece_bitboards (GetPiece kPawn s.side_to_move)).testBit source = true) :
    (GeneratePawnMoves s).filter
        (fun m => decide (move.GetSourceSquare m = source) && !move.IsCapture m) =
      PawnPushMoves s source := by
  have hP : s.piece_bitboards (GetPiece kPawn s.side_to_move) < 2 ^ 64 := by
    apply hb
    unfold GetPiece kPieceTypeCount kPawn
    omega
  unfold GeneratePawnMoves
  rw [BitScan_64 _ hP]
  rw [flatMap_filter_single _ _ _ source (bitsOf_nodup _) ((mem_bitsOf _ _).2 ⟨hs, hpawn⟩)]
  · rw [List.filter_append, flatMap_filter_none, List.append_nil, List.filter_eq_self]
    · intro m hm
      obtain ⟨h1, h2⟩ := PawnPushMoves_fields s hside source m hs hm
      simp [h1, h2]
    · intro target htgt
      rw [List.filter_eq_nil_iff]
      intro m hm
      obtain ⟨ht, -⟩ := mem_BitScan _ _
        (precomputed_data.pawn_attacks_symm source hs s.side_to_move hside).1 htgt
      have := (PawnCaptureMoves_fields s hside source target m hs ht hm).2.2
      simp [this]
  · intro b hb2 hne
    obtain ⟨hbs, -⟩ := (mem_bitsOf _ _).1 hb2
    rw [List.filter_eq_nil_iff]
    intro m hm
    rw [List.mem_append] at hm
    have hsrc : move.GetSourceSquare m = b := by
      rcases hm with hm | hm
      · exact (PawnPushMoves_fields s hside b m hbs hm).1
      · rw [List.mem_flatMap] at hm
        obtain ⟨target, htgt, hm⟩ := hm
        obtain ⟨ht, -⟩ := mem_BitScan _ _
          (precomputed_data.pawn_attacks_symm b hbs s.side_to_move hside).1 htgt
        exact (PawnCaptureMoves_fields s hside b target m hbs ht hm).1
    simp [hsrc, hne]

/-- The captures `GeneratePawnMoves` emits for one pawn onto one attacked
square are the moves of the capture part for that pair. -/
theorem GeneratePawnMoves_captures (s : PositionState) (hside : s.side_to_move < 2)
    (hb : Bounded s.piece_bitboards) (source target : Nat) (hs : source < 64)
    (ht : target < 64)
    (hpawn : (s.piece_bitboards (GetPiece kPawn s.side_to_move)).testBit source = true)
    (hatt : (precomputed_data.pawn_attacks source s.side_to_move).testBit target = true) :
    (GeneratePawnMoves s).filter
        (fun m => decide (move.GetSourceSquare m = source) &&
          decide (move.GetTargetSquare m = target) && move.IsCapture m) =
      PawnCaptureMoves s source target := by
  have hP : s.piece_bitboards (GetPiece kPawn s.side_to_move) < 2 ^ 64 := by
    apply hb
    unfold GetPiece kPieceTypeCount kPawn
    omega
  have hA : ∀ b, b < 64 → precomputed_data.pawn_attacks b s.side_to_move < 2 ^ 64 :=
    fun b hb2 => (precomputed_data.pawn_attacks_symm b hb2 s.side_to_move hside).1
  unfold GeneratePawnMoves
  rw [BitScan_64 _ hP]
  rw [flatMap_filter_single _ _ _ source (bitsOf_nodup _) ((mem_bitsOf _ _).2 ⟨hs, hpawn⟩)]
  · rw [List.filter_append, BitScan_64 _ (hA source hs)]
    have hpush : (PawnPushMoves s source).filter
        (fun m => decide (move.GetSourceSquare m = source) &&
          decide (move.GetTargetSquare m = target) && move.IsCapture m) = [] := by
      rw [List.filter_eq_nil_iff]
      intro m hm
      have := (PawnPushMoves_fields s hside source m hs hm).2
      simp [this]
    rw [hpush, List.nil_append,
      flatMap_filter_single _ _ _ target (bitsOf_nodup _) ((mem_bitsOf _ _).2 ⟨ht, hatt⟩)]
    · rw [List.filter_eq_self]
      intro m hm
      obtain ⟨h1, h2, h3⟩ := PawnCaptureMoves_fields s hside source target m hs ht hm
      simp [h1, h2, h3]
    · intro b hb2 hne
      obtain ⟨hbs, -⟩ := (mem_bitsOf _ _).1 hb2
      rw [List.filter_eq_nil_iff]
      intro m hm
      have := (PawnCaptureMoves_fields s hside source b m hs hbs hm).2.1
      simp [this, hne]
  · intro b hb2 hne
    obtain ⟨hbs, -⟩ := (mem_bitsOf _ _).1 hb2
    rw [List.filter_eq_nil_iff]
    intro m hm
    rw [List.mem_append] at hm
    have hsrc : move.GetSourceSquare m = b := by
      rcases hm with hm | hm
      · exact (PawnPushMoves_fields s hside b m hbs hm).1
      · rw [List.mem_flatMap] at hm
        obtain ⟨tg, htgt, hm⟩ := hm
        obtain ⟨htg, -⟩ := mem_BitScan _ _ (hA b hbs) htgt
        exact (PawnCaptureMoves_fields s hside b tg m hbs htg hm).1
    simp [hsrc, hne]

/-- C29: for a pawn of the side to move on `source`, the moves
`GeneratePawnMoves` emits from `source` that are not captures are: none when
there is no square directly ahead or it is occupied; exactly the four quiet
promotions (queen, rook, bishop, knight of the mover) when it is empty and on
the promotion rank; otherwise the quiet single push, followed by the double
push (double-push flag, target two squares ahead) exactly when the pawn is on
its starting rank and the square two ahead is empty.  The moves emitted from
`source` onto an attacked square on the promotion rank that holds an opposing
piece are exactly the four promotions with the capture flag. -/
theorem GeneratePawnMoves_spec (s : PositionState) (hside : s.side_to_move < 2)
    (hb : Bounded s.piece_bitboards) (source : Nat) (hs : source < 64)
    (hpawn : (s.piece_bitboards (GetPiece kPawn s.side_to_move)).testBit source = true) :
    ((HasSquareAhead s.side_to_move source = false ∨
        GetBit (s.piece_occupancy kBothColors) (SquareAhead s.side_to_move source 1) = true) →
      (GeneratePawnMoves s).filter
        (fun m => decide (move.GetSourceSquare m = source) && !move.IsCapture m) = []) ∧
    (HasSquareAhead s.side_to_move source = true →
      GetBit (s.piece_occupancy kBothColors) (SquareAhead s.side_to_move source 1) = false →
      GetRank (SquareAhead s.side_to_move source 1) = PromotionRank s.side_to_move →
      (GeneratePawnMoves s).filter
        (fun m => decide (move.GetSourceSquare m = source) && !move.IsCapture m) =
        [move.CreateMove source (SquareAhead s.side_to_move source 1)
          (GetPiece kPawn s.side_to_move) (GetPiece kQueen s.side_to_move) false false false false,
         move.CreateMove source (SquareAhead s.side_to_move source 1)
          (GetPiece kPawn s.side_to_move) (GetPiece kRook s.side_to_move) false false false false,
         move.CreateMove source (SquareAhead s.side_to_move source 1)
          (GetPiece kPawn s.side_to_move) (GetPiece kBishop s.side_to_move) false false false
          false,
         move.CreateMove source (SquareAhead s.side_to_move source 1)
          (GetPiece kPawn s.side_to_move) (GetPiece kKnight s.side_to_move) false false false
          false]) ∧
    (HasSquareAhead s.side_to_move source = true →
      GetBit (s.piece_occupancy kBothColors) (SquareAhead s.side_to_move source 1) = false →
      GetRank (SquareAhead s.side_to_move source 1) ≠ PromotionRank s.side_to_move →
      (GeneratePawnMoves s).filter
        (fun m => decide (move.GetSourceSquare m = source) && !move.IsCapture m) =
        move.CreateMove source (SquareAhead s.side_to_move source 1)
          (GetPiece kPawn s.side_to_move) kNoPiece false false false false ::
        (if GetRank source = StartingRank s.side_to_move ∧
            GetBit (s.piece_occupancy kBothColors) (SquareAhead s.side_to_move source 2) = false
          then [move.CreateMove source (SquareAhead s.side_to_move source 2)
            (GetPiece kPawn s.side_to_move) kNoPiece false true false false]
          else [])) ∧
    (∀ target, target < 64 →
      (precomputed_data.pawn_attacks source s.side_to_move).testBit target = true →
      GetBit (s.piece_occupancy (OppositeColor s.side_to_move)) target = true →
      GetRank target = PromotionRank s.side_to_move →
      (GeneratePawnMoves s).filter
        (fun m => decide (move.GetSourceSquare m = source) &&
          decide (move.GetTargetSquare m = target) && move.IsCapture m) =
        [move.CreateMove source target (GetPiece kPawn s.side_to_move)
          (GetPiece kQueen s.side_to_move) true false false false,
         move.CreateMove source target (GetPiece kPawn s.side_to_move)
          (GetPiece kRook s.side_to_move) true false false false,
         move.CreateMove source target (GetPiece kPawn s.side_to_move)
          (GetPiece kBishop s.side_to_move) true false false false,
         move.CreateMove source target (GetPiece kPawn s.side_to_move)
          (GetPiece kKnight s.side_to_move) true false false false]) := by
  have hpush := GeneratePawnMoves_pushes s hside hb source hs hpawn
  rw [PawnPushMoves_eq s source hs] at hpush
  refine ⟨?_, ?_, ?_, ?_⟩
  · intro h
    rw [hpush, if_neg]
    rintro ⟨h1, h2⟩
    rcases h with h | h
    · rw [h1] at h; exact Bool.noConfusion h
    · rw [h2] at h; exact Bool.noConfusion h
  · intro h1 h2 h3
    rw [hpush, if_pos ⟨h1, h2⟩, if_pos h3]
    rfl
  · intro h1 h2 h3
    rw [hpush, if_pos ⟨h1, h2⟩, if_neg h3]
  · intro target ht hatt hocc hrank
    rw [GeneratePawnMoves_captures s hside hb source target hs ht hpawn hatt]
    unfold PawnCaptureMoves
    simp only []
    have hp : (if s.side_to_move = kWhite then 7 else 0) = PromotionRank s.side_to_move := rfl
    rw [hp, if_pos hocc, if_pos hrank]
    rfl

set_option maxRecDepth 100000 in
theorem GeneratePawnMoves_spec_witness :
    (sampleStart.side_to_move < 2 ∧ Bounded sampleStart.piece_bitboards ∧
      (sampleStart.piece_bitboards (GetPiece kPawn sampleStart.side_to_move)).testBit 52 = true) ∧
    (GeneratePawnMoves sampleStart).filter
        (fun m => decide (move.GetSourceSquare m = 52) && !move.IsCapture m) =
      [move.CreateMove 52 44 0 kNoPiece false false false false, e2e4] :=
  ⟨⟨sampleStart_ready.1, sampleStart_ready.2.1, by decide!⟩,
   ((GeneratePawnMoves_spec sampleStart sampleStart_ready.1 sampleStart_ready.2.1 52 (by decide)
      (by decide!)).2.2.1 (by decide!) (by decide!) (by decide!)).trans (by decide!)⟩

/-! ## The evaluation at three positions -/

/-- Every square is `GetSquare` of its file and rank, so the two evaluation
masks are defined on every square. -/
theorem GetSquare_GetFile_GetRank : ∀ sq, sq < 64 → GetSquare (GetFile sq) (GetRank sq) = sq := by
  decide

/-- A pass of the piece loop does not read the doubled-pawn penalty unless the
doubled-pawn test holds in it. -/
theorem EvaluatePiece_doubled (c : EvalConstants) (d : Int) (s : PositionState)
    (p square current_pieces : Nat) (a : EvalScores)
    (h : GetPieceType p = kPawn → DoubledPawnTest current_pieces square = false) :
    EvaluatePiece { c with kDoubledPawnPenalty := d } s p square current_pieces a =
      EvaluatePiece c s p square current_pieces a := by
  unfold EvaluatePiece
  simp only []
  by_cases hp : GetPieceType p = kPawn
  · rw [if_pos hp, if_pos hp]
    unfold EvaluatePawn
    simp only [h hp, Bool.false_eq_true, if_false]
    rfl
  · rw [if_neg hp, if_neg hp]
    rfl

theorem foldl_congr_mem {α β : Type} (f g : β → α → β) (l : List α)
    (h : ∀ x, x ∈ l → ∀ b, f b x = g b x) (b : β) : l.foldl f b = l.foldl g b := by
  induction l generalizing b with
  | nil => rfl
  | cons x xs ih =>
    rw [List.foldl_cons, List.foldl_cons, h x (List.mem_cons_self _ _) b]
    exact ih (fun y hy => h y (List.mem_cons_of_mem _ hy)) _

/-- The evaluation does not depend on the doubled-pawn penalty when the
doubled-pawn test fails in every pass over a pawn. -/
theorem Evaluate_doubled (c : EvalConstants) (d : Int) (s : PositionState)
    (h : ∀ p, p ∈ List.range 12 → ∀ x, x ∈ ScanPieces 64 (s.piece_bitboards p) →
      GetPieceType p = kPawn → DoubledPawnTest x.2 x.1 = false) :
    Evaluate { c with kDoubledPawnPenalty := d } s = Evaluate c s := by
  have hp : EvaluatePieces { c with kDoubledPawnPenalty := d } s = EvaluatePieces c s := by
    unfold EvaluatePieces
    apply foldl_congr_mem
    intro p hp a
    apply foldl_congr_mem
    intro x hx b
    exact EvaluatePiece_doubled c d s p x.1 x.2 b (h p hp x hx)
  unfold Evaluate
  rw [hp]

set_option maxRecDepth 100000 in
/-- C25 (the code at a failing input): white has the pawns a3 and a2 on one
file, the two passes of the pawn loop read `current_pieces` after `ClearLSB`
(first the pawn a2 alone, then nothing), the test `double_pawns > 1` fails in
both, and `Evaluate` does not depend on `kDoubledPawnPenalty` at all, whatever
the constants of the evaluation are. -/
theorem Evaluate_doubled_pawns_missed :
    GetFile 40 = GetFile 48 ∧
    CountBits (doubledSample.piece_bitboards (GetPiece kPawn kWhite) &&&
      kFileMasks (GetFile 40)) = 2 ∧
    (ScanPieces 64 (doubledSample.piece_bitboards (GetPiece kPawn kWhite))).map
      (fun x => (x.1, x.2, DoubledPawnTest x.2 x.1)) =
      [(40, 2 ^ 48, false), (48, 0, false)] ∧
    ∀ (c : EvalConstants) (d : Int),
      Evaluate { c with kDoubledPawnPenalty := d } doubledSample = Evaluate c doubledSample := by
  refine ⟨by decide, by decide, by decide, fun c d => Evaluate_doubled c d doubledSample ?_⟩
  have h : ((List.range 12).all (fun p =>
      (ScanPieces 64 (doubledSample.piece_bitboards p)).all (fun x =>
        !decide (GetPieceType p = kPawn) || !DoubledPawnTest x.2 x.1))) = true := by decide
  intro p hp x hx hpawn
  rw [List.all_eq_true] at h
  have h2 := h p hp
  rw [List.all_eq_true] at h2
  have h3 := h2 x hx
  simpa [hpawn] using h3

set_option maxRecDepth 100000 in
/-- C26 (the code at a failing input): white has the pawns a3 and b2 on
neighbouring files, so neither is isolated; the pawn loop visits a3 with
`current_pieces` holding b2 and then b2 with `current_pieces` empty, the test
`!(current_pieces & isolated_pawn_masks[square])` holds for b2, and with the
sample constants the evaluation is 10 lower than with an isolated-pawn penalty
of 0: the pawn visited last is charged the penalty. -/
theorem Evaluate_isolated_pawn_order :
    duoSample.piece_bitboards (GetPiece kPawn kWhite) &&&
      precomputed_data.isolated_pawn_masks 49 ≠ 0 ∧
    duoSample.piece_bitboards (GetPiece kPawn kWhite) &&&
      precomputed_data.isolated_pawn_masks 40 ≠ 0 ∧
    (ScanPieces 64 (duoSample.piece_bitboards (GetPiece kPawn kWhite))).map
      (fun x => (x.1, x.2, IsolatedPawnTest x.2 x.1)) =
      [(40, 2 ^ 49, false), (49, 0, true)] ∧
    Evaluate sampleConstants duoSample = 218 ∧
    Evaluate { sampleConstants with kIsolatedPawnPenalty := 0 } duoSample = 228 := by
  refine ⟨by decide, by decide, by decide, by decide, by decide⟩

set_option maxRecDepth 100000 in
/-- C24 (the code at a failing input): for the position with the white pawns
b7, a6 and c5 the pawn loop charges the isolated-pawn penalty to a6 and c5,
for its mirror image (black pawns c4, a3 and b2, black to move) only to b2,
because the loop meets the pawns in the opposite order; with the sample
constants, whose tables are built by `InitEvalTables` and whose structural
terms do not depend on the colour, `Evaluate` returns 587 for the position and
597 for its mirror image. -/
theorem Evaluate_mirror_differs :
    (ScanPieces 64 (chainSample.piece_bitboards (GetPiece kPawn kWhite))).map
      (fun x => (x.1, IsolatedPawnTest x.2 x.1)) = [(9, false), (16, true), (26, true)] ∧
    (ScanPieces 64 ((MirrorPosition chainSample).piece_bitboards (GetPiece kPawn kBlack))).map
      (fun x => (x.1, IsolatedPawnTest x.2 x.1)) = [(34, false), (40, false), (49, true)] ∧
    Evaluate sampleConstants chainSample = 587 ∧
    Evaluate sampleConstants (MirrorPosition chainSample) = 597 := by
  refine ⟨by decide, by decide, by decide, by decide⟩

/-! ## The paths through a `Negamax` call -/

/-- With `Negamax` and `Quiescence` one level down as the calls, the body is
`Negamax`. -/
theorem Negamax_step (zk : ZobristKeys) (env : Environment) (fuel : Nat)
    (alpha beta depth : Int) (pv_line : PvLine) (is_null : Bool) (S : SearchState) :
    Negamax zk env (fuel + 1) alpha beta depth pv_line is_null S =
      NegamaxStep zk env (Negamax zk env fuel) (Quiescence zk env fuel) alpha beta depth
        pv_line is_null S := rfl

/-- A probe that does not return leaves the search to `NegamaxSearch`. -/
theorem NegamaxStep_probed (zk : ZobristKeys) (env : Environment)
    (child : Int → Int → Int → PvLine → Bool → SearchState → Option NegamaxResult)
    (quiesce : Int → Int → SearchState → Option (Int × SearchState))
    (alpha beta depth : Int) (pv_line : PvLine) (is_null : Bool) (S : SearchState)
    (h : ¬ TableCutoff S alpha beta depth) :
    NegamaxStep zk env child quiesce alpha beta depth pv_line is_null S =
      NegamaxSearch zk env child quiesce alpha beta depth pv_line is_null
        (Probed env S depth) := by
  unfold NegamaxStep Probed
  unfold TableCutoff at h
  simp only []
  by_cases hh : (S.transposition_table_.Get S.position.state_.key).key = S.position.state_.key ∧
      (S.transposition_table_.Get S.position.state_.key).depth ≥ depth
  · have ha : ¬ ((S.transposition_table_.Get S.position.state_.key).flags = kAlphaHashFlag ∧
        (S.transposition_table_.Get S.position.state_.key).score ≤ alpha) :=
      fun ha => h ⟨hh.1, hh.2, Or.inl ha⟩
    have hb : ¬ ((S.transposition_table_.Get S.position.state_.key).flags = kBetaHashFlag ∧
        (S.transposition_table_.Get S.position.state_.key).score ≥ beta) :=
      fun hb => h ⟨hh.1, hh.2, Or.inr hb⟩
    simp only [if_pos hh, if_neg ha, if_neg hb]
  · simp only [if_neg hh]

theorem Probed_fields (env : Environment) (S : SearchState) (depth : Int) :
    (Probed env S depth).position = S.position ∧
    (Probed env S depth).engine.ply = S.engine.ply ∧
    (Probed env S depth).transposition_table_ = S.transposition_table_ :=
  ⟨rfl, CountNode_ply env S.engine, rfl⟩

theorem DrawReturn_Probed (env : Environment) (S : SearchState) (depth : Int) :
    DrawReturn (Probed env S depth) ↔ DrawReturn S := by
  unfold DrawReturn
  rw [(Probed_fields env S depth).1, (Probed_fields env S depth).2.1]

/-- Without a draw, at a node that is not a leaf and with the null move not
allowed, `NegamaxSearch` is the move loop. -/
theorem NegamaxSearch_moves (zk : ZobristKeys) (env : Environment)
    (child : Int → Int → Int → PvLine → Bool → SearchState → Option NegamaxResult)
    (quiesce : Int → Int → SearchState → Option (Int × SearchState))
    (alpha beta depth : Int) (pv_line : PvLine) (is_null : Bool) (S2 : SearchState)
    (hd : ¬ DrawReturn S2)
    (hq : ¬ (S2.engine.ply > kMaxSearchDepth - 1 ∨
      (if IsInCheck S2.position.state_ = true then depth + 1 else depth) ≤ 0))
    (hn : NullMoveAllowed S2.position.state_
      (if IsInCheck S2.position.state_ = true then depth + 1 else depth)
      (IsInCheck S2.position.state_) is_null = false) :
    NegamaxSearch zk env child quiesce alpha beta depth pv_line is_null S2 =
      NegamaxLoop zk child beta
        (if IsInCheck S2.position.state_ = true then depth + 1 else depth)
        (IsInCheck S2.position.state_)
        (SortMoves env S2.engine S2.position.state_ (GenerateMoves S2.position.state_))
        alpha pv_line PvLine.empty kAlphaHashFlag 0 0 S2 := by
  unfold DrawReturn at hd
  rw [not_or] at hd
  unfold NegamaxSearch
  simp only []
  rw [if_neg hd.1, if_neg hd.2, if_neg hq, hn]
  simp only [Bool.false_eq_true, if_false]

/-- Without a draw, at a node that is not a leaf and with the null move
allowed, `NegamaxSearch` makes the null-move search and goes on from its
result. -/
theorem NegamaxSearch_null (zk : ZobristKeys) (env : Environment)
    (child : Int → Int → Int → PvLine → Bool → SearchState → Option NegamaxResult)
    (quiesce : Int → Int → SearchState → Option (Int × SearchState))
    (alpha beta depth : Int) (pv_line : PvLine) (is_null : Bool) (S2 : SearchState)
    (hd : ¬ DrawReturn S2)
    (hq : ¬ (S2.engine.ply > kMaxSearchDepth - 1 ∨
      (if IsInCheck S2.position.state_ = true then depth + 1 else depth) ≤ 0))
    (hn : NullMoveAllowed S2.position.state_
      (if IsInCheck S2.position.state_ = true then depth + 1 else depth)
      (IsInCheck S2.position.state_) is_null = true) :
    (child (-beta) (-beta + 1)
        ((if IsInCheck S2.position.state_ = true then depth + 1 else depth) - 1 -
          kNullMoveReductionAmount) pv_line true
        { S2.Enter S2.position.state_ with position :=
          { (S2.Enter S2.position.state_).position with
            state_ := NullMove zk (S2.Enter S2.position.state_).position.state_ } } = none →
      NegamaxSearch zk env child quiesce alpha beta depth pv_line is_null S2 = none) ∧
    ∀ value line S5,
      child (-beta) (-beta + 1)
        ((if IsInCheck S2.position.state_ = true then depth + 1 else depth) - 1 -
          kNullMoveReductionAmount) pv_line true
        { S2.Enter S2.position.state_ with position :=
          { (S2.Enter S2.position.state_).position with
            state_ := NullMove zk (S2.Enter S2.position.state_).position.state_ } } =
        some (value, line, S5) →
      NegamaxSearch zk env child quiesce alpha beta depth pv_line is_null S2 =
        if (S5.Leave S2.position.state_).engine.stop_search_ = true then
          some (alpha, line, S5.Leave S2.position.state_)
        else if -value ≥ beta then
          some (beta, line, (S5.Leave S2.position.state_).Store
            (if IsInCheck S2.position.state_ = true then depth + 1 else depth)
            kBetaHashFlag beta 0)
        else
          NegamaxLoop zk child beta
            (if IsInCheck S2.position.state_ = true then depth + 1 else depth)
            (IsInCheck S2.position.state_)
            (SortMoves env (S5.Leave S2.position.state_).engine
              (S5.Leave S2.position.state_).position.state_
              (GenerateMoves (S5.Leave S2.position.state_).position.state_))
            alpha line PvLine.empty kAlphaHashFlag 0 0 (S5.Leave S2.position.state_) := by
  unfold DrawReturn at hd
  rw [not_or] at hd
  refine ⟨?_, ?_⟩
  · intro hc
    unfold NegamaxSearch
    simp only []
    rw [if_neg hd.1, if_neg hd.2, if_neg hq, hn]
    simp only [if_true, hc]
  · intro value line S5 hc
    unfold NegamaxSearch
    simp only []
    rw [if_neg hd.1, if_neg hd.2, if_neg hq, hn]
    simp only [if_true, hc]
    by_cases hs : (S5.Leave S2.position.state_).engine.stop_search_ = true
    · simp only [hs, if_true]
    · by_cases hb : -value ≥ beta
      · simp only [hs, hb, if_true, if_false, Bool.false_eq_true]
      · simp only [hs, hb, if_false, Bool.false_eq_true]

/-- At a leaf `NegamaxSearch` returns what `Quiescence` returns. -/
theorem NegamaxSearch_leaf (zk : ZobristKeys) (env : Environment)
    (child : Int → Int → Int → PvLine → Bool → SearchState → Option NegamaxResult)
    (quiesce : Int → Int → SearchState → Option (Int × SearchState))
    (alpha beta depth : Int) (pv_line : PvLine) (is_null : Bool) (S2 : SearchState)
    (hd : ¬ DrawReturn S2)
    (hq : S2.engine.ply > kMaxSearchDepth - 1 ∨
      (if IsInCheck S2.position.state_ = true then depth + 1 else depth) ≤ 0)
    (score : Int) (S3 : SearchState) (hc : quiesce alpha beta S2 = some (score, S3)) :
    NegamaxSearch zk env child quiesce alpha beta depth pv_line is_null S2 =
      some (score, { pv_line with count := 0 },
        S3.Store (if IsInCheck S2.position.state_ = true then depth + 1 else depth)
          kExactHashFlag score 0) := by
  unfold DrawReturn at hd
  rw [not_or] at hd
  unfold NegamaxSearch
  simp only []
  rw [if_neg hd.1, if_neg hd.2, if_pos hq]
  simp only [hc]

/-- With every move of the list rejected by `MakeMove`, the move loop of
`Negamax` searches nothing and returns the mate score at the ply or the draw
score. -/
theorem NegamaxLoop_all_rejected (zk : ZobristKeys)
    (child : Int → Int → Int → PvLine → Bool → SearchState → Option NegamaxResult)
    (beta depth : Int) (in_check : Bool) (alpha : Int) (pv_line : PvLine) (tt_flag : Nat) :
    ∀ (moves : List Nat) (new_pv_line : PvLine) (moves_searched : Int) (S : SearchState),
      (∀ m, m ∈ moves → (MakeMove zk S.position.state_ m false).1 = false) →
      ∃ T, Restored S T ∧
        NegamaxLoop zk child beta depth in_check moves alpha pv_line new_pv_line tt_flag 0
          moves_searched S =
        some (if in_check = true then kCheckmateScore + S.engine.ply else kDrawScore,
          pv_line, T) := by
  intro moves
  induction moves with
  | nil =>
    intro new_pv_line moves_searched S _
    refine ⟨S, Restored_refl S, ?_⟩
    rw [NegamaxLoop]
    rw [if_pos rfl]
    cases in_check <;> rfl
  | cons mv rest ih =>
    intro new_pv_line moves_searched S h
    have hm : ((S.Enter S.position.state_).MakeMove zk mv false).1 = false :=
      h mv (List.mem_cons_self _ _)
    have hr := Restored_Skip zk S mv false hm
    obtain ⟨T, hT, hres⟩ := ih new_pv_line moves_searched
      ((S.Enter S.position.state_).MakeMove zk mv false).2.Skip
      (fun m hmem => by rw [hr.1]; exact h m (List.mem_cons_of_mem _ hmem))
    refine ⟨T, Restored_trans hr hT, ?_⟩
    rw [NegamaxLoop]
    simp only []
    rw [if_pos hm, hres, hr.2]

/-- A move `MakeMove` rejects in the search is rejected in the quiescence
search too. -/
theorem MakeMove_rejected_quiescence (zk : ZobristKeys) (s : PositionState) (m : Nat)
    (h : (MakeMove zk s m false).1 = false) : (MakeMove zk s m true).1 = false := by
  unfold MakeMove at h ⊢
  by_cases hq : (true && !move.IsCapture m) = true
  · rw [if_pos hq]
  · rw [if_neg hq]
    rw [if_neg (by simp)] at h
    exact h

/-- With every move of the list rejected by `MakeMove`, the move loop of
`Quiescence` returns alpha. -/
theorem QuiescenceLoop_all_rejected (zk : ZobristKeys)
    (child : Int → Int → SearchState → Option (Int × SearchState)) (beta alpha : Int) :
    ∀ (moves : List Nat) (S : SearchState),
      (∀ m, m ∈ moves → (MakeMove zk S.position.state_ m true).1 = false) →
      ∃ T, Restored S T ∧ QuiescenceLoop zk child beta moves alpha S = some (alpha, T) := by
  intro moves
  induction moves with
  | nil =>
    intro S _
    exact ⟨S, Restored_refl S, by rw [QuiescenceLoop]⟩
  | cons mv rest ih =>
    intro S h
    have hm : ((S.Enter S.position.state_).MakeMove zk mv true).1 = false :=
      h mv (List.mem_cons_self _ _)
    have hr := Restored_Skip zk S mv true hm
    obtain ⟨T, hT, hres⟩ := ih ((S.Enter S.position.state_).MakeMove zk mv true).2.Skip
      (fun m hmem => by rw [hr.1]; exact h m (List.mem_cons_of_mem _ hmem))
    refine ⟨T, Restored_trans hr hT, ?_⟩
    rw [QuiescenceLoop]
    simp only []
    rw [if_pos hm, hres]

theorem NullMoveAllowed_iff (s : PositionState) (depth : Int) (in_check is_null : Bool) :
    NullMoveAllowed s depth in_check is_null = true ↔
      depth > 1 + kNullMoveReductionAmount ∧ in_check = false ∧ is_null = false ∧
      GetNumNonPawnKingPieces s kBothColors > kEndgamePieceCount := by
  unfold NullMoveAllowed
  simp only []
  by_cases h : (decide (depth > 1 + kNullMoveReductionAmount) && !in_check && !is_null) = true
  · rw [if_pos h, decide_eq_true_eq]
    simp only [Bool.and_eq_true, decide_eq_true_eq, Bool.not_eq_true'] at h
    constructor
    · intro hc; exact ⟨h.1.1, h.1.2, h.2, hc⟩
    · intro hc; exact hc.2.2.2
  · rw [if_neg h]
    constructor
    · intro hc; exact absurd hc h
    · intro hc
      exfalso
      apply h
      simp only [Bool.and_eq_true, decide_eq_true_eq, Bool.not_eq_true']
      exact ⟨⟨hc.1, hc.2.1⟩, hc.2.2.1⟩

theorem IsInCheck_eq_rays (s : PositionState)
    (h : GetLSBIndex (s.piece_bitboards (GetPiece kKing s.side_to_move)) < 64) :
    IsInCheck s = RayAttacked s
      (GetLSBIndex (s.piece_bitboards (GetPiece kKing s.side_to_move)))
      (OppositeColor s.side_to_move) := by
  unfold IsInCheck
  exact IsSquareAttacked_eq_rays _ _ _ h

/-- The state the null-move search starts from: the ply raised, the key
added to the repetition table, and the null move made. -/
theorem NegamaxStep_null (zk : ZobristKeys) (env : Environment)
    (child : Int → Int → Int → PvLine → Bool → SearchState → Option NegamaxResult)
    (quiesce : Int → Int → SearchState → Option (Int × SearchState))
    (alpha beta depth : Int) (pv_line : PvLine) (is_null : Bool) (S : SearchState)
    (hcut : ¬ TableCutoff S alpha beta depth) (hdraw : ¬ DrawReturn S)
    (hply : S.engine.ply ≤ kMaxSearchDepth - 1) (hcheck : IsInCheck S.position.state_ = false)
    (hn : NullMoveAllowed S.position.state_ depth false is_null = true) :
    (child (-beta) (-beta + 1) (depth - 1 - kNullMoveReductionAmount) pv_line true
        { (Probed env S depth).Enter S.position.state_ with position :=
          { ((Probed env S depth).Enter S.position.state_).position with
            state_ := NullMove zk S.position.state_ } } = none →
      NegamaxStep zk env child quiesce alpha beta depth pv_line is_null S = none) ∧
    ∀ value line S5,
      child (-beta) (-beta + 1) (depth - 1 - kNullMoveReductionAmount) pv_line true
        { (Probed env S depth).Enter S.position.state_ with position :=
          { ((Probed env S depth).Enter S.position.state_).position with
            state_ := NullMove zk S.position.state_ } } = some (value, line, S5) →
      NegamaxStep zk env child quiesce alpha beta depth pv_line is_null S =
        if (S5.Leave S.position.state_).engine.stop_search_ = true then
          some (alpha, line, S5.Leave S.position.state_)
        else if -value ≥ beta then
          some (beta, line, (S5.Leave S.position.state_).Store depth kBetaHashFlag beta 0)
        else
          NegamaxLoop zk child beta depth false
            (SortMoves env (S5.Leave S.position.state_).engine S.position.state_
              (GenerateMoves S.position.state_))
            alpha line PvLine.empty kAlphaHashFlag 0 0 (S5.Leave S.position.state_) := by
  have hd2 : ¬ DrawReturn (Probed env S depth) := fun h => hdraw ((DrawReturn_Probed env S depth).1 h)
  have hdepth : depth > 1 + kNullMoveReductionAmount := ((NullMoveAllowed_iff _ _ _ _).1 hn).1
  have hic : IsInCheck (Probed env S depth).position.state_ = false := hcheck
  have hq : ¬ ((Probed env S depth).engine.ply > kMaxSearchDepth - 1 ∨
      (if IsInCheck (Probed env S depth).position.state_ = true then depth + 1 else depth) ≤ 0) := by
    rw [hic, (Probed_fields env S depth).2.1]
    simp only [Bool.false_eq_true, if_false]
    unfold kNullMoveReductionAmount at hdepth
    omega
  have hn2 : NullMoveAllowed (Probed env S depth).position.state_
      (if IsInCheck (Probed env S depth).position.state_ = true then depth + 1 else depth)
      (IsInCheck (Probed env S depth).position.state_) is_null = true := by
    rw [hic]
    simp only [Bool.false_eq_true, if_false]
    exact hn
  have key := NegamaxSearch_null zk env child quiesce alpha beta depth pv_line is_null
    (Probed env S depth) hd2 hq hn2
  rw [hic] at key
  simp only [Bool.false_eq_true, if_false] at key
  rw [NegamaxStep_probed zk env child quiesce alpha beta depth pv_line is_null S hcut]
  exact key

theorem AllMovesRejected_sound (zk : ZobristKeys) (s : PositionState)
    (h : AllMovesRejected zk s = true) :
    ∀ m, m ∈ GenerateMoves s → (MakeMove zk s m false).1 = false := by
  intro m hm
  unfold AllMovesRejected at h
  rw [List.all_eq_true] at h
  have h1 := h m hm
  rw [Bool.and_eq_true, decide_eq_true_eq] at h1
  unfold MakeMove
  rw [if_neg (by simp)]
  simp only []
  rw [IsSquareAttacked_eq_rays _ _ _ h1.1, h1.2]
  rfl

/-- With every generated move rejected, `Quiescence` returns the static
evaluation clamped to the window. -/
theorem Quiescence_all_rejected (zk : ZobristKeys) (env : Environment)
    (hsort : ∀ l x, x ∈ env.sort l → x ∈ l) (fuel : Nat) (alpha beta : Int) (S : SearchState)
    (hdraw : ¬ DrawReturn S)
    (hnone : ∀ m, m ∈ GenerateMoves S.position.state_ →
      (MakeMove zk S.position.state_ m false).1 = false) :
    ∃ T, Restored S T ∧ Quiescence zk env (fuel + 1) alpha beta S =
      some (if env.Evaluate S.position.state_ ≥ beta then beta
        else if env.Evaluate S.position.state_ > alpha then env.Evaluate S.position.state_
        else alpha, T) := by
  unfold DrawReturn at hdraw
  rw [not_or] at hdraw
  rw [Quiescence]
  simp only []
  rw [if_neg (by rw [CountNode_ply]; exact hdraw.1), if_neg hdraw.2]
  by_cases hb : env.Evaluate S.position.state_ ≥ beta
  · rw [if_pos hb, if_pos hb]
    exact ⟨_, Restored_CountNode env S, rfl⟩
  · rw [if_neg hb, if_neg hb]
    obtain ⟨T, hT, hres⟩ := QuiescenceLoop_all_rejected zk (Quiescence zk env fuel) beta
      (if env.Evaluate S.position.state_ > alpha then env.Evaluate S.position.state_ else alpha)
      (SortMoves env (CountNode env S.engine) S.position.state_
        (GenerateMoves S.position.state_))
      { S with engine := CountNode env S.engine }
      (fun m hm => MakeMove_rejected_quiescence zk _ m
        (hnone m (mem_SortMoves env hsort _ _ _ m hm)))
    exact ⟨T, Restored_trans (Restored_CountNode env S) hT, hres⟩

/-- C28, amended: for a position in which `MakeMove` accepts no generated
move, at a call of `Negamax` with ply at most `kMaxSearchDepth - 1` that
returns neither from the transposition-table probe nor from a draw test:
when the side to move is in check, `Negamax` returns `kCheckmateScore + ply`
for every depth of at least 0 and every window; when it is not in check and
the depth is at least 1, `Negamax` returns `kDrawScore` if the null move is not
tried, and also if it is tried and its search neither stops the search nor
reaches beta. -/
theorem Negamax_no_legal_move (zk : ZobristKeys) (env : Environment)
    (hsort : ∀ l x, x ∈ env.sort l → x ∈ l) (fuel : Nat)
    (alpha beta depth : Int) (pv_line : PvLine) (is_null : Bool) (S : SearchState)
    (hcut : ¬ TableCutoff S alpha beta depth) (hdraw : ¬ DrawReturn S)
    (hnone : ∀ m, m ∈ GenerateMoves S.position.state_ →
      (MakeMove zk S.position.state_ m false).1 = false)
    (hply : S.engine.ply ≤ kMaxSearchDepth - 1) :
    (IsInCheck S.position.state_ = true → 0 ≤ depth →
      ∃ T, Negamax zk env (fuel + 1) alpha beta depth pv_line is_null S =
        some (kCheckmateScore + S.engine.ply, pv_line, T)) ∧
    (IsInCheck S.position.state_ = false → 1 ≤ depth →
      (NullMoveAllowed S.position.state_ depth false is_null = false →
        ∃ T, Negamax zk env (fuel + 1) alpha beta depth pv_line is_null S =
          some (kDrawScore, pv_line, T)) ∧
      (NullMoveAllowed S.position.state_ depth false is_null = true →
        ∀ value line S5,
          Negamax zk env fuel (-beta) (-beta + 1) (depth - 1 - kNullMoveReductionAmount)
            pv_line true
            { (Probed env S depth).Enter S.position.state_ with position :=
              { ((Probed env S depth).Enter S.position.state_).position with
                state_ := NullMove zk S.position.state_ } } = some (value, line, S5) →
          (S5.Leave S.position.state_).engine.stop_search_ = false → -value < beta →
          ∃ T, Negamax zk env (fuel + 1) alpha beta depth pv_line is_null S =
            some (kDrawScore, line, T))) := by
  have hd2 : ¬ DrawReturn (Probed env S depth) :=
    fun h => hdraw ((DrawReturn_Probed env S depth).1 h)
  have hmoves : ∀ (e : SearchEngine) m, m ∈ SortMoves env e S.position.state_
      (GenerateMoves S.position.state_) → (MakeMove zk S.position.state_ m false).1 = false :=
    fun e m hm => hnone m (mem_SortMoves env hsort _ _ _ m hm)
  refine ⟨?_, ?_⟩
  · intro hcheck hdepth
    have hic : IsInCheck (Probed env S depth).position.state_ = true := hcheck
    have hq : ¬ ((Probed env S depth).engine.ply > kMaxSearchDepth - 1 ∨
        (if IsInCheck (Probed env S depth).position.state_ = true then depth + 1 else depth)
          ≤ 0) := by
      rw [hic, (Probed_fields env S depth).2.1]
      simp only [if_true]
      omega
    have hn : NullMoveAllowed (Probed env S depth).position.state_
        (if IsInCheck (Probed env S depth).position.state_ = true then depth + 1 else depth)
        (IsInCheck (Probed env S depth).position.state_) is_null = false := by
      rw [hic]
      cases h : NullMoveAllowed (Probed env S depth).position.state_
        (if true = true then depth + 1 else depth) true is_null
      · rfl
      · exact absurd ((NullMoveAllowed_iff _ _ _ _).1 h).2.1 (by simp)
    rw [Negamax_step, NegamaxStep_probed zk env _ _ alpha beta depth pv_line is_null S hcut,
      NegamaxSearch_moves zk env _ _ alpha beta depth pv_line is_null _ hd2 hq hn]
    obtain ⟨T, -, hres⟩ := NegamaxLoop_all_rejected zk (Negamax zk env fuel) beta
      (if IsInCheck (Probed env S depth).position.state_ = true then depth + 1 else depth)
      (IsInCheck (Probed env S depth).position.state_) alpha pv_line kAlphaHashFlag
      (SortMoves env (Probed env S depth).engine (Probed env S depth).position.state_
        (GenerateMoves (Probed env S depth).position.state_))
      PvLine.empty 0 (Probed env S depth) (hmoves _)
    rw [hres, hic, (Probed_fields env S depth).2.1]
    exact ⟨T, rfl⟩
  · intro hcheck hdepth
    have hic : IsInCheck (Probed env S depth).position.state_ = false := hcheck
    have hq : ¬ ((Probed env S depth).engine.ply > kMaxSearchDepth - 1 ∨
        (if IsInCheck (Probed env S depth).position.state_ = true then depth + 1 else depth)
          ≤ 0) := by
      rw [hic, (Probed_fields env S depth).2.1]
      simp only [Bool.false_eq_true, if_false]
      omega
    refine ⟨?_, ?_⟩
    · intro hn
      have hn2 : NullMoveAllowed (Probed env S depth).position.state_
          (if IsInCheck (Probed env S depth).position.state_ = true then depth + 1 else depth)
          (IsInCheck (Probed env S depth).position.state_) is_null = false := by
        rw [hic]
        simp only [Bool.false_eq_true, if_false]
        exact hn
      rw [Negamax_step, NegamaxStep_probed zk env _ _ alpha beta depth pv_line is_null S hcut,
        NegamaxSearch_moves zk env _ _ alpha beta depth pv_line is_null _ hd2 hq hn2]
      obtain ⟨T, -, hres⟩ := NegamaxLoop_all_rejected zk (Negamax zk env fuel) beta
        (if IsInCheck (Probed env S depth).position.state_ = true then depth + 1 else depth)
        (IsInCheck (Probed env S depth).position.state_) alpha pv_line kAlphaHashFlag
        (SortMoves env (Probed env S depth).engine (Probed env S depth).position.state_
          (GenerateMoves (Probed env S depth).position.state_))
        PvLine.empty 0 (Probed env S depth) (hmoves _)
      rw [hres, hic]
      exact ⟨T, rfl⟩
    · intro hn value line S5 hc hstop hbeta
      rw [Negamax_step, (NegamaxStep_null zk env _ _ alpha beta depth pv_line is_null S hcut
        hdraw hply hcheck hn).2 value line S5 hc, hstop]
      simp only [Bool.false_eq_true, if_false]
      rw [if_neg (not_le.2 hbeta)]
      obtain ⟨T, -, hres⟩ := NegamaxLoop_all_rejected zk (Negamax zk env fuel) beta depth false
        alpha line kAlphaHashFlag
        (SortMoves env (S5.Leave S.position.state_).engine S.position.state_
          (GenerateMoves S.position.state_))
        PvLine.empty 0 (S5.Leave S.position.state_) (hmoves _)
      rw [hres]
      exact ⟨T, rfl⟩

set_option maxRecDepth 1000000 in
theorem staleState_facts :
    IsInCheck staleState = false ∧
    (∀ m, m ∈ GenerateMoves staleState → (MakeMove sampleKeys staleState m false).1 = false) ∧
    (∀ alpha beta depth, 0 ≤ depth →
      ¬ TableCutoff (searchSample staleState) alpha beta depth) ∧
    ¬ DrawReturn (searchSample staleState) ∧
    evalEnvironment.Evaluate staleState = -189 := by
  refine ⟨?_, AllMovesRejected_sound sampleKeys staleState (by decide), ?_, ?_, by decide⟩
  · rw [IsInCheck_eq_rays _ (by decide)]
    decide
  · intro alpha beta depth hd h
    have : (-1 : Int) ≥ depth := h.2.1
    omega
  · intro h
    rcases h with h | h
    · exact absurd h.1 (by decide)
    · exact absurd h (by decide)

set_option maxRecDepth 1000000 in
theorem mateState_facts :
    IsInCheck mateState = true ∧
    (∀ m, m ∈ GenerateMoves mateState → (MakeMove sampleKeys mateState m false).1 = false) ∧
    (∀ alpha beta depth, 0 ≤ depth →
      ¬ TableCutoff (searchSample mateState) alpha beta depth ∧
      ¬ TableCutoff mateDeepSample alpha beta depth) ∧
    ¬ DrawReturn (searchSample mateState) ∧ ¬ DrawReturn mateDeepSample ∧
    evalEnvironment.Evaluate mateState = -428 := by
  refine ⟨?_, AllMovesRejected_sound sampleKeys mateState (by decide), ?_, ?_, ?_, by decide⟩
  · rw [IsInCheck_eq_rays _ (by decide)]
    decide
  · intro alpha beta depth hd
    refine ⟨fun h => ?_, fun h => ?_⟩
    · have : (-1 : Int) ≥ depth := h.2.1
      omega
    · have : (-1 : Int) ≥ depth := h.2.1
      omega
  · intro h
    rcases h with h | h
    · exact absurd h.1 (by decide)
    · exact absurd h (by decide)
  · intro h
    rcases h with h | h
    · exact absurd h.2 (by decide)
    · exact absurd h (by decide)

theorem Negamax_no_legal_move_witness :
    (¬ TableCutoff (searchSample mateState) (-kInfinity) kInfinity 3 ∧
      ¬ DrawReturn (searchSample mateState) ∧
      (∀ m, m ∈ GenerateMoves mateState → (MakeMove sampleKeys mateState m false).1 = false) ∧
      (searchSample mateState).engine.ply ≤ kMaxSearchDepth - 1 ∧
      IsInCheck mateState = true) ∧
    (∃ T, Negamax sampleKeys sampleEnvironment (0 + 1) (-kInfinity) kInfinity 3 PvLine.empty
      false (searchSample mateState) = some (kCheckmateScore + 0, PvLine.empty, T)) ∧
    ∃ T, Negamax sampleKeys sampleEnvironment (0 + 1) (-kInfinity) kInfinity 3 PvLine.empty
      false (searchSample staleState) = some (kDrawScore, PvLine.empty, T) :=
  ⟨⟨(mateState_facts.2.2.1 _ _ 3 (by decide)).1, mateState_facts.2.2.2.1,
      mateState_facts.2.1, by decide, mateState_facts.1⟩,
    (Negamax_no_legal_move sampleKeys sampleEnvironment (fun l x h => h) 0 (-kInfinity) kInfinity
      3 PvLine.empty false (searchSample mateState)
      ((mateState_facts.2.2.1 _ _ 3 (by decide)).1) mateState_facts.2.2.2.1
      mateState_facts.2.1 (by decide)).1 mateState_facts.1 (by decide),
    ((Negamax_no_legal_move sampleKeys sampleEnvironment (fun l x h => h) 0 (-kInfinity) kInfinity
      3 PvLine.empty false (searchSample staleState)
      (staleState_facts.2.2.1 _ _ 3 (by decide))
      staleState_facts.2.2.2.1 staleState_facts.2.1 (by decide)).2 staleState_facts.1
      (by decide)).1 (by decide)⟩

/-- A probe that finds an upper bound of at most alpha returns alpha. -/
theorem Negamax_alpha_cutoff (zk : ZobristKeys) (env : Environment) (fuel : Nat)
    (alpha beta depth : Int) (pv_line : PvLine) (is_null : Bool) (S : SearchState)
    (h : (S.transposition_table_.Get S.position.state_.key).key = S.position.state_.key ∧
      (S.transposition_table_.Get S.position.state_.key).depth ≥ depth)
    (ha : (S.transposition_table_.Get S.position.state_.key).flags = kAlphaHashFlag ∧
      (S.transposition_table_.Get S.position.state_.key).score ≤ alpha) :
    Negamax zk env (fuel + 1) alpha beta depth pv_line is_null S =
      some (alpha, pv_line, { S with engine := CountNode env S.engine }) := by
  rw [Negamax]
  simp only [if_pos h, if_pos ha]

set_option maxRecDepth 1000000 in
theorem blockedSample_facts :
    IsInCheck blockedState = false ∧
    (∀ m, m ∈ GenerateMoves blockedState →
      (MakeMove sampleKeys blockedState m false).1 = false) ∧
    ¬ TableCutoff blockedSample 40 50 4 ∧ ¬ DrawReturn blockedSample ∧
    NullMoveAllowed blockedState 4 false false = true := by
  refine ⟨?_, AllMovesRejected_sound sampleKeys blockedState (by decide), ?_, ?_, by decide⟩
  · rw [IsInCheck_eq_rays _ (by decide)]
    decide
  · intro h
    exact absurd h.1 (by decide)
  · intro h
    rcases h with h | h
    · exact absurd h.1 (by decide)
    · exact absurd h (by decide)

set_option maxRecDepth 1000000 in
/-- In the blocked stalemate the null move is tried at depth 4, its search
returns from the table with a score that reaches beta, and `Negamax` returns
beta = 50. -/
theorem blockedSample_null_cut :
    ∃ line T, Negamax sampleKeys sampleEnvironment (1 + 1) 40 50 4 PvLine.empty false
      blockedSample = some (50, line, T) := by
  obtain ⟨hcheck, -, hcut, hdraw, hn⟩ := blockedSample_facts
  have hchild := Negamax_alpha_cutoff sampleKeys sampleEnvironment 0 (-50) (-50 + 1)
    (4 - 1 - kNullMoveReductionAmount) PvLine.empty true
    { (Probed sampleEnvironment blockedSample 4).Enter blockedSample.position.state_ with
      position :=
        { ((Probed sampleEnvironment blockedSample 4).Enter
            blockedSample.position.state_).position with
          state_ := NullMove sampleKeys blockedSample.position.state_ } }
    ⟨by decide, by decide⟩ ⟨by decide, by decide⟩
  have hres := (NegamaxStep_null sampleKeys sampleEnvironment
    (Negamax sampleKeys sampleEnvironment 1) (Quiescence sampleKeys sampleEnvironment 1)
    40 50 4 PvLine.empty false blockedSample hcut hdraw (by decide) hcheck hn).2 _ _ _ hchild
  rw [← Negamax_step] at hres
  rw [if_neg (by decide), if_pos (by decide)] at hres
  exact ⟨_, _, hres⟩

/-- C28 (the claim fails): in the stalemate position `7k/5K2/6P1/8/8/8/8/8 b`
no generated move is accepted, black is not in check, the table probe and the
draw tests do not return, and `Negamax` at depth 0 returns the static
evaluation -189 that `Quiescence` gives, not `kDrawScore`; in the checkmate
position `7k/5KP1/6P1/8/8/8/8/8 b` at ply 128 black is in check with no
accepted move, and `Negamax` at depth 1 returns the static evaluation -428,
not `kCheckmateScore + 128`; in the stalemate position
`7k/p1p1pBp1/P1P1P1P1/1p1p1p1p/1P1P1P1P/8/QRRBNN2/4K3 b` at depth 4 with the
window (40, 50) the null-move search reaches beta and `Negamax` returns 50, not
`kDrawScore`. -/
theorem Negamax_no_legal_move_exits :
    (IsInCheck staleState = false ∧
      (∀ m, m ∈ GenerateMoves staleState →
        (MakeMove sampleKeys staleState m false).1 = false) ∧
      ¬ TableCutoff (searchSample staleState) (-kInfinity) kInfinity 0 ∧
      ¬ DrawReturn (searchSample staleState) ∧
      ∃ line T, Negamax sampleKeys evalEnvironment 2 (-kInfinity) kInfinity 0 PvLine.empty false
        (searchSample staleState) = some (-189, line, T) ∧ (-189 : Int) ≠ kDrawScore) ∧
    (IsInCheck mateState = true ∧
      (∀ m, m ∈ GenerateMoves mateState →
        (MakeMove sampleKeys mateState m false).1 = false) ∧
      ¬ TableCutoff mateDeepSample (-kInfinity) kInfinity 1 ∧
      ¬ DrawReturn mateDeepSample ∧ mateDeepSample.engine.ply = 128 ∧
      ∃ line T, Negamax sampleKeys evalEnvironment 2 (-kInfinity) kInfinity 1 PvLine.empty false
        mateDeepSample = some (-428, line, T) ∧ (-428 : Int) ≠ kCheckmateScore + 128) ∧
    (IsInCheck blockedState = false ∧
      (∀ m, m ∈ GenerateMoves blockedState →
        (MakeMove sampleKeys blockedState m false).1 = false) ∧
      ¬ TableCutoff blockedSample 40 50 4 ∧ ¬ DrawReturn blockedSample ∧
      ∃ line T, Negamax sampleKeys sampleEnvironment (1 + 1) 40 50 4 PvLine.empty false
        blockedSample = some (50, line, T) ∧ (50 : Int) ≠ kDrawScore) := by
  have hsort : ∀ (l : List (Int × Nat)) x, x ∈ evalEnvironment.sort l → x ∈ l := fun l x h => h
  have hcut1 : ¬ TableCutoff (searchSample staleState) (-kInfinity) kInfinity 0 :=
    staleState_facts.2.2.1 _ _ 0 (by decide)
  have hcut2 : ¬ TableCutoff mateDeepSample (-kInfinity) kInfinity 1 :=
    (mateState_facts.2.2.1 _ _ 1 (by decide)).2
  refine ⟨⟨staleState_facts.1, staleState_facts.2.1, hcut1, staleState_facts.2.2.2.1, ?_⟩,
    ⟨mateState_facts.1, mateState_facts.2.1, hcut2, mateState_facts.2.2.2.2.1, rfl, ?_⟩,
    ⟨blockedSample_facts.1, blockedSample_facts.2.1, blockedSample_facts.2.2.1,
      blockedSample_facts.2.2.2.1, ?_⟩⟩
  · have hd2 : ¬ DrawReturn (Probed evalEnvironment (searchSample staleState) 0) :=
      fun h => staleState_facts.2.2.2.1 ((DrawReturn_Probed _ _ _).1 h)
    obtain ⟨T, -, hres⟩ := Quiescence_all_rejected sampleKeys evalEnvironment hsort 0
      (-kInfinity) kInfinity (Probed evalEnvironment (searchSample staleState) 0) hd2
      staleState_facts.2.1
    have he : evalEnvironment.Evaluate
        (Probed evalEnvironment (searchSample staleState) 0).position.state_ = -189 :=
      staleState_facts.2.2.2.2
    rw [he] at hres
    rw [if_neg (by decide), if_pos (by decide)] at hres
    have hfinal := NegamaxSearch_leaf sampleKeys evalEnvironment
      (Negamax sampleKeys evalEnvironment 1) (Quiescence sampleKeys evalEnvironment 1)
      (-kInfinity) kInfinity 0 PvLine.empty
      false _ hd2 (Or.inr (by
        rw [show IsInCheck (Probed evalEnvironment (searchSample staleState) 0).position.state_
          = false from staleState_facts.1]
        decide)) (-189) T hres
    rw [← NegamaxStep_probed _ _ _ _ _ _ _ _ _ _ hcut1, ← Negamax_step] at hfinal
    exact ⟨_, _, hfinal, by decide⟩
  · have hd2 : ¬ DrawReturn (Probed evalEnvironment mateDeepSample 1) :=
      fun h => mateState_facts.2.2.2.2.1 ((DrawReturn_Probed _ _ _).1 h)
    obtain ⟨T, -, hres⟩ := Quiescence_all_rejected sampleKeys evalEnvironment hsort 0
      (-kInfinity) kInfinity (Probed evalEnvironment mateDeepSample 1) hd2
      mateState_facts.2.1
    have he : evalEnvironment.Evaluate
        (Probed evalEnvironment mateDeepSample 1).position.state_ = -428 :=
      mateState_facts.2.2.2.2.2
    rw [he] at hres
    rw [if_neg (by decide), if_pos (by decide)] at hres
    have hfinal := NegamaxSearch_leaf sampleKeys evalEnvironment
      (Negamax sampleKeys evalEnvironment 1) (Quiescence sampleKeys evalEnvironment 1)
      (-kInfinity) kInfinity 1 PvLine.empty
      false _ hd2 (Or.inl (by
        rw [(Probed_fields evalEnvironment mateDeepSample 1).2.1]
        decide)) (-428) T hres
    rw [← NegamaxStep_probed _ _ _ _ _ _ _ _ _ _ hcut2, ← Negamax_step] at hfinal
    exact ⟨_, _, hfinal, by decide⟩
  · obtain ⟨line, T, h⟩ := blockedSample_null_cut
    exact ⟨line, T, h, by decide⟩

/-! ## Adding and removing a key of the repetition table -/

/-- C40: for a repetition table whose `head` and `tail` index the array and
that is not full (`size() < kRepetitionTableSize`) and every key `k`:
`Add(k)` followed by `RemoveLast()` leaves `size()` and the keys `Get(0)`, ...,
`Get(size() - 1)` unchanged; after `Add(k)` alone `size()` has grown by one and
`Get(size() - 1)` is `k`; after `Clear()`, `IsEmpty()` holds and `size()` is
0. -/
theorem RepetitionTable_Add_RemoveLast (r : RepetitionTable) (k : Nat)
    (hh : r.head < kRepetitionTableSize) (ht : r.tail < kRepetitionTableSize)
    (hn : r.size < kRepetitionTableSize) :
    ((r.Add k).RemoveLast.size = r.size ∧
      ∀ i, i < r.size → (r.Add k).RemoveLast.Get i = r.Get i) ∧
    ((r.Add k).size = r.size + 1 ∧ (r.Add k).Get ((r.Add k).size - 1) = k) ∧
    (r.Clear.IsEmpty = true ∧ r.Clear.size = 0) := by
  have hfull : r.full = false := by
    cases hf : r.full
    · rfl
    · exfalso
      unfold RepetitionTable.size at hn
      rw [if_pos hf] at hn
      exact lt_irrefl _ hn
  have hsize : r.size = (r.head + 228 - r.tail) % 228 := by
    unfold RepetitionTable.size kRepetitionTableSize
    simp [hfull]
  unfold kRepetitionTableSize at hh ht hn
  have hadd : (r.Add k).size = r.size + 1 := by
    rw [RepetitionTable_size_Add r k hh ht (by rw [hfull]; intro h; cases h)]
    simp [hfull]
  have hhead : (r.Add k).head = (r.head + 1) % 228 := rfl
  have htail : (r.Add k).tail = r.tail := by
    show (if r.full then (r.tail + 1) % kRepetitionTableSize else r.tail) = r.tail
    simp [hfull]
  have htable : (r.Add k).table = setAt r.table r.head k := rfl
  have hne : (r.Add k).IsEmpty = false := by
    unfold RepetitionTable.IsEmpty
    by_cases hf : (r.Add k).full = true
    · simp [hf]
    · have hf2 : (r.Add k).full = false := by simpa using hf
      have hd : decide ((r.Add k).head = (r.Add k).tail) = false := hf2
      rw [hf2, hd]; rfl
  have hrem : (r.Add k).RemoveLast =
      { r.Add k with head := ((r.Add k).head + 228 - 1) % 228, full := false } := by
    unfold RepetitionTable.RemoveLast
    rw [hne]; rfl
  refine ⟨⟨?_, ?_⟩, ⟨hadd, ?_⟩, ?_, ?_⟩
  · rw [hrem]
    unfold RepetitionTable.size kRepetitionTableSize
    simp only [Bool.false_eq_true, if_false, htail, hhead, hfull]
    omega
  · intro i hi
    rw [hrem]
    unfold RepetitionTable.Get kRepetitionTableSize
    simp only [htail, htable]
    unfold setAt
    rw [if_neg (by omega)]
  · unfold RepetitionTable.Get kRepetitionTableSize
    rw [htail, htable, hadd]
    unfold setAt
    rw [if_pos (by omega)]
  · rfl
  · simp [RepetitionTable.size, RepetitionTable.Clear, kRepetitionTableSize]

/-- C40 at the ring with 227 keys, the last cell of the array free: the key
added fills the table and `RemoveLast` empties the cell again. -/
theorem RepetitionTable_Add_RemoveLast_witness :
    (⟨fun i => i + 1, 227, 0, false⟩ : RepetitionTable).size < kRepetitionTableSize ∧
    ((⟨fun i => i + 1, 227, 0, false⟩ : RepetitionTable).Add 7).size = 228 ∧
    ((⟨fun i => i + 1, 227, 0, false⟩ : RepetitionTable).Add 7).RemoveLast.size = 227 :=
  ⟨by decide,
   (RepetitionTable_Add_RemoveLast ⟨fun i => i + 1, 227, 0, false⟩ 7 (by decide) (by decide)
      (by decide)).2.1.1,
   (RepetitionTable_Add_RemoveLast ⟨fun i => i + 1, 227, 0, false⟩ 7 (by decide) (by decide)
      (by decide)).1.1⟩

/-! ## The knight attack masks -/

set_option maxRecDepth 100000 in
theorem GenerateKnightAttackMask_table :
    (List.range 64).all (fun s =>
      decide (precomputed_data.GenerateKnightAttackMask s < 2 ^ 64) &&
      (List.range 64).all (fun t =>
        (precomputed_data.GenerateKnightAttackMask s).testBit t ==
          decide ((Nat.dist (GetFile s) (GetFile t) = 1 ∧ Nat.dist (GetRank s) (GetRank t) = 2) ∨
            (Nat.dist (GetFile s) (GetFile t) = 2 ∧ Nat.dist (GetRank s) (GetRank t) = 1)))) =
      true := by
  decide

/-- C32: for every square `s` in 0..63 and every bit position `t`, bit `t` of
`GenerateKnightAttackMask(s)` is set if and only if `t` is a square in 0..63
whose file and rank differ from those of `s` by 1 and 2 in some order; so no
bit is set off the board or on a square reached by wrapping around an edge. -/
theorem GenerateKnightAttackMask_spec (s t : Nat) (hs : s < 64) :
    (precomputed_data.GenerateKnightAttackMask s).testBit t = true ↔
      t < 64 ∧
      ((Nat.dist (GetFile s) (GetFile t) = 1 ∧ Nat.dist (GetRank s) (GetRank t) = 2) ∨
        (Nat.dist (GetFile s) (GetFile t) = 2 ∧ Nat.dist (GetRank s) (GetRank t) = 1)) := by
  have h := GenerateKnightAttackMask_table
  rw [List.all_eq_true] at h
  have h1 := h s (List.mem_range.2 hs)
  rw [Bool.and_eq_true, decide_eq_true_eq, List.all_eq_true] at h1
  obtain ⟨hlt, hall⟩ := h1
  by_cases ht : t < 64
  · have h2 := hall t (List.mem_range.2 ht)
    rw [beq_iff_eq] at h2
    rw [h2, decide_eq_true_eq]
    exact ⟨fun h => ⟨ht, h⟩, fun h => h.2⟩
  · constructor
    · intro hb
      exact absurd (testBit_of_lt_word _ _ hlt hb) ht
    · intro hb
      exact absurd hb.1 ht

/-- C32 at the corner a8 (square 0): b6 (square 17) is attacked, and h7
(square 15), two to the left of a8 after wrapping, is not. -/
theorem GenerateKnightAttackMask_spec_witness :
    (0 : Nat) < 64 ∧ (precomputed_data.GenerateKnightAttackMask 0).testBit 17 = true ∧
    (precomputed_data.GenerateKnightAttackMask 0).testBit 15 = false :=
  ⟨by decide,
   (GenerateKnightAttackMask_spec 0 17 (by decide)).2 (by decide),
   by
    have h := (GenerateKnightAttackMask_spec 0 15 (by decide)).not
    simpa using h.2 (by decide)⟩

/-! ## The en-passant capture and the piece found on its target -/

/-- The position after 1. e4 a6 2. e5 d5 is reached from the start position by
generated and accepted moves, and the en-passant capture exd6 is generated and
accepted there. -/
theorem sampleAfter4_reached :
    Reachable sampleKeys sampleAfter4 ∧ e5d6 ∈ GenerateMoves sampleAfter4 ∧
    (MakeMove sampleKeys sampleAfter4 e5d6 false).1 = true := by
  have b : ∀ s : PositionState, BoardsAgree s s := fun s => ⟨rfl, rfl, rfl, rfl, rfl⟩
  have r0 : Reachable sampleKeys sampleStart := Reachable.start blankPosition
  obtain ⟨m1, fl1, e1, -⟩ := line_step sampleKeys sampleStart sampleStart e2e4 (b _)
    e2e4_facts.1 e2e4_facts.2.1 e2e4_facts.2.2.1
  have r1 : Reachable sampleKeys sampleAfter1 := by
    have h := Reachable.step _ e2e4 false r0 m1 fl1
    rw [e1] at h
    exact h
  obtain ⟨m2, fl2, e2, -⟩ := line_step sampleKeys sampleAfter1 sampleAfter1 a7a6 (b _)
    a7a6_facts.1 a7a6_facts.2.1 a7a6_facts.2.2.1
  have r2 : Reachable sampleKeys sampleAfter2 := by
    have h := Reachable.step _ a7a6 false r1 m2 fl2
    rw [e2] at h
    exact h
  obtain ⟨m3, fl3, e3, -⟩ := line_step sampleKeys sampleAfter2 sampleAfter2 e4e5 (b _)
    e4e5_facts.1 e4e5_facts.2.1 e4e5_facts.2.2.1
  have r3 : Reachable sampleKeys sampleAfter3 := by
    have h := Reachable.step _ e4e5 false r2 m3 fl3
    rw [e3] at h
    exact h
  obtain ⟨m4, fl4, e4, -⟩ := line_step sampleKeys sampleAfter3 sampleAfter3 d7d5 (b _)
    d7d5_facts.1 d7d5_facts.2.1 d7d5_facts.2.2.1
  have r4 : Reachable sampleKeys sampleAfter4 := by
    have h := Reachable.step _ d7d5 false r3 m4 fl4
    rw [e4] at h
    exact h
  obtain ⟨m5, fl5, -, -⟩ := line_step sampleKeys sampleAfter4 sampleAfter4 e5d6 (b _)
    e5d6_facts.1 e5d6_facts.2.1 e5d6_facts.2.2.1
  exact ⟨r4, m5, fl5⟩

/-- C33 (the code departs from the claim): the position after 1. e4 a6 2. e5
d5 is reached from the start position, so its piece bitboards are pairwise
disjoint; `GenerateMoves` produces the en-passant capture exd6 there and
`MakeMove` accepts it; the move carries the capture flag, the piece `MakeMove`
looks up on its target square d6 is `kNoPiece`, and `kNoPiece` = 13 is among
the indices `MakeMove` uses, outside 0..11. -/
theorem MakeMove_en_passant_index :
    Reachable sampleKeys sampleAfter4 ∧ NoOverlap sampleAfter4.piece_bitboards ∧
    e5d6 ∈ GenerateMoves sampleAfter4 ∧
    (MakeMove sampleKeys sampleAfter4 e5d6 false).1 = true ∧
    move.IsCapture e5d6 = true ∧ move.IsEnPassant e5d6 = true ∧
    PieceOn sampleAfter4 (move.GetTargetSquare e5d6) = kNoPiece ∧
    kNoPiece ∈ MakeMoveIndices sampleAfter4 e5d6 ∧ ¬ kNoPiece < 12 := by
  obtain ⟨hr, hm, ha⟩ := sampleAfter4_reached
  obtain ⟨-, -, -, hp, -, -, -, -, hc, -, he, -, -, -⟩ := e5d6_facts
  refine ⟨hr, (Consistent_of_Reachable _ _ hr).disjoint, hm, ha, hc, he, hp, ?_, by decide⟩
  unfold MakeMoveIndices
  simp only [hc, hp, if_true]
  simp [kNoPiece]

/-- C34 (the code departs from the claim): in the position after 1. e4 a6
2. e5 d5, for every engine whose PV move and TT move are not the generated
en-passant capture exd6, `ScoreMove` finds `kNoPiece` = 13 on the target
square, reads `kMvvLvaScores[0][13]`, which lies in the storage of the cell
`[1][1]`, and returns 10204, where a pawn taking a pawn scores 10105. -/
theorem ScoreMove_en_passant (e : SearchEngine)
    (hpv : e5d6 ≠ e.pv_line_.moves e.ply) (htt : e5d6 ≠ e.tt_move_) :
    e5d6 ∈ GenerateMoves sampleAfter4 ∧ move.IsCapture e5d6 = true ∧
    PieceOn sampleAfter4 (move.GetSourceSquare e5d6) = GetPiece kPawn kWhite ∧
    PieceOn sampleAfter4 (move.GetTargetSquare e5d6) = kNoPiece ∧
    ScoreMove e sampleAfter4 e5d6 = 10204 ∧
    (10000 : Int) + 100 * (kPawn + 1) + (5 - kPawn) = 10105 := by
  obtain ⟨-, hm, -⟩ := sampleAfter4_reached
  obtain ⟨-, -, -, hp, hs, -, -, -, hc, -, -, -, -, -⟩ := e5d6_facts
  have hsrc : PieceOn sampleAfter4 28 = 0 := by decide
  refine ⟨hm, hc, ?_, hp, ?_, by decide⟩
  · rw [hs]; exact hsrc
  · unfold ScoreMove
    rw [if_neg hpv, if_neg htt, if_pos hc]
    simp only [hp, hs, hsrc]
    decide

/-- C34 at the engine before `Search`. -/
theorem ScoreMove_en_passant_witness :
    e5d6 ≠ sampleEngine.pv_line_.moves sampleEngine.ply ∧ e5d6 ≠ sampleEngine.tt_move_ ∧
    ScoreMove sampleEngine sampleAfter4 e5d6 = 10204 :=
  ⟨by decide, by decide, (ScoreMove_en_passant sampleEngine (by decide) (by decide)).2.2.2.2.1⟩

/-! ## Castling rights stay backed by the board -/

/-- The fields of a generated move: squares on the board, a piece of the side
to move, and a castle flag only on the moves of `CastleOptions`. -/
theorem Generated_shape (s : PositionState) (hside : s.side_to_move < 2) (m : Nat)
    (hg : Generated s m) :
    ∃ source target pt promoted capture double_push en_passant castle,
      m = move.CreateMove source target (GetPiece pt s.side_to_move) promoted
        capture double_push en_passant castle ∧
      source < 64 ∧ target < 64 ∧ pt < 6 ∧ (promoted < 12 ∨ promoted = kNoPiece) ∧
      (castle = true → pt = kKing ∧ promoted = kNoPiece ∧ capture = false ∧
        en_passant = false ∧ ∃ right empty safe, (right, empty, safe, source, target) ∈ CastleOptions s.side_to_move ∧
          s.castling_rights &&& right ≠ 0) := by
  have hP : ∀ pt, pt < 6 → GetPiece pt s.side_to_move < 12 := fun pt h =>
    GetPiece_lt pt _ h hside
  have hno : ∀ {P : Prop}, false = true → P := fun h => Bool.noConfusion h
  cases hg with
  | push source target hs hbit hstep hfree hrank =>
    exact ⟨source, target, kPawn, kNoPiece, false, false, false, false, rfl, hs, hstep.1,
      by decide, Or.inr rfl, hno⟩
  | pushPromotion source target pt hs hbit hstep hfree hrank hpt =>
    exact ⟨source, target, kPawn, GetPiece pt s.side_to_move, false, false, false, false, rfl,
      hs, hstep.1, by decide, Or.inl (hP pt (by have := promoted_type pt hpt; omega)), hno⟩
  | doublePush source middle target hs hbit hstep hfree hrank hstart hstep2 hfree2 =>
    exact ⟨source, target, kPawn, kNoPiece, false, true, false, false, rfl, hs, hstep2.1,
      by decide, Or.inr rfl, hno⟩
  | pawnCapture source target hs ht hbit hatt hocc hrank =>
    exact ⟨source, target, kPawn, kNoPiece, true, false, false, false, rfl, hs, ht,
      by decide, Or.inr rfl, hno⟩
  | capturePromotion source target pt hs ht hbit hatt hocc hrank hpt =>
    exact ⟨source, target, kPawn, GetPiece pt s.side_to_move, true, false, false, false, rfl,
      hs, ht, by decide, Or.inl (hP pt (by have := promoted_type pt hpt; omega)), hno⟩
  | enPassant source target hs ht hbit hatt hocc hep =>
    exact ⟨source, target, kPawn, kNoPiece, true, false, true, false, rfl, hs, ht,
      by decide, Or.inr rfl, hno⟩
  | piece pt source target h1 h5 hs ht hbit hatt hown =>
    exact ⟨source, target, pt, kNoPiece, _, false, false, false, rfl, hs, ht,
      by omega, Or.inr rfl, hno⟩
  | castle right empty safe source target hopt hright hempty hsafe =>
    obtain ⟨hso, hta⟩ := CastleOptions_squares _ _ _ _ _ _ hopt
    exact ⟨source, target, kKing, kNoPiece, false, false, false, true, rfl, hso, hta,
      by decide, Or.inr rfl, fun _ => ⟨rfl, rfl, rfl, rfl, right, empty, safe, hopt, hright⟩⟩

/-- The source and the right of the castling options of a side. -/
theorem CastleOptions_cases (side right : Nat) (empty safe : List Nat) (source target : Nat)
    (hside : side < 2)
    (h : (right, empty, safe, source, target) ∈ CastleOptions side) :
    (side = kWhite ∧ source = 60 ∧ ((right = 1 ∧ target = 62) ∨ (right = 2 ∧ target = 58))) ∨
    (side = kBlack ∧ source = 4 ∧ ((right = 4 ∧ target = 6) ∨ (right = 8 ∧ target = 2))) := by
  unfold CastleOptions at h
  split_ifs at h with hw
  · simp only [List.mem_cons, List.mem_singleton, List.not_mem_nil, or_false,
      Prod.mk.injEq] at h
    rcases h with ⟨rfl, _, _, rfl, rfl⟩ | ⟨rfl, _, _, rfl, rfl⟩
    · exact Or.inl ⟨hw, rfl, Or.inl ⟨rfl, rfl⟩⟩
    · exact Or.inl ⟨hw, rfl, Or.inr ⟨rfl, rfl⟩⟩
  · have hbl : side = kBlack := by unfold kWhite at hw; unfold kBlack; omega
    simp only [List.mem_cons, List.mem_singleton, List.not_mem_nil, or_false,
      Prod.mk.injEq] at h
    rcases h with ⟨rfl, _, _, rfl, rfl⟩ | ⟨rfl, _, _, rfl, rfl⟩
    · exact Or.inr ⟨hbl, rfl, Or.inl ⟨rfl, rfl⟩⟩
    · exact Or.inr ⟨hbl, rfl, Or.inr ⟨rfl, rfl⟩⟩

/-- A king or rook that stands neither on the source nor on the target of a
generated move is still there after the move, unless the move castles with the
pieces of its colour. -/
theorem ApplyMove_keeps (zk : ZobristKeys) (s : PositionState) (hside : s.side_to_move < 2)
    (m : Nat) (hg : Generated s m) (pt c i : Nat) (hpt : pt = kKing ∨ pt = kRook)
    (hi : i < 64) (hbit : (s.piece_bitboards (GetPiece pt c)).testBit i = true)
    (hs : i ≠ move.GetSourceSquare m) (ht : i ≠ move.GetTargetSquare m)
    (hcastle : move.IsCastle m = true → c ≠ s.side_to_move) :
    ((ApplyMove zk s m).piece_bitboards (GetPiece pt c)).testBit i = true := by
  obtain ⟨source, target, mpt, promoted, capture, double_push, en_passant, castle, rfl, hso, hta,
    hmpt, hpr, hcas⟩ := Generated_shape s hside m hg
  obtain ⟨-, f1, f2, f3, f4, f5, -, f7, f8⟩ := move.CreateMove_fields source target
    (GetPiece mpt s.side_to_move) promoted capture double_push en_passant castle hso hta
    (GetPiece_lt mpt _ hmpt hside) hpr
  rw [f1] at hs
  rw [f2] at ht
  rw [f8] at hcastle
  rw [ApplyMove_boards, f1, f2, f3, f4, f5, f7, f8]
  have hpawn : GetPiece pt c ≠
      GetPiece kPawn (OppositeColor (GetPieceColor (GetPiece mpt s.side_to_move))) := by
    rw [GetPieceColor_GetPiece _ _ hmpt]
    have := (OppositeColor_lt _ hside).1
    unfold GetPiece kPieceTypeCount kPawn
    rcases hpt with e | e
    · rw [e]; unfold kKing; omega
    · rw [e]; unfold kRook; omega
  cases hk : castle
  · rw [testBit_MovedBoards _ _ _ _ _ _ _ _ _ _ hi, hbit]
    simp [hs, ht, hpawn]
  · obtain ⟨e1, e2, e3, e4, -⟩ := hcas hk
    subst e1 e2 e3 e4
    have hcol := hcastle hk
    have h6 : pt < 6 := by rcases hpt with e | e <;> rw [e] <;> decide
    have hne : ∀ y, y < 6 → GetPiece pt c ≠ GetPiece y s.side_to_move := by
      intro y hy e
      exact hcol (GetPiece_inj _ _ _ _ h6 hy e).2
    rw [testBit_MovedBoards_castle _ _ _ _ _ _ _ hi, GetPieceColor_GetPiece _ _ (by decide)]
    refine Or.inl ⟨Or.inl ⟨hbit, fun h => hne _ (by decide) h.1⟩, fun h => hne _ (by decide) h.1⟩

/-- A generated move with the castle flag moves the king of the side to move
from its home square and its right is set. -/
theorem Generated_castle (s : PositionState) (hside : s.side_to_move < 2) (m : Nat)
    (hg : Generated s m) (h : move.IsCastle m = true) :
    move.GetPiece m = GetPiece kKing s.side_to_move ∧
    ((s.side_to_move = kWhite ∧ move.GetSourceSquare m = 60 ∧
        ((s.castling_rights.testBit 0 = true ∧ move.GetTargetSquare m = 62) ∨
         (s.castling_rights.testBit 1 = true ∧ move.GetTargetSquare m = 58))) ∨
     (s.side_to_move = kBlack ∧ move.GetSourceSquare m = 4 ∧
        ((s.castling_rights.testBit 2 = true ∧ move.GetTargetSquare m = 6) ∨
         (s.castling_rights.testBit 3 = true ∧ move.GetTargetSquare m = 2)))) := by
  obtain ⟨source, target, mpt, promoted, capture, double_push, en_passant, castle, rfl, hso, hta,
    hmpt, hpr, hcas⟩ := Generated_shape s hside m hg
  obtain ⟨-, f1, f2, f3, -, -, -, -, f8⟩ := move.CreateMove_fields source target
    (GetPiece mpt s.side_to_move) promoted capture double_push en_passant castle hso hta
    (GetPiece_lt mpt _ hmpt hside) hpr
  rw [f8] at h
  obtain ⟨e1, -, -, -, right, empty, safe, hopt, hright⟩ := hcas h
  rw [f1, f2, f3, e1]
  refine ⟨rfl, ?_⟩
  rcases CastleOptions_cases _ _ _ _ _ _ hside hopt with
    ⟨hw, rfl, ⟨rfl, rfl⟩ | ⟨rfl, rfl⟩⟩ | ⟨hbl, rfl, ⟨rfl, rfl⟩ | ⟨rfl, rfl⟩⟩
  · exact Or.inl ⟨hw, rfl, Or.inl ⟨testBit_of_and_two_pow _ 0 hright, rfl⟩⟩
  · exact Or.inl ⟨hw, rfl, Or.inr ⟨testBit_of_and_two_pow _ 1 hright, rfl⟩⟩
  · exact Or.inr ⟨hbl, rfl, Or.inl ⟨testBit_of_and_two_pow _ 2 hright, rfl⟩⟩
  · exact Or.inr ⟨hbl, rfl, Or.inr ⟨testBit_of_and_two_pow _ 3 hright, rfl⟩⟩

/-- C38: in a position with a side to move, 64-bit bitboards and a king of
that side, in which every set castling right has its king on e1 or e8 and a
rook of that colour on the matching corner, the same holds after every
successful `MakeMove` of a move produced by `GenerateMoves`; and a generated
castling move finds its rook on the corner `MakeMove` moves it from. -/
theorem MakeMove_castling_backed (zk : ZobristKeys) (s : PositionState) (m : Nat) (q : Bool)
    (hside : s.side_to_move < 2) (hb : Bounded s.piece_bitboards)
    (hk : s.piece_bitboards (GetPiece kKing s.side_to_move) ≠ 0)
    (hinv : CastlingBacked s) (hm : m ∈ GenerateMoves s) :
    ((MakeMove zk s m q).1 = true → CastlingBacked (MakeMove zk s m q).2) ∧
    (move.IsCastle m = true →
      (s.piece_bitboards (GetPiece kRook (GetPieceColor (move.GetPiece m)))).testBit
        (CastleRookSource (move.GetTargetSquare m)) = true) := by
  have hg := Generated_of_mem s hside hb hk m hm
  obtain ⟨i0, i1, i2, i3⟩ := hinv
  constructor
  · intro h
    rw [(MakeMove_true zk s m q h).1]
    obtain ⟨a0, a1, a2, a3⟩ := kCastlingUpdates_bits _ (GetSourceSquare_lt m)
    obtain ⟨b0, b1, b2, b3⟩ := kCastlingUpdates_bits _ (GetTargetSquare_lt m)
    have hw : move.IsCastle m = true → s.side_to_move = kWhite → move.GetSourceSquare m = 60 := by
      intro hc hsd
      rcases (Generated_castle s hside m hg hc).2 with ⟨_, e, _⟩ | ⟨e, _, _⟩
      · exact e
      · rw [hsd] at e; exact absurd e (by decide)
    have hbl : move.IsCastle m = true → s.side_to_move = kBlack → move.GetSourceSquare m = 4 := by
      intro hc hsd
      rcases (Generated_castle s hside m hg hc).2 with ⟨e, _, _⟩ | ⟨_, e, _⟩
      · rw [hsd] at e; exact absurd e (by decide)
      · exact e
    refine ⟨?_, ?_, ?_, ?_⟩
    · intro hr
      rw [ApplyMove_castling, Nat.testBit_and, Nat.testBit_and, a0, b0] at hr
      simp only [Bool.and_eq_true, Bool.not_eq_true', decide_eq_false_iff_not, not_or] at hr
      obtain ⟨⟨hold, hs1, hs2⟩, ht1, ht2⟩ := hr
      obtain ⟨hK, hR⟩ := i0 hold
      exact ⟨ApplyMove_keeps zk s hside m hg kKing kWhite 60 (Or.inl rfl) (by decide) hK
          (Ne.symm hs1) (Ne.symm ht1) (fun hc e => hs1 (hw hc e.symm)),
        ApplyMove_keeps zk s hside m hg kRook kWhite 63 (Or.inr rfl) (by decide) hR
          (Ne.symm hs2) (Ne.symm ht2) (fun hc e => hs1 (hw hc e.symm))⟩
    · intro hr
      rw [ApplyMove_castling, Nat.testBit_and, Nat.testBit_and, a1, b1] at hr
      simp only [Bool.and_eq_true, Bool.not_eq_true', decide_eq_false_iff_not, not_or] at hr
      obtain ⟨⟨hold, hs1, hs2⟩, ht1, ht2⟩ := hr
      obtain ⟨hK, hR⟩ := i1 hold
      exact ⟨ApplyMove_keeps zk s hside m hg kKing kWhite 60 (Or.inl rfl) (by decide) hK
          (Ne.symm hs1) (Ne.symm ht1) (fun hc e => hs1 (hw hc e.symm)),
        ApplyMove_keeps zk s hside m hg kRook kWhite 56 (Or.inr rfl) (by decide) hR
          (Ne.symm hs2) (Ne.symm ht2) (fun hc e => hs1 (hw hc e.symm))⟩
    · intro hr
      rw [ApplyMove_castling, Nat.testBit_and, Nat.testBit_and, a2, b2] at hr
      simp only [Bool.and_eq_true, Bool.not_eq_true', decide_eq_false_iff_not, not_or] at hr
      obtain ⟨⟨hold, hs1, hs2⟩, ht1, ht2⟩ := hr
      obtain ⟨hK, hR⟩ := i2 hold
      exact ⟨ApplyMove_keeps zk s hside m hg kKing kBlack 4 (Or.inl rfl) (by decide) hK
          (Ne.symm hs1) (Ne.symm ht1) (fun hc e => hs1 (hbl hc e.symm)),
        ApplyMove_keeps zk s hside m hg kRook kBlack 7 (Or.inr rfl) (by decide) hR
          (Ne.symm hs2) (Ne.symm ht2) (fun hc e => hs1 (hbl hc e.symm))⟩
    · intro hr
      rw [ApplyMove_castling, Nat.testBit_and, Nat.testBit_and, a3, b3] at hr
      simp only [Bool.and_eq_true, Bool.not_eq_true', decide_eq_false_iff_not, not_or] at hr
      obtain ⟨⟨hold, hs1, hs2⟩, ht1, ht2⟩ := hr
      obtain ⟨hK, hR⟩ := i3 hold
      exact ⟨ApplyMove_keeps zk s hside m hg kKing kBlack 4 (Or.inl rfl) (by decide) hK
          (Ne.symm hs1) (Ne.symm ht1) (fun hc e => hs1 (hbl hc e.symm)),
        ApplyMove_keeps zk s hside m hg kRook kBlack 0 (Or.inr rfl) (by decide) hR
          (Ne.symm hs2) (Ne.symm ht2) (fun hc e => hs1 (hbl hc e.symm))⟩
  · intro hc
    obtain ⟨hp, hcases⟩ := Generated_castle s hside m hg hc
    rw [hp, GetPieceColor_GetPiece _ _ (by decide)]
    rcases hcases with ⟨hsd, -, ⟨hr, ht⟩ | ⟨hr, ht⟩⟩ | ⟨hsd, -, ⟨hr, ht⟩ | ⟨hr, ht⟩⟩
    · rw [ht, hsd]; exact (i0 hr).2
    · rw [ht, hsd]; exact (i1 hr).2
    · rw [ht, hsd]; exact (i2 hr).2
    · rw [ht, hsd]; exact (i3 hr).2

set_option maxRecDepth 100000 in
/-- The start position has its four castling rights backed by the board. -/
theorem sampleStart_backed : CastlingBacked sampleStart := by
  unfold CastlingBacked
  decide

/-- C38 at the start position and the move e2e4, which `MakeMove` accepts. -/
theorem MakeMove_castling_backed_witness :
    (sampleStart.side_to_move < 2 ∧ Bounded sampleStart.piece_bitboards ∧
      sampleStart.piece_bitboards (GetPiece kKing sampleStart.side_to_move) ≠ 0 ∧
      CastlingBacked sampleStart ∧ e2e4 ∈ GenerateMoves sampleStart ∧
      (MakeMove sampleKeys sampleStart e2e4 false).1 = true) ∧
    CastlingBacked (MakeMove sampleKeys sampleStart e2e4 false).2 :=
  ⟨⟨sampleStart_ready.1, sampleStart_ready.2.1, sampleStart_ready.2.2.1, sampleStart_backed,
      sampleStart_ready.2.2.2, e2e4_accepted⟩,
    (MakeMove_castling_backed sampleKeys sampleStart e2e4 false sampleStart_ready.1
      sampleStart_ready.2.1 sampleStart_ready.2.2.1 sampleStart_backed
      sampleStart_ready.2.2.2).1 e2e4_accepted⟩

/-! ## The captures of `Quiescence` and the number of pieces -/

namespace precomputed_data

theorem BlockedAttacks_ne_zero (sq : Nat) (is_bishop : Bool) (occ : Nat) :
    BlockedAttacks sq is_bishop occ ≠ 0 := by
  have hray : ∀ (cond : Nat → Bool) (step : Nat → Nat), cond sq = true →
      RayHit cond step occ sq (step sq) := by
    intro cond step hc
    refine ⟨1, le_refl _, by decide, rfl, ?_, ?_⟩
    · intro i hi
      have : i = 0 := by omega
      subst this
      exact hc
    · intro i h1 h2
      omega
  have hf : GetFile sq < 7 ∨ GetFile sq > 0 := by omega
  have hr : GetRank sq < 7 ∨ GetRank sq > 0 := by omega
  have hbit : ∃ x, (BlockedAttacks sq is_bishop occ).testBit x = true := by
    unfold BlockedAttacks
    cases is_bishop
    · simp only [Bool.false_eq_true, if_false]
      rcases hr with h | h
      · exact ⟨_, (testBit_GenerateRookAttacks sq occ _).2
          (Or.inl (hray _ (fun c => c - 8) (by simpa using h)))⟩
      · exact ⟨_, (testBit_GenerateRookAttacks sq occ _).2
          (Or.inr (Or.inr (Or.inl (hray _ (fun c => c + 8) (by simpa using h)))))⟩
    · simp only [if_true]
      rcases hf with h1 | h1 <;> rcases hr with h2 | h2
      · exact ⟨_, (testBit_GenerateBishopAttacks sq occ _).2
          (Or.inl (hray _ (fun c => c - 7) (by simp [h1, h2])))⟩
      · exact ⟨_, (testBit_GenerateBishopAttacks sq occ _).2
          (Or.inr (Or.inl (hray _ (fun c => c + 9) (by simp [h1, h2]))))⟩
      · exact ⟨_, (testBit_GenerateBishopAttacks sq occ _).2
          (Or.inr (Or.inr (Or.inr (hray _ (fun c => c - 9) (by simp [h1, h2])))))⟩
      · exact ⟨_, (testBit_GenerateBishopAttacks sq occ _).2
          (Or.inr (Or.inr (Or.inl (hray _ (fun c => c + 7) (by simp [h1, h2])))))⟩
  obtain ⟨x, hx⟩ := hbit
  intro h0
  rw [h0, Nat.zero_testBit] at hx
  exact Bool.noConfusion hx

/-- A candidate the inner loop leaves valid sends two occupancies to one index
only when their attack sets are equal. -/
theorem MagicNumberValid_sound (occupancies attacks : Nat → Nat) (magic bits : Nat)
    (hne : ∀ k, attacks k ≠ 0) :
    ∀ n index used,
      (∀ k, k < index → used (magicIndex magic bits (occupancies k)) = attacks k) →
      MagicNumberValid occupancies attacks magic bits n index used = true →
      ∀ k k', k < index + n → k' < index + n →
        magicIndex magic bits (occupancies k) = magicIndex magic bits (occupancies k') →
        attacks k = attacks k' := by
  intro n
  induction n with
  | zero =>
    intro index used hinv _ k k' hk hk' he
    rw [← hinv k hk, ← hinv k' hk', he]
  | succ n ih =>
    intro index used hinv hv k k' hk hk' he
    unfold MagicNumberValid at hv
    simp only [] at hv
    have hidx : ((occupancies index * magic) % 2 ^ 64) >>> (64 - bits) =
        magicIndex magic bits (occupancies index) := rfl
    rw [hidx] at hv
    by_cases h0 : used (magicIndex magic bits (occupancies index)) = 0
    · rw [if_pos h0] at hv
      refine ih (index + 1) _ ?_ hv k k' (by omega) (by omega) he
      intro j hj
      unfold setAt
      by_cases hji : j = index
      · subst hji; rw [if_pos rfl]
      · have hlt : j < index := by omega
        by_cases hsame : magicIndex magic bits (occupancies j) =
            magicIndex magic bits (occupancies index)
        · exfalso
          have := hinv j hlt
          rw [hsame, h0] at this
          exact hne j this.symm
        · rw [if_neg hsame]
          exact hinv j hlt
    · rw [if_neg h0] at hv
      by_cases h1 : used (magicIndex magic bits (occupancies index)) ≠ attacks index
      · rw [if_pos h1] at hv
        exact Bool.noConfusion hv
      · rw [if_neg h1] at hv
        refine ih (index + 1) used ?_ hv k k' (by omega) (by omega) he
        intro j hj
        by_cases hji : j = index
        · subst hji
          exact not_not.1 h1
        · exact hinv j (by omega)

/-- The number the candidate loop returns passed the inner loop. -/
theorem FindMagicNumberLoop_valid (mask : Nat) (occupancies attacks : Nat → Nat)
    (bits keys magic : Nat) :
    ∀ n st, (FindMagicNumberLoop mask occupancies attacks bits keys n st).1 = some magic →
      MagicNumberValid occupancies attacks magic bits keys 0 (fun _ => 0) = true := by
  intro n
  induction n with
  | zero =>
    intro st h
    exact Option.noConfusion h
  | succ n ih =>
    intro st h
    unfold FindMagicNumberLoop at h
    simp only [] at h
    split_ifs at h with h1 h2
    · exact ih _ h
    · have : (GenerateMagicNumberCandidate st).1 = magic := Option.some.inj h
      rw [← this]
      exact h2
    · exact ih _ h

end precomputed_data

/-- C31: every value `FindMagicNumber(sq, bits, is_bishop)` returns for a
square in 0..63, with `bits` the popcount of the square's relevant mask and
whatever the state of the random generator, is collision-free: two subsets of
the relevant mask that the multiply-and-shift sends to the same index have the
same blocked attack set (`GenerateBishopAttacks` or `GenerateRookAttacks`). -/
theorem FindMagicNumber_collision_free (sq : Nat) (is_bishop : Bool) (randomState magic : Nat)
    (hsq : sq < 64)
    (h : (precomputed_data.FindMagicNumber sq
      (CountBits (precomputed_data.RelevantMask sq is_bishop)) is_bishop randomState).1 =
        some magic) :
    ∀ a b, a &&& precomputed_data.RelevantMask sq is_bishop = a →
      b &&& precomputed_data.RelevantMask sq is_bishop = b →
      precomputed_data.magicIndex magic
        (CountBits (precomputed_data.RelevantMask sq is_bishop)) a =
      precomputed_data.magicIndex magic
        (CountBits (precomputed_data.RelevantMask sq is_bishop)) b →
      precomputed_data.BlockedAttacks sq is_bishop a =
        precomputed_data.BlockedAttacks sq is_bishop b := by
  intro a b ha hb he
  have hm : precomputed_data.RelevantMask sq is_bishop < 2 ^ 64 := by
    unfold precomputed_data.RelevantMask
    cases is_bishop
    · have := precomputed_data.rookMagicCheck_all sq hsq
      unfold precomputed_data.rookMagicCheck precomputed_data.magicCheck at this
      simp only [Bool.and_eq_true, decide_eq_true_eq] at this
      simpa using this.1.1.1
    · have := precomputed_data.bishopMagicCheck_all sq hsq
      unfold precomputed_data.bishopMagicCheck precomputed_data.magicCheck at this
      simp only [Bool.and_eq_true, decide_eq_true_eq] at this
      simpa using this.1.1.1
  have hlen : (bitsOf (precomputed_data.RelevantMask sq is_bishop)).length =
      CountBits (precomputed_data.RelevantMask sq is_bishop) := (CountBits_eq _ hm).symm
  have hkey : ∀ o, o &&& precomputed_data.RelevantMask sq is_bishop = o →
      ∃ k, k < 1 <<< CountBits (precomputed_data.RelevantMask sq is_bishop) ∧
        precomputed_data.GenerateOccupancyKey k (precomputed_data.RelevantMask sq is_bishop) =
          o := by
    intro o ho
    obtain ⟨k, hk, hd⟩ := precomputed_data.deposit_surj
      (bitsOf (precomputed_data.RelevantMask sq is_bishop)) o
    rw [hlen] at hk
    refine ⟨k, by rw [Nat.one_shiftLeft]; exact hk, ?_⟩
    rw [precomputed_data.GenerateOccupancyKey_eq _ _ hm, hd,
      precomputed_data.orBits_bitsOf _ hm, ho]
  obtain ⟨k, hk, rfl⟩ := hkey a ha
  obtain ⟨k', hk', rfl⟩ := hkey b hb
  unfold precomputed_data.FindMagicNumber at h
  have hv := precomputed_data.FindMagicNumberLoop_valid _ _ _ _ _ _ _ _ h
  exact precomputed_data.MagicNumberValid_sound _ _ magic _
    (fun j => precomputed_data.BlockedAttacks_ne_zero sq is_bishop _) _ 0 _
    (fun j hj => absurd hj (Nat.not_lt_zero _)) hv k k' (by omega) (by omega) he

set_option maxRecDepth 1000000 in
/-- The candidate drawn from the generator state 689244689 is returned for the
bishop on d8 (square 3). -/
theorem FindMagicNumber_sample :
    (precomputed_data.FindMagicNumber 3
      (CountBits (precomputed_data.RelevantMask 3 true)) true 689244689).1 =
        some 1442387733975697424 := by
  decide

/-- C31 at the bishop on d8 and the generator state 689244689. -/
theorem FindMagicNumber_collision_free_witness :
    ((3 : Nat) < 64 ∧
      (precomputed_data.FindMagicNumber 3
        (CountBits (precomputed_data.RelevantMask 3 true)) true 689244689).1 =
          some 1442387733975697424) ∧
    ∀ a b, a &&& precomputed_data.RelevantMask 3 true = a →
      b &&& precomputed_data.RelevantMask 3 true = b →
      precomputed_data.magicIndex 1442387733975697424
        (CountBits (precomputed_data.RelevantMask 3 true)) a =
      precomputed_data.magicIndex 1442387733975697424
        (CountBits (precomputed_data.RelevantMask 3 true)) b →
      precomputed_data.BlockedAttacks 3 true a = precomputed_data.BlockedAttacks 3 true b :=
  ⟨⟨by decide, FindMagicNumber_sample⟩,
    FindMagicNumber_collision_free 3 true 689244689 1442387733975697424 (by decide)
      FindMagicNumber_sample⟩

/-! ## The number of moves `GenerateMoves` appends -/

theorem flatMap_congr_mem {α β : Type} (l : List α) (f g : α → List β)
    (h : ∀ x, x ∈ l → f x = g x) : l.flatMap f = l.flatMap g := by
  induction l with
  | nil => rfl
  | cons a l ih =>
    rw [List.flatMap_cons, List.flatMap_cons, h a (List.mem_cons_self _ _),
      ih (fun x hx => h x (List.mem_cons_of_mem _ hx))]

theorem GenerateMoves_eq_rays (s : PositionState)
    (hb : ∀ p, p < 12 → s.piece_bitboards p < 2 ^ 64) (hside : s.side_to_move < 2) :
    GenerateMoves s = GenerateMovesRays s := by
  have hP : ∀ pt, pt < 6 → s.piece_bitboards (GetPiece pt s.side_to_move) < 2 ^ 64 :=
    fun pt h => hb _ (GetPiece_lt pt _ h hside)
  unfold GenerateMoves GenerateMovesRays GenerateBishopMoves GenerateRookMoves
    GenerateQueenMoves SliderMoves
  congr 1
  congr 1
  · congr 1
    · congr 1
      apply flatMap_congr_mem
      intro x hx
      rw [precomputed_data.GetBishopAttacks_eq _ _ (mem_BitScan _ _ (hP kBishop (by decide)) hx).1]
    · apply flatMap_congr_mem
      intro x hx
      rw [precomputed_data.GetRookAttacks_eq _ _ (mem_BitScan _ _ (hP kRook (by decide)) hx).1]
  · apply flatMap_congr_mem
    intro x hx
    have h64 := (mem_BitScan _ _ (hP kQueen (by decide)) hx).1
    unfold precomputed_data.GetQueenAttacks
    rw [precomputed_data.GetBishopAttacks_eq _ _ h64, precomputed_data.GetRookAttacks_eq _ _ h64]

set_option maxRecDepth 1000000 in
theorem crowdedState_facts :
    (Set sampleKeys blankPosition crowdedFen).1 = SetResult.ok ∧
    (∀ p, p < 12 → crowdedState.piece_bitboards p < 2 ^ 64) ∧
    crowdedState.side_to_move < 2 ∧
    (GenerateMovesRays crowdedState).length = 271 ∧
    RayAttacked crowdedState 0 kWhite = false ∧ RayAttacked crowdedState 63 kBlack = false := by
  decide

/-- C37 (the code departs from the claim): `Set` accepts the FEN string
`kBQQQQQQ/BR5Q/Q6Q/Q6Q/Q6Q/Q6Q/Q6Q/QQQQQQQK w - - 0 1`, neither king of the
position it builds is attacked, and `GenerateMoves` appends 271 moves for it,
more than the 256 cells of `MoveList::moves`. -/
theorem GenerateMoves_exceeds_MoveList :
    (Set sampleKeys blankPosition crowdedFen).1 = SetResult.ok ∧
    IsSquareAttacked (Set sampleKeys blankPosition crowdedFen).2.state_ 0 kWhite = false ∧
    IsSquareAttacked (Set sampleKeys blankPosition crowdedFen).2.state_ 63 kBlack = false ∧
    (GenerateMoves (Set sampleKeys blankPosition crowdedFen).2.state_).length = 271 ∧
    ¬ (GenerateMoves (Set sampleKeys blankPosition crowdedFen).2.state_).length ≤
      move.kMoveListSize := by
  obtain ⟨hok, hb, hside, hlen, ha, hh⟩ := crowdedState_facts
  have e : GenerateMoves (Set sampleKeys blankPosition crowdedFen).2.state_ =
      GenerateMovesRays crowdedState := GenerateMoves_eq_rays crowdedState hb hside
  refine ⟨hok, ?_, ?_, ?_, ?_⟩
  · rw [IsSquareAttacked_eq_rays _ _ _ (by decide)]; exact ha
  · rw [IsSquareAttacked_eq_rays _ _ _ (by decide)]; exact hh
  · rw [e]; exact hlen
  · rw [e, hlen]; decide

/-! ## The move `Search` prints -/

set_option maxRecDepth 1000000 in
theorem fiftyRoot_facts :
    (Set sampleKeys blankPosition fiftyFen).1 = SetResult.ok ∧
    (∀ p, p < 12 → fiftyRoot.position.state_.piece_bitboards p < 2 ^ 64) ∧
    fiftyRoot.position.state_.side_to_move < 2 ∧
    fiftyRoot.position.state_.halfmove_clock = 100 ∧
    e2e4 ∈ GeneratePawnMoves fiftyRoot.position.state_ ∧
    GetLSBIndex ((ApplyMove sampleKeys fiftyRoot.position.state_ e2e4).piece_bitboards
      (GetPiece kKing (GetPieceColor (move.GetPiece e2e4)))) < 64 ∧
    RayAttacked (ApplyMove sampleKeys fiftyRoot.position.state_ e2e4)
      (GetLSBIndex ((ApplyMove sampleKeys fiftyRoot.position.state_ e2e4).piece_bitboards
        (GetPiece kKing (GetPieceColor (move.GetPiece e2e4)))))
      (OppositeColor (GetPieceColor (move.GetPiece e2e4))) = false ∧
    (GenerateMovesRays fiftyRoot.position.state_).all
      (fun m => decide (move.ToString m ≠ move.ToString 0)) = true ∧
    move.ToString 0 = "a8a8p".toList := by
  decide

/-- C35 (the code departs from the claim): `Set` accepts the start position
with a halfmove clock of 100; `GenerateMoves` produces e2e4 there and `MakeMove`
accepts it; after `go depth 1` on a fresh engine, `Search` prints
`bestmove a8a8p`, the text of the move word 0 that `pv_line_.moves[0]` held
before the search, and no move `GenerateMoves` produces for the position has
that text. -/
theorem Search_bestmove_not_generated (fuel : Nat) :
    (Set sampleKeys blankPosition fiftyFen).1 = SetResult.ok ∧
    (e2e4 ∈ GenerateMoves fiftyRoot.position.state_ ∧
      (MakeMove sampleKeys fiftyRoot.position.state_ e2e4 false).1 = true) ∧
    (Search sampleKeys sampleEnvironment (fuel + 1) fiftyRoot).map (fun r => r.1.bestmove) =
      some ("bestmove ".toList ++ move.ToString 0) ∧
    move.ToString 0 = "a8a8p".toList ∧
    ∀ m, m ∈ GenerateMoves fiftyRoot.position.state_ → move.ToString m ≠ move.ToString 0 := by
  obtain ⟨hok, hb, hside, -, hmem, hlt, hsafe, hall, hstr⟩ := fiftyRoot_facts
  refine ⟨hok, ⟨?_, ?_⟩, ?_, hstr, ?_⟩
  · unfold GenerateMoves
    simp only [List.mem_append]
    exact Or.inl (Or.inl (Or.inl (Or.inl (Or.inl hmem))))
  · unfold MakeMove
    rw [if_neg (by decide)]
    simp only []
    rw [IsSquareAttacked_eq_rays _ _ _ hlt, hsafe]
    rfl
  · rfl
  · intro m hm
    rw [GenerateMoves_eq_rays _ hb hside] at hm
    rw [List.all_eq_true] at hall
    simpa using hall m hm

/-! ## The row of `killer_moves_` read in an unlimited search -/

theorem CountNode_fields (env : Environment) (e : SearchEngine) :
    (CountNode env e).current_depth_ = e.current_depth_ ∧
    (CountNode env e).nodes = (e.nodes + 1) % 2 ^ 64 ∧
    (CountNode env e).stop_search_ =
      (if e.nodes % kCheckupFrequency = 0 then ShouldStop env e else e.stop_search_) ∧
    (CountNode env e).max_nodes_ = e.max_nodes_ ∧
    (CountNode env e).search_depth_ = e.search_depth_ ∧
    (CountNode env e).end_time_ = e.end_time_ ∧
    (CountNode env e).pv_line_ = e.pv_line_ ∧
    (CountNode env e).killer_moves_ = e.killer_moves_ ∧
    (CountNode env e).history_moves_ = e.history_moves_ := by
  unfold CountNode CheckStop
  split_ifs <;> exact ⟨rfl, rfl, rfl, rfl, rfl, rfl, rfl, rfl, rfl⟩

theorem ShouldStop_unlimited (e : SearchEngine) (hn : e.max_nodes_ = 0)
    (hd : e.search_depth_ = -1) (ht : e.end_time_ = 0) :
    ShouldStop sampleEnvironment e = decide (e.current_depth_ > kMaxSearchDepth) := by
  unfold ShouldStop
  rw [if_neg (by simp [sampleEnvironment]), if_neg (by simp [hn]), if_neg (by simp [hd]),
    if_neg (by simp [ht])]
  by_cases h : e.current_depth_ > kMaxSearchDepth
  · rw [if_pos h]; simp [h]
  · rw [if_neg h]; simp [h]

/-- A rejected move leaves the engine, the state and the transposition table
as they were. -/
theorem Skip_same (zk : ZobristKeys) (S : SearchState) (mv : Nat) (q : Bool)
    (h : ((S.Enter S.position.state_).MakeMove zk mv q).1 = false) :
    ((S.Enter S.position.state_).MakeMove zk mv q).2.Skip.engine = S.engine ∧
    ((S.Enter S.position.state_).MakeMove zk mv q).2.Skip.position.state_ = S.position.state_ ∧
    ((S.Enter S.position.state_).MakeMove zk mv q).2.Skip.transposition_table_ =
      S.transposition_table_ := by
  refine ⟨?_, (Restored_Skip zk S mv q h).1, rfl⟩
  show ({ S.engine with ply := S.engine.ply + 1 - 1 } : SearchEngine) = S.engine
  rw [add_sub_cancel_right]

/-- With every move of the list rejected by `MakeMove`, the move loop of
`Negamax` leaves the engine, the state and the transposition table as they
were. -/
theorem NegamaxLoop_all_rejected_same (zk : ZobristKeys)
    (child : Int → Int → Int → PvLine → Bool → SearchState → Option NegamaxResult)
    (beta depth : Int) (in_check : Bool) (alpha : Int) (pv_line : PvLine) (tt_flag : Nat) :
    ∀ (moves : List Nat) (new_pv_line : PvLine) (moves_searched : Int) (S : SearchState),
      (∀ m, m ∈ moves → (MakeMove zk S.position.state_ m false).1 = false) →
      ∃ T, T.engine = S.engine ∧ T.position.state_ = S.position.state_ ∧
        T.transposition_table_ = S.transposition_table_ ∧
        NegamaxLoop zk child beta depth in_check moves alpha pv_line new_pv_line tt_flag 0
          moves_searched S =
        some (if in_check = true then kCheckmateScore + S.engine.ply else kDrawScore,
          pv_line, T) := by
  intro moves
  induction moves with
  | nil =>
    intro new_pv_line moves_searched S _
    refine ⟨S, rfl, rfl, rfl, ?_⟩
    rw [NegamaxLoop]
    rw [if_pos rfl]
    cases in_check <;> rfl
  | cons mv rest ih =>
    intro new_pv_line moves_searched S h
    have hm : ((S.Enter S.position.state_).MakeMove zk mv false).1 = false :=
      h mv (List.mem_cons_self _ _)
    obtain ⟨he, hs, ht⟩ := Skip_same zk S mv false hm
    obtain ⟨T, hTe, hTs, hTt, hres⟩ := ih new_pv_line moves_searched
      ((S.Enter S.position.state_).MakeMove zk mv false).2.Skip
      (fun m hmem => by rw [hs]; exact h m (List.mem_cons_of_mem _ hmem))
    refine ⟨T, hTe.trans he, hTs.trans hs, hTt.trans ht, ?_⟩
    rw [NegamaxLoop]
    simp only []
    rw [if_pos hm, hres, he]

/-- `Negamax` at a node without a legal move, not in check, where neither the
probe nor a draw test returns and the null move is not tried: the draw score,
the line as it was, and only the node count, the stop flag and `tt_move_`
changed. -/
theorem Negamax_stalemate (zk : ZobristKeys) (env : Environment)
    (hsort : ∀ l x, x ∈ env.sort l → x ∈ l) (fuel : Nat)
    (alpha beta depth : Int) (pv_line : PvLine) (is_null : Bool) (S : SearchState)
    (hcut : ¬ TableCutoff S alpha beta depth) (hdraw : ¬ DrawReturn S)
    (hnone : ∀ m, m ∈ GenerateMoves S.position.state_ →
      (MakeMove zk S.position.state_ m false).1 = false)
    (hply : S.engine.ply ≤ kMaxSearchDepth - 1)
    (hcheck : IsInCheck S.position.state_ = false) (hdepth : 1 ≤ depth)
    (hnull : NullMoveAllowed S.position.state_ depth false is_null = false) :
    ∃ T, T.engine = (Probed env S depth).engine ∧ T.position.state_ = S.position.state_ ∧
      T.transposition_table_ = S.transposition_table_ ∧
      Negamax zk env (fuel + 1) alpha beta depth pv_line is_null S =
        NegamaxLoop zk (Negamax zk env fuel) beta depth false
          (SortMoves env (Probed env S depth).engine S.position.state_
            (GenerateMoves S.position.state_))
          alpha pv_line PvLine.empty kAlphaHashFlag 0 0 (Probed env S depth) ∧
      Negamax zk env (fuel + 1) alpha beta depth pv_line is_null S =
        some (kDrawScore, pv_line, T) := by
  have hd2 : ¬ DrawReturn (Probed env S depth) :=
    fun h => hdraw ((DrawReturn_Probed env S depth).1 h)
  have hic : IsInCheck (Probed env S depth).position.state_ = false := hcheck
  have hq : ¬ ((Probed env S depth).engine.ply > kMaxSearchDepth - 1 ∨
      (if IsInCheck (Probed env S depth).position.state_ = true then depth + 1 else depth)
        ≤ 0) := by
    rw [hic, (Probed_fields env S depth).2.1]
    simp only [Bool.false_eq_true, if_false]
    omega
  have hn2 : NullMoveAllowed (Probed env S depth).position.state_
      (if IsInCheck (Probed env S depth).position.state_ = true then depth + 1 else depth)
      (IsInCheck (Probed env S depth).position.state_) is_null = false := by
    rw [hic]
    simp only [Bool.false_eq_true, if_false]
    exact hnull
  have hstep : Negamax zk env (fuel + 1) alpha beta depth pv_line is_null S =
      NegamaxLoop zk (Negamax zk env fuel) beta depth false
        (SortMoves env (Probed env S depth).engine S.position.state_
          (GenerateMoves S.position.state_))
        alpha pv_line PvLine.empty kAlphaHashFlag 0 0 (Probed env S depth) := by
    rw [Negamax_step, NegamaxStep_probed zk env _ _ alpha beta depth pv_line is_null S hcut,
      NegamaxSearch_moves zk env _ _ alpha beta depth pv_line is_null _ hd2 hq hn2, hic]
    rfl
  obtain ⟨T, hTe, hTs, hTt, hres⟩ := NegamaxLoop_all_rejected_same zk (Negamax zk env fuel) beta
    depth false alpha pv_line kAlphaHashFlag
    (SortMoves env (Probed env S depth).engine S.position.state_
      (GenerateMoves S.position.state_))
    PvLine.empty 0 (Probed env S depth)
    (fun m hm => hnone m (mem_SortMoves env hsort _ _ _ m hm))
  refine ⟨T, hTe, hTs, hTt, hstep, ?_⟩
  rw [hstep, hres]
  rfl

/-- An iteration of the loop of `Search` whose `Negamax` call returns inside
the window, without a mate score and without the stop flag: the result is
taken over and reported, and the loop stops or goes on as `CheckStop` says
one level deeper. -/
theorem SearchLoop_quiet_step (env : Environment)
    (negamax : Int → Int → Int → PvLine → Bool → SearchState → Option NegamaxResult)
    (n : Nat) (alpha beta : Int) (info : List InfoLine) (S : SearchState)
    (score : Int) (line : PvLine) (T : SearchState)
    (hneg : negamax alpha beta S.engine.current_depth_ PvLine.empty false S =
      some (score, line, T))
    (hwin : ¬ (score ≤ alpha ∨ score ≥ beta)) (hrun : T.engine.stop_search_ = false)
    (hmate : ¬ ((score > kCheckmateScore ∧ score < kCheckmateWindow) ∨
      (score > -kCheckmateWindow ∧ score < -kCheckmateScore))) :
    SearchLoop env negamax (n + 1) alpha beta info S =
      if ((T.engine.Report score line).Deepen env).stop_search_ = true then
        some (info ++ [PrintSearchInfo (T.engine.Report score line)], true,
          { T with engine := (T.engine.Report score line).Deepen env })
      else
        SearchLoop env negamax n (score - kAspirationWindow) (score + kAspirationWindow)
          (info ++ [PrintSearchInfo (T.engine.Report score line)])
          { T with engine := (T.engine.Report score line).Deepen env } := by
  rw [SearchLoop, hneg]
  simp only []
  rw [if_neg hwin]
  simp only []
  rw [hrun]
  simp only [Bool.false_eq_true, if_false]
  have hs : (T.engine.Report score line).score = score := rfl
  rw [hs, if_neg hmate]

set_option maxRecDepth 100000 in
theorem staleState_quiet :
    GetNumNonPawnKingPieces staleState kBothColors = 3 ∧ staleState.halfmove_clock = 0 ∧
    (∀ m, m ∈ GenerateMoves staleState →
      m ≠ 0 ∧ move.IsCapture m = false ∧ move.GetPromotedPiece m = kNoPiece ∧
      PieceOn staleState (move.GetSourceSquare m) = 11) ∧
    PrintSearchInfoScore kDrawScore = "info score cp 0".toList := by
  decide

theorem staleState_null (depth : Int) (is_null : Bool) :
    NullMoveAllowed staleState depth false is_null = false := by
  cases h : NullMoveAllowed staleState depth false is_null
  · rfl
  · have := ((NullMoveAllowed_iff _ _ _ _).1 h).2.2.2
    rw [staleState_quiet.1] at this
    exact absurd this (by decide)

/-- One iteration of the unlimited search of the stalemate: `Negamax` is the
move loop over the moves sorted by the engine that counted the node, it
returns the draw score, and the loop goes on one level deeper unless
`current_depth_` has passed `kMaxSearchDepth`. -/
theorem SearchLoop_stale_step (fuel n : Nat) (alpha beta d : Int) (info : List InfoLine)
    (S : SearchState) (ha : alpha < 0) (hb : 0 < beta) (hd1 : 1 ≤ d) (hd2 : d ≤ 128)
    (h : StaleRun d S) :
    ∃ T, T.engine.killer_moves_ = S.engine.killer_moves_ ∧
      T.engine.history_moves_ = S.engine.history_moves_ ∧
      Negamax sampleKeys sampleEnvironment (fuel + 1) alpha beta d PvLine.empty false S =
        NegamaxLoop sampleKeys (Negamax sampleKeys sampleEnvironment fuel) beta d false
          (SortMoves sampleEnvironment (Probed sampleEnvironment S d).engine staleState
            (GenerateMoves staleState))
          alpha PvLine.empty PvLine.empty kAlphaHashFlag 0 0 (Probed sampleEnvironment S d) ∧
      (d < 128 → StaleRun (d + 1) T ∧
        SearchLoop sampleEnvironment (Negamax sampleKeys sampleEnvironment (fuel + 1)) (n + 1)
            alpha beta info S =
          SearchLoop sampleEnvironment (Negamax sampleKeys sampleEnvironment (fuel + 1)) n
            (-50) 50 (info ++ [staleLine d]) T) ∧
      (d = 128 →
        T.engine.pv_line_.moves 0 = 0 ∧
        SearchLoop sampleEnvironment (Negamax sampleKeys sampleEnvironment (fuel + 1)) (n + 1)
            alpha beta info S =
          some (info ++ [staleLine d], true, T)) := by
  have hcut : ¬ TableCutoff S alpha beta d := by
    intro hc
    have h2 := hc.2.1
    rw [h.table] at h2
    have : (-1 : Int) ≥ d := h2
    omega
  have hdraw : ¬ DrawReturn S := by
    intro hc
    rcases hc with hc | hc
    · rw [h.ply] at hc; exact absurd hc.1 (by decide)
    · rw [h.state, staleState_quiet.2.1] at hc; exact absurd hc (by decide)
  obtain ⟨T1, hTe, hTs, hTt, hloop, hneg⟩ := Negamax_stalemate sampleKeys sampleEnvironment
    (fun _ _ hx => hx) fuel alpha beta d PvLine.empty false S hcut hdraw
    (by rw [h.state]; exact staleState_facts.2.1)
    (by rw [h.ply]; decide) (by rw [h.state]; exact staleState_facts.1) hd1
    (by rw [h.state]; exact staleState_null d false)
  rw [h.state] at hloop
  obtain ⟨c1, c2, c3, c4, c5, c6, c7, c8, c9⟩ := CountNode_fields sampleEnvironment S.engine
  have hP : (Probed sampleEnvironment S d).engine =
      { CountNode sampleEnvironment S.engine with tt_move_ := 0 } := by
    unfold Probed
    have : ¬ ((S.transposition_table_.Get S.position.state_.key).key = S.position.state_.key ∧
        (S.transposition_table_.Get S.position.state_.key).depth ≥ d) := by
      intro hc
      have h2 := hc.2
      rw [h.table] at h2
      have : (-1 : Int) ≥ d := h2
      omega
    simp only [if_neg this]
  have hstopS : ShouldStop sampleEnvironment S.engine = false := by
    rw [ShouldStop_unlimited _ h.max_nodes h.search_depth h.end_time, h.depth]
    simp only [decide_eq_false_iff_not, kMaxSearchDepth]
    omega
  have hrun : T1.engine.stop_search_ = false := by
    rw [hTe, hP]
    show (CountNode sampleEnvironment S.engine).stop_search_ = false
    rw [c3, hstopS, h.running]
    split_ifs <;> rfl
  have hq := SearchLoop_quiet_step sampleEnvironment
    (Negamax sampleKeys sampleEnvironment (fuel + 1)) n alpha beta info S kDrawScore
    PvLine.empty T1 (by rw [h.depth]; exact hneg)
    (by unfold kDrawScore; omega) hrun (by decide)
  have hnodes : T1.engine.nodes = d.toNat := by
    rw [hTe, hP]
    show (CountNode sampleEnvironment S.engine).nodes = d.toNat
    rw [c2]
    have := h.nodes
    omega
  have hline : PrintSearchInfo (T1.engine.Report kDrawScore PvLine.empty) = staleLine d := by
    have e1 : (T1.engine.Report kDrawScore PvLine.empty).score = kDrawScore := rfl
    have e2 : (T1.engine.Report kDrawScore PvLine.empty).current_depth_ = d := by
      show T1.engine.current_depth_ = d
      rw [hTe, hP]
      show (CountNode sampleEnvironment S.engine).current_depth_ = d
      rw [c1, h.depth]
    have e3 : (T1.engine.Report kDrawScore PvLine.empty).nodes = d.toNat := hnodes
    have e4 : (T1.engine.Report kDrawScore PvLine.empty).pv_line_.count = 0 := rfl
    unfold PrintSearchInfo staleLine
    rw [e1, e2, e3, e4]
    rfl
  have hdeep : ((T1.engine.Report kDrawScore PvLine.empty).Deepen sampleEnvironment).stop_search_ =
      decide (d + 1 > 128) := by
    unfold SearchEngine.Deepen CheckStop
    show ShouldStop sampleEnvironment _ = _
    rw [ShouldStop_unlimited]
    · show decide (T1.engine.current_depth_ + 1 > kMaxSearchDepth) = _
      rw [hTe, hP]
      show decide ((CountNode sampleEnvironment S.engine).current_depth_ + 1 > kMaxSearchDepth) = _
      rw [c1, h.depth]
      rfl
    · show T1.engine.max_nodes_ = 0
      rw [hTe, hP]
      show (CountNode sampleEnvironment S.engine).max_nodes_ = 0
      rw [c4, h.max_nodes]
    · show T1.engine.search_depth_ = -1
      rw [hTe, hP]
      show (CountNode sampleEnvironment S.engine).search_depth_ = -1
      rw [c5, h.search_depth]
    · show T1.engine.end_time_ = 0
      rw [hTe, hP]
      show (CountNode sampleEnvironment S.engine).end_time_ = 0
      rw [c6, h.end_time]
  have hpv : ((T1.engine.Report kDrawScore PvLine.empty).Deepen sampleEnvironment).pv_line_.moves 0
      = 0 := by
    show (T1.engine.pv_line_.CopyFrom PvLine.empty).moves 0 = 0
    unfold PvLine.CopyFrom PvLine.empty
    simp only []
    rw [if_neg (by omega), hTe, hP]
    show (CountNode sampleEnvironment S.engine).pv_line_.moves 0 = 0
    rw [c7, h.pv]
  refine ⟨{ T1 with engine := (T1.engine.Report kDrawScore PvLine.empty).Deepen sampleEnvironment },
    ?_, ?_, hloop, ?_, ?_⟩
  · show T1.engine.killer_moves_ = S.engine.killer_moves_
    rw [hTe, hP]
    exact c8
  · show T1.engine.history_moves_ = S.engine.history_moves_
    rw [hTe, hP]
    exact c9
  · intro hlt
    refine ⟨?_, ?_⟩
    · have hply : T1.engine.ply = 0 := by
        rw [hTe, (Probed_fields sampleEnvironment S d).2.1, h.ply]
      refine ⟨hTs.trans h.state, hTt.trans h.table, ?_, ?_, ?_, hply, ?_, ?_, ?_, hpv, rfl⟩
      · show T1.engine.current_depth_ + 1 = d + 1
        rw [hTe, hP]
        show (CountNode sampleEnvironment S.engine).current_depth_ + 1 = d + 1
        rw [c1, h.depth]
      · show (T1.engine.nodes : Int) = d + 1 - 1
        rw [hnodes]
        omega
      · rw [hdeep]
        simp only [decide_eq_false_iff_not]
        omega
      · show T1.engine.max_nodes_ = 0
        rw [hTe, hP]
        show (CountNode sampleEnvironment S.engine).max_nodes_ = 0
        rw [c4, h.max_nodes]
      · show T1.engine.search_depth_ = -1
        rw [hTe, hP]
        show (CountNode sampleEnvironment S.engine).search_depth_ = -1
        rw [c5, h.search_depth]
      · show T1.engine.end_time_ = 0
        rw [hTe, hP]
        show (CountNode sampleEnvironment S.engine).end_time_ = 0
        rw [c6, h.end_time]
    · rw [hq, hdeep, hline, if_neg (by simp only [decide_eq_true_eq]; omega)]
      rfl
  · intro he
    refine ⟨hpv, ?_⟩
    rw [hq, hdeep, hline, if_pos (by simp only [decide_eq_true_eq]; omega)]

/-- The unlimited search of the stalemate runs from the iteration at depth `d`
to the head of the iteration at depth 128. -/
theorem SearchLoop_stale_run (fuel : Nat) :
    ∀ (k : Nat) (d : Int) (n : Nat) (alpha beta : Int) (info : List InfoLine) (S : SearchState),
      d + k = 128 → 1 ≤ d → alpha < 0 → 0 < beta → StaleRun d S →
      ∃ S128 alpha' beta', StaleRun 128 S128 ∧ alpha' < 0 ∧ 0 < beta' ∧
        S128.engine.killer_moves_ = S.engine.killer_moves_ ∧
        S128.engine.history_moves_ = S.engine.history_moves_ ∧
        SearchLoop sampleEnvironment (Negamax sampleKeys sampleEnvironment (fuel + 1))
            (n + k + 1) alpha beta info S =
          SearchLoop sampleEnvironment (Negamax sampleKeys sampleEnvironment (fuel + 1))
            (n + 1) alpha' beta'
            (info ++ staleLines d k) S128 := by
  intro k
  induction k with
  | zero =>
    intro d n alpha beta info S hd _ ha hb h
    have : d = 128 := by omega
    subst this
    exact ⟨S, alpha, beta, h, ha, hb, rfl, rfl, by simp [staleLines]⟩
  | succ k ih =>
    intro d n alpha beta info S hd hd1 ha hb h
    obtain ⟨T, hk, hh, -, hlt, -⟩ := SearchLoop_stale_step fuel (n + k + 1) alpha beta d info S
      ha hb hd1 (by omega) h
    obtain ⟨hT, hstep⟩ := hlt (by omega)
    obtain ⟨S128, a', b', h128, ha', hb', hk', hh', hrun⟩ := ih (d + 1) n (-50) 50
      (info ++ [staleLine d]) T (by omega) (by omega) (by decide) (by decide) hT
    refine ⟨S128, a', b', h128, ha', hb', hk'.trans hk, hh'.trans hh, ?_⟩
    have e : n + (k + 1) + 1 = n + k + 1 + 1 := by omega
    rw [e, hstep, hrun, List.append_assoc]
    rfl

/-- At the head of an iteration of the unlimited search of the stalemate,
`ScoreMove` compares every generated move with the two cells of the row
`killer_moves_[current_depth_]`. -/
theorem StaleRun_ScoreMove (d : Int) (S : SearchState) (h : StaleRun d S) (hd : 1 ≤ d)
    (m : Nat) (hm : m ∈ GenerateMoves staleState) :
    (Probed sampleEnvironment S d).engine.current_depth_ = d ∧
    ScoreMove (Probed sampleEnvironment S d).engine staleState m =
      if m = (Probed sampleEnvironment S d).engine.killer_moves_ d 0 then 9000 - 0
      else if m = (Probed sampleEnvironment S d).engine.killer_moves_ d 1 then 9000 - 1
      else (Probed sampleEnvironment S d).engine.history_moves_ 11 (move.GetTargetSquare m) := by
  obtain ⟨c1, -, -, -, -, -, c7, -, -⟩ := CountNode_fields sampleEnvironment S.engine
  have hP : (Probed sampleEnvironment S d).engine =
      { CountNode sampleEnvironment S.engine with tt_move_ := 0 } := by
    unfold Probed
    have : ¬ ((S.transposition_table_.Get S.position.state_.key).key = S.position.state_.key ∧
        (S.transposition_table_.Get S.position.state_.key).depth ≥ d) := by
      intro hc
      have h2 := hc.2
      rw [h.table] at h2
      have : (-1 : Int) ≥ d := h2
      omega
    simp only [if_neg this]
  have hcd : (Probed sampleEnvironment S d).engine.current_depth_ = d := by
    rw [hP]
    show (CountNode sampleEnvironment S.engine).current_depth_ = d
    rw [c1, h.depth]
  have hply : (Probed sampleEnvironment S d).engine.ply = 0 := by
    rw [(Probed_fields sampleEnvironment S d).2.1, h.ply]
  have hpv : (Probed sampleEnvironment S d).engine.pv_line_.moves 0 = 0 := by
    rw [hP]
    show (CountNode sampleEnvironment S.engine).pv_line_.moves 0 = 0
    rw [c7, h.pv]
  have htt : (Probed sampleEnvironment S d).engine.tt_move_ = 0 := by
    rw [hP]
  obtain ⟨h0, hcap, hprom, hsrc⟩ := staleState_quiet.2.2.1 m hm
  refine ⟨hcd, ?_⟩
  unfold ScoreMove
  rw [hply, hpv, htt, hcd, if_neg h0, if_neg h0, hcap, hprom, hsrc]
  simp only [Bool.false_eq_true, if_false, ne_eq, not_true_eq_false]

theorem staleLines_snoc : ∀ (k : Nat) (d : Int),
    staleLines d (k + 1) = staleLines d k ++ [staleLine (d + k)] := by
  intro k
  induction k with
  | zero => intro d; simp [staleLines]
  | succ k ih =>
    intro d
    have e : d + 1 + (k : Int) = d + ((k + 1 : Nat) : Int) := by push_cast; ring
    rw [staleLines, ih (d + 1), e]
    rfl

theorem ToString_zero : move.ToString 0 = "a8a8p".toList := by decide

/-- C36 (the code departs from the claim): after `go infinite` on the
stalemate `7k/5K2/6P1/8/8/8/8/8 b - - 0 1`, with no stop from outside, the
loop of `Search` reaches the head of its 128th iteration, the stop flag clear
and `current_depth_` = 128 = `kMaxSearchDepth`; the `Negamax` call of that
iteration is the move loop over the moves sorted by `ScoreMove`, which compares
each of the generated moves with `killer_moves_[128][0]` and
`killer_moves_[128][1]`, cells of a row the array does not have; the search
ends after the report of depth 128. -/
theorem Search_killer_row (fuel : Nat) :
    ∃ (S128 T : SearchState) (alpha beta : Int),
      Search sampleKeys sampleEnvironment (fuel + 1) staleRoot =
        SearchFinish (SearchLoop sampleEnvironment
          (Negamax sampleKeys sampleEnvironment (fuel + 1)) 1 alpha beta (staleLines 1 127)
          S128) ∧
      S128.engine.stop_search_ = false ∧ S128.engine.current_depth_ = 128 ∧
      ¬ ((128 : Int) < kMaxSearchDepth) ∧
      Negamax sampleKeys sampleEnvironment (fuel + 1) alpha beta S128.engine.current_depth_
          PvLine.empty false S128 =
        NegamaxLoop sampleKeys (Negamax sampleKeys sampleEnvironment fuel) beta 128 false
          (SortMoves sampleEnvironment (Probed sampleEnvironment S128 128).engine staleState
            (GenerateMoves staleState))
          alpha PvLine.empty PvLine.empty kAlphaHashFlag 0 0 (Probed sampleEnvironment S128 128) ∧
      (Probed sampleEnvironment S128 128).engine.current_depth_ = 128 ∧
      GenerateMoves staleState ≠ [] ∧
      (∀ m, m ∈ GenerateMoves staleState →
        ScoreMove (Probed sampleEnvironment S128 128).engine staleState m =
          if m = (Probed sampleEnvironment S128 128).engine.killer_moves_ 128 0 then 9000 - 0
          else if m = (Probed sampleEnvironment S128 128).engine.killer_moves_ 128 1
            then 9000 - 1
          else (Probed sampleEnvironment S128 128).engine.history_moves_ 11
            (move.GetTargetSquare m)) ∧
      Search sampleKeys sampleEnvironment (fuel + 1) staleRoot =
        some (⟨staleLines 1 128, "bestmove a8a8p".toList⟩, T) := by
  have h1 : StaleRun 1 (SearchSetup sampleEnvironment staleRoot) :=
    ⟨rfl, rfl, rfl, by decide, by decide, rfl, rfl, rfl, rfl, rfl, rfl⟩
  obtain ⟨S128, a, b, h128, ha, hb, -, -, hrun⟩ := SearchLoop_stale_run fuel 127 1 0
    (-kInfinity) kInfinity [] (SearchSetup sampleEnvironment staleRoot) (by decide) (by decide)
    (by decide) (by decide) h1
  obtain ⟨T, -, -, hloop, -, hend⟩ := SearchLoop_stale_step fuel 0 a b 128 (staleLines 1 127)
    S128 ha hb (by decide) (by decide) h128
  obtain ⟨hpv, hfin⟩ := hend rfl
  have hS : Search sampleKeys sampleEnvironment (fuel + 1) staleRoot =
      SearchFinish (SearchLoop sampleEnvironment
        (Negamax sampleKeys sampleEnvironment (fuel + 1)) 1 a b (staleLines 1 127) S128) := by
    unfold Search
    have e : (128 : Nat) = 0 + 127 + 1 := rfl
    rw [e, hrun]
    rfl
  refine ⟨S128, T, a, b, hS, h128.running, h128.depth, by decide, ?_,
    (StaleRun_ScoreMove 128 S128 h128 (by decide) _ (List.mem_cons_self _ _)).1, by decide,
    fun m hm => (StaleRun_ScoreMove 128 S128 h128 (by decide) m hm).2, ?_⟩
  · rw [h128.depth]; exact hloop
  · rw [hS, hfin]
    unfold SearchFinish
    simp only [if_true]
    rw [hpv, ToString_zero]
    have e : staleLines 1 128 = staleLines 1 127 ++ [staleLine 128] := staleLines_snoc 127 1
    rw [e]
    rfl

end chess
